import Mathlib

/-!
# os_prototype: process management kernel

A shallow embedding of the scheduler core of the kernel (data_struct.c, proc_mgmt.c,
storage_mgmt.c, base.c) together with theorems about it.

Conventions of the embedding.

* The C heap of process descriptors is the list `Kernel.heap`; a `PCB *` is an index into that
  list (`malloc` succeeds and appends a block, `free` leaves the block where it is), a nullable
  pointer is an `Option Nat`.
* A linked `List` / `Queue` of the C code is a Lean list of the `data` pointers of its elements,
  head first; a `ListElement *` is the position of the element in that list.
* A kernel function is a function from the kernel state (and the values the hardware hands to
  it: clock readings, device status, the context made) to `Except Stop` of the new state and
  the function's results; `Stop` tells how a run that does not return ended. Assertions are
  active.
* A kernel function runs as one step; the only place where interrupts come in between is the
  wait for a non-empty Ready Queue (in the dispatcher and before the current process is
  terminated).
* Interlocks and the scheduler printer do not touch the kernel data and are left out.
* The page fault handling works on the data of storage_mgmt.c and the page tables, the state
  `Storage`. A fault is handled as one step; the calls of `os_disk_write` and `os_disk_read`
  that it makes are recorded in the state, what they do to the kernel data is described by
  `disk_request`.
-/

namespace OsPrototype

/-! ## Constants (common.h) -/

def MAX_NUMBER_OF_USER_PROCESSES : Nat := 15
def MAX_NUMBER_OF_PROCESSE_NAME : Nat := 32
def DEFAULT_PRIORITY : Int := 8

def ERR_DUPLICATE_PROCESS_NAME : Int := 8
def ERR_ILLEGAL_PRIORITY : Int := 9
def ERR_EXCEED_MAX_PROCESS_NUMBER : Int := 10
def ERR_EXCEED_MAX_PROCESS_NAME_NUMBER : Int := 11
def ERR_QUEUE_MANIPULATION : Int := 12
def ERR_PROCESS_DOESNT_EXIST : Int := 13
def ERR_SUSPEND_SELF : Int := 14
def ERR_ALREADY_SUSPENDED : Int := 15
def ERR_RESUME_SELF : Int := 16
def ERR_RESUME_UNSUSPENDED_PROCESS : Int := 17

def WRITE_ONE : Int := 0
def WRITE_TWO : Int := 1
def READ_ONE : Int := 2
def READ_TWO : Int := 3

/-- Modelled from the spec: the simulator header global.h is not part of the sources; the
error-code table of the external interfaces gives Success = 0. -/
def ERR_SUCCESS : Int := 0

/-- Modelled from the spec: the simulator header global.h is not part of the sources; the
error-code table of the external interfaces gives BadParam = 1. -/
def ERR_BAD_PARAM : Int := 1

/-- Modelled from the spec: the status a device register reads (global.h is not part of the
sources); the hardware abstraction layer names the two states Free and InUse, any other
value is `Other`. -/
inductive DeviceStatus where
  | DEVICE_FREE
  | DEVICE_IN_USE
  | Other
  deriving DecidableEq, Repr

/-- How a run of a kernel function that does not return ended. -/
inductive Stop where
  /-- `shut_down()`: the simulation was halted. -/
  | halted
  /-- An `assert` failed. -/
  | assert_failed
  /-- A NULL or uninitialised pointer was used. -/
  | undefined
  /-- The run is in the loop that waits for a non-empty Ready Queue; it goes on once an
  interrupt has filled the queue. -/
  | idle
  /-- The run is in a loop that has not ended after the number of rounds the embedding gives
  it. -/
  | endless
  deriving DecidableEq, Repr

/-! ## Linked lists and queues (data_struct.c) -/

section Lists

variable {α β : Type}

/-- The `order` argument of the list functions; the C code asserts `order == 1 || order == 0`. -/
inductive Order where
  | ASCENDING
  | DESCENDING
  deriving DecidableEq, Repr

/-- Insert `data` after the element at position `element` (`none`: at the head). -/
def list_insert_next (list : List α) (element : Option Nat) (data : α) : List α :=
  match element with
  | none => data :: list
  | some i => list.take (i + 1) ++ data :: list.drop (i + 1)

/-- The scan of `list_insert_orderly`, started at `cur_element`: the argument is the part of
the list from `cur_element` on, `prev_element` is the element before it. Reaching the end of
the list (`list_next(cur_element) == NULL`) inserts after the last element. -/
def list_insert_orderly_scan (compare : α → α → Int) (order : Order) (data : α) :
    List α → List α
  | [] => [data]
  | cur_data :: rest =>
    let result := compare data cur_data
    match order with
    | Order.ASCENDING =>
      if result < 0 then data :: cur_data :: rest
      else cur_data :: list_insert_orderly_scan compare order data rest
    | Order.DESCENDING =>
      if result ≥ 0 then data :: cur_data :: rest
      else cur_data :: list_insert_orderly_scan compare order data rest

/-- Insert `data` in order; the C function returns 1 on every path. -/
def list_insert_orderly (list : List α) (compare : α → α → Int) (order : Order) (data : α) :
    List α :=
  if list.isEmpty then list_insert_next list none data
  else list_insert_orderly_scan compare order data list

/-- Remove the element after position `element` (`none`: the head); `none` is the result 0. -/
def list_remove_next (list : List α) (element : Option Nat) : Option (List α × α) :=
  match element with
  | none =>
    match list with
    | [] => none
    | data :: rest => some (rest, data)
  | some i =>
    match list.get? (i + 1) with
    | none => none
    | some data => some (list.eraseIdx (i + 1), data)

/-- Position of the first element whose data matches; `none` is NULL. The `data` handed to
the callback is a non-NULL pointer here (see `find_from_queue_by_condition` for integers cast
to pointers). -/
def list_find_element (list : List α) (equal : α → β → Bool) (data : β) : Option Nat :=
  match list with
  | [] => none
  | x :: rest =>
    if equal x data then some 0
    else (list_find_element rest equal data).map (· + 1)

/-- Remove the element at position `element`; `none` is the result 0. -/
def list_remove_element (list : List α) (element : Option Nat) : Option (List α × α) :=
  match element with
  | none => none
  | some i =>
    match list.get? i with
    | none => none
    | some data => some (list.eraseIdx i, data)

/-- The inner loop of `list_sort` for one `outer` element: `outer_data` is compared with every
later element in turn and swapped with it when out of order; the result is the final data of
the outer element followed by the final data of the later elements. -/
def list_sort_inner (compare : α → α → Int) (order : Order) (outer_data : α) :
    List α → α × List α
  | [] => (outer_data, [])
  | inner_data :: rest =>
    let swap :=
      match order with
      | Order.ASCENDING => decide (compare outer_data inner_data > 0)
      | Order.DESCENDING => decide (compare outer_data inner_data < 0)
    if swap then
      let r := list_sort_inner compare order inner_data rest
      (r.1, outer_data :: r.2)
    else
      let r := list_sort_inner compare order outer_data rest
      (r.1, inner_data :: r.2)

/-- The outer loop of `list_sort`, `n` elements from `outer` to the end of the list; it stops
at the tail element. -/
def list_sort_outer (compare : α → α → Int) (order : Order) : Nat → List α → List α
  | 0, l => l
  | _ + 1, [] => []
  | _ + 1, [x] => [x]
  | n + 1, x :: y :: rest =>
    let r := list_sort_inner compare order x (y :: rest)
    r.1 :: list_sort_outer compare order n r.2

/-- Sort the data of a list in place. -/
def list_sort (list : List α) (compare : α → α → Int) (order : Order) : List α :=
  if list.length < 2 then list
  else list_sort_outer compare order list.length list

def list_contains (list : List α) (equal : α → β → Bool) (data : β) : Bool :=
  (list_find_element list equal data).isSome

def list_size (list : List α) : Nat := list.length

def list_is_empty (list : List α) : Bool := list.length == 0

/-- Append at the tail: `list_insert_next(queue, list_tail(queue), data)`. -/
def queue_enqueue (queue : List α) (data : α) : List α :=
  match queue with
  | [] => list_insert_next queue none data
  | _ :: _ => list_insert_next queue (some (queue.length - 1)) data

def queue_dequeue (queue : List α) : Option (List α × α) :=
  list_remove_next queue none

end Lists

/-! ## Process descriptors and the kernel state (proc_mgmt.h, proc_mgmt.c) -/

/-- The process descriptor `struct process`. Pointers that the kernel only passes on
(`context`, `entry_point`, `disk_data`) are addresses, 0 being NULL. -/
structure PCB where
  pid : Int
  priority : Int
  delay_time : Int
  context : Nat
  entry_point : Nat
  suspend : Bool
  need_message : Bool
  disk_id : Int
  operation : Int
  disk : Int
  sector : Int
  disk_data : Nat
  process_name : String
  deriving DecidableEq, Repr, Inhabited

/-- A call of the hardware that the kernel made. -/
inductive HwCall where
  /-- `start_timer` with the written value. -/
  | start_timer (time : Int)
  /-- A disk transfer was started: disk, sector, buffer, action (1 write, 0 read). -/
  | disk_start (disk_id : Int) (sector : Int) (buffer : Nat) (action : Int)
  /-- `switch_context` to the context of the descriptor. -/
  | switch_context (pcb : Nat)
  deriving DecidableEq, Repr

/-- The global data of proc_mgmt.c. `ProcessTable i` is the slot `i` of the array for
`i < MAX_NUMBER_OF_USER_PROCESSES`; `hw` lists the hardware calls made so far, latest first. -/
structure Kernel where
  heap : List PCB
  ProcessTable : Nat → Option Nat
  TimerQueue : List Nat
  ReadyQueue : List Nat
  SuspendQueue : List Nat
  CurrentPCB : Option Nat
  RootPCB : Option Nat
  hw : List HwCall

/-- Read the descriptor a pointer refers to. -/
def deref (heap : List PCB) (p : Nat) : PCB := heap.getD p default

/-- Write through a pointer: the descriptor at `p` becomes `f` of what it was. -/
def store (heap : List PCB) (p : Nat) (f : PCB → PCB) : List PCB :=
  heap.set p (f (deref heap p))

def match_pcb (data1 data2 : Nat) : Bool := data1 == data2

def match_pid (heap : List PCB) (data1 : Nat) (pid : Int) : Bool :=
  (deref heap data1).pid == pid

def match_disk_id (heap : List PCB) (data1 : Nat) (disk_id : Int) : Bool :=
  (deref heap data1).disk_id == disk_id

def compare_time (heap : List PCB) (data1 data2 : Nat) : Int :=
  if (deref heap data1).delay_time > (deref heap data2).delay_time then 1
  else if (deref heap data1).delay_time = (deref heap data2).delay_time then 0
  else -1

def compare_priority (heap : List PCB) (data1 data2 : Nat) : Int :=
  if (deref heap data1).priority > (deref heap data2).priority then 1
  else if (deref heap data1).priority = (deref heap data2).priority then 0
  else -1

/-- The state after `init_queues` and `init_process_table`. -/
def init_kernel : Kernel :=
  { heap := [], ProcessTable := fun _ => none, TimerQueue := [], ReadyQueue := [],
    SuspendQueue := [], CurrentPCB := none, RootPCB := none, hw := [] }

/-- Index of a process-table slot for a pid, when the pid is inside the array. -/
def slot_of (pid : Int) : Option Nat :=
  if 0 ≤ pid ∧ pid < MAX_NUMBER_OF_USER_PROCESSES then some pid.toNat else none

def add_to_process_table (k : Kernel) (pcb_to_add : Option Nat) : Except Stop (Kernel × Int) :=
  match pcb_to_add with
  | some p =>
    match slot_of (deref k.heap p).pid with
    | some i => .ok ({ k with ProcessTable := Function.update k.ProcessTable i (some p) }, 1)
    | none => .error Stop.undefined
  | none => .ok (k, 0)

def remove_from_process_table (k : Kernel) (pcb_to_remove : Option Nat) :
    Except Stop (Kernel × Int) :=
  match pcb_to_remove with
  | some p =>
    match slot_of (deref k.heap p).pid with
    | some i =>
      if k.ProcessTable i ≠ none then
        .ok ({ k with ProcessTable := Function.update k.ProcessTable i none }, 1)
      else .ok (k, 0)
    | none => .error Stop.undefined
  | none => .ok (k, 0)

def add_to_ready_queue (k : Kernel) (pcb : Option Nat) : Kernel × Int :=
  match pcb with
  | some p =>
    if !list_contains k.ReadyQueue match_pcb p then
      ({ k with ReadyQueue :=
          list_insert_orderly k.ReadyQueue (compare_priority k.heap) Order.ASCENDING p }, 1)
    else (k, 1)
  | none => (k, 0)

/-- The pointer `*pcb` is overwritten with the data of the removed element, which is the
same pointer. -/
def remove_from_ready_queue (k : Kernel) (pcb : Option Nat) : Kernel × Int :=
  match pcb with
  | some p =>
    match list_find_element k.ReadyQueue match_pcb p with
    | some element =>
      match list_remove_element k.ReadyQueue (some element) with
      | some (q, _) => ({ k with ReadyQueue := q }, 1)
      | none => (k, 0)
    | none => (k, 0)
  | none => (k, 0)

def dequeue_from_ready_queue (k : Kernel) : Kernel × Option Nat × Int :=
  match queue_dequeue k.ReadyQueue with
  | some (q, pcb) => ({ k with ReadyQueue := q }, some pcb, 1)
  | none => (k, none, 0)

def add_to_timer_queue (k : Kernel) (pcb : Option Nat) : Kernel × Int :=
  match pcb with
  | some p =>
    if !list_contains k.TimerQueue match_pcb p then
      ({ k with TimerQueue :=
          list_insert_orderly k.TimerQueue (compare_time k.heap) Order.ASCENDING p }, 1)
    else (k, 1)
  | none => (k, 0)

def dequeue_from_timer_queue (k : Kernel) : Kernel × Option Nat × Int :=
  match queue_dequeue k.TimerQueue with
  | some (q, pcb) => ({ k with TimerQueue := q }, some pcb, 1)
  | none => (k, none, 0)

/-- Find by an integer cast to `void *`: `list_find_element` and the callback assert that the
pointer is not NULL, which fails exactly for the integer 0. -/
def find_from_queue_by_condition (queue : List Nat) (fp_match : Nat → Int → Bool)
    (data : Int) : Except Stop (Option Nat) :=
  if data = 0 then .error Stop.assert_failed
  else .ok (list_find_element queue fp_match data)

def add_to_suspend_queue (k : Kernel) (pcb : Option Nat) : Kernel × Int :=
  match pcb with
  | some p =>
    if !list_contains k.SuspendQueue match_pcb p then
      ({ k with SuspendQueue := queue_enqueue k.SuspendQueue p }, 1)
    else (k, 1)
  | none => (k, 0)

/-- The loop over the process table: 0 when a live descriptor carries the name. -/
def validate_duplicate_process_name (k : Kernel) (name : String) : Int :=
  if (List.range MAX_NUMBER_OF_USER_PROCESSES).any (fun i =>
      match k.ProcessTable i with
      | some p => (deref k.heap p).process_name == name
      | none => false) then 0
  else 1

def check_length_of_process_name (name : String) : Bool :=
  name.length ≤ MAX_NUMBER_OF_PROCESSE_NAME

def validate_priority_range (priority : Int) : Int :=
  if priority < 0 ∨ priority > 100 then 0 else 1

/-- The first free slot of the process table, -1 when there is none. -/
def pid_generator (k : Kernel) : Int :=
  match (List.range MAX_NUMBER_OF_USER_PROCESSES).find? (fun i => (k.ProcessTable i).isNone) with
  | some i => (i : Int)
  | none => -1

/-- Create a descriptor. `raw` is the content of the block `malloc` returns, of which the
fields the function does not assign keep their value. Results: the descriptor (NULL on
failure) and `*error`. -/
def create_pcb (k : Kernel) (name : String) (start_point : Nat) (priority : Int)
    (context : Nat) (raw : PCB) : Except Stop (Kernel × Option Nat × Int) :=
  if start_point = 0 ∨ context = 0 then .error Stop.assert_failed
  else if !check_length_of_process_name name then
    .ok (k, none, ERR_EXCEED_MAX_PROCESS_NAME_NUMBER)
  else if validate_duplicate_process_name k name = 0 then
    .ok (k, none, ERR_DUPLICATE_PROCESS_NAME)
  else if validate_priority_range priority = 0 then
    .ok (k, none, ERR_ILLEGAL_PRIORITY)
  else
    let pid := pid_generator k
    if pid < 0 then .ok (k, none, ERR_EXCEED_MAX_PROCESS_NUMBER)
    else
      let pcb := k.heap.length
      let k1 := { k with heap := k.heap ++ [{ raw with
        pid := pid, context := context, priority := priority, suspend := false,
        need_message := false, entry_point := start_point, disk_id := pid / 2 + 1,
        operation := -1, process_name := name }] }
      match add_to_process_table k1 (some pcb) with
      | .error e => .error e
      | .ok (k2, result) =>
        if result = 0 then .error Stop.halted
        else .ok (k2, some pcb, ERR_SUCCESS)

/-- Create a process. `next_context` is the context the hardware made for `start_point`
(0: none). Results: the descriptor (NULL on failure) and `*error`. -/
def os_create_process (k : Kernel) (name : String) (start_point : Nat) (priority : Int)
    (next_context : Nat) (raw : PCB) : Except Stop (Kernel × Option Nat × Int) :=
  if start_point = 0 then .ok (k, none, ERR_BAD_PARAM)
  else if next_context = 0 then .error Stop.halted
  else
    match create_pcb k name start_point priority next_context raw with
    | .error e => .error e
    | .ok (k1, none, error) => .ok (k1, none, error)
    | .ok (k1, some pcb, error) =>
      let r := add_to_ready_queue k1 (some pcb)
      if r.2 = 0 then .error Stop.halted
      else .ok (r.1, some pcb, error)

/-- Look a process up by name. Results: `*pid` and `*error`; the kernel data is only read,
the state is returned as the function leaves it. -/
def os_get_process_id (k : Kernel) (name : String) : Except Stop (Kernel × Int × Int) :=
  if !check_length_of_process_name name then
    .ok (k, -1, ERR_EXCEED_MAX_PROCESS_NAME_NUMBER)
  else
    match k.CurrentPCB with
    | none => .error Stop.undefined
    | some cur =>
      if name = "" ∨ (deref k.heap cur).process_name = name then
        .ok (k, (deref k.heap cur).pid, ERR_SUCCESS)
      else
        match (List.range MAX_NUMBER_OF_USER_PROCESSES).find? (fun i =>
            match k.ProcessTable i with
            | some p => (deref k.heap p).process_name == name
            | none => false) with
        | some i =>
          match k.ProcessTable i with
          | some p => .ok (k, (deref k.heap p).pid, ERR_SUCCESS)
          | none => .ok (k, -1, ERR_PROCESS_DOESNT_EXIST)
        | none => .ok (k, -1, ERR_PROCESS_DOESNT_EXIST)

/-- Conversion of an integer to `INT32`. -/
def to_int32 (x : Int) : Int := (x + 2147483648) % 4294967296 - 2147483648

/-- Conversion of an integer to `INT16`. -/
def to_int16 (x : Int) : Int := (x + 32768) % 65536 - 32768

/-- `start_timer`: the value is written to the timer register as an `INT32`. -/
def start_timer (k : Kernel) (time : Int) : Kernel :=
  { k with hw := HwCall.start_timer (to_int32 time) :: k.hw }

/-- `switch_context` to the context of the current descriptor. -/
def switch_context (k : Kernel) : Kernel :=
  match k.CurrentPCB with
  | some pcb => { k with hw := HwCall.switch_context pcb :: k.hw }
  | none => k

/-- The body of `os_process_sleep`. `time_now` is the clock reading, `status` the timer
status read, and `result0` the value the uninitialised local `result` holds when the current
descriptor is not in the Ready Queue. -/
def os_process_sleep (k : Kernel) (sleep_time : Int) (time_now : Int)
    (status : DeviceStatus) (result0 : Int) : Except Stop Kernel :=
  if sleep_time < 0 then .ok k
  else if sleep_time = 0 then
    let r := add_to_ready_queue k k.CurrentPCB
    if r.2 = 0 then .error Stop.halted else .ok r.1
  else
    match k.CurrentPCB with
    | none => .error Stop.undefined
    | some cur =>
      let k1 := { k with
        heap := store k.heap cur
          (fun pcb => { pcb with delay_time := to_int32 (time_now + sleep_time) }) }
      let r :=
        if list_contains k1.ReadyQueue match_pcb cur then remove_from_ready_queue k1 (some cur)
        else (k1, result0)
      if r.2 = 0 then .error Stop.halted
      else
        let r2 := add_to_timer_queue r.1 (some cur)
        if r2.2 = 0 then .error Stop.halted
        else
          let k2 := r2.1
          match k2.TimerQueue with
          | [] => .error Stop.undefined
          | head :: _ =>
            let time := (deref k2.heap head).delay_time
            if status = DeviceStatus.DEVICE_FREE ∨
                (status = DeviceStatus.DEVICE_IN_USE ∧ (deref k2.heap cur).delay_time < time) then
              .ok (start_timer k2 sleep_time)
            else .ok k2

/-- The block that `os_make_ready_to_run` runs for each timed-up descriptor: dequeue the head
of the Timer Queue, reset its delay time, and add it to the Ready Queue or, when it is flagged
suspended, to the Suspend Queue. -/
def wake_timer_head (k : Kernel) : Except Stop Kernel :=
  match dequeue_from_timer_queue k with
  | (_, none, _) => .error Stop.halted
  | (k1, some pcb, _) =>
    let k2 := { k1 with heap := store k1.heap pcb (fun d => { d with delay_time := 0 }) }
    if (deref k2.heap pcb).suspend = false then
      let r := add_to_ready_queue k2 (some pcb)
      if r.2 = 0 then .error Stop.halted else .ok r.1
    else
      let r := add_to_suspend_queue k2 (some pcb)
      if r.2 = 0 then .error Stop.halted else .ok r.1

/-- The while loop of `os_make_ready_to_run`; `fuel` bounds the number of iterations by the
length of the Timer Queue, `time_now` is the last clock reading and `reads` the number of
clock readings made so far (`clock n` is the value of reading number `n`). -/
def make_ready_loop (clock : Nat → Int) :
    Nat → Kernel → Int → Nat → Except Stop (Kernel × Nat)
  | 0, k, _, reads => .ok (k, reads)
  | fuel + 1, k, time_now, reads =>
    match k.TimerQueue with
    | [] => .ok (k, reads)
    | pcb :: _ =>
      if (deref k.heap pcb).delay_time ≤ time_now then
        match wake_timer_head k with
        | .error e => .error e
        | .ok k1 =>
          if list_is_empty k1.TimerQueue then .ok (k1, reads)
          else make_ready_loop clock fuel k1 (clock reads) (reads + 1)
      else .ok (k, reads)

/-- The timer interrupt: wake the head of the Timer Queue, then every further head whose
delay time is not after the clock, and start the timer for the next head. -/
def os_make_ready_to_run (k : Kernel) (clock : Nat → Int) : Except Stop Kernel :=
  if list_is_empty k.TimerQueue then .ok k
  else
    match wake_timer_head k with
    | .error e => .error e
    | .ok k1 =>
      match make_ready_loop clock k1.TimerQueue.length k1 (clock 0) 1 with
      | .error e => .error e
      | .ok (k2, reads) =>
        match k2.TimerQueue with
        | [] => .ok k2
        | pcb :: _ => .ok (start_timer k2 ((deref k2.heap pcb).delay_time - clock reads))

/-- The dispatcher: once the Ready Queue is not empty its head becomes the current process. -/
def os_dispatcher (k : Kernel) : Except Stop Kernel :=
  if list_is_empty k.ReadyQueue then .error Stop.idle
  else
    match dequeue_from_ready_queue k with
    | (_, none, _) => .error Stop.halted
    | (k1, some pcb, _) => .ok (switch_context { k1 with CurrentPCB := some pcb })

/-- Remove the first element of a queue that matches the pid, when there is one; the result
holds the queue and the data of the removed element (otherwise the old `pcb`). -/
def remove_by_pid (heap : List PCB) (queue : List Nat) (pid : Int) (pcb : Option Nat) :
    Except Stop (List Nat × Option Nat) :=
  match find_from_queue_by_condition queue (match_pid heap) pid with
  | .error e => .error e
  | .ok none => .ok (queue, pcb)
  | .ok (some element) =>
    match list_remove_element queue (some element) with
    | none => .error Stop.halted
    | some (q, data) => .ok (q, some data)

/-- Terminate a process. `time_now` is the clock reading. Result: `*error`. -/
def os_terminate_process (k : Kernel) (pid : Int) (time_now : Int) :
    Except Stop (Kernel × Int) :=
  if pid < -2 ∨ pid ≥ MAX_NUMBER_OF_USER_PROCESSES then .ok (k, ERR_BAD_PARAM)
  else
    match k.CurrentPCB with
    | none => .error Stop.undefined
    | some cur =>
      if pid = -1 ∨ (deref k.heap cur).pid = pid then
        match k.RootPCB with
        | none => .error Stop.undefined
        | some root =>
          if (deref k.heap cur).pid = (deref k.heap root).pid then .error Stop.halted
          else if list_is_empty k.ReadyQueue then .error Stop.idle
          else
            match remove_from_process_table k (some cur) with
            | .error e => .error e
            | .ok (k1, result) =>
              if result = 0 then .error Stop.halted
              else
                match dequeue_from_ready_queue k1 with
                | (_, none, _) => .error Stop.halted
                | (k2, some pcb, _) =>
                  .ok (switch_context { k2 with CurrentPCB := some pcb }, ERR_SUCCESS)
      else if pid = -2 then .error Stop.halted
      else
        match find_from_queue_by_condition k.TimerQueue (match_pid k.heap) pid with
        | .error e => .error e
        | .ok found =>
          let r1 : Except Stop (Kernel × Option Nat) :=
            match found with
            | none => .ok (k, none)
            | some element =>
              let size := list_size k.TimerQueue
              let k0 :=
                if size = 1 then start_timer k 0
                else if size > 1 ∧ element = 0 then
                  match k.TimerQueue.get? (element + 1) with
                  | some next => start_timer k ((deref k.heap next).delay_time - time_now)
                  | none => k
                else k
              match list_remove_element k0.TimerQueue (some element) with
              | none => .error Stop.halted
              | some (q, data) => .ok ({ k0 with TimerQueue := q }, some data)
          match r1 with
          | .error e => .error e
          | .ok (k1, pcb1) =>
            match remove_by_pid k1.heap k1.ReadyQueue pid pcb1 with
            | .error e => .error e
            | .ok (rq, pcb2) =>
              match remove_by_pid k1.heap k1.SuspendQueue pid pcb2 with
              | .error e => .error e
              | .ok (sq, pcb3) =>
                match pcb3 with
                | none => .error Stop.undefined
                | some pcb =>
                  match remove_from_process_table
                      { k1 with ReadyQueue := rq, SuspendQueue := sq } (some pcb) with
                  | .error e => .error e
                  | .ok (k2, result) =>
                    if result = 0 then .error Stop.halted else .ok (k2, ERR_SUCCESS)

/-- Suspend a process. Result: `*error`. -/
def os_suspend_process (k : Kernel) (pid : Int) : Except Stop (Kernel × Int) :=
  if pid < -1 ∨ pid ≥ MAX_NUMBER_OF_USER_PROCESSES then .ok (k, ERR_PROCESS_DOESNT_EXIST)
  else if pid = -1 then .ok (k, ERR_SUSPEND_SELF)
  else
    match k.CurrentPCB with
    | none => .error Stop.undefined
    | some cur =>
      if pid = (deref k.heap cur).pid then .ok (k, ERR_SUSPEND_SELF)
      else
        match k.ProcessTable pid.toNat with
        | none => .ok (k, ERR_PROCESS_DOESNT_EXIST)
        | some target =>
          if (deref k.heap target).suspend = true then .ok (k, ERR_ALREADY_SUSPENDED)
          else
            match find_from_queue_by_condition k.TimerQueue (match_pid k.heap) pid with
            | .error e => .error e
            | .ok (some _) =>
              .ok ({ k with
                      heap := store k.heap target (fun d => { d with suspend := true }) },
                   ERR_SUCCESS)
            | .ok none =>
              match find_from_queue_by_condition k.ReadyQueue (match_pid k.heap) pid with
              | .error e => .error e
              | .ok (some element) =>
                match list_remove_element k.ReadyQueue (some element) with
                | none => .error Stop.halted
                | some (q, pcb) =>
                  let r := add_to_suspend_queue { k with ReadyQueue := q } (some pcb)
                  if r.2 = 0 then .error Stop.halted
                  else
                    .ok ({ r.1 with
                            heap := store r.1.heap target (fun d => { d with suspend := true }) },
                         ERR_SUCCESS)
              | .ok none =>
                let r := add_to_suspend_queue k (some target)
                if r.2 = 0 then .error Stop.halted
                else
                  .ok ({ r.1 with
                          heap := store r.1.heap target (fun d => { d with suspend := true }) },
                       ERR_SUCCESS)

/-- Resume a process. Result: `*error`. -/
def os_resume_process (k : Kernel) (pid : Int) : Except Stop (Kernel × Int) :=
  if pid < -1 ∨ pid ≥ MAX_NUMBER_OF_USER_PROCESSES then .ok (k, ERR_PROCESS_DOESNT_EXIST)
  else if pid = -1 then .ok (k, ERR_RESUME_SELF)
  else
    match k.CurrentPCB with
    | none => .error Stop.undefined
    | some cur =>
      if pid = (deref k.heap cur).pid then .ok (k, ERR_RESUME_SELF)
      else
        match k.ProcessTable pid.toNat with
        | none => .ok (k, ERR_PROCESS_DOESNT_EXIST)
        | some target =>
          if (deref k.heap target).suspend = true then
            match find_from_queue_by_condition k.TimerQueue (match_pid k.heap) pid with
            | .error e => .error e
            | .ok (some _) =>
              .ok ({ k with
                      heap := store k.heap target (fun d => { d with suspend := false }) },
                   ERR_SUCCESS)
            | .ok none =>
              match find_from_queue_by_condition k.SuspendQueue (match_pid k.heap) pid with
              | .error e => .error e
              | .ok (some element) =>
                match list_remove_element k.SuspendQueue (some element) with
                | none => .error Stop.halted
                | some (q, pcb) =>
                  let r := add_to_ready_queue { k with SuspendQueue := q } (some pcb)
                  if r.2 = 0 then .error Stop.halted
                  else
                    .ok ({ r.1 with
                            heap := store r.1.heap target (fun d => { d with suspend := false }) },
                         ERR_SUCCESS)
              | .ok none =>
                let r := add_to_ready_queue k (some target)
                if r.2 = 0 then .error Stop.halted
                else
                  .ok ({ r.1 with
                          heap := store r.1.heap target (fun d => { d with suspend := false }) },
                       ERR_SUCCESS)
          else .ok (k, ERR_RESUME_UNSUSPENDED_PROCESS)

/-- Change the priority of a process and sort the Ready Queue. Result: `*error`. -/
def os_change_priority (k : Kernel) (pid : Int) (priority : Int) : Except Stop (Kernel × Int) :=
  if validate_priority_range priority = 0 then .ok (k, ERR_ILLEGAL_PRIORITY)
  else if pid < -1 ∨ pid ≥ MAX_NUMBER_OF_USER_PROCESSES then .ok (k, ERR_PROCESS_DOESNT_EXIST)
  else
    match k.CurrentPCB with
    | none => .error Stop.undefined
    | some cur =>
      if pid = -1 ∨ pid = (deref k.heap cur).pid then
        let heap1 := store k.heap cur (fun d => { d with priority := priority })
        .ok ({ k with heap := heap1,
                      ReadyQueue := list_sort k.ReadyQueue (compare_priority heap1)
                        Order.ASCENDING },
             ERR_SUCCESS)
      else
        match k.ProcessTable pid.toNat with
        | none => .ok (k, ERR_PROCESS_DOESNT_EXIST)
        | some target =>
          let heap1 := store k.heap target (fun d => { d with priority := priority })
          .ok ({ k with heap := heap1,
                        ReadyQueue := list_sort k.ReadyQueue (compare_priority heap1)
                          Order.ASCENDING },
               ERR_SUCCESS)

/-- Make a descriptor the first element of the Suspend Queue. -/
def enqueue_suspend_queue_reversly (k : Kernel) (pcb : Option Nat) : Kernel × Int :=
  match pcb with
  | some p => ({ k with SuspendQueue := list_insert_next k.SuspendQueue none p }, 1)
  | none => (k, 0)

/-- Remove the first descriptor with the disk id from the Suspend Queue. -/
def remove_from_suspend_queue_by_disk_id (k : Kernel) (disk_id : Int) :
    Except Stop (Kernel × Option Nat) :=
  match find_from_queue_by_condition k.SuspendQueue (match_disk_id k.heap) disk_id with
  | .error e => .error e
  | .ok none => .ok (k, none)
  | .ok (some element) =>
    match list_remove_element k.SuspendQueue (some element) with
    | none => .error Stop.halted
    | some (q, pcb) => .ok ({ k with SuspendQueue := q }, some pcb)

/-- The part of `os_disk_write` and `os_disk_read` before the call of the dispatcher.
`action` is 1 for a write and 0 for a read, `pending` is the operation recorded for a busy
disk (WRITE_ONE or READ_ONE), `status` the disk status read and `disk_data` the buffer the
descriptor keeps for a deferred request. The boolean of the result tells whether the
dispatcher is called next. -/
def disk_request (k : Kernel) (action : Int) (pending : Int) (disk_id : Int) (sector : Int)
    (buffer : Nat) (disk_data : Nat) (status : DeviceStatus) : Except Stop (Kernel × Bool) :=
  match k.CurrentPCB with
  | none => .error Stop.undefined
  | some cur =>
    match status with
    | DeviceStatus.DEVICE_FREE =>
      let k1 := { k with
        hw := HwCall.disk_start disk_id sector buffer action :: k.hw,
        heap := store k.heap cur (fun d =>
          { d with disk_id := to_int16 disk_id, operation := -1 }) }
      let r := add_to_suspend_queue k1 (some cur)
      if r.2 = 0 then .error Stop.halted
      else .ok ({ r.1 with heap := store r.1.heap cur (fun d => { d with suspend := true }) },
                true)
    | DeviceStatus.DEVICE_IN_USE =>
      let k1 := { k with
        heap := store k.heap cur (fun d =>
          { d with disk_id := to_int16 disk_id, operation := pending,
                   disk := disk_id, sector := sector, disk_data := disk_data }) }
      let r := add_to_suspend_queue k1 (some cur)
      if r.2 = 0 then .error Stop.halted
      else .ok ({ r.1 with heap := store r.1.heap cur (fun d => { d with suspend := true }) },
                true)
    | DeviceStatus.Other => .ok (k, false)

/-- Disk write up to the dispatcher call; `copy` is the block the buffer is copied to. -/
def os_disk_write_request (k : Kernel) (disk_id : Int) (sector : Int) (buffer : Nat)
    (copy : Nat) (status : DeviceStatus) : Except Stop (Kernel × Bool) :=
  disk_request k 1 WRITE_ONE disk_id sector buffer copy status

/-- Disk read up to the dispatcher call. -/
def os_disk_read_request (k : Kernel) (disk_id : Int) (sector : Int) (buffer : Nat)
    (status : DeviceStatus) : Except Stop (Kernel × Bool) :=
  disk_request k 0 READ_ONE disk_id sector buffer buffer status

/-- Disk write: the request, then the dispatcher. -/
def os_disk_write (k : Kernel) (disk_id : Int) (sector : Int) (buffer : Nat)
    (copy : Nat) (status : DeviceStatus) : Except Stop Kernel :=
  match os_disk_write_request k disk_id sector buffer copy status with
  | .error e => .error e
  | .ok (k1, dispatch) => if dispatch then os_dispatcher k1 else .ok k1

/-- Disk read: the request, then the dispatcher. -/
def os_disk_read (k : Kernel) (disk_id : Int) (sector : Int) (buffer : Nat)
    (status : DeviceStatus) : Except Stop Kernel :=
  match os_disk_read_request k disk_id sector buffer status with
  | .error e => .error e
  | .ok (k1, dispatch) => if dispatch then os_dispatcher k1 else .ok k1

/-- The deferred request of a descriptor removed from the Suspend Queue: when its disk is
free the transfer is started and the operation becomes `issued`; in both cases the descriptor
goes back to the head of the Suspend Queue, flagged suspended. -/
def reissue (k : Kernel) (pcb : Nat) (action : Int) (issued : Int) (status : DeviceStatus) :
    Kernel :=
  let k1 :=
    if status = DeviceStatus.DEVICE_FREE then
      { k with
        hw := HwCall.disk_start (deref k.heap pcb).disk (deref k.heap pcb).sector
          (deref k.heap pcb).disk_data action :: k.hw,
        heap := store k.heap pcb (fun d => { d with operation := issued }) }
    else k
  let k2 := (enqueue_suspend_queue_reversly k1 (some pcb)).1
  { k2 with heap := store k2.heap pcb (fun d => { d with suspend := true }) }

/-- The disk interrupt. `status` is the status read of the disk of a deferred request. -/
def read_write_scheduler (k : Kernel) (device_id : Int) (status : DeviceStatus) :
    Except Stop Kernel :=
  let disk_id : Option Int :=
    if device_id = 5 then some 1
    else if device_id = 6 then some 2
    else if device_id = 7 then some 3
    else none
  match disk_id with
  | none => .error Stop.undefined
  | some disk_id =>
    match remove_from_suspend_queue_by_disk_id k disk_id with
    | .error e => .error e
    | .ok (k1, none) => .ok k1
    | .ok (k1, some pcb) =>
      if (deref k1.heap pcb).operation = WRITE_ONE then .ok (reissue k1 pcb 1 WRITE_TWO status)
      else if (deref k1.heap pcb).operation = READ_ONE then
        .ok (reissue k1 pcb 0 READ_TWO status)
      else
        let k2 := (add_to_ready_queue k1 (some pcb)).1
        .ok { k2 with heap := store k2.heap pcb (fun d => { d with suspend := false }) }

/-- The interrupt handler: device 4 is the timer, every other device goes to the disk
scheduler. -/
def interrupt_handler (k : Kernel) (device_id : Int) (clock : Nat → Int)
    (status : DeviceStatus) : Except Stop Kernel :=
  if device_id = 4 then os_make_ready_to_run k clock
  else read_write_scheduler k device_id status

/-- Boot for a configured test other than sample and test0: the queues and the process table
are initialised, the initial process is created and made the current and the root process, and
its context is switched to. When the creation fails nothing is started. -/
def osInit (entry_point : Nat) (next_context : Nat) (raw : PCB) : Except Stop Kernel :=
  match os_create_process init_kernel "initial_process" entry_point DEFAULT_PRIORITY
      next_context raw with
  | .error e => .error e
  | .ok (k, some pcb, _) =>
    .ok { k with CurrentPCB := some pcb, RootPCB := some pcb,
                 hw := HwCall.switch_context pcb :: k.hw }
  | .ok (k, none, _) => .ok k

/-- The create loop of test1b: create a process with the next name until a create returns an
error. Results: the state, the number of processes created and the last error. -/
def create_until_failure (start_point : Nat) (priority : Int) (next_context : Nat) (raw : PCB) :
    List String → Kernel → Except Stop (Kernel × Nat × Int)
  | [], k => .ok (k, 0, ERR_SUCCESS)
  | name :: names, k =>
    match os_create_process k name start_point priority next_context raw with
    | .error e => .error e
    | .ok (k1, _, error) =>
      if error = ERR_SUCCESS then
        match create_until_failure start_point priority next_context raw names k1 with
        | .error e => .error e
        | .ok (k2, n, e) => .ok (k2, n + 1, e)
      else .ok (k1, 0, error)

/-! ## Predicates on kernel states -/

/-- The names of the live descriptors, in slot order. -/
def live_names (k : Kernel) : List String :=
  (List.range MAX_NUMBER_OF_USER_PROCESSES).filterMap (fun i =>
    (k.ProcessTable i).map (fun p => (deref k.heap p).process_name))

/-- Every slot of the process table is occupied. -/
def table_full (k : Kernel) : Prop :=
  ∀ i, i < MAX_NUMBER_OF_USER_PROCESSES → (k.ProcessTable i).isSome = true

instance (k : Kernel) : Decidable (table_full k) := by
  unfold table_full; infer_instance

/-- The free slots of the process table. -/
def free_slots (k : Kernel) : List Nat :=
  (List.range MAX_NUMBER_OF_USER_PROCESSES).filter (fun i => (k.ProcessTable i).isNone)

/-- Every descriptor of the process table is an allocated block that carries the index of its
slot as pid. -/
def table_wf (k : Kernel) : Prop :=
  ∀ i, i < MAX_NUMBER_OF_USER_PROCESSES → ∀ p ∈ k.ProcessTable i,
    p < k.heap.length ∧ (deref k.heap p).pid = (i : Int)

/-- Priority of the descriptor a pointer refers to. -/
def priority_of (k : Kernel) (p : Nat) : Int := (deref k.heap p).priority

/-- Wake time of the descriptor a pointer refers to. -/
def delay_time_of (k : Kernel) (p : Nat) : Int := (deref k.heap p).delay_time

/-- The state after boot with entry point 1, context 1 and a zeroed descriptor block: the
initial process (pid 0, priority 8) is current, root and the only entry of the Ready Queue. -/
def boot_kernel : Kernel :=
  match osInit 1 1 default with
  | .ok k => k
  | .error _ => init_kernel

/-- Insert the descriptors of a list into the Ready Queue one at a time, first to last. -/
def insert_all_ready (k : Kernel) (pcbs : List Nat) : Kernel :=
  pcbs.foldl (fun k p => (add_to_ready_queue k (some p)).1) k

/-- The descriptors that `n` successive head dequeues of the Ready Queue return. -/
def dispatch_order : Nat → Kernel → List Nat
  | 0, _ => []
  | n + 1, k =>
    match dequeue_from_ready_queue k with
    | (k1, some pcb, _) => pcb :: dispatch_order n k1
    | (_, none, _) => []

/-- Five descriptors with the priorities 10, 11, 11, 90, 40 of the example (pids 1 to 5, heap
addresses 0 to 4) and empty queues. -/
def five_children_kernel : Kernel :=
  { init_kernel with
    heap := [(1, 10), (2, 11), (3, 11), (4, 90), (5, 40)].map
      (fun x : Int × Int => { (default : PCB) with pid := x.1, priority := x.2 }) }

/-- The Ready Queue is ordered by priority: the priorities do not decrease from the head. -/
def ready_sorted (k : Kernel) : Prop :=
  k.ReadyQueue.Pairwise (fun a b => priority_of k a ≤ priority_of k b)

/-- The Timer Queue is ordered by wake time: the delay times do not decrease from the head. -/
def timer_sorted (k : Kernel) : Prop :=
  k.TimerQueue.Pairwise (fun a b => delay_time_of k a ≤ delay_time_of k b)

/-- The names of the live descriptors of the process table are pairwise distinct. -/
def names_distinct (k : Kernel) : Prop :=
  ∀ i j a b, i < MAX_NUMBER_OF_USER_PROCESSES → j < MAX_NUMBER_OF_USER_PROCESSES → i ≠ j →
    k.ProcessTable i = some a → k.ProcessTable j = some b →
    (deref k.heap a).process_name ≠ (deref k.heap b).process_name

/-- Every live descriptor is a member of at most one of the Ready, Timer and Suspend
queues. -/
def at_most_one_queue (k : Kernel) : Prop :=
  ∀ i, i < MAX_NUMBER_OF_USER_PROCESSES → ∀ p, k.ProcessTable i = some p →
    ¬ (p ∈ k.ReadyQueue ∧ p ∈ k.TimerQueue) ∧ ¬ (p ∈ k.ReadyQueue ∧ p ∈ k.SuspendQueue) ∧
    ¬ (p ∈ k.TimerQueue ∧ p ∈ k.SuspendQueue)

/-- The states the kernel reaches, one kernel function at a time. The boolean index tells
whether the running process is between the body of a SLEEP or disk system call and the
dispatcher call that ends it (the dispatcher waits there for a non-empty Ready Queue while
interrupts are served); `disk` tells whether disk requests and disk interrupts are among the
steps. Every step takes the values the hardware hands to the function as arbitrary. -/
inductive Reachable (disk : Bool) : Bool → Kernel → Prop where
  | init : Reachable disk false init_kernel
  | boot (entry_point next_context : Nat) (raw : PCB) (k : Kernel) :
      osInit entry_point next_context raw = .ok k → Reachable disk false k
  | create (k k' : Kernel) (name : String) (start_point : Nat) (priority : Int)
      (next_context : Nat) (raw : PCB) (pcb : Option Nat) (error : Int) :
      Reachable disk false k →
      os_create_process k name start_point priority next_context raw = .ok (k', pcb, error) →
      Reachable disk false k'
  | get_pid (k k' : Kernel) (name : String) (pid error : Int) :
      Reachable disk false k → os_get_process_id k name = .ok (k', pid, error) →
      Reachable disk false k'
  | sleep (k k' : Kernel) (sleep_time time_now : Int) (status : DeviceStatus) (result0 : Int) :
      Reachable disk false k →
      os_process_sleep k sleep_time time_now status result0 = .ok k' →
      Reachable disk true k'
  | dispatch (k k' : Kernel) :
      Reachable disk true k → os_dispatcher k = .ok k' → Reachable disk false k'
  | terminate (k k' : Kernel) (pid time_now error : Int) :
      Reachable disk false k → os_terminate_process k pid time_now = .ok (k', error) →
      Reachable disk false k'
  | suspend (k k' : Kernel) (pid error : Int) :
      Reachable disk false k → os_suspend_process k pid = .ok (k', error) →
      Reachable disk false k'
  | resume (k k' : Kernel) (pid error : Int) :
      Reachable disk false k → os_resume_process k pid = .ok (k', error) →
      Reachable disk false k'
  | change_priority (k k' : Kernel) (pid priority error : Int) :
      Reachable disk false k → os_change_priority k pid priority = .ok (k', error) →
      Reachable disk false k'
  | timer_interrupt (waiting : Bool) (k k' : Kernel) (clock : Nat → Int) :
      Reachable disk waiting k → os_make_ready_to_run k clock = .ok k' →
      Reachable disk waiting k'
  | disk_write (k k' : Kernel) (disk_id sector : Int) (buffer copy : Nat)
      (status : DeviceStatus) (dispatch : Bool) :
      disk = true → Reachable disk false k →
      os_disk_write_request k disk_id sector buffer copy status = .ok (k', dispatch) →
      Reachable disk dispatch k'
  | disk_read (k k' : Kernel) (disk_id sector : Int) (buffer : Nat)
      (status : DeviceStatus) (dispatch : Bool) :
      disk = true → Reachable disk false k →
      os_disk_read_request k disk_id sector buffer status = .ok (k', dispatch) →
      Reachable disk dispatch k'
  | disk_interrupt (waiting : Bool) (k k' : Kernel) (device_id : Int) (status : DeviceStatus) :
      disk = true → Reachable disk waiting k →
      read_write_scheduler k device_id status = .ok k' →
      Reachable disk waiting k'

/-- The pointers of the kernel refer to allocated descriptors, the Ready Queue is ordered by
priority and the names of the live descriptors are distinct. -/
structure InvA (k : Kernel) : Prop where
  ready_alloc : ∀ p ∈ k.ReadyQueue, p < k.heap.length
  timer_alloc : ∀ p ∈ k.TimerQueue, p < k.heap.length
  suspend_alloc : ∀ p ∈ k.SuspendQueue, p < k.heap.length
  table_alloc : ∀ i p, k.ProcessTable i = some p → p < k.heap.length
  current_alloc : ∀ c, k.CurrentPCB = some c → c < k.heap.length
  sorted : ready_sorted k
  names : names_distinct k

/-- The invariant of the steps without disk requests: the descriptor of slot `i` carries
pid `i`, the Ready and the Timer Queue have no descriptor twice and none in common, a process
that runs user code is not in the Timer Queue, and the Timer Queue is ordered by wake time. -/
structure InvB (waiting : Bool) (k : Kernel) : Prop where
  table_pid : ∀ i p, i < MAX_NUMBER_OF_USER_PROCESSES → k.ProcessTable i = some p →
    (deref k.heap p).pid = (i : Int)
  ready_nodup : k.ReadyQueue.Nodup
  timer_nodup : k.TimerQueue.Nodup
  disjoint : ∀ p ∈ k.ReadyQueue, p ∉ k.TimerQueue
  current_not_timer : waiting = false → ∀ c, k.CurrentPCB = some c → c ∉ k.TimerQueue
  sorted : timer_sorted k

/-- After boot the initial process has created the process "child" with priority 5: the
Ready Queue holds the child (address 1) before the initial process (address 0). -/
def child_created_kernel : Kernel :=
  match os_create_process boot_kernel "child" 1 5 1 default with
  | .ok (k, _, _) => k
  | .error _ => boot_kernel

/-- Then the initial process has asked for a write to the free disk 1, before the dispatcher
call of the request. -/
def root_disk_wait_kernel : Kernel :=
  match os_disk_write_request child_created_kernel 1 0 7 9 DeviceStatus.DEVICE_FREE with
  | .ok (k, _) => k
  | .error _ => child_created_kernel

/-- Then the dispatcher call of the write request has made the child the current process. -/
def child_dispatched_kernel : Kernel :=
  match os_dispatcher root_disk_wait_kernel with
  | .ok k => k
  | .error _ => root_disk_wait_kernel

/-- After `child_created_kernel` the initial process sleeps 10 at time 5, the child is
dispatched and sleeps 3 at time 6: both are in the Timer Queue. -/
def two_sleepers_kernel : Kernel :=
  match os_process_sleep child_created_kernel 10 5 DeviceStatus.DEVICE_FREE 1 with
  | .error _ => child_created_kernel
  | .ok k1 =>
    match os_dispatcher k1 with
    | .error _ => k1
    | .ok k2 =>
      match os_process_sleep k2 3 6 DeviceStatus.DEVICE_IN_USE 1 with
      | .error _ => k2
      | .ok k3 => k3

/-- The SLEEP system call of `svc`: `os_process_sleep`, then `os_dispatcher`. -/
def svc_sleep (k : Kernel) (sleep_time : Int) (time_now : Int) (status : DeviceStatus)
    (result0 : Int) : Except Stop Kernel :=
  match os_process_sleep k sleep_time time_now status result0 with
  | .error e => .error e
  | .ok k1 => os_dispatcher k1

/-- After `child_created_kernel` the initial process sleeps 10 at time 5 and the child is
dispatched: the child (pid 1) runs, the initial process (pid 0) is in the Timer Queue. -/
def child_running_kernel : Kernel :=
  match svc_sleep child_created_kernel 10 5 DeviceStatus.DEVICE_FREE 1 with
  | .ok k => k
  | .error _ => child_created_kernel

/-- After boot the initial process has created "a" and "b", both with priority 5: the Ready
Queue holds "a" (pid 1), "b" (pid 2) and the initial process (pid 0, priority 8). -/
def two_children_kernel : Kernel :=
  match os_create_process boot_kernel "a" 1 5 1 default with
  | .error _ => boot_kernel
  | .ok (k1, _, _) =>
    match os_create_process k1 "b" 1 5 1 default with
    | .error _ => k1
    | .ok (k2, _, _) => k2

/-- Then the initial process has created "c" with priority 7 (pid 3): the Ready Queue holds
"a", "b", "c" and the initial process. -/
def three_children_kernel : Kernel :=
  match os_create_process two_children_kernel "c" 1 7 1 default with
  | .ok (k, _, _) => k
  | .error _ => two_children_kernel

/-- The effect of waking the descriptors `woken`, in this order, from the head of the Timer
Queue of `k`, with the state `k'` as result: they are gone from the Timer Queue, their delay
time is 0 and nothing else of a descriptor changed, each of them is in the Suspend Queue when
its suspended flag is set and in the Ready Queue otherwise, the queues gained no other
entries and kept the order of the entries they had, the Ready Queue stays ordered by priority
and the Suspend Queue without repetition. -/
structure WokenBy (k : Kernel) (woken : List Nat) (k' : Kernel) : Prop where
  timer : k.TimerQueue = woken ++ k'.TimerQueue
  table : k'.ProcessTable = k.ProcessTable
  current : k'.CurrentPCB = k.CurrentPCB
  root : k'.RootPCB = k.RootPCB
  heap : ∀ q, deref k'.heap q =
    if q ∈ woken then { deref k.heap q with delay_time := 0 } else deref k.heap q
  routed : ∀ p ∈ woken,
    if (deref k.heap p).suspend = true then p ∈ k'.SuspendQueue else p ∈ k'.ReadyQueue
  ready_from : ∀ q ∈ k'.ReadyQueue,
    q ∈ k.ReadyQueue ∨ (q ∈ woken ∧ (deref k.heap q).suspend = false)
  suspend_from : ∀ q ∈ k'.SuspendQueue,
    q ∈ k.SuspendQueue ∨ (q ∈ woken ∧ (deref k.heap q).suspend = true)
  ready_kept : k.ReadyQueue.Sublist k'.ReadyQueue
  suspend_kept : k.SuspendQueue <+: k'.SuspendQueue
  sorted : ready_sorted k → ready_sorted k'
  suspend_nodup : k.SuspendQueue.Nodup → k'.SuspendQueue.Nodup

/-- After `child_running_kernel` the child sleeps 30 at time 6, the timer interrupt at time
15 wakes the initial process and the dispatcher runs it: the initial process (pid 0) is
current, the child (pid 1, wake time 36) is in the Timer Queue. -/
def child_sleeping_kernel : Kernel :=
  match os_process_sleep child_running_kernel 30 6 DeviceStatus.DEVICE_IN_USE 1 with
  | .error _ => child_running_kernel
  | .ok k1 =>
    match os_make_ready_to_run k1 (fun _ => 15) with
    | .error _ => k1
    | .ok k2 =>
      match os_dispatcher k2 with
      | .error _ => k2
      | .ok k3 => k3

/-- After `three_children_kernel` the initial process has changed the priority of "c" (pid
3) from 7 to 3. -/
def priority_changed_kernel : Kernel :=
  match os_change_priority three_children_kernel 3 3 with
  | .ok (k, _) => k
  | .error _ => three_children_kernel

/-- Every descriptor in the Ready, Timer or Suspend Queue is the descriptor of a slot of the
process table. -/
def queues_live (k : Kernel) : Prop :=
  ∀ q, q ∈ k.ReadyQueue ∨ q ∈ k.TimerQueue ∨ q ∈ k.SuspendQueue →
    ∃ i, i < MAX_NUMBER_OF_USER_PROCESSES ∧ k.ProcessTable i = some q

/-- The invariant of the steps without disk requests, second part: the queues hold live
descriptors, the Suspend Queue has no descriptor twice and none in common with the Ready and
the Timer Queue, the current process is live, a process that runs user code is not in the
Suspend Queue and is in the Ready Queue only when it is the root process (which stays there
from boot until it first sleeps), the root process holds slot 0, and slot 0 is occupied
whenever a slot is. -/
structure InvC (waiting : Bool) (k : Kernel) : Prop where
  live : queues_live k
  suspend_nodup : k.SuspendQueue.Nodup
  suspend_ready : ∀ p ∈ k.SuspendQueue, p ∉ k.ReadyQueue
  suspend_timer : ∀ p ∈ k.SuspendQueue, p ∉ k.TimerQueue
  current_live : ∀ c, k.CurrentPCB = some c →
    ∃ i, i < MAX_NUMBER_OF_USER_PROCESSES ∧ k.ProcessTable i = some c
  current_not_suspend : waiting = false → ∀ c, k.CurrentPCB = some c → c ∉ k.SuspendQueue
  current_ready_root : waiting = false → ∀ c, k.CurrentPCB = some c → c ∈ k.ReadyQueue →
    k.RootPCB = some c
  root_slot : ∀ r, k.RootPCB = some r → k.ProcessTable 0 = some r
  slot0 : ∀ i p, i < MAX_NUMBER_OF_USER_PROCESSES → k.ProcessTable i = some p →
    k.ProcessTable 0 ≠ none

/-- A comparison callback follows a total preorder: it returns an integer greater than zero
for a pair exactly when it returns an integer less than zero for the swapped pair, and the
relation "not greater than zero" is transitive. -/
structure total_preorder {α : Type} (compare : α → α → Int) : Prop where
  flip : ∀ a b, compare a b > 0 ↔ compare b a < 0
  trans : ∀ a b c, compare a b ≤ 0 → compare b c ≤ 0 → compare a c ≤ 0

/-- Two neighbours are in the order asked for: not decreasing under the callback for
ASCENDING, not increasing for DESCENDING. -/
def in_order {α : Type} (compare : α → α → Int) (order : Order) (a b : α) : Prop :=
  match order with
  | Order.ASCENDING => compare a b ≤ 0
  | Order.DESCENDING => compare a b ≥ 0

instance {α : Type} (compare : α → α → Int) (order : Order) (a b : α) :
    Decidable (in_order compare order a b) := by
  unfold in_order; cases order <;> infer_instance

/-! ## The configuration table (os_utils.h, os_utils.c) and boot from the command line -/

inductive OutputState where
  | Full
  | Limited
  | None
  deriving DecidableEq, Repr

/-- The test routines of test.c that an entry of the configuration table points to. -/
inductive EntryPoint where
  | test0 | test1a | test1b | test1c | test1d | test1e | test1f | test1g | test1h
  | test2a | test2b | test2c | test2d | test2e | test2f
  deriving DecidableEq, Repr

structure ConfigArgEntry where
  argument_name : String
  entry_point : EntryPoint
  show_other_output : OutputState
  show_scheduler_output : OutputState
  show_memory_output : OutputState
  deriving DecidableEq, Repr

def config_arg_table : List ConfigArgEntry :=
  [ ⟨"test0", EntryPoint.test0, OutputState.Full, OutputState.None, OutputState.None⟩,
    ⟨"test1a", EntryPoint.test1a, OutputState.Full, OutputState.None, OutputState.None⟩,
    ⟨"test1b", EntryPoint.test1b, OutputState.Full, OutputState.None, OutputState.None⟩,
    ⟨"test1c", EntryPoint.test1c, OutputState.Limited, OutputState.Full, OutputState.None⟩,
    ⟨"test1d", EntryPoint.test1d, OutputState.Limited, OutputState.Full, OutputState.None⟩,
    ⟨"test1e", EntryPoint.test1e, OutputState.Full, OutputState.None, OutputState.None⟩,
    ⟨"test1f", EntryPoint.test1f, OutputState.Limited, OutputState.Full, OutputState.None⟩,
    ⟨"test1g", EntryPoint.test1g, OutputState.Full, OutputState.None, OutputState.None⟩,
    ⟨"test1h", EntryPoint.test1h, OutputState.Limited, OutputState.Full, OutputState.None⟩,
    ⟨"test2a", EntryPoint.test2a, OutputState.Full, OutputState.None, OutputState.Full⟩,
    ⟨"test2b", EntryPoint.test2b, OutputState.Full, OutputState.None, OutputState.Full⟩,
    ⟨"test2c", EntryPoint.test2c, OutputState.Limited, OutputState.Full, OutputState.None⟩,
    ⟨"test2d", EntryPoint.test2d, OutputState.Limited, OutputState.Limited, OutputState.None⟩,
    ⟨"test2e", EntryPoint.test2e, OutputState.Limited, OutputState.Limited, OutputState.Limited⟩,
    ⟨"test2f", EntryPoint.test2f, OutputState.Limited, OutputState.None, OutputState.Limited⟩ ]

/-- The loop of `get_config_arg` from entry `i` on: the first entry whose name compares equal
(`strcmp(...) == 0`) is returned, `none` is NULL. -/
def get_config_arg_loop (input_argument_name : String) : List ConfigArgEntry →
    Option ConfigArgEntry
  | [] => none
  | entry :: rest =>
    if entry.argument_name = input_argument_name then some entry
    else get_config_arg_loop input_argument_name rest

def get_config_arg (input_argument_name : String) : Option ConfigArgEntry :=
  get_config_arg_loop input_argument_name config_arg_table

/-- What `osInit(argc, argv)` has started when it returns or has switched to a context. -/
inductive Started where
  /-- Nothing: no descriptor was created and no context was switched to. -/
  | nothing
  /-- A kernel-mode context for the routine was made and switched to, without a descriptor
  (the branch for "sample" and "test0"). -/
  | routine (entry_point : EntryPoint)
  /-- The initial process was asked for; the state is the one `osInit` of the entry leaves. -/
  | initial_process (state : Except Stop Kernel)

/-- The routine `osInit(argc, argv)` of base.c with `argv` as a list (`argc` is its length):
the queues, the process table and the frame storage are initialised, then the entry for
`argv[1]` is looked up. `address` gives the address of a test routine. -/
def osInit_argv (argv : List String) (address : EntryPoint → Nat) (next_context : Nat)
    (raw : PCB) : Started :=
  match argv with
  | _ :: name :: _ =>
    match get_config_arg name with
    | some ConfigArgument =>
      if name = "sample" ∨ name = "test0" then Started.routine ConfigArgument.entry_point
      else Started.initial_process (osInit (address ConfigArgument.entry_point) next_context raw)
    | none => Started.nothing
  | _ => Started.nothing

/-- Modelled from the spec: the names the command line is said to accept, "an enumerated
table (test0..test2g)", in the order test0, test1a to test1h, test2a to test2g. -/
def enumerated_test_names : List String :=
  ["test0", "test1a", "test1b", "test1c", "test1d", "test1e", "test1f", "test1g", "test1h",
   "test2a", "test2b", "test2c", "test2d", "test2e", "test2f", "test2g"]

/-- After boot the initial process has asked for a write of sector 0 of the free disk 1 and
the dispatcher call of the request has returned: the dispatcher took the initial process
itself from the Ready Queue, so it runs on while it is in the Suspend Queue, flagged
suspended. -/
def root_disk_written_kernel : Kernel :=
  match os_disk_write boot_kernel 1 0 7 9 DeviceStatus.DEVICE_FREE with
  | .ok k => k
  | .error _ => boot_kernel

/-! ## The frame storage and the page tables (storage_mgmt.h, storage_mgmt.c) -/

def PTBL_RESERVED_BIT : Nat := 0x1000
def PTBL_FRAME_BITS : Nat := 0x0FFF
def NUM_OF_FRAMES : Nat := 64

/-- Modelled from the spec: the number of physical frames (the simulator header global.h is
not part of the sources): "PHYS_FRAMES = 64". -/
def PHYS_MEM_PGS : Nat := 64

/-- Modelled from the spec: the page size of the simulator, "page size 16 words". -/
def PGSIZE : Int := 16

/-- Modelled from the spec: bit 15 of a page table entry, "VALID — frame is currently
resident". -/
def PTBL_VALID_BIT : Nat := 0x8000

/-- Modelled from the spec: bit 14 of a page table entry, "MODIFIED — set by hardware on
write". -/
def PTBL_MODIFIED_BIT : Nat := 0x4000

/-- Modelled from the spec: bit 13 of a page table entry, "REFERENCED — set by hardware on
access; cleared by the replacement policy". -/
def PTBL_REFERENCED_BIT : Nat := 0x2000

/-- Conversion of an integer to `UINT16`. -/
def to_uint16 (x : Int) : Nat := (x % 65536).toNat

/-- A pointer to a page table entry (`UINT16 *`): the page table it points into, as an index
into the list of allocated page tables, and the index of the entry. -/
structure PtePtr where
  table : Nat
  index : Nat
  deriving DecidableEq, Repr

/-- A call of `os_disk_write` or `os_disk_read` made by the fault handling; the buffer is
given as its offset in `MEMORY`. -/
inductive DiskCall where
  | os_disk_write (disk_id : Int) (sector : Int) (buffer : Int)
  | os_disk_read (disk_id : Int) (sector : Int) (buffer : Int)
  deriving DecidableEq, Repr

/-- The global data of storage_mgmt.c and the page tables. `FrameQueue` holds the frame
numbers of its `Frame` blocks, head first. `page_tables` lists the page tables allocated so
far (arrays of 1024 `UINT16` entries). `shadow_pg_tbl i` and `process_holder i` are the
slots `i < PHYS_MEM_PGS` of the arrays, `address_holder i` the slot `i < 10`. `disk` lists
the calls of `os_disk_write` and `os_disk_read` made so far, latest first; these functions
work on the descriptor of the current process, the Suspend Queue and the disk hardware (see
`disk_request`) and leave the data of this structure alone. -/
structure Storage where
  FrameQueue : List Int
  page_tables : List (Nat → Nat)
  /-- Modelled from the spec: the page table register of the hardware, which belongs to the
  context of a process ("a paged virtual-memory unit with a per-process page table"); the
  value is the one the register has while the process with the given pid runs, `none` is
  NULL. -/
  Z502_PAGE_TBL_ADDR : Int → Option Nat
  shadow_pg_tbl : Nat → Option PtePtr
  process_holder : Nat → Nat
  address_holder : Nat → Option Nat
  shadow_pg_idx : Int
  ref_idx : Int
  disk : List DiskCall

/-- Read through a pointer to a page table entry; `none` when the pointer is not inside an
allocated page table. -/
def pte_read (s : Storage) (p : PtePtr) : Option Nat :=
  if p.index < 1024 then (s.page_tables.get? p.table).map (fun t => t p.index) else none

/-- Write through a pointer to a page table entry. -/
def pte_write (s : Storage) (p : PtePtr) (value : Nat) : Storage :=
  { s with
    page_tables := s.page_tables.set p.table
      (Function.update (s.page_tables.getD p.table (fun _ => 0)) p.index value) }

/-- The globals of storage_mgmt.c as the program starts, with the empty `FrameQueue` that
`init_queues` has created. -/
def zero_storage : Storage :=
  { FrameQueue := [], page_tables := [], Z502_PAGE_TBL_ADDR := fun _ => none,
    shadow_pg_tbl := fun _ => none, process_holder := fun _ => 0,
    address_holder := fun _ => none, shadow_pg_idx := -1, ref_idx := -1, disk := [] }

def add_to_frame_queue (s : Storage) (frame_number : Int) : Storage × Int :=
  ({ s with FrameQueue := queue_enqueue s.FrameQueue frame_number }, 1)

def init_storage (s : Storage) : Storage :=
  (List.range PHYS_MEM_PGS).foldl
    (fun s (i : Nat) =>
      let s1 := (add_to_frame_queue s (to_int16 (i : Int))).1
      { s1 with shadow_pg_tbl := Function.update s1.shadow_pg_tbl i none })
    s

def removed_from_frame_queue (s : Storage) : Storage × Option Int :=
  if list_size s.FrameQueue = 0 then (s, none)
  else
    match queue_dequeue s.FrameQueue with
    | some (q, frm) => ({ s with FrameQueue := q }, some frm)
    | none => (s, none)

def get_frame_number_of_removed_frame (s : Storage) : Storage × Int :=
  match removed_from_frame_queue s with
  | (s1, some frame_number) => (s1, frame_number)
  | (s1, none) => (s1, -1)

/-- The `for (;;)` loop of `frame_scheduler` up to the choice of the victim: `ref_idx` is
advanced, and the entry that the shadow slot points to either has its REFERENCED bit cleared
(next round) or is the victim. The result is the storage, the pointer of the victim's slot
and the entry it points to. `fuel` bounds the number of rounds. -/
def victim_scan : Nat → Storage → Except (Stop × Storage) (Storage × PtePtr × Nat)
  | 0, s => .error (Stop.endless, s)
  | fuel + 1, s =>
    let s1 := { s with ref_idx := Int.tmod (s.ref_idx + 1) (PHYS_MEM_PGS : Nat) + 1 }
    if s1.ref_idx < 0 ∨ s1.ref_idx ≥ ((PHYS_MEM_PGS : Nat) : Int) then .error (Stop.undefined, s1)
    else
      match s1.shadow_pg_tbl s1.ref_idx.toNat with
      | none => .error (Stop.undefined, s1)
      | some p =>
        match pte_read s1 p with
        | none => .error (Stop.undefined, s1)
        | some entry =>
          if entry &&& PTBL_REFERENCED_BIT ≠ 0 then
            victim_scan fuel (pte_write s1 p (entry &&& (65535 - PTBL_REFERENCED_BIT)))
          else .ok (s1, p, entry)

/-- One of the four blocks of `frame_scheduler` that map a page which is not valid: the page
`page` (`status` or `status + 1`) of the page table `table` of the process with the swap disk
`disk_id`. The blocks differ in the page and, by the RESERVED bit of its entry, in the call of
`os_disk_read`. A frame is taken from the frame queue; when there is none the victim is
looked for, written to the disk of its owner and its frame taken. -/
def map_page (s : Storage) (table : Nat) (disk_id : Int) (page : Int) :
    Except (Stop × Storage) Storage :=
  if page < 0 ∨ page ≥ 1024 then .error (Stop.undefined, s)
  else
    let target : PtePtr := ⟨table, page.toNat⟩
    match pte_read s target with
    | none => .error (Stop.undefined, s)
    | some entry =>
      let r := get_frame_number_of_removed_frame s
      let available_frame := r.2
      if available_frame ≥ 0 then
        let s1 :=
          if entry &&& PTBL_RESERVED_BIT ≠ 0 then
            { r.1 with
              disk := DiskCall.os_disk_read disk_id page (available_frame * PGSIZE) :: r.1.disk }
          else r.1
        let s2 := pte_write s1 target (to_uint16 (available_frame.toNat ||| PTBL_VALID_BIT : Nat))
        let s3 := { s2 with shadow_pg_idx := s2.shadow_pg_idx + 1 }
        if s3.shadow_pg_idx < 0 ∨ s3.shadow_pg_idx ≥ ((PHYS_MEM_PGS : Nat) : Int) then
          .error (Stop.undefined, s3)
        else
          .ok { s3 with
            shadow_pg_tbl :=
              Function.update s3.shadow_pg_tbl s3.shadow_pg_idx.toNat (some target),
            process_holder :=
              Function.update s3.process_holder s3.shadow_pg_idx.toNat
                (to_uint16 (disk_id - 1)) }
      else
        match victim_scan 33 r.1 with
        | .error e => .error e
        | .ok (s1, victim, victim_entry) =>
          let frame_number := victim_entry &&& PTBL_FRAME_BITS
          let pid := s1.process_holder s1.ref_idx.toNat
          if pid ≥ 10 then .error (Stop.undefined, s1)
          else
            match s1.address_holder pid with
            | none => .error (Stop.undefined, s1)
            | some base =>
              if base ≠ victim.table then .error (Stop.undefined, s1)
              else
                let s2 := { s1 with
                  disk := DiskCall.os_disk_write ((pid : Int) + 1) victim.index
                    ((frame_number : Int) * PGSIZE) :: s1.disk }
                let s3 := pte_write s2 victim
                  ((victim_entry ||| PTBL_RESERVED_BIT) &&& (65535 - PTBL_VALID_BIT))
                let s4 :=
                  if entry &&& PTBL_RESERVED_BIT ≠ 0 then
                    { s3 with
                      disk := DiskCall.os_disk_read disk_id page
                        ((frame_number : Int) * PGSIZE) :: s3.disk }
                  else s3
                let s5 := pte_write s4 target (frame_number ||| PTBL_VALID_BIT)
                .ok { s5 with
                  shadow_pg_tbl :=
                    Function.update s5.shadow_pg_tbl s5.ref_idx.toNat (some target),
                  process_holder :=
                    Function.update s5.process_holder s5.ref_idx.toNat
                      (to_uint16 (disk_id - 1)) }

/-- The block at the start of `frame_scheduler`: when the page table register is NULL a page
table of 1024 zeroed entries is allocated for the current process (pid `pid`, swap disk
`disk_id`) and noted in `address_holder`. The result is the storage and the page table of
the process. -/
def allocate_page_table (s : Storage) (pid : Int) (disk_id : Int) :
    Except (Stop × Storage) (Storage × Nat) :=
  match s.Z502_PAGE_TBL_ADDR pid with
  | some table => .ok (s, table)
  | none =>
    let table := s.page_tables.length
    let s1 := { s with
      page_tables := s.page_tables ++ [fun _ => 0],
      Z502_PAGE_TBL_ADDR := Function.update s.Z502_PAGE_TBL_ADDR pid (some table) }
    if disk_id - 1 < 0 ∨ disk_id - 1 ≥ 10 then .error (Stop.undefined, s1)
    else
      .ok ({ s1 with
        address_holder :=
          Function.update s1.address_holder (disk_id - 1).toNat (some table) }, table)

/-- The page fault handling. `status` is the faulting page, `reg3` the value of the register
`Z502_REG3`. The page table of the current process is allocated at its first fault; then
the page is mapped when its entry is not valid, and the next page when its entry is not
valid and the offset taken from `reg3` is in the last words of the page. The interrupt
clear that precedes some of the disk calls is a hardware call of its own and left out. -/
def frame_scheduler (k : Kernel) (s : Storage) (status : Int) (reg3 : Int) :
    Except (Stop × Storage) Storage :=
  match k.CurrentPCB with
  | none => .error (Stop.undefined, s)
  | some cur =>
    let offset := to_int16 (Int.tmod reg3 PGSIZE)
    let disk_id := (deref k.heap cur).pid + 1
    match allocate_page_table s (deref k.heap cur).pid disk_id with
    | .error e => .error e
    | .ok (s1, table) =>
      if status < 0 ∨ status ≥ 1024 then .error (Stop.undefined, s1)
      else
        match pte_read s1 ⟨table, status.toNat⟩ with
        | none => .error (Stop.undefined, s1)
        | some entry =>
          let first : Except (Stop × Storage) Storage :=
            if entry &&& PTBL_VALID_BIT = 0 then map_page s1 table disk_id status
            else .ok s1
          match first with
          | .error e => .error e
          | .ok s2 =>
            if status + 1 ≥ 1024 then .error (Stop.undefined, s2)
            else
              match pte_read s2 ⟨table, (status + 1).toNat⟩ with
              | none => .error (Stop.undefined, s2)
              | some next =>
                if next &&& PTBL_VALID_BIT = 0 ∧ offset > PGSIZE - 4 then
                  map_page s2 table disk_id (status + 1)
                else .ok s2

/-- The fault handler of base.c: a page number from 1024 on halts the simulation, every
other fault goes to `frame_scheduler`. The memory printer that follows reads the data
only. -/
def fault_handler (k : Kernel) (s : Storage) (status : Int) (reg3 : Int) :
    Except (Stop × Storage) Storage :=
  if status ≥ 1024 then .error (Stop.halted, s)
  else frame_scheduler k s status reg3

/-- The entry that a pointer refers to is valid and carries the frame number `f`. -/
def maps_frame (s : Storage) (p : PtePtr) (f : Nat) : Prop :=
  ∃ entry, pte_read s p = some entry ∧ entry &&& PTBL_VALID_BIT ≠ 0 ∧
    entry &&& PTBL_FRAME_BITS = f

/-- The states of the frame storage that are reached from `init_storage` by page faults that
`frame_scheduler` handles, for any page, any current process and any register value, and by
memory accesses of the running programs between the faults. -/
inductive FaultReachable : Storage → Prop where
  | init : FaultReachable (init_storage zero_storage)
  | fault (k : Kernel) (s s' : Storage) (status reg3 : Int) :
      FaultReachable s → frame_scheduler k s status reg3 = .ok s' → FaultReachable s'
  /-- Modelled from the spec: an access to a resident page makes the hardware set the
  REFERENCED bit of its entry and, for a write, the MODIFIED bit ("set by hardware on
  access", "set by hardware on write"). -/
  | access (s : Storage) (p : PtePtr) (entry : Nat) (modified : Bool) :
      FaultReachable s → pte_read s p = some entry → entry &&& PTBL_VALID_BIT ≠ 0 →
      FaultReachable (pte_write s p
        (entry ||| PTBL_REFERENCED_BIT ||| (if modified then PTBL_MODIFIED_BIT else 0)))

/-- The invariant of the frame storage, `n` being the number of frames taken from the frame
queue so far: the frame queue holds the frames from `n` on in ascending order, `shadow_pg_idx`
is `n - 1`, every shadow slot below `n` points to a valid entry with the number of the slot as
frame number, in the page table of the process that `process_holder` names, every valid
entry is the one its frame's shadow slot points to, and `address_holder` holds the page
table of every process that has one. -/
structure FrameInv (n : Nat) (s : Storage) : Prop where
  count : n ≤ PHYS_MEM_PGS
  idx : s.shadow_pg_idx = (n : Int) - 1
  pool : s.FrameQueue = (List.range' n (PHYS_MEM_PGS - n)).map (fun i : Nat => (i : Int))
  slot : ∀ f, f < n → ∃ p, s.shadow_pg_tbl f = some p ∧ maps_frame s p f ∧
    s.process_holder f < 10 ∧ s.address_holder (s.process_holder f) = some p.table ∧
    s.Z502_PAGE_TBL_ADDR ((s.process_holder f : Nat) : Int) = some p.table
  valid : ∀ p f, maps_frame s p f → f < n ∧ s.shadow_pg_tbl f = some p
  tables : ∀ pid t, s.Z502_PAGE_TBL_ADDR pid = some t →
    t < s.page_tables.length ∧ 0 ≤ pid ∧ pid < 10 ∧ s.address_holder pid.toNat = some t

/-- A sequence of page faults of the current process of `k`, each given by the faulting page
and the value of `Z502_REG3`, handled one after the other. -/
def run_faults (k : Kernel) : List (Int × Int) → Storage → Except (Stop × Storage) Storage
  | [], s => .ok s
  | (status, reg3) :: rest, s =>
    match frame_scheduler k s status reg3 with
    | .error e => .error e
    | .ok s1 => run_faults k rest s1

/-- The storage after the initial process has faulted on the pages 0 to 64 in turn, with
offset 0: the pages 0 to 63 got the frames 0 to 63 of the frame queue, and page 64 got the
frame 1 of page 1, the first victim. -/
def replaced_storage : Storage :=
  match run_faults boot_kernel ((List.range 65).map (fun i : Nat => ((i : Int), (0 : Int))))
      (init_storage zero_storage) with
  | .ok s => s
  | .error e => e.2

/-! ## Linked lists at the level of their elements (data_struct.c)

The list functions once more, on the element blocks and the `head`, `tail` and `size` fields
of the C structure. The lists of the kernel state above are the sequences of data that
these structures hold (`Linked.contents`). -/

namespace Linked

/-- An element block `ListElement`: the data pointer and the pointer to the next element. -/
structure ListElement (α : Type) where
  data : α
  next : Option Nat

/-- The structure `List` with the element blocks allocated so far: a `ListElement *` is an
index into `cells` (`malloc` appends a block, `free` leaves the block where it is). -/
structure LinkedList (α : Type) where
  cells : List (ListElement α)
  size : Nat
  head : Option Nat
  tail : Option Nat

variable {α : Type}

def list_create : LinkedList α :=
  { cells := [], size := 0, head := none, tail := none }

def list_size (list : LinkedList α) : Nat := list.size

def list_is_empty (list : LinkedList α) : Bool := list.size == 0

def list_head (list : LinkedList α) : Option Nat := list.head

def list_tail (list : LinkedList α) : Option Nat := list.tail

/-- Insert after `element` (`none`: at the head). `data` is the data pointer, `none` being
NULL. Results: the list and the return value. -/
def list_insert_next (list : LinkedList α) (element : Option Nat) (data : Option α) :
    Except Stop (LinkedList α × Int) :=
  match data with
  | none => .ok (list, 0)
  | some d =>
    let new_element := list.cells.length
    match element with
    | none =>
      .ok ({ cells := list.cells ++ [({ data := d, next := list.head } : ListElement α)],
             size := list.size + 1,
             head := some new_element,
             tail := if list_is_empty list then some new_element else list.tail }, 1)
    | some e =>
      match list.cells.get? e with
      | none => .error Stop.undefined
      | some cell =>
        .ok ({ cells :=
                 (list.cells ++ [({ data := d, next := cell.next } : ListElement α)]).set e
                   { cell with next := some new_element },
               size := list.size + 1,
               head := list.head,
               tail := if cell.next = none then some new_element else list.tail }, 1)

/-- Remove the element after `element` (`none`: the head). Results: the list, the data
stored through `data` (`none`: nothing was stored) and the return value. -/
def list_remove_next (list : LinkedList α) (element : Option Nat) :
    Except Stop (LinkedList α × Option α × Int) :=
  if list_is_empty list then .ok (list, none, 0)
  else
    match element with
    | none =>
      match list.head with
      | none => .error Stop.undefined
      | some h =>
        match list.cells.get? h with
        | none => .error Stop.undefined
        | some cell =>
          .ok ({ list with
                  head := cell.next,
                  tail := if list_size list = 1 then none else list.tail,
                  size := list.size - 1 }, some cell.data, 1)
    | some e =>
      match list.cells.get? e with
      | none => .error Stop.undefined
      | some cell =>
        match cell.next with
        | none => .ok (list, none, 0)
        | some old_element =>
          match list.cells.get? old_element with
          | none => .error Stop.undefined
          | some old =>
            .ok ({ cells := list.cells.set e { cell with next := old.next },
                   size := list.size - 1,
                   head := list.head,
                   tail := if old.next = none then some e else list.tail },
                 some old.data, 1)

def queue_enqueue (queue : LinkedList α) (data : Option α) : Except Stop (LinkedList α × Int) :=
  list_insert_next queue (list_tail queue) data

def queue_dequeue (queue : LinkedList α) : Except Stop (LinkedList α × Option α × Int) :=
  list_remove_next queue none

/-- The element blocks passed when the `next` pointers are followed from an element pointer
to NULL. -/
inductive chain (cells : List (ListElement α)) : Option Nat → List Nat → Prop where
  | nil : chain cells none []
  | cons (p : Nat) (cell : ListElement α) (rest : List Nat) :
      cells.get? p = some cell → chain cells cell.next rest → chain cells (some p) (p :: rest)

/-- The structure is a well-formed list that holds the data `xs`, head first: the elements
reached from `head` are distinct blocks that carry `xs`, `tail` points to the last of them
and `size` is their number. -/
def holds (list : LinkedList α) (xs : List α) : Prop :=
  ∃ path : List Nat, chain list.cells list.head path ∧ path.Nodup ∧
    list.tail = path.getLast? ∧ list.size = path.length ∧
    path.map (fun p => (list.cells.get? p).map (fun c => c.data)) = xs.map some

/-- Enqueue the data of a list one after the other. -/
def enqueue_all : LinkedList α → List α → Except Stop (LinkedList α)
  | queue, [] => .ok queue
  | queue, x :: rest =>
    match queue_enqueue queue (some x) with
    | .error e => .error e
    | .ok (q, _) => enqueue_all q rest

/-- Dequeue `n` times; the result holds the queue and the data returned, first to last. A
dequeue that returns 0 ends the run. -/
def dequeue_n : Nat → LinkedList α → Except Stop (LinkedList α × List α)
  | 0, queue => .ok (queue, [])
  | n + 1, queue =>
    match queue_dequeue queue with
    | .error e => .error e
    | .ok (q, some x, _) =>
      match dequeue_n n q with
      | .error e => .error e
      | .ok (q', xs) => .ok (q', x :: xs)
    | .ok (q, none, _) => .ok (q, [])

end Linked

/-- After `child_created_kernel` the initial process has asked for a write to the busy disk
2 (sector 3, buffer 7 copied to the block 9) and the dispatcher call of the request has made
the child the current process: the initial process (address 0) waits in the Suspend Queue
with the pending operation WRITE_ONE, and it is still in the Ready Queue. -/
def root_write_pending_kernel : Kernel :=
  match os_disk_write child_created_kernel 2 3 7 9 DeviceStatus.DEVICE_IN_USE with
  | .ok k => k
  | .error _ => child_created_kernel
/-- After `child_created_kernel` the initial process has suspended the child (pid 1), which
was in the Ready Queue and has made no disk request: the child (address 1) is the one entry
of the Suspend Queue. -/
def child_suspended_kernel : Kernel :=
  match os_suspend_process child_created_kernel 1 with
  | .ok (k, _) => k
  | .error _ => child_created_kernel

/-! ## The interlocks taken by the system calls (common.h, proc_mgmt.c) -/

/-- The interlocks of the kernel data that the system calls take. -/
inductive DataLock where
  | COMMON_DATA_LOCK
  | TIMER_QUEUE_LOCK
  | READY_QUEUE_LOCK
  | SUSPEND_QUEUE_LOCK
  deriving DecidableEq, Repr

/-- The number of an interlock above `MEMORY_INTERLOCK_BASE`. -/
def DataLock.number : DataLock → Nat
  | DataLock.COMMON_DATA_LOCK => 1
  | DataLock.TIMER_QUEUE_LOCK => 2
  | DataLock.READY_QUEUE_LOCK => 3
  | DataLock.SUSPEND_QUEUE_LOCK => 4

/-- A call of `get_data_lock` or of `release_data_lock`. -/
inductive LockCall where
  | get_data_lock (lock_name : DataLock)
  | release_data_lock (lock_name : DataLock)
  deriving DecidableEq, Repr

/-- COMMON_DATA_LOCK taken and released: the paths that reject their arguments. -/
def common_lock_calls : List LockCall :=
  [LockCall.get_data_lock DataLock.COMMON_DATA_LOCK,
   LockCall.release_data_lock DataLock.COMMON_DATA_LOCK]

/-- The three locks COMMON, TIMER, READY taken, then released READY, TIMER, COMMON. -/
def queue_lock_calls : List LockCall :=
  [LockCall.get_data_lock DataLock.COMMON_DATA_LOCK,
   LockCall.get_data_lock DataLock.TIMER_QUEUE_LOCK,
   LockCall.get_data_lock DataLock.READY_QUEUE_LOCK,
   LockCall.release_data_lock DataLock.READY_QUEUE_LOCK,
   LockCall.release_data_lock DataLock.TIMER_QUEUE_LOCK,
   LockCall.release_data_lock DataLock.COMMON_DATA_LOCK]

/-- The lock calls of `os_create_process`, in their order, on a path that returns: without a
start point the `do` block is left before the locks are taken, and the three releases that
follow the block are made all the same. -/
def os_create_process_locks (k : Kernel) (name : String) (start_point : Nat) (priority : Int)
    (next_context : Nat) (raw : PCB) : Option (List LockCall) :=
  match os_create_process k name start_point priority next_context raw with
  | .error _ => none
  | .ok _ =>
    if start_point = 0 then
      some [LockCall.release_data_lock DataLock.READY_QUEUE_LOCK,
            LockCall.release_data_lock DataLock.TIMER_QUEUE_LOCK,
            LockCall.release_data_lock DataLock.COMMON_DATA_LOCK]
    else some queue_lock_calls

/-- The lock calls of `os_process_sleep` on a path that returns. -/
def os_process_sleep_locks (k : Kernel) (sleep_time : Int) (time_now : Int)
    (status : DeviceStatus) (result0 : Int) : Option (List LockCall) :=
  match os_process_sleep k sleep_time time_now status result0 with
  | .error _ => none
  | .ok _ =>
    if sleep_time < 0 then some common_lock_calls
    else some queue_lock_calls

/-- The lock calls of `os_get_process_id` on a path that returns. -/
def os_get_process_id_locks (k : Kernel) (name : String) : Option (List LockCall) :=
  match os_get_process_id k name with
  | .error _ => none
  | .ok _ => some common_lock_calls

/-- The lock calls of `os_terminate_process` on a path that returns: a pid out of range
returns right after COMMON_DATA_LOCK was taken; the process that terminates itself releases
the lock while it waits for a ready process and takes it again. -/
def os_terminate_process_locks (k : Kernel) (pid : Int) (time_now : Int) :
    Option (List LockCall) :=
  match os_terminate_process k pid time_now with
  | .error _ => none
  | .ok _ =>
    if pid < -2 ∨ pid ≥ MAX_NUMBER_OF_USER_PROCESSES then
      some [LockCall.get_data_lock DataLock.COMMON_DATA_LOCK]
    else
      match k.CurrentPCB with
      | none => none
      | some cur =>
        if pid = -1 ∨ (deref k.heap cur).pid = pid then
          some (common_lock_calls ++ queue_lock_calls)
        else some queue_lock_calls

/-- The lock calls of `os_suspend_process` on a path that returns: SUSPEND_QUEUE_LOCK is
taken around `add_to_suspend_queue`, for a target that is not in the Timer Queue. -/
def os_suspend_process_locks (k : Kernel) (pid : Int) : Option (List LockCall) :=
  match os_suspend_process k pid with
  | .error _ => none
  | .ok _ =>
    if pid < -1 ∨ pid ≥ MAX_NUMBER_OF_USER_PROCESSES then some common_lock_calls
    else if pid = -1 then some common_lock_calls
    else
      match k.CurrentPCB with
      | none => none
      | some cur =>
        if pid = (deref k.heap cur).pid then some common_lock_calls
        else
          match k.ProcessTable pid.toNat with
          | none => some common_lock_calls
          | some target =>
            if (deref k.heap target).suspend = true then some queue_lock_calls
            else
              match find_from_queue_by_condition k.TimerQueue (match_pid k.heap) pid with
              | .error _ => none
              | .ok (some _) => some queue_lock_calls
              | .ok none =>
                some [LockCall.get_data_lock DataLock.COMMON_DATA_LOCK,
                      LockCall.get_data_lock DataLock.TIMER_QUEUE_LOCK,
                      LockCall.get_data_lock DataLock.READY_QUEUE_LOCK,
                      LockCall.get_data_lock DataLock.SUSPEND_QUEUE_LOCK,
                      LockCall.release_data_lock DataLock.SUSPEND_QUEUE_LOCK,
                      LockCall.release_data_lock DataLock.READY_QUEUE_LOCK,
                      LockCall.release_data_lock DataLock.TIMER_QUEUE_LOCK,
                      LockCall.release_data_lock DataLock.COMMON_DATA_LOCK]

/-- The lock calls of `os_resume_process` on a path that returns: for a suspended target all
four locks are taken. -/
def os_resume_process_locks (k : Kernel) (pid : Int) : Option (List LockCall) :=
  match os_resume_process k pid with
  | .error _ => none
  | .ok _ =>
    if pid < -1 ∨ pid ≥ MAX_NUMBER_OF_USER_PROCESSES then some common_lock_calls
    else if pid = -1 then some common_lock_calls
    else
      match k.CurrentPCB with
      | none => none
      | some cur =>
        if pid = (deref k.heap cur).pid then some common_lock_calls
        else
          match k.ProcessTable pid.toNat with
          | none => some common_lock_calls
          | some target =>
            if (deref k.heap target).suspend = true then
              some [LockCall.get_data_lock DataLock.COMMON_DATA_LOCK,
                    LockCall.get_data_lock DataLock.TIMER_QUEUE_LOCK,
                    LockCall.get_data_lock DataLock.READY_QUEUE_LOCK,
                    LockCall.get_data_lock DataLock.SUSPEND_QUEUE_LOCK,
                    LockCall.release_data_lock DataLock.SUSPEND_QUEUE_LOCK,
                    LockCall.release_data_lock DataLock.READY_QUEUE_LOCK,
                    LockCall.release_data_lock DataLock.TIMER_QUEUE_LOCK,
                    LockCall.release_data_lock DataLock.COMMON_DATA_LOCK]
            else some common_lock_calls

/-- The lock calls of `os_change_priority` on a path that returns: the three locks are
taken at the start and released at the end of every path, COMMON first. -/
def os_change_priority_locks (k : Kernel) (pid : Int) (priority : Int) :
    Option (List LockCall) :=
  match os_change_priority k pid priority with
  | .error _ => none
  | .ok _ =>
    some [LockCall.get_data_lock DataLock.COMMON_DATA_LOCK,
          LockCall.get_data_lock DataLock.TIMER_QUEUE_LOCK,
          LockCall.get_data_lock DataLock.READY_QUEUE_LOCK,
          LockCall.release_data_lock DataLock.COMMON_DATA_LOCK,
          LockCall.release_data_lock DataLock.TIMER_QUEUE_LOCK,
          LockCall.release_data_lock DataLock.READY_QUEUE_LOCK]

/-- One lock call against the locks held (latest first): a lock may be taken when its number
is above the numbers of all locks held, and released when it is the lock taken last. -/
def lock_step (held : List DataLock) : LockCall → Option (List DataLock)
  | LockCall.get_data_lock l =>
    if held.all (fun h => h.number < l.number) then some (l :: held) else none
  | LockCall.release_data_lock l =>
    match held with
    | [] => none
    | h :: rest => if h = l then some rest else none

/-- The locks held after a sequence of lock calls, `none` when a call breaks the order. -/
def locks_held : List DataLock → List LockCall → Option (List DataLock)
  | held, [] => some held
  | held, call :: calls =>
    match lock_step held call with
    | none => none
    | some held1 => locks_held held1 calls

/-- The locks are taken in the order COMMON, TIMER, READY, SUSPEND, released in the reverse
order of their taking, and none is held at the end. -/
def lock_discipline (calls : List LockCall) : Prop := locks_held [] calls = some []

instance (calls : List LockCall) : Decidable (lock_discipline calls) := by
  unfold lock_discipline; infer_instance

/-- The values that `ref_idx` takes: -1, its initial value, and the odd numbers below 64. -/
def ref_idx_odd (s : Storage) : Prop :=
  s.ref_idx = -1 ∨ (0 ≤ s.ref_idx ∧ s.ref_idx < 64 ∧ s.ref_idx % 2 = 1)

instance (s : Storage) : Decidable (ref_idx_odd s) := by
  unfold ref_idx_odd; infer_instance

/-- The shadow slot `i` points to a page table entry that has the REFERENCED bit set. -/
def slot_referenced (s : Storage) (i : Nat) : Bool :=
  match s.shadow_pg_tbl i with
  | none => false
  | some p =>
    match pte_read s p with
    | none => false
    | some entry => entry &&& PTBL_REFERENCED_BIT != 0

/-- The number of shadow slots with an odd index whose entry has the REFERENCED bit set. -/
def referenced_odd_slots (s : Storage) : Nat :=
  (List.range 32).countP (fun j => slot_referenced s (2 * j + 1))

/-- Every shadow slot with an odd index points to an entry of an allocated page table. -/
def odd_slots_filled (s : Storage) : Prop :=
  ∀ j, j < 32 → ∃ p entry, s.shadow_pg_tbl (2 * j + 1) = some p ∧ pte_read s p = some entry

/-- The storage after the initial process has faulted on the pages 0 to 63 in turn, with
offset 0: the pages got the frames 0 to 63, the frame queue is empty, no entry has the
REFERENCED bit set and `ref_idx` is -1 still. -/
def pool_empty_storage : Storage :=
  match run_faults boot_kernel ((List.range 64).map (fun i : Nat => ((i : Int), (0 : Int))))
      (init_storage zero_storage) with
  | .ok s => s
  | .error e => e.2

/-- An access of the hardware to the page `page` of the page table 0 that does not write:
the REFERENCED bit of the entry is set (see `FaultReachable.access`). -/
def access_page (s : Storage) (page : Nat) : Storage :=
  match pte_read s ⟨0, page⟩ with
  | some entry => pte_write s ⟨0, page⟩ (entry ||| PTBL_REFERENCED_BIT ||| 0)
  | none => s

/-- After `pool_empty_storage` the initial process has accessed each of the pages 0 to 63:
every entry has the REFERENCED bit set. -/
def all_referenced_storage : Storage :=
  (List.range 64).foldl access_page pool_empty_storage
/-- The frame numbers that `n` successive calls of `get_frame_number_of_removed_frame`
return, first call first, and the storage after them. -/
def frame_numbers_removed : Nat → Storage → List Int × Storage
  | 0, s => ([], s)
  | n + 1, s =>
    let r := get_frame_number_of_removed_frame s
    let rest := frame_numbers_removed n r.1
    (r.2 :: rest.1, rest.2)

/-- The pid of the current process, the one that faults (0 without a current process). -/
def faulting_pid (k : Kernel) : Int :=
  match k.CurrentPCB with
  | some cur => (deref k.heap cur).pid
  | none => 0

/-- Page faults handled one after the other; each is given by the kernel state at the
fault (of which the current process counts), the faulting page and the value of
`Z502_REG3`. -/
def handle_faults : List (Kernel × Int × Int) → Storage → Except (Stop × Storage) Storage
  | [], s => .ok s
  | (k, status, reg3) :: rest, s =>
    match frame_scheduler k s status reg3 with
    | .error e => .error e
    | .ok s1 => handle_faults rest s1

/-- The frame storage after the pages `done` (pid and page, in the order of their faults)
were given the frames 0, 1, .. of the frame queue and no other page was touched: the entry
of the page number `i` of the list is `i | PTBL_VALID_BIT`, every other entry of a page
table is 0, and no two processes share a page table. -/
structure PoolServed (done : List (Int × Int)) (s : Storage) : Prop where
  inv : FrameInv done.length s
  pages : ∀ x ∈ done, 0 ≤ x.2 ∧ x.2 < 1024
  served : ∀ i x, done[i]? = some x →
    ∃ table, s.Z502_PAGE_TBL_ADDR x.1 = some table ∧
      pte_read s ⟨table, x.2.toNat⟩ = some (i ||| PTBL_VALID_BIT)
  fresh : ∀ pid table page, s.Z502_PAGE_TBL_ADDR pid = some table → 0 ≤ page → page < 1024 →
    (pid, page) ∉ done → pte_read s ⟨table, page.toNat⟩ = some 0
  inj : ∀ pid1 pid2 t, s.Z502_PAGE_TBL_ADDR pid1 = some t →
    s.Z502_PAGE_TBL_ADDR pid2 = some t → pid1 = pid2

/-- After boot the initial process has created "child" with priority 20 (pid 1, behind it in
the Ready Queue), asked for a write to the free disk 1, been dispatched again and suspended
the child: the Suspend Queue holds the initial process (address 0) and behind it the child
(address 1), and the initial process runs. -/
def root_before_child_kernel : Kernel :=
  match os_create_process boot_kernel "child" 1 20 1 default with
  | .error _ => boot_kernel
  | .ok (k1, _, _) =>
    match os_disk_write k1 1 0 7 9 DeviceStatus.DEVICE_FREE with
    | .error _ => k1
    | .ok k2 =>
      match os_suspend_process k2 1 with
      | .error _ => k2
      | .ok (k3, _) => k3

/-! ## Theorems -/

/-! ### Pointers and the heap -/

theorem deref_append_left (h : List PCB) (x : PCB) (p : Nat) (hp : p < h.length) :
    deref (h ++ [x]) p = deref h p := by
  unfold deref
  exact List.getD_append h [x] default p hp

theorem deref_append_new (h : List PCB) (x : PCB) : deref (h ++ [x]) h.length = x := by
  unfold deref
  rw [List.getD_eq_getElem?_getD, List.getElem?_append_right (le_refl _)]
  simp

theorem deref_store (h : List PCB) (p q : Nat) (f : PCB → PCB) :
    deref (store h p f) q = if p = q ∧ p < h.length then f (deref h p) else deref h q := by
  unfold store deref
  simp only [List.getD_eq_getElem?_getD, List.getElem?_set]
  by_cases hpq : p = q
  · by_cases hl : p < h.length
    · simp [hpq, hl]
      subst hpq; simp [hl]
    · subst hpq
      have : h[p]? = none := List.getElem?_eq_none (by omega)
      simp [hl, this]
  · simp [hpq]

theorem length_store (h : List PCB) (p : Nat) (f : PCB → PCB) :
    (store h p f).length = h.length := by
  unfold store; simp

/-! ### Scanning the process table -/

theorem find_range_some (q : Nat → Bool) (n i : Nat)
    (h : (List.range n).find? q = some i) : i < n ∧ q i = true ∧ ∀ j, j < i → q j = false := by
  induction n with
  | zero => simp at h
  | succ n ih =>
    rw [List.range_succ, List.find?_append] at h
    cases hf : (List.range n).find? q with
    | some a =>
      rw [hf] at h
      simp at h
      subst h
      obtain ⟨h1, h2, h3⟩ := ih hf
      exact ⟨by omega, h2, h3⟩
    | none =>
      rw [hf] at h
      simp at h
      obtain ⟨h1, h2⟩ := h
      subst h2
      refine ⟨by omega, h1, ?_⟩
      intro j hj
      have := (List.find?_eq_none.mp hf) j (List.mem_range.mpr hj)
      simpa using this

theorem find_range_none (q : Nat → Bool) (n : Nat)
    (h : (List.range n).find? q = none) : ∀ j, j < n → q j = false := by
  intro j hj
  have := (List.find?_eq_none.mp h) j (List.mem_range.mpr hj)
  simpa using this

theorem find_range_first (q : Nat → Bool) (n i : Nat) (hi : i < n) (hq : q i = true)
    (hlow : ∀ j, j < i → q j = false) : (List.range n).find? q = some i := by
  cases hf : (List.range n).find? q with
  | none =>
    have := find_range_none q n hf i hi
    rw [hq] at this; cases this
  | some a =>
    obtain ⟨h1, h2, h3⟩ := find_range_some q n a hf
    rcases Nat.lt_trichotomy a i with hlt | heq | hgt
    · have := hlow a hlt; rw [h2] at this; cases this
    · rw [heq]
    · have := h3 i hgt; rw [hq] at this; cases this

theorem mem_live_names (k : Kernel) (name : String) :
    name ∈ live_names k ↔
      ∃ i p, i < MAX_NUMBER_OF_USER_PROCESSES ∧ k.ProcessTable i = some p ∧
        (deref k.heap p).process_name = name := by
  unfold live_names
  simp only [List.mem_filterMap, List.mem_range, Option.map_eq_some']
  constructor
  · rintro ⟨i, hi, p, hp, hn⟩
    exact ⟨i, p, hi, hp, hn⟩
  · rintro ⟨i, p, hi, hp, hn⟩
    exact ⟨i, hi, p, hp, hn⟩

theorem validate_duplicate_eq_zero (k : Kernel) (name : String) :
    validate_duplicate_process_name k name = 0 ↔ name ∈ live_names k := by
  rw [mem_live_names]
  unfold validate_duplicate_process_name
  split_ifs with h
  · simp only [true_iff]
    rw [List.any_eq_true] at h
    obtain ⟨i, hi, hq⟩ := h
    rw [List.mem_range] at hi
    cases hp : k.ProcessTable i with
    | none => rw [hp] at hq; simp at hq
    | some p =>
      rw [hp] at hq
      exact ⟨i, p, hi, hp, by simpa using hq⟩
  · simp only [one_ne_zero, false_iff]
    rintro ⟨i, p, hi, hp, hn⟩
    apply h
    rw [List.any_eq_true]
    exact ⟨i, List.mem_range.mpr hi, by rw [hp]; simpa using hn⟩

theorem pid_generator_full (k : Kernel) (h : table_full k) : pid_generator k = -1 := by
  unfold pid_generator
  cases hf : (List.range MAX_NUMBER_OF_USER_PROCESSES).find?
      (fun i => (k.ProcessTable i).isNone) with
  | none => rfl
  | some i =>
    obtain ⟨h1, h2, _⟩ := find_range_some _ _ _ hf
    have := h i h1
    have h2 : (k.ProcessTable i).isNone = true := h2
    cases hp : k.ProcessTable i with
    | none => rw [hp] at this; cases this
    | some p => rw [hp] at h2; cases h2

theorem pid_generator_lowest (k : Kernel) (p : Nat) (hp : p < MAX_NUMBER_OF_USER_PROCESSES)
    (hfree : k.ProcessTable p = none) (hlow : ∀ j, j < p → k.ProcessTable j ≠ none) :
    pid_generator k = (p : Int) := by
  unfold pid_generator
  rw [find_range_first (fun i => (k.ProcessTable i).isNone) _ p hp (by simp [hfree])]
  intro j hj
  have := hlow j hj
  cases hq : k.ProcessTable j with
  | none => exact absurd hq this
  | some a => rfl

theorem exists_lowest_free (k : Kernel) (h : ¬ table_full k) :
    ∃ p, p < MAX_NUMBER_OF_USER_PROCESSES ∧ k.ProcessTable p = none ∧
      ∀ j, j < p → k.ProcessTable j ≠ none := by
  cases hf : (List.range MAX_NUMBER_OF_USER_PROCESSES).find?
      (fun i => (k.ProcessTable i).isNone) with
  | none =>
    exfalso; apply h
    intro i hi
    have := find_range_none _ _ hf i hi
    have this : (k.ProcessTable i).isNone = false := this
    cases hp : k.ProcessTable i with
    | none => rw [hp] at this; cases this
    | some p => rfl
  | some i =>
    obtain ⟨h1, h2, h3⟩ := find_range_some _ _ _ hf
    refine ⟨i, h1, ?_, ?_⟩
    · have h2 : (k.ProcessTable i).isNone = true := h2
      cases hp : k.ProcessTable i with
      | none => rfl
      | some p => rw [hp] at h2; cases h2
    · intro j hj hn
      have := h3 j hj
      have this : (k.ProcessTable j).isNone = false := this
      rw [hn] at this; cases this

theorem slot_of_nat (p : Nat) (hp : p < MAX_NUMBER_OF_USER_PROCESSES) :
    slot_of (p : Int) = some p := by
  unfold slot_of
  have h1 : (0 : Int) ≤ (p : Int) := Int.ofNat_nonneg p
  have h2 : (p : Int) < ((MAX_NUMBER_OF_USER_PROCESSES : Nat) : Int) := by exact_mod_cast hp
  simp [h1, h2]

/-! ### Creating processes -/

theorem create_pcb_name_too_long (k : Kernel) (name : String) (start_point : Nat)
    (priority : Int) (context : Nat) (raw : PCB) (hs : start_point ≠ 0) (hc : context ≠ 0)
    (hlen : MAX_NUMBER_OF_PROCESSE_NAME < name.length) :
    create_pcb k name start_point priority context raw =
      .ok (k, none, ERR_EXCEED_MAX_PROCESS_NAME_NUMBER) := by
  unfold create_pcb check_length_of_process_name
  simp [hs, hc, hlen]

theorem create_pcb_duplicate (k : Kernel) (name : String) (start_point : Nat)
    (priority : Int) (context : Nat) (raw : PCB) (hs : start_point ≠ 0) (hc : context ≠ 0)
    (hlen : name.length ≤ MAX_NUMBER_OF_PROCESSE_NAME) (hdup : name ∈ live_names k) :
    create_pcb k name start_point priority context raw =
      .ok (k, none, ERR_DUPLICATE_PROCESS_NAME) := by
  unfold create_pcb check_length_of_process_name
  simp [hs, hc, hlen, (validate_duplicate_eq_zero k name).mpr hdup]

theorem create_pcb_illegal_priority (k : Kernel) (name : String) (start_point : Nat)
    (priority : Int) (context : Nat) (raw : PCB) (hs : start_point ≠ 0) (hc : context ≠ 0)
    (hlen : name.length ≤ MAX_NUMBER_OF_PROCESSE_NAME) (hdup : name ∉ live_names k)
    (hprio : priority < 0 ∨ 100 < priority) :
    create_pcb k name start_point priority context raw =
      .ok (k, none, ERR_ILLEGAL_PRIORITY) := by
  unfold create_pcb check_length_of_process_name validate_priority_range
  have hd : ¬ validate_duplicate_process_name k name = 0 :=
    fun h => hdup ((validate_duplicate_eq_zero k name).mp h)
  simp [hs, hc, hlen, hd, hprio]

theorem create_pcb_table_full (k : Kernel) (name : String) (start_point : Nat)
    (priority : Int) (context : Nat) (raw : PCB) (hs : start_point ≠ 0) (hc : context ≠ 0)
    (hlen : name.length ≤ MAX_NUMBER_OF_PROCESSE_NAME) (hdup : name ∉ live_names k)
    (h0 : 0 ≤ priority) (h100 : priority ≤ 100) (hfull : table_full k) :
    create_pcb k name start_point priority context raw =
      .ok (k, none, ERR_EXCEED_MAX_PROCESS_NUMBER) := by
  unfold create_pcb check_length_of_process_name validate_priority_range
  have hd : ¬ validate_duplicate_process_name k name = 0 :=
    fun h => hdup ((validate_duplicate_eq_zero k name).mp h)
  have hp : ¬ (priority < 0 ∨ priority > 100) := by omega
  simp [hs, hc, hlen, hd, hp, pid_generator_full k hfull]

theorem create_pcb_success (k : Kernel) (name : String) (start_point : Nat)
    (priority : Int) (context : Nat) (raw : PCB) (hs : start_point ≠ 0) (hc : context ≠ 0)
    (hlen : name.length ≤ MAX_NUMBER_OF_PROCESSE_NAME) (hdup : name ∉ live_names k)
    (h0 : 0 ≤ priority) (h100 : priority ≤ 100)
    (p : Nat) (hp : p < MAX_NUMBER_OF_USER_PROCESSES)
    (hfree : k.ProcessTable p = none) (hlow : ∀ j, j < p → k.ProcessTable j ≠ none) :
    create_pcb k name start_point priority context raw =
      .ok ({ k with
              heap := k.heap ++ [{ raw with
                pid := (p : Int), context := context, priority := priority, suspend := false,
                need_message := false, entry_point := start_point,
                disk_id := (p : Int) / 2 + 1, operation := -1, process_name := name }],
              ProcessTable := Function.update k.ProcessTable p (some k.heap.length) },
           some k.heap.length, ERR_SUCCESS) := by
  unfold create_pcb check_length_of_process_name validate_priority_range
  have hd : ¬ validate_duplicate_process_name k name = 0 :=
    fun h => hdup ((validate_duplicate_eq_zero k name).mp h)
  have hpr : ¬ (priority < 0 ∨ priority > 100) := by omega
  have hnn : ¬ ((p : Int) < 0) := by omega
  simp only [hs, hc, hlen, hd, hpr, pid_generator_lowest k p hp hfree hlow, or_self,
    if_false, decide_True, Bool.not_true, Bool.false_eq_true, hnn, add_to_process_table,
    deref_append_new, slot_of_nat p hp]
  simp

/-- Every return of `create_pcb` without a descriptor leaves the kernel state as it was. -/
theorem create_pcb_failure_frame (k k' : Kernel) (name : String) (start_point : Nat)
    (priority : Int) (context : Nat) (raw : PCB) (error : Int)
    (h : create_pcb k name start_point priority context raw = .ok (k', none, error)) :
    k' = k := by
  unfold create_pcb at h
  dsimp only at h
  split_ifs at h <;>
    try (simp only [Except.ok.injEq, Prod.mk.injEq] at h; exact h.1.symm)
  · revert h
    cases add_to_process_table _ _ with
    | error e => intro h; cases h
    | ok r =>
      obtain ⟨k2, result⟩ := r
      dsimp only
      split_ifs <;> intro h <;> simp at h

/-- Every return of `os_create_process` without a descriptor leaves the kernel state as it
was. -/
theorem os_create_process_failure_frame (k k' : Kernel) (name : String) (start_point : Nat)
    (priority : Int) (next_context : Nat) (raw : PCB) (error : Int)
    (h : os_create_process k name start_point priority next_context raw
      = .ok (k', none, error)) :
    k' = k := by
  unfold os_create_process at h
  split_ifs at h
  · simp only [Except.ok.injEq, Prod.mk.injEq] at h; exact h.1.symm
  · cases hc : create_pcb k name start_point priority next_context raw with
    | error e => rw [hc] at h; cases h
    | ok r =>
      obtain ⟨k1, pcb, e⟩ := r
      rw [hc] at h
      cases pcb with
      | none =>
        simp only [Except.ok.injEq, Prod.mk.injEq] at h
        rw [← h.1]
        exact create_pcb_failure_frame k k1 name start_point priority next_context raw e hc
      | some pcb =>
        revert h
        dsimp only
        split_ifs <;> intro h <;> simp at h

/-! ### Facts about the list functions -/

theorem list_find_element_none {α β : Type} (l : List α) (equal : α → β → Bool) (d : β) :
    list_find_element l equal d = none ↔ ∀ x ∈ l, equal x d = false := by
  induction l with
  | nil => simp [list_find_element]
  | cons x rest ih =>
    unfold list_find_element
    by_cases hx : equal x d = true
    · simp [hx]
    · simp only [hx, Bool.false_eq_true, if_false, Option.map_eq_none', ih, List.mem_cons,
        forall_eq_or_imp]
      simp [hx]

theorem list_contains_match_pcb (l : List Nat) (p : Nat) :
    list_contains l match_pcb p = decide (p ∈ l) := by
  unfold list_contains
  cases h : list_find_element l match_pcb p with
  | none =>
    rw [list_find_element_none] at h
    have : p ∉ l := by
      intro hp
      have := h p hp
      simp [match_pcb] at this
    simp [this]
  | some i =>
    have : ¬ (∀ x ∈ l, match_pcb x p = false) := by
      rw [← list_find_element_none, h]; simp
    push_neg at this
    obtain ⟨x, hx, hm⟩ := this
    simp [match_pcb] at hm
    subst hm
    simp [hx]

theorem takeWhile_congr_mem {α : Type} (l : List α) (p q : α → Bool)
    (h : ∀ x ∈ l, p x = q x) : l.takeWhile p = l.takeWhile q := by
  induction l with
  | nil => rfl
  | cons x rest ih =>
    have hx := h x (List.mem_cons_self _ _)
    have hr := ih (fun y hy => h y (List.mem_cons_of_mem _ hy))
    simp [List.takeWhile_cons, hx, hr]

theorem dropWhile_congr_mem {α : Type} (l : List α) (p q : α → Bool)
    (h : ∀ x ∈ l, p x = q x) : l.dropWhile p = l.dropWhile q := by
  induction l with
  | nil => rfl
  | cons x rest ih =>
    have hx := h x (List.mem_cons_self _ _)
    have hr := ih (fun y hy => h y (List.mem_cons_of_mem _ hy))
    simp [List.dropWhile_cons, hx, hr]

/-- Ascending ordered insertion puts the new element behind the longest front part of the
list whose elements do not compare greater than it. -/
theorem list_insert_orderly_ascending {α : Type} (l : List α) (compare : α → α → Int)
    (data : α) :
    list_insert_orderly l compare Order.ASCENDING data =
      l.takeWhile (fun b => decide (0 ≤ compare data b)) ++
        data :: l.dropWhile (fun b => decide (0 ≤ compare data b)) := by
  have hscan : ∀ l : List α, list_insert_orderly_scan compare Order.ASCENDING data l =
      l.takeWhile (fun b => decide (0 ≤ compare data b)) ++
        data :: l.dropWhile (fun b => decide (0 ≤ compare data b)) := by
    intro l
    induction l with
    | nil => rfl
    | cons x rest ih =>
      unfold list_insert_orderly_scan
      by_cases hx : compare data x < 0
      · have : ¬ (0 ≤ compare data x) := by omega
        simp [hx, this, List.takeWhile_cons, List.dropWhile_cons]
      · have : 0 ≤ compare data x := by omega
        simp [hx, this, List.takeWhile_cons, List.dropWhile_cons, ih]
  unfold list_insert_orderly
  cases l with
  | nil => rfl
  | cons x rest => simpa using hscan (x :: rest)

theorem compare_priority_nonneg (h : List PCB) (a b : Nat) :
    0 ≤ compare_priority h a b ↔ (deref h b).priority ≤ (deref h a).priority := by
  unfold compare_priority
  split_ifs <;> omega

theorem compare_time_nonneg (h : List PCB) (a b : Nat) :
    0 ≤ compare_time h a b ↔ (deref h b).delay_time ≤ (deref h a).delay_time := by
  unfold compare_time
  split_ifs <;> omega

/-! ### C1, C2: the results of create -/

/-- C1: with a usable entry point and context, create (`create_pcb` and `os_create_process`
alike) fails with NameTooLong (11) for a name longer than 32 characters, otherwise with
DuplicateName (8) when a live process carries the name, otherwise with IllegalPriority (9) for
a priority below 0 or above 100, otherwise with TableFull (10) when all 15 slots are
occupied; each of these returns no descriptor, and every return without a descriptor leaves
the whole kernel state (process table, Ready, Timer and Suspend queues) as it was. -/
theorem create_failure_codes (k : Kernel) (name : String) (start_point : Nat) (priority : Int)
    (next_context : Nat) (raw : PCB) (hs : start_point ≠ 0) (hc : next_context ≠ 0) :
    (MAX_NUMBER_OF_PROCESSE_NAME < name.length →
      create_pcb k name start_point priority next_context raw
        = .ok (k, none, ERR_EXCEED_MAX_PROCESS_NAME_NUMBER) ∧
      os_create_process k name start_point priority next_context raw
        = .ok (k, none, ERR_EXCEED_MAX_PROCESS_NAME_NUMBER)) ∧
    (name.length ≤ MAX_NUMBER_OF_PROCESSE_NAME → name ∈ live_names k →
      create_pcb k name start_point priority next_context raw
        = .ok (k, none, ERR_DUPLICATE_PROCESS_NAME) ∧
      os_create_process k name start_point priority next_context raw
        = .ok (k, none, ERR_DUPLICATE_PROCESS_NAME)) ∧
    (name.length ≤ MAX_NUMBER_OF_PROCESSE_NAME → name ∉ live_names k →
      (priority < 0 ∨ 100 < priority) →
      create_pcb k name start_point priority next_context raw
        = .ok (k, none, ERR_ILLEGAL_PRIORITY) ∧
      os_create_process k name start_point priority next_context raw
        = .ok (k, none, ERR_ILLEGAL_PRIORITY)) ∧
    (name.length ≤ MAX_NUMBER_OF_PROCESSE_NAME → name ∉ live_names k →
      0 ≤ priority → priority ≤ 100 → table_full k →
      create_pcb k name start_point priority next_context raw
        = .ok (k, none, ERR_EXCEED_MAX_PROCESS_NUMBER) ∧
      os_create_process k name start_point priority next_context raw
        = .ok (k, none, ERR_EXCEED_MAX_PROCESS_NUMBER)) ∧
    (∀ k' error, (create_pcb k name start_point priority next_context raw
          = .ok (k', none, error) ∨
        os_create_process k name start_point priority next_context raw
          = .ok (k', none, error)) →
      k' = k ∧ k'.ProcessTable = k.ProcessTable ∧ k'.ReadyQueue = k.ReadyQueue ∧
        k'.TimerQueue = k.TimerQueue ∧ k'.SuspendQueue = k.SuspendQueue) := by
  have lift : ∀ e, create_pcb k name start_point priority next_context raw = .ok (k, none, e) →
      create_pcb k name start_point priority next_context raw = .ok (k, none, e) ∧
      os_create_process k name start_point priority next_context raw = .ok (k, none, e) := by
    intro e he
    refine ⟨he, ?_⟩
    unfold os_create_process
    simp [hs, hc, he]
  refine ⟨?_, ?_, ?_, ?_, ?_⟩
  · intro hlen
    exact lift _ (create_pcb_name_too_long k name start_point priority next_context raw hs hc
      hlen)
  · intro hlen hdup
    exact lift _ (create_pcb_duplicate k name start_point priority next_context raw hs hc
      hlen hdup)
  · intro hlen hdup hprio
    exact lift _ (create_pcb_illegal_priority k name start_point priority next_context raw
      hs hc hlen hdup hprio)
  · intro hlen hdup h0 h100 hfull
    exact lift _ (create_pcb_table_full k name start_point priority next_context raw hs hc
      hlen hdup h0 h100 hfull)
  · intro k' error h
    have : k' = k := by
      rcases h with h | h
      · exact create_pcb_failure_frame k k' name start_point priority next_context raw error h
      · exact os_create_process_failure_frame k k' name start_point priority next_context raw
          error h
    subst this
    exact ⟨rfl, rfl, rfl, rfl, rfl⟩

/-- C1, at an instance: after boot a create with priority -3 returns IllegalPriority, and a
second create of the name "child" returns DuplicateName; neither returns a descriptor nor
changes the state. -/
theorem create_failure_codes_witness :
    (1 : Nat) ≠ 0 ∧ (2 : Nat) ≠ 0 ∧
    os_create_process boot_kernel "test1b_a" 1 (-3) 2 default
      = .ok (boot_kernel, none, ERR_ILLEGAL_PRIORITY) ∧
    os_create_process child_created_kernel "child" 1 10 2 default
      = .ok (child_created_kernel, none, ERR_DUPLICATE_PROCESS_NAME) :=
  ⟨by decide, by decide,
    ((create_failure_codes boot_kernel "test1b_a" 1 (-3) 2 default (by decide)
      (by decide)).2.2.1 (by decide) (by decide) (by decide)).2,
    ((create_failure_codes child_created_kernel "child" 1 10 2 default (by decide)
      (by decide)).2.1 (by decide) (by decide)).2⟩

/-- C2: in a state whose lowest free slot is `p`, a create with a name of at most 32
characters that no live process carries and a priority in [0,100] returns Success (0) and a
new descriptor with pid `p`, the given name and priority and suspended = false; the process
table holds it in slot `p` and is otherwise unchanged, no other descriptor is modified, and
the descriptor is inserted into the Ready Queue behind the queued descriptors whose priority
is not greater than its own; the other queues and the current process stay as they were. -/
theorem create_success (k : Kernel) (name : String) (start_point : Nat) (priority : Int)
    (next_context : Nat) (raw : PCB) (hs : start_point ≠ 0) (hc : next_context ≠ 0)
    (hlen : name.length ≤ MAX_NUMBER_OF_PROCESSE_NAME) (hdup : name ∉ live_names k)
    (h0 : 0 ≤ priority) (h100 : priority ≤ 100)
    (p : Nat) (hp : p < MAX_NUMBER_OF_USER_PROCESSES)
    (hfree : k.ProcessTable p = none) (hlow : ∀ j, j < p → k.ProcessTable j ≠ none)
    (hq : ∀ a ∈ k.ReadyQueue, a < k.heap.length) :
    ∃ k', os_create_process k name start_point priority next_context raw
        = .ok (k', some k.heap.length, ERR_SUCCESS) ∧
      (deref k'.heap k.heap.length).pid = (p : Int) ∧
      (deref k'.heap k.heap.length).process_name = name ∧
      (deref k'.heap k.heap.length).priority = priority ∧
      (deref k'.heap k.heap.length).suspend = false ∧
      k'.ProcessTable p = some k.heap.length ∧
      (∀ j, j ≠ p → k'.ProcessTable j = k.ProcessTable j) ∧
      (∀ a, a < k.heap.length → deref k'.heap a = deref k.heap a) ∧
      k'.ReadyQueue =
        k.ReadyQueue.takeWhile (fun b => decide (priority_of k b ≤ priority)) ++
          k.heap.length ::
            k.ReadyQueue.dropWhile (fun b => decide (priority_of k b ≤ priority)) ∧
      k'.TimerQueue = k.TimerQueue ∧ k'.SuspendQueue = k.SuspendQueue ∧
      k'.CurrentPCB = k.CurrentPCB := by
  have hnew : k.heap.length ∉ k.ReadyQueue := fun hmem => absurd (hq _ hmem) (lt_irrefl _)
  have hcreate := create_pcb_success k name start_point priority next_context raw hs hc hlen
    hdup h0 h100 p hp hfree hlow
  unfold os_create_process
  rw [hcreate]
  simp only [hs, hc, if_false, add_to_ready_queue, list_contains_match_pcb, hnew,
    decide_False, Bool.not_false, if_true, one_ne_zero]
  refine ⟨_, rfl, ?_, ?_, ?_, ?_, ?_, ?_, ?_, ?_, rfl, rfl, rfl⟩
  · simp [deref_append_new]
  · simp [deref_append_new]
  · simp [deref_append_new]
  · simp [deref_append_new]
  · simp
  · intro j hj
    simp [Function.update_noteq hj]
  · intro a ha
    exact deref_append_left _ _ a ha
  · simp only
    rw [list_insert_orderly_ascending]
    have hpred : ∀ b ∈ k.ReadyQueue,
        (fun b => decide (0 ≤ compare_priority (k.heap ++ [{ raw with
          pid := (p : Int), context := next_context, priority := priority, suspend := false,
          need_message := false, entry_point := start_point,
          disk_id := (p : Int) / 2 + 1, operation := -1, process_name := name }])
          k.heap.length b)) b
        = (fun b => decide (priority_of k b ≤ priority)) b := by
      intro b hb
      simp only [compare_priority_nonneg, deref_append_new, priority_of,
        deref_append_left _ _ b (hq b hb)]
    rw [takeWhile_congr_mem _ _ _ hpred, dropWhile_congr_mem _ _ _ hpred]

/-- C2, at an instance: after boot (the initial process holds slot 0 and is in the Ready Queue
with priority 8) a create with priority 5 gets pid 1, and the new descriptor (address 1)
goes to the head of the Ready Queue. -/
theorem create_success_witness :
    (1 : Nat) ≠ 0 ∧ boot_kernel.ProcessTable 1 = none ∧ boot_kernel.ProcessTable 0 ≠ none ∧
    (os_create_process boot_kernel "child" 1 5 1 default).map
      (fun r => (r.2.1, r.2.2, (deref r.1.heap 1).pid, r.1.ProcessTable 1, r.1.ReadyQueue))
      = .ok (some 1, ERR_SUCCESS, 1, some 1, [1, 0]) := by
  obtain ⟨k', h1, h2, _, _, _, h6, _, _, h9, _⟩ :=
    create_success boot_kernel "child" 1 5 1 default (by decide) (by decide)
      (by decide) (by decide) (by decide) (by decide) 1 (by decide) rfl
      (by
        intro j hj
        have : j = 0 := by omega
        subst this
        exact fun h => Option.noConfusion (h.symm.trans (rfl : boot_kernel.ProcessTable 0 = some 0)))
      (by decide)
  refine ⟨by decide, rfl, by decide, ?_⟩
  rw [h1]
  have h2' : (deref k'.heap 1).pid = 1 := h2
  have h6' : k'.ProcessTable 1 = some 1 := h6
  have h9' : k'.ReadyQueue = [1, 0] := by rw [h9]; decide
  simp only [Except.map, h2', h6', h9']
  rfl

/-- The state a successful create leaves: the new descriptor is appended to the heap and
entered in the lowest free slot; only the Ready Queue changes besides. -/
theorem os_create_process_ok (k : Kernel) (name : String) (start_point : Nat) (priority : Int)
    (next_context : Nat) (raw : PCB) (hs : start_point ≠ 0) (hc : next_context ≠ 0)
    (hlen : name.length ≤ MAX_NUMBER_OF_PROCESSE_NAME) (hdup : name ∉ live_names k)
    (h0 : 0 ≤ priority) (h100 : priority ≤ 100)
    (p : Nat) (hp : p < MAX_NUMBER_OF_USER_PROCESSES)
    (hfree : k.ProcessTable p = none) (hlow : ∀ j, j < p → k.ProcessTable j ≠ none) :
    ∃ rq, os_create_process k name start_point priority next_context raw =
      .ok ({ k with
              heap := k.heap ++ [{ raw with
                pid := (p : Int), context := next_context, priority := priority,
                suspend := false, need_message := false, entry_point := start_point,
                disk_id := (p : Int) / 2 + 1, operation := -1, process_name := name }],
              ProcessTable := Function.update k.ProcessTable p (some k.heap.length),
              ReadyQueue := rq },
           some k.heap.length, ERR_SUCCESS) := by
  have hcreate := create_pcb_success k name start_point priority next_context raw hs hc hlen
    hdup h0 h100 p hp hfree hlow
  unfold os_create_process
  rw [hcreate]
  simp only [hs, hc, if_false, add_to_ready_queue]
  split_ifs with h1 h2 h3
  · simp at h2
  · exact ⟨_, rfl⟩
  · simp at h3
  · exact ⟨_, rfl⟩

theorem table_full_iff_free_slots (k : Kernel) : table_full k ↔ free_slots k = [] := by
  unfold table_full free_slots
  rw [List.filter_eq_nil_iff]
  constructor
  · intro h i hi
    have := h i (List.mem_range.mp hi)
    cases hp : k.ProcessTable i with
    | none => rw [hp] at this; cases this
    | some a => simp
  · intro h i hi
    have := h i (List.mem_range.mpr hi)
    cases hp : k.ProcessTable i with
    | none => rw [hp] at this; simp at this
    | some a => rfl

theorem filter_flip_length (l : List Nat) (hl : l.Nodup) (q q' : Nat → Bool) (p : Nat)
    (hp : p ∈ l) (hq : q p = true) (hq' : q' p = false) (hne : ∀ j, j ≠ p → q' j = q j) :
    (l.filter q').length + 1 = (l.filter q).length := by
  induction l with
  | nil => cases hp
  | cons x rest ih =>
    rw [List.nodup_cons] at hl
    by_cases hx : x = p
    · subst hx
      have hrest : rest.filter q' = rest.filter q := by
        apply List.filter_congr
        intro y hy
        apply hne
        intro hyx
        subst hyx
        exact hl.1 hy
      simp [List.filter_cons, hq, hq', hrest]
    · have hp' : p ∈ rest := by
        rcases List.mem_cons.mp hp with h | h
        · exact absurd h.symm hx
        · exact h
      have := ih hl.2 hp'
      have hxq : q' x = q x := hne x hx
      simp only [List.filter_cons, hxq]
      split_ifs
      · simp only [List.length_cons]; omega
      · exact this

theorem free_slots_after_create (k : Kernel) (p : Nat) (a : Nat)
    (hp : p < MAX_NUMBER_OF_USER_PROCESSES) (hfree : k.ProcessTable p = none)
    (h : List PCB) (rq : List Nat) :
    (free_slots { k with
        heap := h, ProcessTable := Function.update k.ProcessTable p (some a),
        ReadyQueue := rq }).length + 1
      = (free_slots k).length := by
  unfold free_slots
  apply filter_flip_length _ (List.nodup_range _) _ _ p (List.mem_range.mpr hp)
  · simp [hfree]
  · simp
  · intro j hj
    simp [Function.update_noteq hj]

theorem table_wf_after_create (k : Kernel) (p : Nat) (x : PCB) (rq : List Nat)
    (hwf : table_wf k) (hx : x.pid = (p : Int)) :
    table_wf { k with
      heap := k.heap ++ [x],
      ProcessTable := Function.update k.ProcessTable p (some k.heap.length),
      ReadyQueue := rq } := by
  intro i hi a ha
  simp only at ha
  by_cases hip : i = p
  · subst hip
    simp only [Function.update_same, Option.mem_def, Option.some.injEq] at ha
    subst ha
    simp [deref_append_new, hx]
  · rw [Function.update_noteq hip] at ha
    obtain ⟨h1, h2⟩ := hwf i hi a ha
    simp only [List.length_append, List.length_singleton]
    exact ⟨by omega, by rw [deref_append_left _ _ a h1]; exact h2⟩

theorem live_names_after_create (k : Kernel) (p : Nat) (x : PCB) (rq : List Nat)
    (hwf : table_wf k) (n : String)
    (hn : n ∈ live_names { k with
      heap := k.heap ++ [x],
      ProcessTable := Function.update k.ProcessTable p (some k.heap.length),
      ReadyQueue := rq }) :
    n = x.process_name ∨ n ∈ live_names k := by
  rw [mem_live_names] at hn
  obtain ⟨i, a, hi, ha, hname⟩ := hn
  simp only at ha hname
  by_cases hip : i = p
  · subst hip
    simp only [Function.update_same, Option.some.injEq] at ha
    subst ha
    left
    rw [deref_append_new] at hname
    exact hname.symm
  · rw [Function.update_noteq hip] at ha
    right
    rw [mem_live_names]
    obtain ⟨h1, _⟩ := hwf i hi a ha
    rw [deref_append_left _ _ a h1] at hname
    exact ⟨i, a, hi, ha, hname⟩

/-- The create loop from a well-formed table: with more fresh, distinct, legal names than free
slots, the loop creates one process per free slot and ends with TableFull and a full table
whose slot `i` holds the descriptor of pid `i`. -/
theorem create_until_failure_fills (start_point : Nat) (priority : Int) (next_context : Nat)
    (raw : PCB) (hs : start_point ≠ 0) (hc : next_context ≠ 0)
    (h0 : 0 ≤ priority) (h100 : priority ≤ 100) :
    ∀ (names : List String) (k : Kernel), names.Nodup →
      (∀ n ∈ names, n.length ≤ MAX_NUMBER_OF_PROCESSE_NAME ∧ n ∉ live_names k) →
      (free_slots k).length < names.length → table_wf k →
      ∃ k2, create_until_failure start_point priority next_context raw names k
          = .ok (k2, (free_slots k).length, ERR_EXCEED_MAX_PROCESS_NUMBER) ∧
        table_full k2 ∧ table_wf k2 := by
  intro names
  induction names with
  | nil => intro k _ _ hlt _; simp at hlt
  | cons name names ih =>
    intro k hnd hnames hlt hwf
    obtain ⟨hlen, hfresh⟩ := hnames name (List.mem_cons_self _ _)
    unfold create_until_failure
    by_cases hfull : table_full k
    · have hcr := create_pcb_table_full k name start_point priority next_context raw hs hc
        hlen hfresh h0 h100 hfull
      have hfs := (table_full_iff_free_slots k).mp hfull
      refine ⟨k, ?_, hfull, hwf⟩
      unfold os_create_process
      simp [hs, hc, hcr, hfs, ERR_EXCEED_MAX_PROCESS_NUMBER, ERR_SUCCESS]
    · obtain ⟨p, hp, hfree, hlow⟩ := exists_lowest_free k hfull
      obtain ⟨rq, hok⟩ := os_create_process_ok k name start_point priority next_context raw
        hs hc hlen hfresh h0 h100 p hp hfree hlow
      rw [hok]
      rw [List.nodup_cons] at hnd
      have hcount := free_slots_after_create k p k.heap.length hp hfree
        (k.heap ++ [{ raw with
          pid := (p : Int), context := next_context, priority := priority,
          suspend := false, need_message := false, entry_point := start_point,
          disk_id := (p : Int) / 2 + 1, operation := -1, process_name := name }]) rq
      have hwf1 := table_wf_after_create k p { raw with
          pid := (p : Int), context := next_context, priority := priority,
          suspend := false, need_message := false, entry_point := start_point,
          disk_id := (p : Int) / 2 + 1, operation := -1, process_name := name } rq hwf rfl
      obtain ⟨k2, hloop, hfull2, hwf2⟩ := ih _ hnd.2
        (by
          intro n hn
          refine ⟨(hnames n (List.mem_cons_of_mem _ hn)).1, ?_⟩
          intro hmem
          rcases live_names_after_create k p _ rq hwf n hmem with h | h
          · simp only at h
            subst h
            exact hnd.1 hn
          · exact (hnames n (List.mem_cons_of_mem _ hn)).2 h)
        (by simp only [List.length_cons] at hlt; omega) hwf1
      refine ⟨k2, ?_, hfull2, hwf2⟩
      simp only [if_true]
      rw [hloop]
      simp only [Except.ok.injEq, Prod.mk.injEq, true_and, and_true]
      omega

/-- A create that returns a descriptor had legal arguments and a free slot. -/
theorem os_create_process_some_inv (k k' : Kernel) (name : String) (start_point : Nat)
    (priority : Int) (next_context : Nat) (raw : PCB) (pcb : Nat) (error : Int)
    (h : os_create_process k name start_point priority next_context raw
      = .ok (k', some pcb, error)) :
    start_point ≠ 0 ∧ next_context ≠ 0 ∧ name.length ≤ MAX_NUMBER_OF_PROCESSE_NAME ∧
      name ∉ live_names k ∧ 0 ≤ priority ∧ priority ≤ 100 ∧ ¬ table_full k := by
  have hs : start_point ≠ 0 := by
    intro h0
    unfold os_create_process at h
    simp [h0] at h
  have hc : next_context ≠ 0 := by
    intro h0
    unfold os_create_process at h
    simp [hs, h0] at h
  have key : ∀ e, create_pcb k name start_point priority next_context raw = .ok (k, none, e) →
      False := by
    intro e he
    unfold os_create_process at h
    simp [hs, hc, he] at h
  refine ⟨hs, hc, ?_, ?_, ?_, ?_, ?_⟩
  · by_contra hlen
    exact key _ (create_pcb_name_too_long k name start_point priority next_context raw hs hc
      (by omega))
  · intro hdup
    by_cases hlen : name.length ≤ MAX_NUMBER_OF_PROCESSE_NAME
    · exact key _ (create_pcb_duplicate k name start_point priority next_context raw hs hc
        hlen hdup)
    · exact key _ (create_pcb_name_too_long k name start_point priority next_context raw hs hc
        (by omega))
  all_goals
    by_contra hcon
    by_cases hlen : name.length ≤ MAX_NUMBER_OF_PROCESSE_NAME
    · by_cases hdup : name ∈ live_names k
      · exact key _ (create_pcb_duplicate k name start_point priority next_context raw hs hc
          hlen hdup)
      · by_cases hprio : priority < 0 ∨ 100 < priority
        · exact key _ (create_pcb_illegal_priority k name start_point priority next_context
            raw hs hc hlen hdup hprio)
        · first
            | omega
            | exact key _ (create_pcb_table_full k name start_point priority next_context raw
                hs hc hlen hdup (by omega) (by omega) (by simpa using hcon))
    · exact key _ (create_pcb_name_too_long k name start_point priority next_context raw hs hc
        (by omega))

/-! ### C3: create fails exactly on a full table -/

/-- C3: a create with a usable entry point, a legal priority and a legal name that no live
process carries returns no descriptor if and only if all 15 slots of the process table are
occupied, and then it returns TableFull (10) (otherwise it returns a descriptor and Success);
hence the create loop, run from a well-formed table with more fresh distinct legal names than
free slots, creates one process per free slot, ends with TableFull at its first failing
create, and leaves all 15 slots occupied, slot `i` by the descriptor of pid `i`. -/
theorem create_fails_iff_table_full (k : Kernel) (start_point : Nat) (priority : Int)
    (next_context : Nat) (raw : PCB) (hs : start_point ≠ 0) (hc : next_context ≠ 0)
    (h0 : 0 ≤ priority) (h100 : priority ≤ 100) :
    (∀ name : String, name.length ≤ MAX_NUMBER_OF_PROCESSE_NAME → name ∉ live_names k →
      ((∃ k' error, os_create_process k name start_point priority next_context raw
          = .ok (k', none, error)) ↔ table_full k) ∧
      (table_full k → os_create_process k name start_point priority next_context raw
          = .ok (k, none, ERR_EXCEED_MAX_PROCESS_NUMBER)) ∧
      (¬ table_full k → ∃ k' pcb, os_create_process k name start_point priority next_context raw
          = .ok (k', some pcb, ERR_SUCCESS))) ∧
    (∀ names : List String, names.Nodup →
      (∀ n ∈ names, n.length ≤ MAX_NUMBER_OF_PROCESSE_NAME ∧ n ∉ live_names k) →
      (free_slots k).length < names.length → table_wf k →
      ∃ k2, create_until_failure start_point priority next_context raw names k
          = .ok (k2, (free_slots k).length, ERR_EXCEED_MAX_PROCESS_NUMBER) ∧
        table_full k2 ∧
        ∀ i, i < MAX_NUMBER_OF_USER_PROCESSES →
          ∃ a, k2.ProcessTable i = some a ∧ (deref k2.heap a).pid = (i : Int)) := by
  constructor
  · intro name hlen hdup
    have hfullcase : table_full k →
        os_create_process k name start_point priority next_context raw
          = .ok (k, none, ERR_EXCEED_MAX_PROCESS_NUMBER) := by
      intro hfull
      unfold os_create_process
      simp [hs, hc, create_pcb_table_full k name start_point priority next_context raw hs hc
        hlen hdup h0 h100 hfull]
    have hfree : ¬ table_full k →
        ∃ k' pcb, os_create_process k name start_point priority next_context raw
          = .ok (k', some pcb, ERR_SUCCESS) := by
      intro hnf
      obtain ⟨p, hp, hfr, hlow⟩ := exists_lowest_free k hnf
      obtain ⟨rq, hok⟩ := os_create_process_ok k name start_point priority next_context raw
        hs hc hlen hdup h0 h100 p hp hfr hlow
      exact ⟨_, _, hok⟩
    refine ⟨⟨?_, fun hfull => ⟨k, _, hfullcase hfull⟩⟩, hfullcase, hfree⟩
    rintro ⟨k', error, hfail⟩
    by_contra hnf
    obtain ⟨k2, pcb, hok⟩ := hfree hnf
    rw [hok] at hfail
    simp at hfail
  · intro names hnd hnames hlt hwf
    obtain ⟨k2, hloop, hfull, hwf2⟩ := create_until_failure_fills start_point priority
      next_context raw hs hc h0 h100 names k hnd hnames hlt hwf
    refine ⟨k2, hloop, hfull, ?_⟩
    intro i hi
    have := hfull i hi
    cases hp : k2.ProcessTable i with
    | none => rw [hp] at this; cases this
    | some a => exact ⟨a, rfl, (hwf2 i hi a (by simp [hp])).2⟩

/-- C3, at an instance: from the empty process table the loop with 16 names creates 15
processes and then gets TableFull. -/
theorem create_fails_iff_table_full_witness :
    (1 : Nat) ≠ 0 ∧ (0 : Int) ≤ 10 ∧ (10 : Int) ≤ 100 ∧
    (create_until_failure 1 10 1 default
        ["a", "b", "c", "d", "e", "f", "g", "h", "i", "j", "k", "l", "m", "n", "o", "p"]
        init_kernel).map (fun r => r.2) = .ok (15, ERR_EXCEED_MAX_PROCESS_NUMBER) := by
  obtain ⟨k2, h1, _, _⟩ :=
    (create_fails_iff_table_full init_kernel 1 10 1 default (by decide) (by decide)
      (by decide) (by decide)).2
      ["a", "b", "c", "d", "e", "f", "g", "h", "i", "j", "k", "l", "m", "n", "o", "p"]
      (by decide) (by decide) (by decide) (by intro i _ p hp; cases hp)
  refine ⟨by decide, by decide, by decide, ?_⟩
  rw [h1]
  rfl

/-! ### C5, C6: looking a process up by name -/

/-- The scan of `os_get_process_id` finds the first slot whose descriptor carries the name. -/
theorem get_pid_scan_first (k : Kernel) (name : String) (i p : Nat)
    (hi : i < MAX_NUMBER_OF_USER_PROCESSES) (hp : k.ProcessTable i = some p)
    (hn : (deref k.heap p).process_name = name)
    (hfirst : ∀ j, j < i → ∀ q, k.ProcessTable j = some q → (deref k.heap q).process_name ≠ name) :
    (List.range MAX_NUMBER_OF_USER_PROCESSES).find? (fun i =>
        match k.ProcessTable i with
        | some p => (deref k.heap p).process_name == name
        | none => false) = some i := by
  apply find_range_first _ _ i hi
  · simp [hp, hn]
  · intro j hj
    cases hq : k.ProcessTable j with
    | none => rfl
    | some q => simpa using hfirst j hj q hq

theorem get_pid_scan_none (k : Kernel) (name : String) (h : name ∉ live_names k) :
    (List.range MAX_NUMBER_OF_USER_PROCESSES).find? (fun i =>
        match k.ProcessTable i with
        | some p => (deref k.heap p).process_name == name
        | none => false) = none := by
  rw [List.find?_eq_none]
  intro i hi
  rw [List.mem_range] at hi
  cases hq : k.ProcessTable i with
  | none => simp
  | some q =>
    have : (deref k.heap q).process_name ≠ name := by
      intro hn
      exact h ((mem_live_names k name).mpr ⟨i, q, hi, hq, hn⟩)
    simpa using this

/-- C5: for a name of at most 32 characters, asked by a current process, get_pid returns
Success with the pid of the current process when the name is empty or is the name of the
current process; otherwise Success with the pid of the first live process-table entry that
carries the name when there is one, and DoesNotExist (13) with pid -1 when there is none; in
every case the kernel state it returns is the state it was called in. -/
theorem get_pid_result (k : Kernel) (name : String) (cur : Nat)
    (hcur : k.CurrentPCB = some cur) (hlen : name.length ≤ MAX_NUMBER_OF_PROCESSE_NAME) :
    (name = "" ∨ (deref k.heap cur).process_name = name →
      os_get_process_id k name = .ok (k, (deref k.heap cur).pid, ERR_SUCCESS)) ∧
    (name ≠ "" → (deref k.heap cur).process_name ≠ name →
      ∀ i p, i < MAX_NUMBER_OF_USER_PROCESSES → k.ProcessTable i = some p →
        (deref k.heap p).process_name = name →
        (∀ j, j < i → ∀ q, k.ProcessTable j = some q → (deref k.heap q).process_name ≠ name) →
        os_get_process_id k name = .ok (k, (deref k.heap p).pid, ERR_SUCCESS)) ∧
    (name ≠ "" → (deref k.heap cur).process_name ≠ name → name ∉ live_names k →
      os_get_process_id k name = .ok (k, -1, ERR_PROCESS_DOESNT_EXIST)) ∧
    (∀ k' pid error, os_get_process_id k name = .ok (k', pid, error) → k' = k) := by
  have hl : check_length_of_process_name name = true := by
    unfold check_length_of_process_name; simpa using hlen
  refine ⟨?_, ?_, ?_, ?_⟩
  · intro h
    unfold os_get_process_id
    simp [hl, hcur, h]
  · intro h1 h2 i p hi hp hn hfirst
    unfold os_get_process_id
    simp only [hl, hcur, h1, h2, or_self, if_false, Bool.not_true, Bool.false_eq_true]
    rw [get_pid_scan_first k name i p hi hp hn hfirst]
    simp [hp]
  · intro h1 h2 h3
    unfold os_get_process_id
    simp only [hl, hcur, h1, h2, or_self, if_false, Bool.not_true, Bool.false_eq_true]
    rw [get_pid_scan_none k name h3]
  · intro k' pid error h
    unfold os_get_process_id at h
    simp only [hl, hcur, Bool.not_true, Bool.false_eq_true, if_false] at h
    split_ifs at h
    · simp only [Except.ok.injEq, Prod.mk.injEq] at h; exact h.1.symm
    · revert h
      split
      · split
        · intro h; simp only [Except.ok.injEq, Prod.mk.injEq] at h; exact h.1.symm
        · intro h; simp only [Except.ok.injEq, Prod.mk.injEq] at h; exact h.1.symm
      · intro h; simp only [Except.ok.injEq, Prod.mk.injEq] at h; exact h.1.symm

/-- C5, at an instance: the initial process (pid 0) has created "child" (pid 1); it asks
for the empty name, for "child" and for a name nobody carries. -/
theorem get_pid_result_witness :
    child_created_kernel.CurrentPCB = some 0 ∧
    os_get_process_id child_created_kernel "" = .ok (child_created_kernel, 0, ERR_SUCCESS) ∧
    os_get_process_id child_created_kernel "child"
      = .ok (child_created_kernel, 1, ERR_SUCCESS) ∧
    os_get_process_id child_created_kernel "bogus_name"
      = .ok (child_created_kernel, -1, ERR_PROCESS_DOESNT_EXIST) :=
  ⟨rfl,
    (get_pid_result child_created_kernel "" 0 rfl (by decide)).1 (Or.inl rfl),
    (get_pid_result child_created_kernel "child" 0 rfl (by decide)).2.1 (by decide) (by decide)
      1 1 (by decide) rfl rfl
      (by
        intro j hj q hq
        have hj0 : j = 0 := by omega
        subst hj0
        have hq0 : q = 0 := by
          have h0 : child_created_kernel.ProcessTable 0 = some 0 := rfl
          rw [h0] at hq
          simpa using hq.symm
        subst hq0
        decide),
    (get_pid_result child_created_kernel "bogus_name" 0 rfl (by decide)).2.2.1 (by decide)
      (by decide) (by decide)⟩

/-- C6, refuted as stated: after boot the initial process (pid 0) creates a process with the
empty name, which succeeds with pid 1, and the get_pid of the empty name that follows
returns Success with pid 0, the pid of the caller. -/
theorem create_then_get_pid_counterexample :
    (os_create_process boot_kernel "" 1 10 1 default).map
        (fun r => (r.2.1, (deref r.1.heap 1).pid, r.2.2)) = .ok (some 1, 1, ERR_SUCCESS) ∧
    ((os_create_process boot_kernel "" 1 10 1 default).bind
        (fun r => (os_get_process_id r.1 "").map (fun g => g.2))) = .ok (0, ERR_SUCCESS) := by
  constructor <;> rfl

/-- C6, amended: in a well-formed state whose current process is live in the process table,
if a create with a non-empty name succeeds and returns the descriptor of pid `p`, then the
get_pid of that name called next by the same current process returns Success and `p`. -/
theorem create_then_get_pid (k k' : Kernel) (name : String) (start_point : Nat)
    (priority : Int) (next_context : Nat) (raw : PCB) (pcb cur : Nat)
    (hname : name ≠ "") (hcur : k.CurrentPCB = some cur)
    (hlive : ∃ i, i < MAX_NUMBER_OF_USER_PROCESSES ∧ k.ProcessTable i = some cur)
    (hwf : table_wf k)
    (h : os_create_process k name start_point priority next_context raw
      = .ok (k', some pcb, ERR_SUCCESS)) :
    k'.CurrentPCB = some cur ∧
    os_get_process_id k' name = .ok (k', (deref k'.heap pcb).pid, ERR_SUCCESS) := by
  obtain ⟨hs, hc, hlen, hdup, h0, h100, hnf⟩ :=
    os_create_process_some_inv k k' name start_point priority next_context raw pcb _ h
  obtain ⟨p, hp, hfree, hlow⟩ := exists_lowest_free k hnf
  obtain ⟨rq, hok⟩ := os_create_process_ok k name start_point priority next_context raw
    hs hc hlen hdup h0 h100 p hp hfree hlow
  rw [hok] at h
  simp only [Except.ok.injEq, Prod.mk.injEq, Option.some.injEq, and_true] at h
  obtain ⟨hk, hpcb⟩ := h
  subst hpcb
  have hheap : k'.heap = k.heap ++ [{ raw with
      pid := (p : Int), context := next_context, priority := priority,
      suspend := false, need_message := false, entry_point := start_point,
      disk_id := (p : Int) / 2 + 1, operation := -1, process_name := name }] := by
    rw [← hk]
  have htbl : k'.ProcessTable = Function.update k.ProcessTable p (some k.heap.length) := by
    rw [← hk]
  have hcur' : k'.CurrentPCB = some cur := by rw [← hk]; exact hcur
  clear hk hok
  obtain ⟨ic, hic, hcurslot⟩ := hlive
  have hcurlt : cur < k.heap.length := (hwf ic hic cur (by simp [hcurslot])).1
  have hcurname : (deref k'.heap cur).process_name ≠ name := by
    rw [hheap, deref_append_left _ _ cur hcurlt]
    intro hn
    exact hdup ((mem_live_names k name).mpr ⟨ic, cur, hic, hcurslot, hn⟩)
  have hl : check_length_of_process_name name = true := by
    unfold check_length_of_process_name; simpa using hlen
  have hnewslot : k'.ProcessTable p = some k.heap.length := by rw [htbl]; simp
  have hscan := get_pid_scan_first k' name p k.heap.length hp hnewslot
    (by rw [hheap, deref_append_new])
    (by
      intro j hj q hq
      rw [htbl, Function.update_noteq (by omega)] at hq
      have hqlt : q < k.heap.length := (hwf j (by omega) q (by simp [hq])).1
      rw [hheap, deref_append_left _ _ q hqlt]
      intro hn
      exact hdup ((mem_live_names k name).mpr ⟨j, q, by omega, hq, hn⟩))
  refine ⟨hcur', ?_⟩
  unfold os_get_process_id
  simp only [hl, hcur', hname, Bool.not_true, Bool.false_eq_true, if_false, false_or,
    hcurname]
  rw [hscan]
  simp only [hnewslot]

theorem table_wf_boot_kernel : table_wf boot_kernel := by
  intro i hi p hp
  have h0 : ∀ j, j ≠ 0 → boot_kernel.ProcessTable j = none := by
    intro j hj
    show Function.update (fun _ => none) 0 (some 0) j = none
    rw [Function.update_noteq hj]
  by_cases hi0 : i = 0
  · subst hi0
    have : p = 0 := by
      have h1 : boot_kernel.ProcessTable 0 = some 0 := rfl
      rw [h1] at hp
      simpa using hp.symm
    subst this
    exact ⟨by decide, rfl⟩
  · rw [h0 i hi0] at hp
    cases hp

/-- C6 as amended, at an instance: after boot the initial process creates "child" and asks
for its pid. -/
theorem create_then_get_pid_witness :
    ("child" : String) ≠ "" ∧ boot_kernel.CurrentPCB = some 0 ∧
    boot_kernel.ProcessTable 0 = some 0 ∧
    os_create_process boot_kernel "child" 1 5 1 default
      = .ok (child_created_kernel, some 1, ERR_SUCCESS) ∧
    os_get_process_id child_created_kernel "child"
      = .ok (child_created_kernel, 1, ERR_SUCCESS) :=
  ⟨by decide, rfl, rfl, rfl,
    (create_then_get_pid boot_kernel child_created_kernel "child" 1 5 1 default 1 0
      (by decide) rfl ⟨0, by decide, rfl⟩ table_wf_boot_kernel rfl).2⟩

/-! ### C7: the Ready Queue is filled in stable priority order -/

theorem scan_ascending_cons {α : Type} (compare : α → α → Int) (x b : α) (t : List α) :
    list_insert_orderly_scan compare Order.ASCENDING x (b :: t) =
      if compare x b < 0 then x :: b :: t
      else b :: list_insert_orderly_scan compare Order.ASCENDING x t := by
  rw [list_insert_orderly_scan]

theorem list_insert_orderly_eq_scan {α : Type} (l : List α) (compare : α → α → Int) (x : α) :
    list_insert_orderly l compare Order.ASCENDING x =
      list_insert_orderly_scan compare Order.ASCENDING x l := by
  unfold list_insert_orderly
  cases l with
  | nil => rfl
  | cons b t => simp

theorem compare_priority_neg (h : List PCB) (a b : Nat) :
    compare_priority h a b < 0 ↔ (deref h a).priority < (deref h b).priority := by
  unfold compare_priority
  split_ifs <;> omega

/-- Inserting behind the entries of equal priority commutes with inserting in front of them. -/
theorem orderedInsert_scan_comm (h : List PCB) (a x : Nat) (s : List Nat) :
    List.orderedInsert (fun a b => (deref h a).priority ≤ (deref h b).priority) a
        (list_insert_orderly_scan (compare_priority h) Order.ASCENDING x s) =
      list_insert_orderly_scan (compare_priority h) Order.ASCENDING x
        (List.orderedInsert (fun a b => (deref h a).priority ≤ (deref h b).priority) a s) := by
  induction s with
  | nil =>
    simp only [list_insert_orderly_scan, List.orderedInsert]
    by_cases hax : (deref h a).priority ≤ (deref h x).priority
    · have : ¬ compare_priority h x a < 0 := by rw [compare_priority_neg]; omega
      simp [hax, this, scan_ascending_cons, list_insert_orderly_scan]
    · have : compare_priority h x a < 0 := by rw [compare_priority_neg]; omega
      simp [hax, this, scan_ascending_cons]
  | cons b t ih =>
    rw [scan_ascending_cons]
    by_cases hxb : compare_priority h x b < 0
    · have hxb' := (compare_priority_neg h x b).mp hxb
      simp only [hxb, if_true, List.orderedInsert]
      by_cases hax : (deref h a).priority ≤ (deref h x).priority
      · have hab : (deref h a).priority ≤ (deref h b).priority := by omega
        have hxa : ¬ compare_priority h x a < 0 := by rw [compare_priority_neg]; omega
        simp [hax, hab, scan_ascending_cons, hxa, hxb]
      · have hxa : compare_priority h x a < 0 := by rw [compare_priority_neg]; omega
        by_cases hab : (deref h a).priority ≤ (deref h b).priority
        · simp [hax, hab, scan_ascending_cons, hxa]
        · simp [hax, hab, scan_ascending_cons, hxb]
    · have hxb' : ¬ (deref h x).priority < (deref h b).priority := by
        rw [← compare_priority_neg]; exact hxb
      simp only [hxb, if_false, List.orderedInsert]
      by_cases hab : (deref h a).priority ≤ (deref h b).priority
      · have hxa : ¬ compare_priority h x a < 0 := by rw [compare_priority_neg]; omega
        simp [hab, scan_ascending_cons, hxa, hxb]
      · simp [hab, scan_ascending_cons, hxb, ih]

theorem insertionSort_append_singleton (h : List PCB) (l : List Nat) (x : Nat) :
    List.insertionSort (fun a b => (deref h a).priority ≤ (deref h b).priority) (l ++ [x]) =
      list_insert_orderly_scan (compare_priority h) Order.ASCENDING x
        (List.insertionSort (fun a b => (deref h a).priority ≤ (deref h b).priority) l) := by
  induction l with
  | nil => simp [list_insert_orderly_scan]
  | cons a t ih =>
    show List.orderedInsert _ a (List.insertionSort _ (t ++ [x])) = _
    rw [ih]
    exact orderedInsert_scan_comm h a x _

theorem add_to_ready_queue_new (k : Kernel) (x : Nat) (hx : x ∉ k.ReadyQueue) :
    (add_to_ready_queue k (some x)).1 =
      { k with ReadyQueue :=
          list_insert_orderly_scan (compare_priority k.heap) Order.ASCENDING x k.ReadyQueue } := by
  unfold add_to_ready_queue
  simp [list_contains_match_pcb, hx, list_insert_orderly_eq_scan]

theorem insert_all_ready_append (k : Kernel) (l : List Nat) (x : Nat) :
    insert_all_ready k (l ++ [x]) = (add_to_ready_queue (insert_all_ready k l) (some x)).1 := by
  unfold insert_all_ready
  rw [List.foldl_append]
  rfl

theorem add_to_ready_queue_heap (k : Kernel) (p : Option Nat) :
    (add_to_ready_queue k p).1.heap = k.heap := by
  unfold add_to_ready_queue
  cases p with
  | none => rfl
  | some x => dsimp only; split_ifs <;> rfl

theorem insert_all_ready_heap (k : Kernel) (l : List Nat) :
    (insert_all_ready k l).heap = k.heap := by
  induction l using List.reverseRecOn with
  | nil => rfl
  | append_singleton l x ih =>
    rw [insert_all_ready_append, add_to_ready_queue_heap, ih]

theorem insert_all_ready_eq_sort (k : Kernel) (l : List Nat) (hempty : k.ReadyQueue = [])
    (hnd : l.Nodup) :
    (insert_all_ready k l).ReadyQueue =
      List.insertionSort (fun a b => priority_of k a ≤ priority_of k b) l := by
  induction l using List.reverseRecOn with
  | nil => simpa [insert_all_ready] using hempty
  | append_singleton l x ih =>
    have hnd' : l.Nodup ∧ x ∉ l := by
      rw [List.nodup_append] at hnd
      refine ⟨hnd.1, ?_⟩
      intro hx
      exact hnd.2.2 hx (List.mem_singleton_self x)
    have ih' := ih hnd'.1
    have hx : x ∉ (insert_all_ready k l).ReadyQueue := by
      rw [ih']
      intro hmem
      exact hnd'.2 ((List.perm_insertionSort _ l).mem_iff.mp hmem)
    rw [insert_all_ready_append, add_to_ready_queue_new _ x hx]
    simp only [insert_all_ready_heap, ih']
    exact (insertionSort_append_singleton k.heap l x).symm

theorem dispatch_order_all :
    ∀ (q : List Nat) (k : Kernel), k.ReadyQueue = q → dispatch_order q.length k = q := by
  intro q
  induction q with
  | nil => intro k _; rfl
  | cons a t ih =>
    intro k hk
    simp only [List.length_cons, dispatch_order, dequeue_from_ready_queue, queue_dequeue,
      list_remove_next, hk]
    rw [ih _ rfl]

theorem filter_scan_stable (h : List PCB) (c : Int) (x : Nat) (l : List Nat)
    (hl : l.Pairwise (fun a b => (deref h a).priority ≤ (deref h b).priority)) :
    (list_insert_orderly_scan (compare_priority h) Order.ASCENDING x l).filter
        (fun a => decide ((deref h a).priority = c)) =
      (l ++ [x]).filter (fun a => decide ((deref h a).priority = c)) := by
  induction l with
  | nil => rfl
  | cons b t ih =>
    rw [List.pairwise_cons] at hl
    rw [scan_ascending_cons]
    by_cases hxb : compare_priority h x b < 0
    · have hxb' := (compare_priority_neg h x b).mp hxb
      simp only [hxb, if_true]
      by_cases hxc : (deref h x).priority = c
      · have hbc : ¬ (deref h b).priority = c := by omega
        have ht : t.filter (fun a => decide ((deref h a).priority = c)) = [] := by
          rw [List.filter_eq_nil_iff]
          intro y hy
          have := hl.1 y hy
          simp only [decide_eq_true_eq]
          omega
        simp [List.filter_cons, hxc, hbc, ht]
      · simp [List.filter_cons, hxc]
    · simp only [hxb, if_false, List.cons_append, List.filter_cons]
      rw [ih hl.2]

theorem insert_all_ready_sorted (k : Kernel) (l : List Nat) (hempty : k.ReadyQueue = [])
    (hnd : l.Nodup) :
    (insert_all_ready k l).ReadyQueue.Pairwise
      (fun a b => priority_of k a ≤ priority_of k b) := by
  rw [insert_all_ready_eq_sort k l hempty hnd]
  haveI : IsTotal Nat (fun a b => priority_of k a ≤ priority_of k b) :=
    ⟨fun a b => le_total _ _⟩
  haveI : IsTrans Nat (fun a b => priority_of k a ≤ priority_of k b) :=
    ⟨fun a b c hab hbc => le_trans hab hbc⟩
  exact List.sorted_insertionSort _ l

theorem insert_all_ready_stable (k : Kernel) (c : Int) (l : List Nat)
    (hempty : k.ReadyQueue = []) (hnd : l.Nodup) :
    (insert_all_ready k l).ReadyQueue.filter (fun a => decide (priority_of k a = c)) =
      l.filter (fun a => decide (priority_of k a = c)) := by
  induction l using List.reverseRecOn with
  | nil => simp [insert_all_ready, hempty]
  | append_singleton l x ih =>
    have hnd' : l.Nodup ∧ x ∉ l := by
      rw [List.nodup_append] at hnd
      refine ⟨hnd.1, ?_⟩
      intro hx
      exact hnd.2.2 hx (List.mem_singleton_self x)
    have hsorted := insert_all_ready_sorted k l hempty hnd'.1
    have hx : x ∉ (insert_all_ready k l).ReadyQueue := by
      rw [insert_all_ready_eq_sort k l hempty hnd'.1]
      intro hmem
      exact hnd'.2 ((List.perm_insertionSort _ l).mem_iff.mp hmem)
    rw [insert_all_ready_append, add_to_ready_queue_new _ x hx]
    simp only [insert_all_ready_heap]
    have := filter_scan_stable k.heap c x _ hsorted
    unfold priority_of at ih ⊢
    rw [this, List.filter_append, ih hnd'.1, List.filter_append]

/-- C7: when distinct descriptors are inserted one at a time with add_to_ready_queue into an
empty Ready Queue, the queue that results is the stable sort (insertion sort) of the insertion
sequence by ascending priority: it is a permutation of the sequence, its priorities are
non-decreasing from the head, and descriptors of equal priority keep the order in which they
were inserted; successive head dequeues return the descriptors in exactly this order. -/
theorem ready_queue_stable_priority_order (k : Kernel) (pcbs : List Nat)
    (hempty : k.ReadyQueue = []) (hnd : pcbs.Nodup) :
    (insert_all_ready k pcbs).ReadyQueue =
        List.insertionSort (fun a b => priority_of k a ≤ priority_of k b) pcbs ∧
    (insert_all_ready k pcbs).ReadyQueue.Perm pcbs ∧
    (insert_all_ready k pcbs).ReadyQueue.Pairwise
        (fun a b => priority_of k a ≤ priority_of k b) ∧
    (∀ c : Int,
      (insert_all_ready k pcbs).ReadyQueue.filter (fun a => decide (priority_of k a = c)) =
        pcbs.filter (fun a => decide (priority_of k a = c))) ∧
    dispatch_order pcbs.length (insert_all_ready k pcbs) =
        (insert_all_ready k pcbs).ReadyQueue := by
  have heq := insert_all_ready_eq_sort k pcbs hempty hnd
  have hperm : (insert_all_ready k pcbs).ReadyQueue.Perm pcbs := by
    rw [heq]; exact List.perm_insertionSort _ pcbs
  refine ⟨heq, hperm, insert_all_ready_sorted k pcbs hempty hnd,
    fun c => insert_all_ready_stable k c pcbs hempty hnd, ?_⟩
  have := dispatch_order_all (insert_all_ready k pcbs).ReadyQueue (insert_all_ready k pcbs) rfl
  rw [hperm.length_eq] at this
  exact this

/-- C7, at the example: descriptors with priorities 10, 11, 11, 90, 40 inserted in this order
are dispatched as 10, first 11, second 11, 40, 90. -/
theorem ready_queue_stable_priority_order_witness :
    five_children_kernel.ReadyQueue = [] ∧ [0, 1, 2, 3, 4].Nodup ∧
    dispatch_order 5 (insert_all_ready five_children_kernel [0, 1, 2, 3, 4]) = [0, 1, 2, 4, 3] ∧
    (dispatch_order 5 (insert_all_ready five_children_kernel [0, 1, 2, 3, 4])).map
      (priority_of five_children_kernel) = [10, 11, 11, 40, 90] := by
  have h := ready_queue_stable_priority_order five_children_kernel [0, 1, 2, 3, 4] rfl
    (by decide)
  have hq : dispatch_order 5 (insert_all_ready five_children_kernel [0, 1, 2, 3, 4])
      = [0, 1, 2, 4, 3] := by
    have h5 := h.2.2.2.2
    rw [h.1] at h5
    rw [show ([0, 1, 2, 3, 4] : List Nat).length = 5 from rfl] at h5
    rw [h5]
    decide
  refine ⟨rfl, by decide, hq, ?_⟩
  rw [hq]
  decide

/-! ### More facts about the list functions -/

theorem list_remove_element_some {α : Type} (l q : List α) (e : Option Nat) (d : α)
    (h : list_remove_element l e = some (q, d)) :
    ∃ i, e = some i ∧ q = l.eraseIdx i ∧ l[i]? = some d := by
  unfold list_remove_element at h
  cases e with
  | none => cases h
  | some i =>
    simp only [List.get?_eq_getElem?] at h
    cases hg : l[i]? with
    | none => rw [hg] at h; cases h
    | some x =>
      rw [hg] at h
      simp only [Option.some.injEq, Prod.mk.injEq] at h
      exact ⟨i, rfl, h.1.symm, by rw [hg, h.2]⟩

theorem list_remove_element_sublist {α : Type} (l q : List α) (e : Option Nat) (d : α)
    (h : list_remove_element l e = some (q, d)) : q.Sublist l ∧ d ∈ l := by
  obtain ⟨i, _, hq, hd⟩ := list_remove_element_some l q e d h
  subst hq
  exact ⟨List.eraseIdx_sublist l i, List.mem_iff_getElem?.mpr ⟨i, hd⟩⟩

theorem list_find_element_some {α β : Type} (l : List α) (equal : α → β → Bool) (d : β)
    (i : Nat) (h : list_find_element l equal d = some i) :
    ∃ x, l[i]? = some x ∧ equal x d = true ∧
      ∀ j, j < i → ∀ y, l[j]? = some y → equal y d = false := by
  induction l generalizing i with
  | nil => simp [list_find_element] at h
  | cons a t ih =>
    unfold list_find_element at h
    by_cases ha : equal a d = true
    · simp only [ha, if_true, Option.some.injEq] at h
      subst h
      exact ⟨a, by simp, ha, fun j hj => absurd hj (Nat.not_lt_zero j)⟩
    · simp only [ha, Bool.false_eq_true, if_false, Option.map_eq_some'] at h
      obtain ⟨i', hi', hii⟩ := h
      subst hii
      obtain ⟨x, hx, hxd, hbefore⟩ := ih i' hi'
      refine ⟨x, by simpa using hx, hxd, ?_⟩
      intro j hj y hy
      cases j with
      | zero =>
        simp only [List.getElem?_cons_zero, Option.some.injEq] at hy
        subst hy
        simpa using ha
      | succ j =>
        simp only [List.getElem?_cons_succ] at hy
        exact hbefore j (by omega) y hy

theorem list_find_remove {α β : Type} (l : List α) (equal : α → β → Bool) (d : β) (i : Nat)
    (h : list_find_element l equal d = some i) :
    ∃ x, list_remove_element l (some i) = some (l.eraseIdx i, x) ∧ x ∈ l ∧
      equal x d = true := by
  obtain ⟨x, hx, hxd, _⟩ := list_find_element_some l equal d i h
  refine ⟨x, ?_, List.mem_iff_getElem?.mpr ⟨i, hx⟩, hxd⟩
  unfold list_remove_element
  simp [List.get?_eq_getElem?, hx]

theorem queue_enqueue_eq {α : Type} (q : List α) (x : α) : queue_enqueue q x = q ++ [x] := by
  unfold queue_enqueue list_insert_next
  cases q with
  | nil => rfl
  | cons a t =>
    simp only [List.length_cons, Nat.add_sub_cancel]
    rw [List.take_of_length_le (by simp), List.drop_of_length_le (by simp)]

theorem scan_perm {α : Type} (compare : α → α → Int) (x : α) (l : List α) :
    (list_insert_orderly_scan compare Order.ASCENDING x l).Perm (x :: l) := by
  induction l with
  | nil => exact List.Perm.refl _
  | cons b t ih =>
    rw [scan_ascending_cons]
    split_ifs
    · exact List.Perm.refl _
    · exact (List.Perm.cons b ih).trans (List.Perm.swap x b t)

theorem list_insert_orderly_perm {α : Type} (l : List α) (compare : α → α → Int) (x : α) :
    (list_insert_orderly l compare Order.ASCENDING x).Perm (x :: l) := by
  rw [list_insert_orderly_eq_scan]
  exact scan_perm compare x l

/-- Ordered insertion keeps a list sorted by a key that the comparison follows. -/
theorem list_insert_orderly_sorted (key : Nat → Int) (compare : Nat → Nat → Int)
    (hcmp : ∀ a b, compare a b < 0 ↔ key a < key b) (x : Nat) (l : List Nat)
    (hl : l.Pairwise (fun a b => key a ≤ key b)) :
    (list_insert_orderly l compare Order.ASCENDING x).Pairwise (fun a b => key a ≤ key b) := by
  rw [list_insert_orderly_eq_scan]
  induction l with
  | nil => simp [list_insert_orderly_scan]
  | cons b t ih =>
    rw [List.pairwise_cons] at hl
    rw [scan_ascending_cons]
    by_cases hxb : compare x b < 0
    · have hkey := (hcmp x b).mp hxb
      simp only [hxb, if_true]
      rw [List.pairwise_cons]
      refine ⟨?_, List.pairwise_cons.mpr hl⟩
      intro y hy
      rcases List.mem_cons.mp hy with h | h
      · subst h; omega
      · have := hl.1 y h; omega
    · have hkey : ¬ key x < key b := fun h => hxb ((hcmp x b).mpr h)
      simp only [hxb, if_false]
      rw [List.pairwise_cons]
      refine ⟨?_, ih hl.2⟩
      intro y hy
      rcases List.mem_cons.mp ((scan_perm compare x t).mem_iff.mp hy) with h | h
      · subst h; omega
      · exact hl.1 y h

theorem compare_time_neg (h : List PCB) (a b : Nat) :
    compare_time h a b < 0 ↔ (deref h a).delay_time < (deref h b).delay_time := by
  unfold compare_time
  split_ifs <;> omega

theorem compare_priority_pos (h : List PCB) (a b : Nat) :
    compare_priority h a b > 0 ↔ (deref h a).priority > (deref h b).priority := by
  unfold compare_priority
  split_ifs <;> omega

/-- One inner pass of the sort moves a least element to the outer position. -/
theorem list_sort_inner_spec (key : Nat → Int) (compare : Nat → Nat → Int)
    (hcmp : ∀ a b, compare a b > 0 ↔ key a > key b) (l : List Nat) :
    ∀ o : Nat,
      key (list_sort_inner compare Order.ASCENDING o l).1 ≤ key o ∧
      (∀ z ∈ (list_sort_inner compare Order.ASCENDING o l).2,
        key (list_sort_inner compare Order.ASCENDING o l).1 ≤ key z) ∧
      ((list_sort_inner compare Order.ASCENDING o l).1 ::
        (list_sort_inner compare Order.ASCENDING o l).2).Perm (o :: l) := by
  induction l with
  | nil => intro o; simp [list_sort_inner]
  | cons y ys ih =>
    intro o
    by_cases hswap : compare o y > 0
    · have hk := (hcmp o y).mp hswap
      obtain ⟨h1, h2, h3⟩ := ih y
      simp only [list_sort_inner, hswap, decide_True, if_true]
      refine ⟨by omega, ?_, ?_⟩
      · intro z hz
        rcases List.mem_cons.mp hz with h | h
        · subst h; omega
        · exact h2 z h
      · exact (List.Perm.swap o _ _).trans (List.Perm.cons o h3)
    · have hk : ¬ key o > key y := fun h => hswap ((hcmp o y).mpr h)
      obtain ⟨h1, h2, h3⟩ := ih o
      simp only [list_sort_inner, hswap, decide_False, Bool.false_eq_true, if_false]
      refine ⟨h1, ?_, ?_⟩
      · intro z hz
        rcases List.mem_cons.mp hz with h | h
        · subst h; omega
        · exact h2 z h
      · exact ((List.Perm.swap y _ _).trans (List.Perm.cons y h3)).trans (List.Perm.swap o y ys)

theorem list_sort_outer_spec (key : Nat → Int) (compare : Nat → Nat → Int)
    (hcmp : ∀ a b, compare a b > 0 ↔ key a > key b) :
    ∀ (n : Nat) (l : List Nat), l.length ≤ n →
      (list_sort_outer compare Order.ASCENDING n l).Perm l ∧
      (list_sort_outer compare Order.ASCENDING n l).Pairwise (fun a b => key a ≤ key b) := by
  intro n
  induction n with
  | zero =>
    intro l hl
    have : l = [] := List.length_eq_zero.mp (by omega)
    subst this
    simp [list_sort_outer]
  | succ n ih =>
    intro l hl
    match l, hl with
    | [], _ => simp [list_sort_outer]
    | [x], _ => simp [list_sort_outer]
    | x :: y :: rest, hl =>
      obtain ⟨h1, h2, h3⟩ := list_sort_inner_spec key compare hcmp (y :: rest) x
      have hlen : (list_sort_inner compare Order.ASCENDING x (y :: rest)).2.length ≤ n := by
        have := h3.length_eq
        simp only [List.length_cons] at this hl
        omega
      obtain ⟨hp, hs⟩ := ih _ hlen
      simp only [list_sort_outer]
      refine ⟨(List.Perm.cons _ hp).trans h3, ?_⟩
      rw [List.pairwise_cons]
      exact ⟨fun z hz => h2 z (hp.mem_iff.mp hz), hs⟩

theorem list_sort_spec (key : Nat → Int) (compare : Nat → Nat → Int)
    (hcmp : ∀ a b, compare a b > 0 ↔ key a > key b) (l : List Nat) :
    (list_sort l compare Order.ASCENDING).Perm l ∧
      (list_sort l compare Order.ASCENDING).Pairwise (fun a b => key a ≤ key b) := by
  unfold list_sort
  split_ifs with h
  · refine ⟨List.Perm.refl _, ?_⟩
    match l, h with
    | [], _ => exact List.Pairwise.nil
    | [x], _ => exact List.pairwise_singleton _ _
    | x :: y :: rest, h => simp only [List.length_cons] at h; omega
  · exact list_sort_outer_spec key compare hcmp l.length l (le_refl _)

theorem pairwise_key_congr (key key' : Nat → Int) (l : List Nat)
    (h : ∀ a ∈ l, key' a = key a) (hl : l.Pairwise (fun a b => key a ≤ key b)) :
    l.Pairwise (fun a b => key' a ≤ key' b) := by
  induction l with
  | nil => exact List.Pairwise.nil
  | cons x t ih =>
    rw [List.pairwise_cons] at hl ⊢
    refine ⟨?_, ih (fun a ha => h a (List.mem_cons_of_mem _ ha)) hl.2⟩
    intro y hy
    rw [h x (List.mem_cons_self _ _), h y (List.mem_cons_of_mem _ hy)]
    exact hl.1 y hy

/-! ### The invariant of all kernel steps -/

theorem InvA_init : InvA init_kernel :=
  { ready_alloc := by intro p hp; cases hp
    timer_alloc := by intro p hp; cases hp
    suspend_alloc := by intro p hp; cases hp
    table_alloc := by intro i p hp; cases hp
    current_alloc := by intro c hc; cases hc
    sorted := List.Pairwise.nil
    names := by intro i j a b _ _ _ ha; cases ha }

/-- Writing fields other than the priority and the name keeps the invariant. -/
theorem InvA_store (k : Kernel) (p : Nat) (f : PCB → PCB)
    (hf : ∀ d, (f d).priority = d.priority ∧ (f d).process_name = d.process_name)
    (hinv : InvA k) : InvA { k with heap := store k.heap p f } := by
  have hd : ∀ q, (deref (store k.heap p f) q).priority = (deref k.heap q).priority ∧
      (deref (store k.heap p f) q).process_name = (deref k.heap q).process_name := by
    intro q
    rw [deref_store]
    split_ifs with h
    · rw [← h.1]; exact hf _
    · exact ⟨rfl, rfl⟩
  exact
    { ready_alloc := by simpa [length_store] using hinv.ready_alloc
      timer_alloc := by simpa [length_store] using hinv.timer_alloc
      suspend_alloc := by simpa [length_store] using hinv.suspend_alloc
      table_alloc := by simpa [length_store] using hinv.table_alloc
      current_alloc := by simpa [length_store] using hinv.current_alloc
      sorted := by
        have := hinv.sorted
        unfold ready_sorted priority_of at this ⊢
        simpa [hd] using this
      names := by
        have := hinv.names
        unfold names_distinct at this ⊢
        simpa [hd] using this }

theorem InvA_hw (k : Kernel) (hw : List HwCall) (hinv : InvA k) : InvA { k with hw := hw } :=
  { ready_alloc := hinv.ready_alloc
    timer_alloc := hinv.timer_alloc
    suspend_alloc := hinv.suspend_alloc
    table_alloc := hinv.table_alloc
    current_alloc := hinv.current_alloc
    sorted := hinv.sorted
    names := hinv.names }

theorem InvA_start_timer (k : Kernel) (t : Int) (hinv : InvA k) : InvA (start_timer k t) :=
  InvA_hw k _ hinv

theorem InvA_current (k : Kernel) (c : Option Nat) (hc : ∀ x, c = some x → x < k.heap.length)
    (hinv : InvA k) : InvA { k with CurrentPCB := c } :=
  { ready_alloc := hinv.ready_alloc
    timer_alloc := hinv.timer_alloc
    suspend_alloc := hinv.suspend_alloc
    table_alloc := hinv.table_alloc
    current_alloc := hc
    sorted := hinv.sorted
    names := hinv.names }

theorem InvA_switch_context (k : Kernel) (hinv : InvA k) : InvA (switch_context k) := by
  unfold switch_context
  split
  · exact InvA_hw k _ hinv
  · exact hinv

theorem InvA_ready_sublist (k : Kernel) (q : List Nat) (hq : q.Sublist k.ReadyQueue)
    (hinv : InvA k) : InvA { k with ReadyQueue := q } :=
  { ready_alloc := fun p hp => hinv.ready_alloc p (hq.subset hp)
    timer_alloc := hinv.timer_alloc
    suspend_alloc := hinv.suspend_alloc
    table_alloc := hinv.table_alloc
    current_alloc := hinv.current_alloc
    sorted := List.Pairwise.sublist hq hinv.sorted
    names := hinv.names }

theorem InvA_timer (k : Kernel) (q : List Nat) (hq : ∀ p ∈ q, p < k.heap.length)
    (hinv : InvA k) : InvA { k with TimerQueue := q } :=
  { ready_alloc := hinv.ready_alloc
    timer_alloc := hq
    suspend_alloc := hinv.suspend_alloc
    table_alloc := hinv.table_alloc
    current_alloc := hinv.current_alloc
    sorted := hinv.sorted
    names := hinv.names }

theorem InvA_suspend (k : Kernel) (q : List Nat) (hq : ∀ p ∈ q, p < k.heap.length)
    (hinv : InvA k) : InvA { k with SuspendQueue := q } :=
  { ready_alloc := hinv.ready_alloc
    timer_alloc := hinv.timer_alloc
    suspend_alloc := hq
    table_alloc := hinv.table_alloc
    current_alloc := hinv.current_alloc
    sorted := hinv.sorted
    names := hinv.names }

theorem InvA_table_clear (k : Kernel) (i : Nat) (hinv : InvA k) :
    InvA { k with ProcessTable := Function.update k.ProcessTable i none } :=
  { ready_alloc := hinv.ready_alloc
    timer_alloc := hinv.timer_alloc
    suspend_alloc := hinv.suspend_alloc
    table_alloc := by
      intro j p hp
      by_cases hj : j = i
      · subst hj; simp at hp
      · simp only [Function.update_noteq hj] at hp
        exact hinv.table_alloc j p hp
    current_alloc := hinv.current_alloc
    sorted := hinv.sorted
    names := by
      intro a b x y ha hb hab hx hy
      by_cases h1 : a = i
      · subst h1; simp at hx
      · by_cases h2 : b = i
        · subst h2; simp at hy
        · simp only [Function.update_noteq h1] at hx
          simp only [Function.update_noteq h2] at hy
          exact hinv.names a b x y ha hb hab hx hy }

theorem InvA_add_ready (k : Kernel) (p : Option Nat) (hp : ∀ x, p = some x → x < k.heap.length)
    (hinv : InvA k) : InvA (add_to_ready_queue k p).1 := by
  unfold add_to_ready_queue
  cases p with
  | none => exact hinv
  | some x =>
    dsimp only
    split_ifs
    · exact
        { ready_alloc := by
            intro y hy
            rcases List.mem_cons.mp ((list_insert_orderly_perm _ _ _).mem_iff.mp hy) with h | h
            · subst h; exact hp _ rfl
            · exact hinv.ready_alloc y h
          timer_alloc := hinv.timer_alloc
          suspend_alloc := hinv.suspend_alloc
          table_alloc := hinv.table_alloc
          current_alloc := hinv.current_alloc
          sorted := list_insert_orderly_sorted (priority_of k) (compare_priority k.heap)
            (compare_priority_neg k.heap) x k.ReadyQueue hinv.sorted
          names := hinv.names }
    · exact hinv

theorem InvA_add_timer (k : Kernel) (p : Option Nat) (hp : ∀ x, p = some x → x < k.heap.length)
    (hinv : InvA k) : InvA (add_to_timer_queue k p).1 := by
  unfold add_to_timer_queue
  cases p with
  | none => exact hinv
  | some x =>
    dsimp only
    split_ifs
    · apply InvA_timer k _ _ hinv
      intro y hy
      rcases List.mem_cons.mp ((list_insert_orderly_perm _ _ _).mem_iff.mp hy) with h | h
      · subst h; exact hp _ rfl
      · exact hinv.timer_alloc y h
    · exact hinv

theorem InvA_add_suspend (k : Kernel) (p : Option Nat)
    (hp : ∀ x, p = some x → x < k.heap.length)
    (hinv : InvA k) : InvA (add_to_suspend_queue k p).1 := by
  unfold add_to_suspend_queue
  cases p with
  | none => exact hinv
  | some x =>
    dsimp only
    split_ifs
    · apply InvA_suspend k _ _ hinv
      intro y hy
      rw [queue_enqueue_eq] at hy
      rcases List.mem_append.mp hy with h | h
      · exact hinv.suspend_alloc y h
      · rw [List.mem_singleton] at h; subst h; exact hp _ rfl
    · exact hinv

theorem InvA_create (k : Kernel) (x : PCB) (p : Nat)
    (hfresh : x.process_name ∉ live_names k) (hinv : InvA k) :
    InvA { k with heap := k.heap ++ [x],
                  ProcessTable := Function.update k.ProcessTable p (some k.heap.length) } := by
  have hlen : (k.heap ++ [x]).length = k.heap.length + 1 := by simp
  exact
    { ready_alloc := by
        intro y hy; have := hinv.ready_alloc y hy; simp only [hlen]; omega
      timer_alloc := by
        intro y hy; have := hinv.timer_alloc y hy; simp only [hlen]; omega
      suspend_alloc := by
        intro y hy; have := hinv.suspend_alloc y hy; simp only [hlen]; omega
      table_alloc := by
        intro j q hq
        simp only [hlen]
        by_cases hj : j = p
        · subst hj
          simp only [Function.update_same, Option.some.injEq] at hq
          omega
        · simp only [Function.update_noteq hj] at hq
          have := hinv.table_alloc j q hq
          omega
      current_alloc := by
        intro c hc; have := hinv.current_alloc c hc; simp only [hlen]; omega
      sorted := by
        have := hinv.sorted
        unfold ready_sorted at this ⊢
        apply pairwise_key_congr _ _ _ _ this
        intro a ha
        unfold priority_of
        simp only
        rw [deref_append_left _ _ a (hinv.ready_alloc a ha)]
      names := by
        intro a b u v ha hb hab hu hv
        simp only at hu hv ⊢
        by_cases h1 : a = p
        · subst h1
          have h2 : b ≠ a := fun h => hab h.symm
          simp only [Function.update_same, Option.some.injEq] at hu
          simp only [Function.update_noteq h2] at hv
          subst hu
          rw [deref_append_new, deref_append_left _ _ v (hinv.table_alloc b v hv)]
          intro hn
          exact hfresh ((mem_live_names k _).mpr ⟨b, v, hb, hv, hn.symm⟩)
        · simp only [Function.update_noteq h1] at hu
          by_cases h2 : b = p
          · subst h2
            simp only [Function.update_same, Option.some.injEq] at hv
            subst hv
            rw [deref_append_new, deref_append_left _ _ u (hinv.table_alloc a u hu)]
            intro hn
            exact hfresh ((mem_live_names k _).mpr ⟨a, u, ha, hu, hn⟩)
          · simp only [Function.update_noteq h2] at hv
            rw [deref_append_left _ _ u (hinv.table_alloc a u hu),
              deref_append_left _ _ v (hinv.table_alloc b v hv)]
            exact hinv.names a b u v ha hb hab hu hv }

/-- A `create_pcb` that returns a descriptor had legal arguments and a free slot. -/
theorem create_pcb_some_inv (k k' : Kernel) (name : String) (start_point : Nat)
    (priority : Int) (context : Nat) (raw : PCB) (pcb : Nat) (error : Int)
    (h : create_pcb k name start_point priority context raw = .ok (k', some pcb, error)) :
    start_point ≠ 0 ∧ context ≠ 0 ∧ name.length ≤ MAX_NUMBER_OF_PROCESSE_NAME ∧
      name ∉ live_names k ∧ 0 ≤ priority ∧ priority ≤ 100 ∧ ¬ table_full k := by
  have hsc : start_point ≠ 0 ∧ context ≠ 0 := by
    by_contra hcon
    unfold create_pcb at h
    have : start_point = 0 ∨ context = 0 := by
      by_contra hn; push_neg at hn; exact hcon hn
    simp [this] at h
  obtain ⟨hs, hc⟩ := hsc
  have key : ∀ e, create_pcb k name start_point priority context raw = .ok (k, none, e) →
      False := by
    intro e he
    rw [he] at h
    simp at h
  refine ⟨hs, hc, ?_, ?_, ?_, ?_, ?_⟩
  · by_contra hlen
    exact key _ (create_pcb_name_too_long k name start_point priority context raw hs hc
      (by omega))
  · intro hdup
    by_cases hlen : name.length ≤ MAX_NUMBER_OF_PROCESSE_NAME
    · exact key _ (create_pcb_duplicate k name start_point priority context raw hs hc
        hlen hdup)
    · exact key _ (create_pcb_name_too_long k name start_point priority context raw hs hc
        (by omega))
  all_goals
    by_contra hcon
    by_cases hlen : name.length ≤ MAX_NUMBER_OF_PROCESSE_NAME
    · by_cases hdup : name ∈ live_names k
      · exact key _ (create_pcb_duplicate k name start_point priority context raw hs hc
          hlen hdup)
      · by_cases hprio : priority < 0 ∨ 100 < priority
        · exact key _ (create_pcb_illegal_priority k name start_point priority context
            raw hs hc hlen hdup hprio)
        · first
            | omega
            | exact key _ (create_pcb_table_full k name start_point priority context raw
                hs hc hlen hdup (by omega) (by omega) (by simpa using hcon))
    · exact key _ (create_pcb_name_too_long k name start_point priority context raw hs hc
        (by omega))

theorem InvA_create_pcb (k k' : Kernel) (name : String) (start_point : Nat)
    (priority : Int) (context : Nat) (raw : PCB) (pcb : Option Nat) (error : Int)
    (hinv : InvA k)
    (h : create_pcb k name start_point priority context raw = .ok (k', pcb, error)) :
    InvA k' ∧ ∀ x, pcb = some x → x < k'.heap.length := by
  cases pcb with
  | none =>
    rw [create_pcb_failure_frame k k' name start_point priority context raw error h]
    exact ⟨hinv, fun x hx => by cases hx⟩
  | some x =>
    obtain ⟨hs, hc, hlen, hdup, h0, h100, hnf⟩ :=
      create_pcb_some_inv k k' name start_point priority context raw x error h
    obtain ⟨p, hp, hfree, hlow⟩ := exists_lowest_free k hnf
    rw [create_pcb_success k name start_point priority context raw hs hc hlen hdup h0 h100
      p hp hfree hlow] at h
    simp only [Except.ok.injEq, Prod.mk.injEq, Option.some.injEq] at h
    obtain ⟨hk, hx, _⟩ := h
    subst hk
    subst hx
    refine ⟨InvA_create k _ p (by simpa using hdup) hinv, ?_⟩
    intro y hy
    simp only [Option.some.injEq] at hy
    subst hy
    simp

theorem InvA_os_create_process (k k' : Kernel) (name : String) (start_point : Nat)
    (priority : Int) (next_context : Nat) (raw : PCB) (pcb : Option Nat) (error : Int)
    (hinv : InvA k)
    (h : os_create_process k name start_point priority next_context raw
      = .ok (k', pcb, error)) :
    InvA k' ∧ ∀ x, pcb = some x → x < k'.heap.length := by
  unfold os_create_process at h
  split_ifs at h
  · simp only [Except.ok.injEq, Prod.mk.injEq] at h
    obtain ⟨hk, hp, _⟩ := h
    subst hk; subst hp
    exact ⟨hinv, fun x hx => by cases hx⟩
  · cases hc : create_pcb k name start_point priority next_context raw with
    | error e => rw [hc] at h; cases h
    | ok r =>
      obtain ⟨k1, pcb1, e⟩ := r
      rw [hc] at h
      obtain ⟨hinv1, halloc⟩ :=
        InvA_create_pcb k k1 name start_point priority next_context raw pcb1 e hinv hc
      cases pcb1 with
      | none =>
        simp only [Except.ok.injEq, Prod.mk.injEq] at h
        obtain ⟨hk, hp, _⟩ := h
        subst hk; subst hp
        exact ⟨hinv1, fun x hx => by cases hx⟩
      | some x =>
        revert h
        dsimp only
        split_ifs
        · intro h; cases h
        · intro h
          simp only [Except.ok.injEq, Prod.mk.injEq] at h
          obtain ⟨hk, hp, _⟩ := h
          subst hk; subst hp
          refine ⟨InvA_add_ready k1 (some x) halloc hinv1, ?_⟩
          intro y hy
          rw [add_to_ready_queue_heap]
          exact halloc y hy

theorem InvA_osInit (entry_point next_context : Nat) (raw : PCB) (k : Kernel)
    (h : osInit entry_point next_context raw = .ok k) : InvA k := by
  unfold osInit at h
  cases hc : os_create_process init_kernel "initial_process" entry_point DEFAULT_PRIORITY
      next_context raw with
  | error e => rw [hc] at h; cases h
  | ok r =>
    obtain ⟨k1, pcb, e⟩ := r
    rw [hc] at h
    obtain ⟨hinv1, halloc⟩ := InvA_os_create_process _ _ _ _ _ _ _ _ _ InvA_init hc
    cases pcb with
    | none =>
      simp only [Except.ok.injEq] at h
      subst h
      exact hinv1
    | some x =>
      simp only [Except.ok.injEq] at h
      subst h
      exact InvA_hw { k1 with CurrentPCB := some x, RootPCB := some x } _
        { ready_alloc := hinv1.ready_alloc
          timer_alloc := hinv1.timer_alloc
          suspend_alloc := hinv1.suspend_alloc
          table_alloc := hinv1.table_alloc
          current_alloc := halloc
          sorted := hinv1.sorted
          names := hinv1.names }

theorem dequeue_from_ready_queue_some (k k1 : Kernel) (pcb : Nat) (r : Int)
    (h : dequeue_from_ready_queue k = (k1, some pcb, r)) :
    ∃ t, k.ReadyQueue = pcb :: t ∧ k1 = { k with ReadyQueue := t } := by
  unfold dequeue_from_ready_queue queue_dequeue list_remove_next at h
  cases hq : k.ReadyQueue with
  | nil => rw [hq] at h; simp at h
  | cons a t =>
    rw [hq] at h
    simp only [Prod.mk.injEq, Option.some.injEq] at h
    obtain ⟨hk, hp, _⟩ := h
    subst hp
    exact ⟨t, rfl, hk.symm⟩

theorem dequeue_from_timer_queue_some (k k1 : Kernel) (pcb : Nat) (r : Int)
    (h : dequeue_from_timer_queue k = (k1, some pcb, r)) :
    ∃ t, k.TimerQueue = pcb :: t ∧ k1 = { k with TimerQueue := t } := by
  unfold dequeue_from_timer_queue queue_dequeue list_remove_next at h
  cases hq : k.TimerQueue with
  | nil => rw [hq] at h; simp at h
  | cons a t =>
    rw [hq] at h
    simp only [Prod.mk.injEq, Option.some.injEq] at h
    obtain ⟨hk, hp, _⟩ := h
    subst hp
    exact ⟨t, rfl, hk.symm⟩

theorem InvA_os_dispatcher (k k' : Kernel) (hinv : InvA k) (h : os_dispatcher k = .ok k') :
    InvA k' := by
  unfold os_dispatcher at h
  split_ifs at h
  split at h
  · cases h
  · rename_i k1 pcb r hd
    obtain ⟨t, hq, hk1⟩ := dequeue_from_ready_queue_some k k1 pcb r hd
    simp only [Except.ok.injEq] at h
    subst h
    subst hk1
    apply InvA_switch_context
    apply InvA_current { k with ReadyQueue := t } (some pcb)
    · intro x hx
      simp only [Option.some.injEq] at hx
      subst hx
      exact hinv.ready_alloc _ (by rw [hq]; exact List.mem_cons_self _ _)
    · exact InvA_ready_sublist k t (by rw [hq]; exact List.sublist_cons_self _ _) hinv

theorem remove_from_ready_queue_sublist (k : Kernel) (pcb : Option Nat) :
    ∃ q, (remove_from_ready_queue k pcb).1 = { k with ReadyQueue := q } ∧
      q.Sublist k.ReadyQueue := by
  unfold remove_from_ready_queue
  cases pcb with
  | none => exact ⟨k.ReadyQueue, rfl, List.Sublist.refl _⟩
  | some p =>
    dsimp only
    cases hf : list_find_element k.ReadyQueue match_pcb p with
    | none => exact ⟨k.ReadyQueue, rfl, List.Sublist.refl _⟩
    | some i =>
      obtain ⟨x, hx, _, _⟩ := list_find_remove k.ReadyQueue match_pcb p i hf
      dsimp only
      rw [hx]
      exact ⟨_, rfl, List.eraseIdx_sublist _ _⟩

theorem InvA_remove_from_ready_queue (k : Kernel) (pcb : Option Nat) (hinv : InvA k) :
    InvA (remove_from_ready_queue k pcb).1 := by
  obtain ⟨q, hq, hsub⟩ := remove_from_ready_queue_sublist k pcb
  rw [hq]
  exact InvA_ready_sublist k q hsub hinv

theorem remove_from_ready_queue_heap (k : Kernel) (pcb : Option Nat) :
    (remove_from_ready_queue k pcb).1.heap = k.heap := by
  obtain ⟨q, hq, _⟩ := remove_from_ready_queue_sublist k pcb
  rw [hq]

theorem add_to_timer_queue_heap (k : Kernel) (p : Option Nat) :
    (add_to_timer_queue k p).1.heap = k.heap := by
  unfold add_to_timer_queue
  cases p with
  | none => rfl
  | some x => dsimp only; split_ifs <;> rfl

theorem add_to_suspend_queue_heap (k : Kernel) (p : Option Nat) :
    (add_to_suspend_queue k p).1.heap = k.heap := by
  unfold add_to_suspend_queue
  cases p with
  | none => rfl
  | some x => dsimp only; split_ifs <;> rfl

theorem InvA_os_process_sleep (k k' : Kernel) (sleep_time time_now : Int)
    (status : DeviceStatus) (result0 : Int) (hinv : InvA k)
    (h : os_process_sleep k sleep_time time_now status result0 = .ok k') : InvA k' := by
  unfold os_process_sleep at h
  dsimp only at h
  split_ifs at h with h1 h2 h3
  · simp only [Except.ok.injEq] at h; subst h; exact hinv
  · simp only [Except.ok.injEq] at h; subst h
    exact InvA_add_ready k _ hinv.current_alloc hinv
  · split at h
    · cases h
    · rename_i cur hcur
      have hcl : cur < k.heap.length := hinv.current_alloc cur hcur
      have hinv1 := InvA_store k cur
        (fun pcb => { pcb with delay_time := to_int32 (time_now + sleep_time) })
        (fun d => ⟨rfl, rfl⟩) hinv
      have hal : ∀ (X : Kernel), X.heap.length = k.heap.length →
          ∀ x, some cur = some x → x < X.heap.length := by
        intro X hX x hx
        simp only [Option.some.injEq] at hx
        subst hx
        rw [hX]; exact hcl
      split_ifs at h with hc
      all_goals
        split at h
        · cases h
        · split_ifs at h
          all_goals
            simp only [Except.ok.injEq] at h
            subst h
            first
              | exact InvA_start_timer _ _ (InvA_add_timer _ (some cur)
                  (hal _ (by rw [remove_from_ready_queue_heap]; simp [length_store]))
                  (InvA_remove_from_ready_queue _ _ hinv1))
              | exact InvA_add_timer _ (some cur)
                  (hal _ (by rw [remove_from_ready_queue_heap]; simp [length_store]))
                  (InvA_remove_from_ready_queue _ _ hinv1)
              | exact InvA_start_timer _ _ (InvA_add_timer _ (some cur)
                  (hal _ (by simp [length_store])) hinv1)
              | exact InvA_add_timer _ (some cur) (hal _ (by simp [length_store])) hinv1

theorem InvA_wake_timer_head (k k' : Kernel) (hinv : InvA k)
    (h : wake_timer_head k = .ok k') : InvA k' ∧ k'.TimerQueue = k.TimerQueue.tail := by
  unfold wake_timer_head at h
  split at h
  · cases h
  · rename_i k1 pcb r hd
    obtain ⟨t, hq, hk1⟩ := dequeue_from_timer_queue_some k k1 pcb r hd
    subst hk1
    have hpl : pcb < k.heap.length :=
      hinv.timer_alloc pcb (by rw [hq]; exact List.mem_cons_self _ _)
    have hinv1 : InvA { k with TimerQueue := t } :=
      InvA_timer k t (fun p hp => hinv.timer_alloc p (by rw [hq]; exact List.mem_cons_of_mem _ hp))
        hinv
    have hinv2 := InvA_store { k with TimerQueue := t } pcb
      (fun d => { d with delay_time := 0 }) (fun d => ⟨rfl, rfl⟩) hinv1
    have halloc : ∀ x, some pcb = some x → x < (store k.heap pcb
        (fun d => { d with delay_time := 0 })).length := by
      intro x hx
      simp only [Option.some.injEq] at hx
      subst hx
      rw [length_store]; exact hpl
    revert h
    dsimp only
    split_ifs
    · intro h; cases h
    · intro h
      simp only [Except.ok.injEq] at h; subst h
      refine ⟨InvA_add_ready _ (some pcb) halloc hinv2, ?_⟩
      unfold add_to_ready_queue
      dsimp only
      split_ifs <;> simp [hq]
    · intro h; cases h
    · intro h
      simp only [Except.ok.injEq] at h; subst h
      refine ⟨InvA_add_suspend _ (some pcb) halloc hinv2, ?_⟩
      unfold add_to_suspend_queue
      dsimp only
      split_ifs <;> simp [hq]

theorem InvA_make_ready_loop (clock : Nat → Int) :
    ∀ (fuel : Nat) (k k' : Kernel) (time_now : Int) (reads reads' : Nat), InvA k →
      make_ready_loop clock fuel k time_now reads = .ok (k', reads') → InvA k' := by
  intro fuel
  induction fuel with
  | zero =>
    intro k k' time_now reads reads' hinv h
    simp only [make_ready_loop, Except.ok.injEq, Prod.mk.injEq] at h
    rw [← h.1]; exact hinv
  | succ fuel ih =>
    intro k k' time_now reads reads' hinv h
    unfold make_ready_loop at h
    split at h
    · simp only [Except.ok.injEq, Prod.mk.injEq] at h
      rw [← h.1]; exact hinv
    · split_ifs at h
      · cases hw : wake_timer_head k with
        | error e => rw [hw] at h; cases h
        | ok k1 =>
          rw [hw] at h
          have hinv1 := (InvA_wake_timer_head k k1 hinv hw).1
          revert h
          dsimp only
          split_ifs
          · intro h
            simp only [Except.ok.injEq, Prod.mk.injEq] at h
            rw [← h.1]; exact hinv1
          · intro h
            exact ih k1 k' _ _ _ hinv1 h
      · simp only [Except.ok.injEq, Prod.mk.injEq] at h
        rw [← h.1]; exact hinv

theorem InvA_os_make_ready_to_run (k k' : Kernel) (clock : Nat → Int) (hinv : InvA k)
    (h : os_make_ready_to_run k clock = .ok k') : InvA k' := by
  unfold os_make_ready_to_run at h
  split_ifs at h
  · simp only [Except.ok.injEq] at h; subst h; exact hinv
  · cases hw : wake_timer_head k with
    | error e => rw [hw] at h; cases h
    | ok k1 =>
      rw [hw] at h
      have hinv1 := (InvA_wake_timer_head k k1 hinv hw).1
      revert h
      dsimp only
      cases hl : make_ready_loop clock k1.TimerQueue.length k1 (clock 0) 1 with
      | error e => intro h; cases h
      | ok r =>
        obtain ⟨k2, reads⟩ := r
        have hinv2 := InvA_make_ready_loop clock _ k1 k2 _ _ _ hinv1 hl
        dsimp only
        split
        · intro h
          simp only [Except.ok.injEq] at h; subst h; exact hinv2
        · intro h
          simp only [Except.ok.injEq] at h; subst h
          exact InvA_start_timer _ _ hinv2

theorem remove_from_process_table_cases (k k2 : Kernel) (pcb : Option Nat) (r : Int)
    (h : remove_from_process_table k pcb = .ok (k2, r)) :
    k2 = k ∨ ∃ i, k2 = { k with ProcessTable := Function.update k.ProcessTable i none } := by
  unfold remove_from_process_table at h
  split at h
  · split at h
    · split_ifs at h
      · simp only [Except.ok.injEq, Prod.mk.injEq] at h
        exact Or.inr ⟨_, h.1.symm⟩
      · simp only [Except.ok.injEq, Prod.mk.injEq] at h
        exact Or.inl h.1.symm
    · cases h
  · simp only [Except.ok.injEq, Prod.mk.injEq] at h
    exact Or.inl h.1.symm

theorem InvA_remove_from_process_table (k k2 : Kernel) (pcb : Option Nat) (r : Int)
    (hinv : InvA k) (h : remove_from_process_table k pcb = .ok (k2, r)) : InvA k2 := by
  rcases remove_from_process_table_cases k k2 pcb r h with h1 | ⟨i, h1⟩
  · rw [h1]; exact hinv
  · rw [h1]; exact InvA_table_clear k i hinv

theorem remove_by_pid_cases (heap : List PCB) (queue : List Nat) (pid : Int)
    (pcb pcb' : Option Nat) (q : List Nat)
    (h : remove_by_pid heap queue pid pcb = .ok (q, pcb')) :
    q.Sublist queue ∧ (pcb' = pcb ∨ ∃ x, x ∈ queue ∧ pcb' = some x) := by
  unfold remove_by_pid at h
  split at h
  · cases h
  · simp only [Except.ok.injEq, Prod.mk.injEq] at h
    exact ⟨by rw [← h.1], Or.inl h.2.symm⟩
  · split at h
    · cases h
    · rename_i q1 data hrem
      simp only [Except.ok.injEq, Prod.mk.injEq] at h
      obtain ⟨hsub, hmem⟩ := list_remove_element_sublist _ _ _ _ hrem
      exact ⟨by rw [← h.1]; exact hsub, Or.inr ⟨data, hmem, h.2.symm⟩⟩

theorem InvA_os_terminate_process (k k' : Kernel) (pid time_now error : Int) (hinv : InvA k)
    (h : os_terminate_process k pid time_now = .ok (k', error)) : InvA k' := by
  unfold os_terminate_process at h
  split at h
  · simp only [Except.ok.injEq, Prod.mk.injEq] at h
    rw [← h.1]; exact hinv
  · split at h
    · cases h
    · rename_i cur hcur
      split at h
      · -- the current process
        split at h
        · cases h
        · split at h
          · cases h
          · split at h
            · cases h
            · split at h
              · cases h
              · rename_i k1 result hrem
                have hinv1 := InvA_remove_from_process_table k k1 _ result hinv hrem
                split at h
                · cases h
                · split at h
                  · cases h
                  · rename_i k2 pcb r hd
                    obtain ⟨t, hq, hk2⟩ := dequeue_from_ready_queue_some k1 k2 pcb r hd
                    simp only [Except.ok.injEq, Prod.mk.injEq] at h
                    rw [← h.1]
                    subst hk2
                    apply InvA_switch_context
                    apply InvA_current { k1 with ReadyQueue := t } (some pcb)
                    · intro x hx
                      simp only [Option.some.injEq] at hx
                      subst hx
                      exact hinv1.ready_alloc _ (by rw [hq]; exact List.mem_cons_self _ _)
                    · exact InvA_ready_sublist k1 t
                        (by rw [hq]; exact List.sublist_cons_self _ _) hinv1
      · split at h
        · cases h
        · -- another process
          split at h
          · cases h
          · rename_i found hfound
            dsimp only at h
            split at h
            · cases h
            · rename_i k1 pcb1 hr1
              have hinv1 : InvA k1 := by
                revert hr1
                split
                · intro hr1
                  simp only [Except.ok.injEq, Prod.mk.injEq] at hr1
                  rw [← hr1.1]; exact hinv
                · rename_i element
                  split
                  · intro hr1; cases hr1
                  · rename_i q data hrem
                    intro hr1
                    simp only [Except.ok.injEq, Prod.mk.injEq] at hr1
                    rw [← hr1.1]
                    have hk0 : ∀ k0 : Kernel, InvA k0 →
                        list_remove_element k0.TimerQueue (some element) = some (q, data) →
                        InvA { k0 with TimerQueue := q } := by
                      intro k0 hk0 hrem0
                      obtain ⟨hsub, _⟩ := list_remove_element_sublist _ _ _ _ hrem0
                      exact InvA_timer k0 q
                        (fun p hp => hk0.timer_alloc p (hsub.subset hp)) hk0
                    apply hk0 _ _ hrem
                    split_ifs
                    · exact InvA_start_timer _ _ hinv
                    · split
                      · exact InvA_start_timer _ _ hinv
                      · exact hinv
                    · exact hinv
              split at h
              · cases h
              · rename_i rq pcb2 hrq
                obtain ⟨hsubr, _⟩ := remove_by_pid_cases _ _ _ _ _ _ hrq
                split at h
                · cases h
                · rename_i sq pcb3 hsq
                  obtain ⟨hsubs, _⟩ := remove_by_pid_cases _ _ _ _ _ _ hsq
                  split at h
                  · cases h
                  · rename_i pcb
                    split at h
                    · cases h
                    · rename_i k2 result hrem
                      split at h
                      · cases h
                      · simp only [Except.ok.injEq, Prod.mk.injEq] at h
                        rw [← h.1]
                        refine InvA_remove_from_process_table _ k2 _ result ?_ hrem
                        exact InvA_suspend { k1 with ReadyQueue := rq } sq
                          (fun p hp => hinv1.suspend_alloc p (hsubs.subset hp))
                          (InvA_ready_sublist k1 rq hsubr hinv1)

/-! ### The invariant of the steps without disk requests -/

theorem InvB_init : InvB false init_kernel :=
  { table_pid := by intro i p _ hp; cases hp
    ready_nodup := List.nodup_nil
    timer_nodup := List.nodup_nil
    disjoint := by intro p hp; cases hp
    current_not_timer := by intro _ c hc; cases hc
    sorted := List.Pairwise.nil }

theorem InvB_waiting (w : Bool) (k : Kernel) (h : InvB w k) : InvB true k :=
  { table_pid := h.table_pid
    ready_nodup := h.ready_nodup
    timer_nodup := h.timer_nodup
    disjoint := h.disjoint
    current_not_timer := by intro hw; cases hw
    sorted := h.sorted }

/-- Writing a descriptor keeps the invariant when the pid stays and the delay time changes
only for a descriptor outside the Timer Queue. -/
theorem InvB_store (w : Bool) (k : Kernel) (p : Nat) (f : PCB → PCB)
    (hpid : ∀ d, (f d).pid = d.pid)
    (hdelay : p ∈ k.TimerQueue → ∀ d, (f d).delay_time = d.delay_time)
    (hinv : InvB w k) : InvB w { k with heap := store k.heap p f } := by
  have hd : ∀ q, (deref (store k.heap p f) q).pid = (deref k.heap q).pid := by
    intro q
    rw [deref_store]
    split_ifs with h
    · rw [← h.1]; exact hpid _
    · rfl
  exact
    { table_pid := by
        intro i q hi hq
        rw [hd]
        exact hinv.table_pid i q hi hq
      ready_nodup := hinv.ready_nodup
      timer_nodup := hinv.timer_nodup
      disjoint := hinv.disjoint
      current_not_timer := hinv.current_not_timer
      sorted := by
        have := hinv.sorted
        unfold timer_sorted at this ⊢
        apply pairwise_key_congr _ _ _ _ this
        intro a ha
        unfold delay_time_of
        simp only
        rw [deref_store]
        split_ifs with h
        · rw [← h.1] at ha ⊢
          exact hdelay ha _
        · rfl }

theorem InvB_hw (w : Bool) (k : Kernel) (hw : List HwCall) (hinv : InvB w k) :
    InvB w { k with hw := hw } :=
  { table_pid := hinv.table_pid
    ready_nodup := hinv.ready_nodup
    timer_nodup := hinv.timer_nodup
    disjoint := hinv.disjoint
    current_not_timer := hinv.current_not_timer
    sorted := hinv.sorted }

theorem InvB_start_timer (w : Bool) (k : Kernel) (t : Int) (hinv : InvB w k) :
    InvB w (start_timer k t) :=
  InvB_hw w k _ hinv

theorem InvB_switch_context (w : Bool) (k : Kernel) (hinv : InvB w k) :
    InvB w (switch_context k) := by
  unfold switch_context
  split
  · exact InvB_hw w k _ hinv
  · exact hinv

theorem InvB_suspend (w : Bool) (k : Kernel) (q : List Nat) (hinv : InvB w k) :
    InvB w { k with SuspendQueue := q } :=
  { table_pid := hinv.table_pid
    ready_nodup := hinv.ready_nodup
    timer_nodup := hinv.timer_nodup
    disjoint := hinv.disjoint
    current_not_timer := hinv.current_not_timer
    sorted := hinv.sorted }

theorem InvB_add_suspend (w : Bool) (k : Kernel) (p : Option Nat) (hinv : InvB w k) :
    InvB w (add_to_suspend_queue k p).1 := by
  unfold add_to_suspend_queue
  cases p with
  | none => exact hinv
  | some x =>
    dsimp only
    split_ifs
    · exact InvB_suspend w k _ hinv
    · exact hinv

/-- A permutation of a part of the Ready Queue. -/
theorem InvB_ready (w : Bool) (k : Kernel) (q : List Nat) (hnd : q.Nodup)
    (hq : ∀ p ∈ q, p ∈ k.ReadyQueue) (hinv : InvB w k) : InvB w { k with ReadyQueue := q } :=
  { table_pid := hinv.table_pid
    ready_nodup := hnd
    timer_nodup := hinv.timer_nodup
    disjoint := fun p hp => hinv.disjoint p (hq p hp)
    current_not_timer := hinv.current_not_timer
    sorted := hinv.sorted }

theorem InvB_ready_sublist (w : Bool) (k : Kernel) (q : List Nat)
    (hq : q.Sublist k.ReadyQueue) (hinv : InvB w k) : InvB w { k with ReadyQueue := q } :=
  InvB_ready w k q (hinv.ready_nodup.sublist hq) (fun _ hp => hq.subset hp) hinv

theorem InvB_timer_sublist (w : Bool) (k : Kernel) (q : List Nat)
    (hq : q.Sublist k.TimerQueue) (hinv : InvB w k) : InvB w { k with TimerQueue := q } :=
  { table_pid := hinv.table_pid
    ready_nodup := hinv.ready_nodup
    timer_nodup := hinv.timer_nodup.sublist hq
    disjoint := fun p hp hpt => hinv.disjoint p hp (hq.subset hpt)
    current_not_timer := fun hw c hc hct => hinv.current_not_timer hw c hc (hq.subset hct)
    sorted := List.Pairwise.sublist hq hinv.sorted }

theorem InvB_add_ready (w : Bool) (k : Kernel) (p : Option Nat)
    (hp : ∀ x, p = some x → x ∉ k.TimerQueue) (hinv : InvB w k) :
    InvB w (add_to_ready_queue k p).1 := by
  unfold add_to_ready_queue
  cases p with
  | none => exact hinv
  | some x =>
    dsimp only
    split_ifs with hc
    · have hx : x ∉ k.ReadyQueue := by
        rw [list_contains_match_pcb] at hc
        simpa using hc
      have hperm := list_insert_orderly_perm k.ReadyQueue (compare_priority k.heap) x
      exact
        { table_pid := hinv.table_pid
          ready_nodup := hperm.nodup_iff.mpr (List.nodup_cons.mpr ⟨hx, hinv.ready_nodup⟩)
          timer_nodup := hinv.timer_nodup
          disjoint := by
            intro y hy
            rcases List.mem_cons.mp (hperm.mem_iff.mp hy) with h | h
            · subst h; exact hp _ rfl
            · exact hinv.disjoint y h
          current_not_timer := hinv.current_not_timer
          sorted := hinv.sorted }
    · exact hinv

/-- Adding a descriptor to the Timer Queue; afterwards the running process may be in it. -/
theorem InvB_add_timer (w : Bool) (k : Kernel) (p : Option Nat)
    (hp : ∀ x, p = some x → x ∉ k.ReadyQueue) (hinv : InvB w k) :
    InvB true (add_to_timer_queue k p).1 := by
  unfold add_to_timer_queue
  cases p with
  | none => exact InvB_waiting w k hinv
  | some x =>
    dsimp only
    split_ifs with hc
    · have hx : x ∉ k.TimerQueue := by
        rw [list_contains_match_pcb] at hc
        simpa using hc
      have hperm := list_insert_orderly_perm k.TimerQueue (compare_time k.heap) x
      exact
        { table_pid := hinv.table_pid
          ready_nodup := hinv.ready_nodup
          timer_nodup := hperm.nodup_iff.mpr (List.nodup_cons.mpr ⟨hx, hinv.timer_nodup⟩)
          disjoint := by
            intro y hy hyt
            rcases List.mem_cons.mp (hperm.mem_iff.mp hyt) with h | h
            · subst h; exact hp _ rfl hy
            · exact hinv.disjoint y hy h
          current_not_timer := by intro hw; cases hw
          sorted := list_insert_orderly_sorted (delay_time_of k) (compare_time k.heap)
            (compare_time_neg k.heap) x k.TimerQueue hinv.sorted }
    · exact InvB_waiting w k hinv

theorem InvB_current (w : Bool) (k : Kernel) (c : Option Nat)
    (hc : ∀ x, c = some x → x ∉ k.TimerQueue) (hinv : InvB w k) :
    InvB false { k with CurrentPCB := c } :=
  { table_pid := hinv.table_pid
    ready_nodup := hinv.ready_nodup
    timer_nodup := hinv.timer_nodup
    disjoint := hinv.disjoint
    current_not_timer := fun _ x hx => hc x hx
    sorted := hinv.sorted }

theorem InvB_table_clear (w : Bool) (k : Kernel) (i : Nat) (hinv : InvB w k) :
    InvB w { k with ProcessTable := Function.update k.ProcessTable i none } :=
  { table_pid := by
      intro j p hj hp
      by_cases hji : j = i
      · subst hji; simp at hp
      · simp only [Function.update_noteq hji] at hp
        exact hinv.table_pid j p hj hp
    ready_nodup := hinv.ready_nodup
    timer_nodup := hinv.timer_nodup
    disjoint := hinv.disjoint
    current_not_timer := hinv.current_not_timer
    sorted := hinv.sorted }

theorem InvB_create (w : Bool) (k : Kernel) (x : PCB) (p : Nat) (hx : x.pid = (p : Int))
    (ha : InvA k) (hinv : InvB w k) :
    InvB w { k with heap := k.heap ++ [x],
                    ProcessTable := Function.update k.ProcessTable p (some k.heap.length) } :=
  { table_pid := by
      intro j q hj hq
      simp only at hq ⊢
      by_cases hjp : j = p
      · subst hjp
        simp only [Function.update_same, Option.some.injEq] at hq
        subst hq
        rw [deref_append_new]; exact hx
      · simp only [Function.update_noteq hjp] at hq
        rw [deref_append_left _ _ q (ha.table_alloc j q hq)]
        exact hinv.table_pid j q hj hq
    ready_nodup := hinv.ready_nodup
    timer_nodup := hinv.timer_nodup
    disjoint := hinv.disjoint
    current_not_timer := hinv.current_not_timer
    sorted := by
      have := hinv.sorted
      unfold timer_sorted at this ⊢
      apply pairwise_key_congr _ _ _ _ this
      intro a hat
      unfold delay_time_of
      simp only
      rw [deref_append_left _ _ a (ha.timer_alloc a hat)] }

/-- The state a `create_pcb` that returns a descriptor leaves. -/
theorem create_pcb_some_eq (k k' : Kernel) (name : String) (start_point : Nat)
    (priority : Int) (context : Nat) (raw : PCB) (pcb : Nat) (error : Int)
    (h : create_pcb k name start_point priority context raw = .ok (k', some pcb, error)) :
    ∃ (p : Nat) (x : PCB), p < MAX_NUMBER_OF_USER_PROCESSES ∧ x.pid = (p : Int) ∧
      pcb = k.heap.length ∧
      k' = { k with heap := k.heap ++ [x],
                    ProcessTable := Function.update k.ProcessTable p (some k.heap.length) } := by
  obtain ⟨hs, hc, hlen, hdup, h0, h100, hnf⟩ :=
    create_pcb_some_inv k k' name start_point priority context raw pcb error h
  obtain ⟨p, hp, hfree, hlow⟩ := exists_lowest_free k hnf
  rw [create_pcb_success k name start_point priority context raw hs hc hlen hdup h0 h100
    p hp hfree hlow] at h
  simp only [Except.ok.injEq, Prod.mk.injEq, Option.some.injEq] at h
  exact ⟨p, _, hp, rfl, h.2.1.symm, h.1.symm⟩

theorem add_to_ready_queue_timer (k : Kernel) (p : Option Nat) :
    (add_to_ready_queue k p).1.TimerQueue = k.TimerQueue := by
  unfold add_to_ready_queue
  cases p with
  | none => rfl
  | some x => dsimp only; split_ifs <;> rfl

theorem add_to_suspend_queue_timer (k : Kernel) (p : Option Nat) :
    (add_to_suspend_queue k p).1.TimerQueue = k.TimerQueue := by
  unfold add_to_suspend_queue
  cases p with
  | none => rfl
  | some x => dsimp only; split_ifs <;> rfl

theorem InvB_os_create_process (w : Bool) (k k' : Kernel) (name : String) (start_point : Nat)
    (priority : Int) (next_context : Nat) (raw : PCB) (pcb : Option Nat) (error : Int)
    (ha : InvA k) (hb : InvB w k)
    (h : os_create_process k name start_point priority next_context raw
      = .ok (k', pcb, error)) :
    InvB w k' ∧ ∀ x, pcb = some x → x ∉ k'.TimerQueue := by
  unfold os_create_process at h
  split at h
  · simp only [Except.ok.injEq, Prod.mk.injEq] at h
    obtain ⟨hk, hp, _⟩ := h
    subst hk; subst hp
    exact ⟨hb, fun x hx => by cases hx⟩
  · split at h
    · cases h
    · split at h
      · cases h
      · rename_i k1 e hc
        simp only [Except.ok.injEq, Prod.mk.injEq] at h
        obtain ⟨hk, hp, _⟩ := h
        subst hk; subst hp
        rw [create_pcb_failure_frame k k1 name start_point priority next_context raw e hc]
        exact ⟨hb, fun x hx => by cases hx⟩
      · rename_i k1 x e hc
        obtain ⟨p, d, hp, hd, hx, hk1⟩ :=
          create_pcb_some_eq k k1 name start_point priority next_context raw x e hc
        subst hk1
        have hb1 := InvB_create w k d p hd ha hb
        have hnt : ∀ y, some x = some y → y ∉ k.TimerQueue := by
          intro y hy
          simp only [Option.some.injEq] at hy
          subst hy
          intro hmem
          have := ha.timer_alloc _ hmem
          omega
        dsimp only at h
        split at h
        · cases h
        · simp only [Except.ok.injEq, Prod.mk.injEq] at h
          obtain ⟨hk, hpx, _⟩ := h
          subst hk; subst hpx
          refine ⟨InvB_add_ready w _ (some x) hnt hb1, ?_⟩
          intro y hy
          rw [add_to_ready_queue_timer]
          exact hnt y hy

theorem InvB_osInit (entry_point next_context : Nat) (raw : PCB) (k : Kernel)
    (h : osInit entry_point next_context raw = .ok k) : InvB false k := by
  unfold osInit at h
  split at h
  · cases h
  · rename_i k1 pcb e hc
    obtain ⟨hb1, hnt⟩ := InvB_os_create_process false _ _ _ _ _ _ _ _ _ InvA_init InvB_init hc
    simp only [Except.ok.injEq] at h
    subst h
    exact InvB_hw false { k1 with CurrentPCB := some pcb, RootPCB := some pcb } _
      { table_pid := hb1.table_pid
        ready_nodup := hb1.ready_nodup
        timer_nodup := hb1.timer_nodup
        disjoint := hb1.disjoint
        current_not_timer := fun _ c hc => hnt c hc
        sorted := hb1.sorted }
  · rename_i k1 e hc
    obtain ⟨hb1, _⟩ := InvB_os_create_process false _ _ _ _ _ _ _ _ _ InvA_init InvB_init hc
    simp only [Except.ok.injEq] at h
    subst h
    exact hb1

theorem InvB_os_dispatcher (w : Bool) (k k' : Kernel) (hb : InvB w k)
    (h : os_dispatcher k = .ok k') : InvB false k' := by
  unfold os_dispatcher at h
  split at h
  · cases h
  · split at h
    · cases h
    · rename_i k1 pcb r hd
      obtain ⟨t, hq, hk1⟩ := dequeue_from_ready_queue_some k k1 pcb r hd
      simp only [Except.ok.injEq] at h
      subst h
      subst hk1
      apply InvB_switch_context
      apply InvB_current w { k with ReadyQueue := t } (some pcb)
      · intro x hx
        simp only [Option.some.injEq] at hx
        subst hx
        exact hb.disjoint _ (by rw [hq]; exact List.mem_cons_self _ _)
      · exact InvB_ready_sublist w k t (by rw [hq]; exact List.sublist_cons_self _ _) hb

theorem nodup_eraseIdx_not_mem (l : List Nat) (hnd : l.Nodup) (i : Nat) (x : Nat)
    (h : l[i]? = some x) : x ∉ l.eraseIdx i := by
  induction l generalizing i with
  | nil => simp at h
  | cons a t ih =>
    rw [List.nodup_cons] at hnd
    cases i with
    | zero =>
      simp only [List.getElem?_cons_zero, Option.some.injEq] at h
      subst h
      simpa using hnd.1
    | succ i =>
      simp only [List.getElem?_cons_succ] at h
      simp only [List.eraseIdx_cons_succ, List.mem_cons, not_or]
      refine ⟨?_, ih hnd.2 i h⟩
      intro hxa
      subst hxa
      exact hnd.1 (List.mem_iff_getElem?.mpr ⟨i, h⟩)

theorem remove_from_ready_queue_not_mem (k : Kernel) (cur : Nat) (hnd : k.ReadyQueue.Nodup) :
    cur ∉ (remove_from_ready_queue k (some cur)).1.ReadyQueue := by
  unfold remove_from_ready_queue
  dsimp only
  cases hf : list_find_element k.ReadyQueue match_pcb cur with
  | none =>
    dsimp only
    intro hmem
    have := (list_find_element_none _ _ _).mp hf cur hmem
    simp [match_pcb] at this
  | some i =>
    obtain ⟨x, hx, hxd, _⟩ := list_find_element_some _ _ _ _ hf
    have hxc : x = cur := by simpa [match_pcb] using hxd
    subst hxc
    dsimp only
    unfold list_remove_element
    simp only [List.get?_eq_getElem?, hx]
    exact nodup_eraseIdx_not_mem _ hnd i x hx

theorem remove_from_ready_queue_timer (k : Kernel) (pcb : Option Nat) :
    (remove_from_ready_queue k pcb).1.TimerQueue = k.TimerQueue := by
  obtain ⟨q, hq, _⟩ := remove_from_ready_queue_sublist k pcb
  rw [hq]

theorem InvB_remove_from_ready_queue (w : Bool) (k : Kernel) (pcb : Option Nat)
    (hb : InvB w k) : InvB w (remove_from_ready_queue k pcb).1 := by
  obtain ⟨q, hq, hsub⟩ := remove_from_ready_queue_sublist k pcb
  rw [hq]
  exact InvB_ready_sublist w k q hsub hb

theorem InvB_os_process_sleep (k k' : Kernel) (sleep_time time_now : Int)
    (status : DeviceStatus) (result0 : Int) (hb : InvB false k)
    (h : os_process_sleep k sleep_time time_now status result0 = .ok k') : InvB true k' := by
  unfold os_process_sleep at h
  dsimp only at h
  split_ifs at h with h1 h2 h3
  · simp only [Except.ok.injEq] at h; subst h; exact InvB_waiting false k hb
  · simp only [Except.ok.injEq] at h; subst h
    exact InvB_waiting false _ (InvB_add_ready false k _ (hb.current_not_timer rfl) hb)
  · split at h
    · cases h
    · rename_i cur hcur
      have hct : cur ∉ k.TimerQueue := hb.current_not_timer rfl cur hcur
      have hb1 := InvB_store false k cur
        (fun pcb => { pcb with delay_time := to_int32 (time_now + sleep_time) })
        (fun d => rfl) (fun hmem => absurd hmem hct) hb
      have hnr : ∀ (X : Kernel), cur ∉ X.ReadyQueue →
          ∀ x, some cur = some x → x ∉ X.ReadyQueue := by
        intro X hX x hx
        simp only [Option.some.injEq] at hx
        subst hx
        exact hX
      split_ifs at h with hc
      all_goals
        split at h
        · cases h
        · split_ifs at h
          all_goals
            simp only [Except.ok.injEq] at h
            subst h
            first
              | exact InvB_start_timer true _ _ (InvB_add_timer false _ (some cur)
                  (hnr _ (remove_from_ready_queue_not_mem _ cur hb1.ready_nodup))
                  (InvB_remove_from_ready_queue false _ _ hb1))
              | exact InvB_add_timer false _ (some cur)
                  (hnr _ (remove_from_ready_queue_not_mem _ cur hb1.ready_nodup))
                  (InvB_remove_from_ready_queue false _ _ hb1)
              | exact InvB_start_timer true _ _ (InvB_add_timer false _ (some cur)
                  (hnr _ (by
                    rw [list_contains_match_pcb] at hc
                    simpa using hc)) hb1)
              | exact InvB_add_timer false _ (some cur)
                  (hnr _ (by
                    rw [list_contains_match_pcb] at hc
                    simpa using hc)) hb1

theorem InvB_wake_timer_head (w : Bool) (k k' : Kernel) (hb : InvB w k)
    (h : wake_timer_head k = .ok k') : InvB w k' := by
  unfold wake_timer_head at h
  split at h
  · cases h
  · rename_i k1 pcb r hd
    obtain ⟨t, hq, hk1⟩ := dequeue_from_timer_queue_some k k1 pcb r hd
    subst hk1
    have hnd : pcb ∉ t ∧ t.Nodup := by
      have := hb.timer_nodup
      rw [hq, List.nodup_cons] at this
      exact this
    have hb1 : InvB w { k with TimerQueue := t } :=
      InvB_timer_sublist w k t (by rw [hq]; exact List.sublist_cons_self _ _) hb
    have hb2 := InvB_store w { k with TimerQueue := t } pcb
      (fun d => { d with delay_time := 0 }) (fun d => rfl)
      (fun hmem => absurd hmem hnd.1) hb1
    have hnt : ∀ x, some pcb = some x → x ∉ t := by
      intro x hx
      simp only [Option.some.injEq] at hx
      subst hx
      exact hnd.1
    revert h
    dsimp only
    split_ifs
    · intro h; cases h
    · intro h
      simp only [Except.ok.injEq] at h; subst h
      exact InvB_add_ready w _ (some pcb) hnt hb2
    · intro h; cases h
    · intro h
      simp only [Except.ok.injEq] at h; subst h
      exact InvB_add_suspend w _ (some pcb) hb2

theorem InvB_make_ready_loop (w : Bool) (clock : Nat → Int) :
    ∀ (fuel : Nat) (k k' : Kernel) (time_now : Int) (reads reads' : Nat), InvB w k →
      make_ready_loop clock fuel k time_now reads = .ok (k', reads') → InvB w k' := by
  intro fuel
  induction fuel with
  | zero =>
    intro k k' time_now reads reads' hinv h
    simp only [make_ready_loop, Except.ok.injEq, Prod.mk.injEq] at h
    rw [← h.1]; exact hinv
  | succ fuel ih =>
    intro k k' time_now reads reads' hinv h
    unfold make_ready_loop at h
    split at h
    · simp only [Except.ok.injEq, Prod.mk.injEq] at h
      rw [← h.1]; exact hinv
    · split at h
      · split at h
        · cases h
        · rename_i k1 hw
          have hinv1 := InvB_wake_timer_head w k k1 hinv hw
          split at h
          · simp only [Except.ok.injEq, Prod.mk.injEq] at h
            rw [← h.1]; exact hinv1
          · exact ih k1 k' _ _ _ hinv1 h
      · simp only [Except.ok.injEq, Prod.mk.injEq] at h
        rw [← h.1]; exact hinv

theorem InvB_os_make_ready_to_run (w : Bool) (k k' : Kernel) (clock : Nat → Int)
    (hb : InvB w k) (h : os_make_ready_to_run k clock = .ok k') : InvB w k' := by
  unfold os_make_ready_to_run at h
  split at h
  · simp only [Except.ok.injEq] at h; subst h; exact hb
  · split at h
    · cases h
    · rename_i k1 hw
      have hb1 := InvB_wake_timer_head w k k1 hb hw
      split at h
      · cases h
      · rename_i k2 reads hl
        have hb2 := InvB_make_ready_loop w clock _ k1 k2 _ _ _ hb1 hl
        split at h
        · simp only [Except.ok.injEq] at h; subst h; exact hb2
        · simp only [Except.ok.injEq] at h; subst h
          exact InvB_start_timer w _ _ hb2

theorem InvB_remove_from_process_table (w : Bool) (k k2 : Kernel) (pcb : Option Nat) (r : Int)
    (hb : InvB w k) (h : remove_from_process_table k pcb = .ok (k2, r)) : InvB w k2 := by
  rcases remove_from_process_table_cases k k2 pcb r h with h1 | ⟨i, h1⟩
  · rw [h1]; exact hb
  · rw [h1]; exact InvB_table_clear w k i hb

theorem InvB_os_terminate_process (k k' : Kernel) (pid time_now error : Int)
    (hb : InvB false k)
    (h : os_terminate_process k pid time_now = .ok (k', error)) : InvB false k' := by
  unfold os_terminate_process at h
  split at h
  · simp only [Except.ok.injEq, Prod.mk.injEq] at h
    rw [← h.1]; exact hb
  · split at h
    · cases h
    · rename_i cur hcur
      split at h
      · -- the current process
        split at h
        · cases h
        · split at h
          · cases h
          · split at h
            · cases h
            · split at h
              · cases h
              · rename_i k1 result hrem
                have hb1 := InvB_remove_from_process_table false k k1 _ result hb hrem
                split at h
                · cases h
                · split at h
                  · cases h
                  · rename_i k2 pcb r hd
                    obtain ⟨t, hq, hk2⟩ := dequeue_from_ready_queue_some k1 k2 pcb r hd
                    simp only [Except.ok.injEq, Prod.mk.injEq] at h
                    rw [← h.1]
                    subst hk2
                    apply InvB_switch_context
                    apply InvB_current false { k1 with ReadyQueue := t } (some pcb)
                    · intro x hx
                      simp only [Option.some.injEq] at hx
                      subst hx
                      exact hb1.disjoint _ (by rw [hq]; exact List.mem_cons_self _ _)
                    · exact InvB_ready_sublist false k1 t
                        (by rw [hq]; exact List.sublist_cons_self _ _) hb1
      · split at h
        · cases h
        · -- another process
          split at h
          · cases h
          · rename_i found hfound
            dsimp only at h
            split at h
            · cases h
            · rename_i k1 pcb1 hr1
              have hb1 : InvB false k1 := by
                revert hr1
                split
                · intro hr1
                  simp only [Except.ok.injEq, Prod.mk.injEq] at hr1
                  rw [← hr1.1]; exact hb
                · rename_i element
                  split
                  · intro hr1; cases hr1
                  · rename_i q data hrem
                    intro hr1
                    simp only [Except.ok.injEq, Prod.mk.injEq] at hr1
                    rw [← hr1.1]
                    have hk0 : ∀ k0 : Kernel, InvB false k0 →
                        list_remove_element k0.TimerQueue (some element) = some (q, data) →
                        InvB false { k0 with TimerQueue := q } := by
                      intro k0 hk0 hrem0
                      obtain ⟨hsub, _⟩ := list_remove_element_sublist _ _ _ _ hrem0
                      exact InvB_timer_sublist false k0 q hsub hk0
                    apply hk0 _ _ hrem
                    split_ifs
                    · exact InvB_start_timer false _ _ hb
                    · split
                      · exact InvB_start_timer false _ _ hb
                      · exact hb
                    · exact hb
              split at h
              · cases h
              · rename_i rq pcb2 hrq
                obtain ⟨hsubr, _⟩ := remove_by_pid_cases _ _ _ _ _ _ hrq
                split at h
                · cases h
                · rename_i sq pcb3 hsq
                  split at h
                  · cases h
                  · rename_i pcb
                    split at h
                    · cases h
                    · rename_i k2 result hrem
                      split at h
                      · cases h
                      · simp only [Except.ok.injEq, Prod.mk.injEq] at h
                        rw [← h.1]
                        refine InvB_remove_from_process_table false _ k2 _ result ?_ hrem
                        exact InvB_suspend false { k1 with ReadyQueue := rq } sq
                          (InvB_ready_sublist false k1 rq hsubr hb1)

theorem find_from_queue_by_condition_ok (queue : List Nat) (fp_match : Nat → Int → Bool)
    (data : Int) (r : Option Nat)
    (h : find_from_queue_by_condition queue fp_match data = .ok r) :
    data ≠ 0 ∧ r = list_find_element queue fp_match data := by
  unfold find_from_queue_by_condition at h
  split at h
  · cases h
  · rename_i hd
    simp only [Except.ok.injEq] at h
    exact ⟨hd, h.symm⟩

theorem not_in_queue_of_find_none (heap : List PCB) (queue : List Nat) (pid : Int) (x : Nat)
    (h : find_from_queue_by_condition queue (match_pid heap) pid = .ok none)
    (hx : (deref heap x).pid = pid) : x ∉ queue := by
  obtain ⟨_, hnone⟩ := find_from_queue_by_condition_ok _ _ _ _ h
  intro hmem
  have := (list_find_element_none _ _ _).mp hnone.symm x hmem
  simp [match_pid, hx] at this

/-- The changes of a kernel state that keep both invariants whatever the running process
does next: the queues lose elements, the Suspend Queue changes freely, and fields other than
priority, name, pid and delay time are written. -/
theorem Inv_suspend_flag (w : Bool) (k : Kernel) (p : Nat) (flag : Bool) (ha : InvA k) :
    InvA { k with heap := store k.heap p (fun d => { d with suspend := flag }) } ∧
    (InvB w k →
      InvB w { k with heap := store k.heap p (fun d => { d with suspend := flag }) }) :=
  ⟨InvA_store k p _ (fun _ => ⟨rfl, rfl⟩) ha,
    fun hb => InvB_store w k p _ (fun _ => rfl) (fun _ _ => rfl) hb⟩

theorem Inv_os_suspend_process (w : Bool) (k k' : Kernel) (pid error : Int) (ha : InvA k)
    (h : os_suspend_process k pid = .ok (k', error)) :
    InvA k' ∧ (InvB w k → InvB w k') := by
  unfold os_suspend_process at h
  split at h
  · simp only [Except.ok.injEq, Prod.mk.injEq] at h
    rw [← h.1]; exact ⟨ha, id⟩
  · split at h
    · simp only [Except.ok.injEq, Prod.mk.injEq] at h
      rw [← h.1]; exact ⟨ha, id⟩
    · split at h
      · cases h
      · rename_i cur hcur
        split at h
        · simp only [Except.ok.injEq, Prod.mk.injEq] at h
          rw [← h.1]; exact ⟨ha, id⟩
        · split at h
          · simp only [Except.ok.injEq, Prod.mk.injEq] at h
            rw [← h.1]; exact ⟨ha, id⟩
          · rename_i target htarget
            have htl : target < k.heap.length := ha.table_alloc _ _ htarget
            split at h
            · simp only [Except.ok.injEq, Prod.mk.injEq] at h
              rw [← h.1]; exact ⟨ha, id⟩
            · split at h
              · cases h
              · simp only [Except.ok.injEq, Prod.mk.injEq] at h
                rw [← h.1]
                exact Inv_suspend_flag w k target true ha
              · split at h
                · cases h
                · rename_i element hfind
                  split at h
                  · cases h
                  · rename_i q pcb hrem
                    obtain ⟨hsub, hmem⟩ := list_remove_element_sublist _ _ _ _ hrem
                    dsimp only at h
                    split at h
                    · cases h
                    · simp only [Except.ok.injEq, Prod.mk.injEq] at h
                      rw [← h.1]
                      have ha1 := InvA_add_suspend { k with ReadyQueue := q } (some pcb)
                        (by
                          intro x hx
                          simp only [Option.some.injEq] at hx
                          subst hx
                          exact ha.ready_alloc _ hmem)
                        (InvA_ready_sublist k q hsub ha)
                      refine ⟨(Inv_suspend_flag w _ target true ha1).1, fun hb => ?_⟩
                      exact (Inv_suspend_flag w _ target true ha1).2
                        (InvB_add_suspend w _ (some pcb) (InvB_ready_sublist w k q hsub hb))
                · dsimp only at h
                  split at h
                  · cases h
                  · simp only [Except.ok.injEq, Prod.mk.injEq] at h
                    rw [← h.1]
                    have ha1 := InvA_add_suspend k (some target)
                      (by
                        intro x hx
                        simp only [Option.some.injEq] at hx
                        subst hx
                        exact htl)
                      ha
                    refine ⟨(Inv_suspend_flag w _ target true ha1).1, fun hb => ?_⟩
                    exact (Inv_suspend_flag w _ target true ha1).2
                      (InvB_add_suspend w _ (some target) hb)

theorem slot_pid_eq (pid : Int) (h : ¬ (pid < -1 ∨ pid ≥ (MAX_NUMBER_OF_USER_PROCESSES : Nat)))
    (h1 : ¬ pid = -1) : pid.toNat < MAX_NUMBER_OF_USER_PROCESSES ∧ (pid.toNat : Int) = pid := by
  have h0 : 0 ≤ pid := by omega
  have h2 : (pid.toNat : Int) = pid := Int.toNat_of_nonneg h0
  refine ⟨?_, h2⟩
  have : (pid.toNat : Int) < (MAX_NUMBER_OF_USER_PROCESSES : Nat) := by omega
  exact_mod_cast this

theorem Inv_os_resume_process (w : Bool) (k k' : Kernel) (pid error : Int) (ha : InvA k)
    (h : os_resume_process k pid = .ok (k', error)) :
    InvA k' ∧ (InvB w k → InvB w k') := by
  unfold os_resume_process at h
  split at h
  · simp only [Except.ok.injEq, Prod.mk.injEq] at h
    rw [← h.1]; exact ⟨ha, id⟩
  · rename_i hrange
    split at h
    · simp only [Except.ok.injEq, Prod.mk.injEq] at h
      rw [← h.1]; exact ⟨ha, id⟩
    · rename_i hneg
      obtain ⟨hslot, hpid⟩ := slot_pid_eq pid hrange hneg
      split at h
      · cases h
      · rename_i cur hcur
        split at h
        · simp only [Except.ok.injEq, Prod.mk.injEq] at h
          rw [← h.1]; exact ⟨ha, id⟩
        · split at h
          · simp only [Except.ok.injEq, Prod.mk.injEq] at h
            rw [← h.1]; exact ⟨ha, id⟩
          · rename_i target htarget
            have htl : target < k.heap.length := ha.table_alloc _ _ htarget
            split at h
            · split at h
              · cases h
              · simp only [Except.ok.injEq, Prod.mk.injEq] at h
                rw [← h.1]
                exact Inv_suspend_flag w k target false ha
              · rename_i hnotimer
                split at h
                · cases h
                · rename_i element hfind
                  obtain ⟨_, hfe⟩ := find_from_queue_by_condition_ok _ _ _ _ hfind
                  split at h
                  · cases h
                  · rename_i q pcb hrem
                    obtain ⟨hsub, hmem⟩ := list_remove_element_sublist _ _ _ _ hrem
                    obtain ⟨i, hi, _, hget⟩ := list_remove_element_some _ _ _ _ hrem
                    simp only [Option.some.injEq] at hi
                    subst hi
                    obtain ⟨x, hx, hxd, _⟩ := list_find_element_some _ _ _ _ hfe.symm
                    have hxp : x = pcb := by
                      rw [hget] at hx
                      simpa using hx.symm
                    subst hxp
                    have hpp : (deref k.heap x).pid = pid := by
                      simpa [match_pid] using hxd
                    dsimp only at h
                    split at h
                    · cases h
                    · simp only [Except.ok.injEq, Prod.mk.injEq] at h
                      rw [← h.1]
                      have ha1 := InvA_add_ready { k with SuspendQueue := q } (some x)
                        (by
                          intro y hy
                          simp only [Option.some.injEq] at hy
                          subst hy
                          exact ha.suspend_alloc _ hmem)
                        (InvA_suspend k q (fun y hy => ha.suspend_alloc y (hsub.subset hy)) ha)
                      refine ⟨(Inv_suspend_flag w _ target false ha1).1, fun hb => ?_⟩
                      exact (Inv_suspend_flag w _ target false ha1).2
                        (InvB_add_ready w _ (some x)
                          (by
                            intro y hy
                            simp only [Option.some.injEq] at hy
                            subst hy
                            exact not_in_queue_of_find_none _ _ _ _ hnotimer hpp)
                          (InvB_suspend w k q hb))
                · dsimp only at h
                  split at h
                  · cases h
                  · simp only [Except.ok.injEq, Prod.mk.injEq] at h
                    rw [← h.1]
                    have ha1 := InvA_add_ready k (some target)
                      (by
                        intro x hx
                        simp only [Option.some.injEq] at hx
                        subst hx
                        exact htl)
                      ha
                    refine ⟨(Inv_suspend_flag w _ target false ha1).1, fun hb => ?_⟩
                    exact (Inv_suspend_flag w _ target false ha1).2
                      (InvB_add_ready w _ (some target)
                        (by
                          intro y hy
                          simp only [Option.some.injEq] at hy
                          subst hy
                          apply not_in_queue_of_find_none _ _ _ _ hnotimer
                          rw [hb.table_pid _ _ hslot htarget, hpid])
                        hb)
            · simp only [Except.ok.injEq, Prod.mk.injEq] at h
              rw [← h.1]; exact ⟨ha, id⟩

/-- Writing a priority and sorting the Ready Queue by priority. -/
theorem Inv_priority_sort (w : Bool) (k : Kernel) (p : Nat) (priority : Int) (ha : InvA k) :
    InvA { k with
      heap := store k.heap p (fun d => { d with priority := priority }),
      ReadyQueue := list_sort k.ReadyQueue
        (compare_priority (store k.heap p (fun d => { d with priority := priority })))
        Order.ASCENDING } ∧
    (InvB w k → InvB w { k with
      heap := store k.heap p (fun d => { d with priority := priority }),
      ReadyQueue := list_sort k.ReadyQueue
        (compare_priority (store k.heap p (fun d => { d with priority := priority })))
        Order.ASCENDING }) := by
  obtain ⟨hperm, hsorted⟩ := list_sort_spec
    (fun a => (deref (store k.heap p (fun d => { d with priority := priority })) a).priority)
    (compare_priority (store k.heap p (fun d => { d with priority := priority })))
    (compare_priority_pos _) k.ReadyQueue
  have hd : ∀ q, (deref (store k.heap p (fun d => { d with priority := priority })) q).pid
        = (deref k.heap q).pid ∧
      (deref (store k.heap p (fun d => { d with priority := priority })) q).process_name
        = (deref k.heap q).process_name ∧
      (deref (store k.heap p (fun d => { d with priority := priority })) q).delay_time
        = (deref k.heap q).delay_time := by
    intro q
    rw [deref_store]
    split_ifs with h
    · rw [← h.1]; exact ⟨rfl, rfl, rfl⟩
    · exact ⟨rfl, rfl, rfl⟩
  constructor
  · exact
      { ready_alloc := by
          intro y hy
          simp only [length_store]
          exact ha.ready_alloc y (hperm.mem_iff.mp hy)
        timer_alloc := by simpa [length_store] using ha.timer_alloc
        suspend_alloc := by simpa [length_store] using ha.suspend_alloc
        table_alloc := by simpa [length_store] using ha.table_alloc
        current_alloc := by simpa [length_store] using ha.current_alloc
        sorted := hsorted
        names := by
          have := ha.names
          unfold names_distinct at this ⊢
          simpa [hd] using this }
  · intro hb
    exact
      { table_pid := by
          intro i q hi hq
          rw [(hd q).1]
          exact hb.table_pid i q hi hq
        ready_nodup := hperm.nodup_iff.mpr hb.ready_nodup
        timer_nodup := hb.timer_nodup
        disjoint := fun y hy => hb.disjoint y (hperm.mem_iff.mp hy)
        current_not_timer := hb.current_not_timer
        sorted := by
          have := hb.sorted
          unfold timer_sorted delay_time_of at this ⊢
          simpa [hd] using this }

theorem Inv_os_change_priority (w : Bool) (k k' : Kernel) (pid priority error : Int)
    (ha : InvA k) (h : os_change_priority k pid priority = .ok (k', error)) :
    InvA k' ∧ (InvB w k → InvB w k') := by
  unfold os_change_priority at h
  split at h
  · simp only [Except.ok.injEq, Prod.mk.injEq] at h
    rw [← h.1]; exact ⟨ha, id⟩
  · split at h
    · simp only [Except.ok.injEq, Prod.mk.injEq] at h
      rw [← h.1]; exact ⟨ha, id⟩
    · split at h
      · cases h
      · rename_i cur hcur
        split at h
        · simp only [Except.ok.injEq, Prod.mk.injEq] at h
          rw [← h.1]
          exact Inv_priority_sort w k cur priority ha
        · split at h
          · simp only [Except.ok.injEq, Prod.mk.injEq] at h
            rw [← h.1]; exact ⟨ha, id⟩
          · rename_i target htarget
            simp only [Except.ok.injEq, Prod.mk.injEq] at h
            rw [← h.1]
            exact Inv_priority_sort w k target priority ha

theorem InvA_disk_request (k k' : Kernel) (action pending disk_id sector : Int)
    (buffer disk_data : Nat) (status : DeviceStatus) (d : Bool) (ha : InvA k)
    (h : disk_request k action pending disk_id sector buffer disk_data status
      = .ok (k', d)) : InvA k' := by
  have key : ∀ (X : Kernel) (f : PCB → PCB) (cur : Nat), cur < X.heap.length → InvA X →
      (∀ d, (f d).priority = d.priority ∧ (f d).process_name = d.process_name) →
      InvA { (add_to_suspend_queue { X with heap := store X.heap cur f } (some cur)).1 with
        heap := store (add_to_suspend_queue { X with heap := store X.heap cur f }
          (some cur)).1.heap cur (fun d => { d with suspend := true }) } := by
    intro X f cur hcl hX hf
    refine InvA_store _ cur (fun d => { d with suspend := true }) (fun _ => ⟨rfl, rfl⟩) ?_
    refine InvA_add_suspend _ (some cur) ?_ (InvA_store X cur f hf hX)
    intro x hx
    simp only [Option.some.injEq] at hx
    subst hx
    simp only [length_store]
    exact hcl
  unfold disk_request at h
  split at h
  · cases h
  · rename_i cur hcur
    have hcl : cur < k.heap.length := ha.current_alloc cur hcur
    split at h
    · dsimp only at h
      split at h
      · cases h
      · simp only [Except.ok.injEq, Prod.mk.injEq] at h
        rw [← h.1]
        exact key { k with hw := HwCall.disk_start disk_id sector buffer action :: k.hw } _ cur
          hcl (InvA_hw k _ ha) (fun _ => ⟨rfl, rfl⟩)
    · dsimp only at h
      split at h
      · cases h
      · simp only [Except.ok.injEq, Prod.mk.injEq] at h
        rw [← h.1]
        exact key k _ cur hcl ha (fun _ => ⟨rfl, rfl⟩)
    · simp only [Except.ok.injEq, Prod.mk.injEq] at h
      rw [← h.1]; exact ha

theorem InvA_reissue (k : Kernel) (pcb : Nat) (action issued : Int) (status : DeviceStatus)
    (hp : pcb < k.heap.length) (ha : InvA k) : InvA (reissue k pcb action issued status) := by
  have key : ∀ (X : Kernel), pcb < X.heap.length → InvA X →
      InvA { (enqueue_suspend_queue_reversly X (some pcb)).1 with
        heap := store (enqueue_suspend_queue_reversly X (some pcb)).1.heap pcb
          (fun d => { d with suspend := true }) } := by
    intro X hX haX
    refine InvA_store _ pcb (fun d => { d with suspend := true }) (fun _ => ⟨rfl, rfl⟩) ?_
    unfold enqueue_suspend_queue_reversly list_insert_next
    refine InvA_suspend X _ ?_ haX
    intro x hx
    rcases List.mem_cons.mp hx with h | h
    · subst h; exact hX
    · exact haX.suspend_alloc x h
  unfold reissue
  by_cases hs : status = DeviceStatus.DEVICE_FREE
  · simp only [hs, if_true]
    exact key _ (by simp only [length_store]; exact hp)
      (InvA_store
        { k with
          hw := HwCall.disk_start (deref k.heap pcb).disk (deref k.heap pcb).sector
            (deref k.heap pcb).disk_data action :: k.hw }
        pcb (fun d => { d with operation := issued })
        (fun _ => ⟨rfl, rfl⟩) (InvA_hw k _ ha))
  · simp only [hs, if_false]
    exact key k hp ha

theorem InvA_read_write_scheduler (k k' : Kernel) (device_id : Int) (status : DeviceStatus)
    (ha : InvA k) (h : read_write_scheduler k device_id status = .ok k') : InvA k' := by
  unfold read_write_scheduler at h
  dsimp only at h
  split at h
  · cases h
  · rename_i disk_id hdisk
    split at h
    · cases h
    · rename_i k1 hrem
      simp only [Except.ok.injEq] at h
      subst h
      unfold remove_from_suspend_queue_by_disk_id at hrem
      split at hrem
      · cases hrem
      · simp only [Except.ok.injEq, Prod.mk.injEq] at hrem
        rw [← hrem.1]; exact ha
      · split at hrem
        · cases hrem
        · simp only [Except.ok.injEq, Prod.mk.injEq] at hrem
          cases hrem.2
    · rename_i k1 pcb hrem
      have hk1 : InvA k1 ∧ pcb < k1.heap.length := by
        unfold remove_from_suspend_queue_by_disk_id at hrem
        split at hrem
        · cases hrem
        · simp only [Except.ok.injEq, Prod.mk.injEq] at hrem
          cases hrem.2
        · split at hrem
          · cases hrem
          · rename_i q x hre
            obtain ⟨hsub, hmem⟩ := list_remove_element_sublist _ _ _ _ hre
            simp only [Except.ok.injEq, Prod.mk.injEq, Option.some.injEq] at hrem
            rw [← hrem.1, ← hrem.2]
            exact ⟨InvA_suspend k q (fun y hy => ha.suspend_alloc y (hsub.subset hy)) ha,
              ha.suspend_alloc x hmem⟩
      split at h
      · simp only [Except.ok.injEq] at h
        subst h
        exact InvA_reissue k1 pcb _ _ status hk1.2 hk1.1
      · split at h
        · simp only [Except.ok.injEq] at h
          subst h
          exact InvA_reissue k1 pcb _ _ status hk1.2 hk1.1
        · simp only [Except.ok.injEq] at h
          subst h
          refine InvA_store _ pcb (fun d => { d with suspend := false })
            (fun _ => ⟨rfl, rfl⟩) ?_
          refine InvA_add_ready k1 (some pcb) ?_ hk1.1
          intro x hx
          simp only [Option.some.injEq] at hx
          subst hx
          exact hk1.2

/-- Every state the kernel reaches satisfies the invariant of all steps. -/
theorem reachable_InvA (disk waiting : Bool) (k : Kernel) (h : Reachable disk waiting k) :
    InvA k := by
  induction h with
  | init => exact InvA_init
  | boot entry_point next_context raw k h => exact InvA_osInit _ _ _ _ h
  | create k k' name start_point priority next_context raw pcb error _ h ih =>
    exact (InvA_os_create_process _ _ _ _ _ _ _ _ _ ih h).1
  | get_pid k k' name pid error _ h ih =>
    unfold os_get_process_id at h
    split at h
    · simp only [Except.ok.injEq, Prod.mk.injEq] at h; rw [← h.1]; exact ih
    · split at h
      · cases h
      · split at h
        · simp only [Except.ok.injEq, Prod.mk.injEq] at h; rw [← h.1]; exact ih
        · split at h
          · split at h
            · simp only [Except.ok.injEq, Prod.mk.injEq] at h; rw [← h.1]; exact ih
            · simp only [Except.ok.injEq, Prod.mk.injEq] at h; rw [← h.1]; exact ih
          · simp only [Except.ok.injEq, Prod.mk.injEq] at h; rw [← h.1]; exact ih
  | sleep k k' sleep_time time_now status result0 _ h ih =>
    exact InvA_os_process_sleep _ _ _ _ _ _ ih h
  | dispatch k k' _ h ih => exact InvA_os_dispatcher _ _ ih h
  | terminate k k' pid time_now error _ h ih =>
    exact InvA_os_terminate_process _ _ _ _ _ ih h
  | suspend k k' pid error _ h ih => exact (Inv_os_suspend_process false _ _ _ _ ih h).1
  | resume k k' pid error _ h ih => exact (Inv_os_resume_process false _ _ _ _ ih h).1
  | change_priority k k' pid priority error _ h ih =>
    exact (Inv_os_change_priority false _ _ _ _ _ ih h).1
  | timer_interrupt waiting k k' clock _ h ih => exact InvA_os_make_ready_to_run _ _ _ ih h
  | disk_write k k' disk_id sector buffer copy status dispatch _ _ h ih =>
    exact InvA_disk_request _ _ _ _ _ _ _ _ _ _ ih h
  | disk_read k k' disk_id sector buffer status dispatch _ _ h ih =>
    exact InvA_disk_request _ _ _ _ _ _ _ _ _ _ ih h
  | disk_interrupt waiting k k' device_id status _ _ h ih =>
    exact InvA_read_write_scheduler _ _ _ _ ih h

theorem os_get_process_id_state (k k' : Kernel) (name : String) (pid error : Int)
    (h : os_get_process_id k name = .ok (k', pid, error)) : k' = k := by
  unfold os_get_process_id at h
  split at h
  · simp only [Except.ok.injEq, Prod.mk.injEq] at h; exact h.1.symm
  · split at h
    · cases h
    · split at h
      · simp only [Except.ok.injEq, Prod.mk.injEq] at h; exact h.1.symm
      · split at h
        · split at h
          · simp only [Except.ok.injEq, Prod.mk.injEq] at h; exact h.1.symm
          · simp only [Except.ok.injEq, Prod.mk.injEq] at h; exact h.1.symm
        · simp only [Except.ok.injEq, Prod.mk.injEq] at h; exact h.1.symm

/-- Every state reached without disk requests satisfies the second invariant. -/
theorem reachable_InvB (waiting : Bool) (k : Kernel) (h : Reachable false waiting k) :
    InvB waiting k := by
  induction h with
  | init => exact InvB_init
  | boot entry_point next_context raw k h => exact InvB_osInit _ _ _ _ h
  | create k k' name start_point priority next_context raw pcb error hr h ih =>
    exact (InvB_os_create_process false _ _ _ _ _ _ _ _ _
      (reachable_InvA false false k hr) ih h).1
  | get_pid k k' name pid error _ h ih =>
    rw [os_get_process_id_state k k' name pid error h]; exact ih
  | sleep k k' sleep_time time_now status result0 _ h ih =>
    exact InvB_os_process_sleep _ _ _ _ _ _ ih h
  | dispatch k k' _ h ih => exact InvB_os_dispatcher true _ _ ih h
  | terminate k k' pid time_now error _ h ih =>
    exact InvB_os_terminate_process _ _ _ _ _ ih h
  | suspend k k' pid error hr h ih =>
    exact (Inv_os_suspend_process false _ _ _ _ (reachable_InvA false false k hr) h).2 ih
  | resume k k' pid error hr h ih =>
    exact (Inv_os_resume_process false _ _ _ _ (reachable_InvA false false k hr) h).2 ih
  | change_priority k k' pid priority error hr h ih =>
    exact (Inv_os_change_priority false _ _ _ _ _ (reachable_InvA false false k hr) h).2 ih
  | timer_interrupt waiting k k' clock _ h ih =>
    exact InvB_os_make_ready_to_run _ _ _ _ ih h
  | disk_write k k' disk_id sector buffer copy status dispatch hd _ _ _ => cases hd
  | disk_read k k' disk_id sector buffer status dispatch hd _ _ _ => cases hd
  | disk_interrupt waiting k k' device_id status hd _ _ _ => cases hd

/-! ### C4, C8, C9, C10: the invariants of the reachable states -/

theorem reachable_boot_kernel (disk : Bool) : Reachable disk false boot_kernel :=
  Reachable.boot 1 1 default boot_kernel rfl

theorem reachable_child_created_kernel (disk : Bool) :
    Reachable disk false child_created_kernel :=
  Reachable.create boot_kernel child_created_kernel "child" 1 5 1 default (some 1) ERR_SUCCESS
    (reachable_boot_kernel disk) rfl

theorem live_names_nodup (k : Kernel) (h : names_distinct k) : (live_names k).Nodup := by
  unfold live_names
  have hr : (List.range MAX_NUMBER_OF_USER_PROCESSES).Pairwise
      (fun i j => i ≠ j ∧ i < MAX_NUMBER_OF_USER_PROCESSES ∧
        j < MAX_NUMBER_OF_USER_PROCESSES) := by
    have hnd := List.nodup_range MAX_NUMBER_OF_USER_PROCESSES
    unfold List.Nodup at hnd
    exact hnd.imp_of_mem (fun {a b} ha hb hab =>
      ⟨hab, List.mem_range.mp ha, List.mem_range.mp hb⟩)
  refine List.Pairwise.filterMap _ ?_ hr
  intro i j hij x hx y hy
  simp only [Option.mem_def, Option.map_eq_some'] at hx hy
  obtain ⟨a, ha, hxa⟩ := hx
  obtain ⟨b, hb, hyb⟩ := hy
  rw [← hxa, ← hyb]
  exact h i j a b hij.2.1 hij.2.2 hij.1 ha hb

/-- C4: in every state the kernel reaches from the empty process table (by create and
terminate and by every other kernel step), the names of the live descriptors of the process
table are pairwise distinct. -/
theorem process_names_distinct (disk waiting : Bool) (k : Kernel)
    (h : Reachable disk waiting k) : names_distinct k ∧ (live_names k).Nodup :=
  ⟨(reachable_InvA disk waiting k h).names,
    live_names_nodup k (reachable_InvA disk waiting k h).names⟩

/-- C4, at an instance: the state after boot and one create. -/
theorem process_names_distinct_witness :
    Reachable true false child_created_kernel ∧
    live_names child_created_kernel = ["initial_process", "child"] ∧
    (live_names child_created_kernel).Nodup :=
  ⟨reachable_child_created_kernel true, by decide,
    (process_names_distinct true false child_created_kernel
      (reachable_child_created_kernel true)).2⟩

/-- C8: in every state the kernel reaches from boot by create, sleep, dispatch, suspend,
resume, change_priority, terminate, disk requests and timer and disk interrupts, the
priorities of the descriptors in the Ready Queue do not decrease from head to tail. -/
theorem ready_queue_priority_order (disk waiting : Bool) (k : Kernel)
    (h : Reachable disk waiting k) : ready_sorted k :=
  (reachable_InvA disk waiting k h).sorted

/-- C8, at an instance: after boot and the create of a child of priority 5 the Ready Queue
holds the child before the initial process (priority 8). -/
theorem ready_queue_priority_order_witness :
    Reachable true false child_created_kernel ∧
    child_created_kernel.ReadyQueue.map (priority_of child_created_kernel) = [5, 8] ∧
    ready_sorted child_created_kernel :=
  ⟨reachable_child_created_kernel true, by decide,
    ready_queue_priority_order true false child_created_kernel
      (reachable_child_created_kernel true)⟩

/-- C9: in every state the kernel reaches from boot by sleep, dispatch, timer interrupts,
suspend, resume, terminate, create, get_pid and change_priority (the steps without disk
requests), the delay times of the descriptors in the Timer Queue do not decrease from head
to tail. -/
theorem timer_queue_wake_order (waiting : Bool) (k : Kernel)
    (h : Reachable false waiting k) : timer_sorted k :=
  (reachable_InvB waiting k h).sorted

theorem reachable_two_sleepers_kernel : Reachable false true two_sleepers_kernel :=
  Reachable.sleep _ two_sleepers_kernel 3 6 DeviceStatus.DEVICE_IN_USE 1
    (Reachable.dispatch _ _
      (Reachable.sleep child_created_kernel _ 10 5 DeviceStatus.DEVICE_FREE 1
        (reachable_child_created_kernel false) rfl)
      rfl)
    rfl

/-- C9, at an instance: the initial process sleeps until 15, then the child until 9; the
Timer Queue holds the child before the initial process. -/
theorem timer_queue_wake_order_witness :
    Reachable false true two_sleepers_kernel ∧
    two_sleepers_kernel.TimerQueue.map (delay_time_of two_sleepers_kernel) = [9, 15] ∧
    timer_sorted two_sleepers_kernel :=
  ⟨reachable_two_sleepers_kernel, by decide,
    timer_queue_wake_order true two_sleepers_kernel reachable_two_sleepers_kernel⟩

/-- C10, the code at the failing input: after boot the initial process (pid 0, address 0)
creates a child of priority 5 and writes to the free disk 1; the write puts it into the
Suspend Queue while it still is in the Ready Queue from its creation, and the dispatcher
takes the child from the head of the Ready Queue. In the state reached the live descriptor
of pid 0 is in the Ready Queue and in the Suspend Queue. -/
theorem root_in_ready_and_suspend_queue :
    Reachable true false child_dispatched_kernel ∧
    os_disk_write child_created_kernel 1 0 7 9 DeviceStatus.DEVICE_FREE
      = .ok child_dispatched_kernel ∧
    child_dispatched_kernel.ProcessTable 0 = some 0 ∧
    child_dispatched_kernel.CurrentPCB = some 1 ∧
    child_dispatched_kernel.ReadyQueue = [0] ∧
    child_dispatched_kernel.SuspendQueue = [0] ∧
    ¬ at_most_one_queue child_dispatched_kernel := by
  refine ⟨?_, rfl, rfl, rfl, rfl, rfl, ?_⟩
  · exact Reachable.dispatch root_disk_wait_kernel child_dispatched_kernel
      (Reachable.disk_write child_created_kernel root_disk_wait_kernel 1 0 7 9
        DeviceStatus.DEVICE_FREE true rfl (reachable_child_created_kernel true) rfl)
      rfl
  · intro h
    exact (h 0 (by decide) 0 rfl).2.1 ⟨by decide, by decide⟩

/-! ### C11: suspend and resume reject a bad target -/

/-- C11: suspend and resume return DoesNotExist (13) for a pid below -1 or from 15 on, and for
a pid in [0, 15) that is not the caller's and whose slot of the process table is empty; for
pid = -1 and for the pid of the current process suspend returns SuspendSelf (14) and resume
returns ResumeSelf (16). Each of these calls returns the state it was given: no suspended
flag and no queue is changed. -/
theorem suspend_resume_reject (k : Kernel) (pid : Int) :
    ((pid < -1 ∨ MAX_NUMBER_OF_USER_PROCESSES ≤ pid) →
      os_suspend_process k pid = .ok (k, ERR_PROCESS_DOESNT_EXIST) ∧
      os_resume_process k pid = .ok (k, ERR_PROCESS_DOESNT_EXIST)) ∧
    (pid = -1 →
      os_suspend_process k pid = .ok (k, ERR_SUSPEND_SELF) ∧
      os_resume_process k pid = .ok (k, ERR_RESUME_SELF)) ∧
    (∀ cur, k.CurrentPCB = some cur →
      (pid = (deref k.heap cur).pid → 0 ≤ pid → pid < MAX_NUMBER_OF_USER_PROCESSES →
        os_suspend_process k pid = .ok (k, ERR_SUSPEND_SELF) ∧
        os_resume_process k pid = .ok (k, ERR_RESUME_SELF)) ∧
      (pid ≠ (deref k.heap cur).pid → 0 ≤ pid → pid < MAX_NUMBER_OF_USER_PROCESSES →
        k.ProcessTable pid.toNat = none →
        os_suspend_process k pid = .ok (k, ERR_PROCESS_DOESNT_EXIST) ∧
        os_resume_process k pid = .ok (k, ERR_PROCESS_DOESNT_EXIST))) := by
  refine ⟨?_, ?_, ?_⟩
  · intro h
    have h' : pid < -1 ∨ pid ≥ (MAX_NUMBER_OF_USER_PROCESSES : Int) := h
    simp only [os_suspend_process, os_resume_process, if_pos h', and_self]
  · intro h
    subst h
    have h' : ¬ ((-1 : Int) < -1 ∨ (-1 : Int) ≥ (MAX_NUMBER_OF_USER_PROCESSES : Int)) := by
      decide
    simp only [os_suspend_process, os_resume_process, if_neg h', if_true, and_self]
  · intro cur hcur
    refine ⟨?_, ?_⟩
    · intro hp h0 h15
      have h' : ¬ (pid < -1 ∨ pid ≥ (MAX_NUMBER_OF_USER_PROCESSES : Int)) := by
        intro h; rcases h with h | h <;> omega
      have h1 : pid ≠ -1 := by omega
      simp only [os_suspend_process, os_resume_process, if_neg h', if_neg h1, hcur, if_pos hp,
        and_self]
    · intro hp h0 h15 hslot
      have h' : ¬ (pid < -1 ∨ pid ≥ (MAX_NUMBER_OF_USER_PROCESSES : Int)) := by
        intro h; rcases h with h | h <;> omega
      have h1 : pid ≠ -1 := by omega
      simp only [os_suspend_process, os_resume_process, if_neg h', if_neg h1, hcur, if_neg hp,
        hslot, and_self]

/-- C11, at an instance: in the state where the initial process (pid 0) has created one child
(pid 1), suspend and resume of pid 9999 and of the unused pid 7 return DoesNotExist, suspend
of -1 and of pid 0 return SuspendSelf, resume of -1 and of pid 0 return ResumeSelf, all
without a change of state. -/
theorem suspend_resume_reject_witness :
    os_suspend_process child_created_kernel 9999
      = .ok (child_created_kernel, ERR_PROCESS_DOESNT_EXIST) ∧
    os_resume_process child_created_kernel 9999
      = .ok (child_created_kernel, ERR_PROCESS_DOESNT_EXIST) ∧
    os_suspend_process child_created_kernel (-1) = .ok (child_created_kernel, ERR_SUSPEND_SELF) ∧
    os_resume_process child_created_kernel (-1) = .ok (child_created_kernel, ERR_RESUME_SELF) ∧
    os_suspend_process child_created_kernel 0 = .ok (child_created_kernel, ERR_SUSPEND_SELF) ∧
    os_resume_process child_created_kernel 0 = .ok (child_created_kernel, ERR_RESUME_SELF) ∧
    os_suspend_process child_created_kernel 7
      = .ok (child_created_kernel, ERR_PROCESS_DOESNT_EXIST) ∧
    os_resume_process child_created_kernel 7
      = .ok (child_created_kernel, ERR_PROCESS_DOESNT_EXIST) :=
  ⟨((suspend_resume_reject child_created_kernel 9999).1 (by decide)).1,
   ((suspend_resume_reject child_created_kernel 9999).1 (by decide)).2,
   ((suspend_resume_reject child_created_kernel (-1)).2.1 rfl).1,
   ((suspend_resume_reject child_created_kernel (-1)).2.1 rfl).2,
   (((suspend_resume_reject child_created_kernel 0).2.2 0 rfl).1 (by decide) (by decide)
      (by decide)).1,
   (((suspend_resume_reject child_created_kernel 0).2.2 0 rfl).1 (by decide) (by decide)
      (by decide)).2,
   (((suspend_resume_reject child_created_kernel 7).2.2 0 rfl).2 (by decide) (by decide)
      (by decide) rfl).1,
   (((suspend_resume_reject child_created_kernel 7).2.2 0 rfl).2 (by decide) (by decide)
      (by decide) rfl).2⟩

/-! ### The results of suspend and resume -/

/-- When `t` is the only element of the list that matches, the search finds the place of `t`
and removing that element erases `t`. -/
theorem list_find_element_unique {α β : Type} [DecidableEq α] (equal : α → β → Bool) (d : β)
    (t : α) (ht : equal t d = true) (l : List α) (hmem : t ∈ l)
    (huniq : ∀ q ∈ l, equal q d = true → q = t) :
    ∃ i, list_find_element l equal d = some i ∧
      list_remove_element l (some i) = some (l.erase t, t) := by
  induction l with
  | nil => cases hmem
  | cons x rest ih =>
    by_cases hx : equal x d = true
    · have hxt : x = t := huniq x (List.mem_cons_self _ _) hx
      subst hxt
      refine ⟨0, ?_, ?_⟩
      · simp [list_find_element, hx]
      · simp [list_remove_element]
    · have hxt : x ≠ t := fun h => hx (h ▸ ht)
      have hmem' : t ∈ rest := by
        rcases List.mem_cons.1 hmem with h | h
        · exact absurd h.symm hxt
        · exact h
      obtain ⟨i, hi, hr⟩ := ih hmem' (fun q hq => huniq q (List.mem_cons_of_mem _ hq))
      refine ⟨i + 1, ?_, ?_⟩
      · simp [list_find_element, hx, hi]
      · simp only [list_remove_element, List.get?_eq_getElem?] at hr ⊢
        cases hg : rest[i]? with
        | none => simp [hg] at hr
        | some y =>
          simp only [hg, Option.some.injEq, Prod.mk.injEq] at hr
          have hbeq : (x == t) = false := by simpa using hxt
          simp [hg, List.eraseIdx_cons_succ, hr.1, hr.2, List.erase_cons, hbeq]

/-- The search by pid finds nothing when no descriptor of the queue carries the pid. -/
theorem find_from_queue_by_condition_none (heap : List PCB) (queue : List Nat) (pid : Int)
    (hpid : pid ≠ 0) (h : ∀ q ∈ queue, (deref heap q).pid ≠ pid) :
    find_from_queue_by_condition queue (match_pid heap) pid = .ok none := by
  have : list_find_element queue (match_pid heap) pid = none :=
    (list_find_element_none _ _ _).2 (fun x hx => by simpa [match_pid] using h x hx)
  simp [find_from_queue_by_condition, hpid, this]

/-- The search by pid finds an element when a descriptor of the queue carries the pid. -/
theorem find_from_queue_by_condition_some (heap : List PCB) (queue : List Nat) (pid : Int)
    (hpid : pid ≠ 0) (q : Nat) (hq : q ∈ queue) (h : (deref heap q).pid = pid) :
    ∃ i, find_from_queue_by_condition queue (match_pid heap) pid = .ok (some i) := by
  cases hf : list_find_element queue (match_pid heap) pid with
  | none =>
    have := (list_find_element_none _ _ _).1 hf q hq
    simp [match_pid, h] at this
  | some i => exact ⟨i, by simp [find_from_queue_by_condition, hpid, hf]⟩

/-- The suspend of a live process other than the caller whose descriptor waits in the Timer
Queue only sets the suspended flag. -/
theorem os_suspend_process_timer (k : Kernel) (pid : Int) (cur target q : Nat)
    (hcur : k.CurrentPCB = some cur) (hne : pid ≠ (deref k.heap cur).pid)
    (h0 : 0 < pid) (h15 : pid < MAX_NUMBER_OF_USER_PROCESSES)
    (htab : k.ProcessTable pid.toNat = some target)
    (hflag : (deref k.heap target).suspend = false)
    (hq : q ∈ k.TimerQueue) (hqp : (deref k.heap q).pid = pid) :
    os_suspend_process k pid =
      .ok ({ k with heap := store k.heap target (fun d => { d with suspend := true }) },
           ERR_SUCCESS) := by
  have h' : ¬ (pid < -1 ∨ pid ≥ (MAX_NUMBER_OF_USER_PROCESSES : Int)) := by
    intro h; rcases h with h | h <;> omega
  have h1 : pid ≠ -1 := by omega
  obtain ⟨i, hi⟩ := find_from_queue_by_condition_some k.heap k.TimerQueue pid (by omega) q hq hqp
  simp only [os_suspend_process, if_neg h', if_neg h1, hcur, if_neg hne, htab, hflag, hi]
  rfl

/-- The suspend of a live process other than the caller whose descriptor is in the Ready
Queue and not in the Timer Queue takes the descriptor out of the Ready Queue, appends it to
the Suspend Queue (when it is not there already) and sets the suspended flag. -/
theorem os_suspend_process_ready (k : Kernel) (pid : Int) (cur target : Nat)
    (hcur : k.CurrentPCB = some cur) (hne : pid ≠ (deref k.heap cur).pid)
    (h0 : 0 < pid) (h15 : pid < MAX_NUMBER_OF_USER_PROCESSES)
    (htab : k.ProcessTable pid.toNat = some target)
    (hflag : (deref k.heap target).suspend = false)
    (htp : (deref k.heap target).pid = pid)
    (hnt : ∀ q ∈ k.TimerQueue, (deref k.heap q).pid ≠ pid)
    (hr : target ∈ k.ReadyQueue)
    (huniq : ∀ q ∈ k.ReadyQueue, (deref k.heap q).pid = pid → q = target) :
    os_suspend_process k pid =
      .ok ({ k with
              heap := store k.heap target (fun d => { d with suspend := true }),
              ReadyQueue := k.ReadyQueue.erase target,
              SuspendQueue :=
                if target ∈ k.SuspendQueue then k.SuspendQueue
                else k.SuspendQueue ++ [target] },
           ERR_SUCCESS) := by
  have h' : ¬ (pid < -1 ∨ pid ≥ (MAX_NUMBER_OF_USER_PROCESSES : Int)) := by
    intro h; rcases h with h | h <;> omega
  have h1 : pid ≠ -1 := by omega
  have hp0 : pid ≠ 0 := by omega
  have ht := find_from_queue_by_condition_none k.heap k.TimerQueue pid hp0 hnt
  obtain ⟨i, hi, hrem⟩ := list_find_element_unique (match_pid k.heap) pid target
    (by simp [match_pid, htp]) k.ReadyQueue hr
    (fun q hq hm => huniq q hq (by simpa [match_pid] using hm))
  have hfr : find_from_queue_by_condition k.ReadyQueue (match_pid k.heap) pid = .ok (some i) := by
    simp [find_from_queue_by_condition, hp0, hi]
  simp only [os_suspend_process, if_neg h', if_neg h1, hcur, if_neg hne, htab, hflag, ht, hfr,
    hrem, add_to_suspend_queue, list_contains_match_pcb, queue_enqueue_eq]
  by_cases hs : target ∈ k.SuspendQueue
  · simp [hs]
  · simp [hs]

/-- The suspend of a live process other than the caller whose descriptor is neither in the
Timer Queue nor in the Ready Queue appends the descriptor to the Suspend Queue (when it is
not there already) and sets the suspended flag. -/
theorem os_suspend_process_other (k : Kernel) (pid : Int) (cur target : Nat)
    (hcur : k.CurrentPCB = some cur) (hne : pid ≠ (deref k.heap cur).pid)
    (h0 : 0 < pid) (h15 : pid < MAX_NUMBER_OF_USER_PROCESSES)
    (htab : k.ProcessTable pid.toNat = some target)
    (hflag : (deref k.heap target).suspend = false)
    (hnt : ∀ q ∈ k.TimerQueue, (deref k.heap q).pid ≠ pid)
    (hnr : ∀ q ∈ k.ReadyQueue, (deref k.heap q).pid ≠ pid) :
    os_suspend_process k pid =
      .ok ({ k with
              heap := store k.heap target (fun d => { d with suspend := true }),
              SuspendQueue :=
                if target ∈ k.SuspendQueue then k.SuspendQueue
                else k.SuspendQueue ++ [target] },
           ERR_SUCCESS) := by
  have h' : ¬ (pid < -1 ∨ pid ≥ (MAX_NUMBER_OF_USER_PROCESSES : Int)) := by
    intro h; rcases h with h | h <;> omega
  have h1 : pid ≠ -1 := by omega
  have hp0 : pid ≠ 0 := by omega
  have ht := find_from_queue_by_condition_none k.heap k.TimerQueue pid hp0 hnt
  have hfr := find_from_queue_by_condition_none k.heap k.ReadyQueue pid hp0 hnr
  simp only [os_suspend_process, if_neg h', if_neg h1, hcur, if_neg hne, htab, hflag, ht, hfr,
    add_to_suspend_queue, list_contains_match_pcb, queue_enqueue_eq]
  by_cases hs : target ∈ k.SuspendQueue
  · simp [hs, hcur]
  · simp [hs, hcur]

/-- The resume of a suspended process other than the caller whose descriptor waits in the
Timer Queue only clears the suspended flag. -/
theorem os_resume_process_timer (k : Kernel) (pid : Int) (cur target q : Nat)
    (hcur : k.CurrentPCB = some cur) (hne : pid ≠ (deref k.heap cur).pid)
    (h0 : 0 < pid) (h15 : pid < MAX_NUMBER_OF_USER_PROCESSES)
    (htab : k.ProcessTable pid.toNat = some target)
    (hflag : (deref k.heap target).suspend = true)
    (hq : q ∈ k.TimerQueue) (hqp : (deref k.heap q).pid = pid) :
    os_resume_process k pid =
      .ok ({ k with heap := store k.heap target (fun d => { d with suspend := false }) },
           ERR_SUCCESS) := by
  have h' : ¬ (pid < -1 ∨ pid ≥ (MAX_NUMBER_OF_USER_PROCESSES : Int)) := by
    intro h; rcases h with h | h <;> omega
  have h1 : pid ≠ -1 := by omega
  obtain ⟨i, hi⟩ := find_from_queue_by_condition_some k.heap k.TimerQueue pid (by omega) q hq hqp
  simp only [os_resume_process, if_neg h', if_neg h1, hcur, if_neg hne, htab, hflag, hi]
  rfl

/-- The resume of a suspended process other than the caller whose descriptor is in the
Suspend Queue and not in the Timer Queue takes the descriptor out of the Suspend Queue,
inserts it into the Ready Queue by priority (when it is not there already) and clears the
suspended flag. -/
theorem os_resume_process_suspend (k : Kernel) (pid : Int) (cur target : Nat)
    (hcur : k.CurrentPCB = some cur) (hne : pid ≠ (deref k.heap cur).pid)
    (h0 : 0 < pid) (h15 : pid < MAX_NUMBER_OF_USER_PROCESSES)
    (htab : k.ProcessTable pid.toNat = some target)
    (hflag : (deref k.heap target).suspend = true)
    (htp : (deref k.heap target).pid = pid)
    (hnt : ∀ q ∈ k.TimerQueue, (deref k.heap q).pid ≠ pid)
    (hs : target ∈ k.SuspendQueue)
    (huniq : ∀ q ∈ k.SuspendQueue, (deref k.heap q).pid = pid → q = target) :
    os_resume_process k pid =
      .ok ({ k with
              heap := store k.heap target (fun d => { d with suspend := false }),
              ReadyQueue :=
                if target ∈ k.ReadyQueue then k.ReadyQueue
                else list_insert_orderly k.ReadyQueue (compare_priority k.heap)
                  Order.ASCENDING target,
              SuspendQueue := k.SuspendQueue.erase target },
           ERR_SUCCESS) := by
  have h' : ¬ (pid < -1 ∨ pid ≥ (MAX_NUMBER_OF_USER_PROCESSES : Int)) := by
    intro h; rcases h with h | h <;> omega
  have h1 : pid ≠ -1 := by omega
  have hp0 : pid ≠ 0 := by omega
  have ht := find_from_queue_by_condition_none k.heap k.TimerQueue pid hp0 hnt
  obtain ⟨i, hi, hrem⟩ := list_find_element_unique (match_pid k.heap) pid target
    (by simp [match_pid, htp]) k.SuspendQueue hs
    (fun q hq hm => huniq q hq (by simpa [match_pid] using hm))
  have hfs : find_from_queue_by_condition k.SuspendQueue (match_pid k.heap) pid
      = .ok (some i) := by
    simp [find_from_queue_by_condition, hp0, hi]
  simp only [os_resume_process, if_neg h', if_neg h1, hcur, if_neg hne, htab, hflag, ht, hfs,
    hrem, add_to_ready_queue, list_contains_match_pcb]
  by_cases hr : target ∈ k.ReadyQueue
  · simp [hr, hcur]
  · simp [hr, hcur]

/-- The resume of a suspended process other than the caller whose descriptor is neither in
the Timer Queue nor in the Suspend Queue inserts the descriptor into the Ready Queue by
priority (when it is not there already) and clears the suspended flag. -/
theorem os_resume_process_other (k : Kernel) (pid : Int) (cur target : Nat)
    (hcur : k.CurrentPCB = some cur) (hne : pid ≠ (deref k.heap cur).pid)
    (h0 : 0 < pid) (h15 : pid < MAX_NUMBER_OF_USER_PROCESSES)
    (htab : k.ProcessTable pid.toNat = some target)
    (hflag : (deref k.heap target).suspend = true)
    (hnt : ∀ q ∈ k.TimerQueue, (deref k.heap q).pid ≠ pid)
    (hns : ∀ q ∈ k.SuspendQueue, (deref k.heap q).pid ≠ pid) :
    os_resume_process k pid =
      .ok ({ k with
              heap := store k.heap target (fun d => { d with suspend := false }),
              ReadyQueue :=
                if target ∈ k.ReadyQueue then k.ReadyQueue
                else list_insert_orderly k.ReadyQueue (compare_priority k.heap)
                  Order.ASCENDING target },
           ERR_SUCCESS) := by
  have h' : ¬ (pid < -1 ∨ pid ≥ (MAX_NUMBER_OF_USER_PROCESSES : Int)) := by
    intro h; rcases h with h | h <;> omega
  have h1 : pid ≠ -1 := by omega
  have hp0 : pid ≠ 0 := by omega
  have ht := find_from_queue_by_condition_none k.heap k.TimerQueue pid hp0 hnt
  have hfs := find_from_queue_by_condition_none k.heap k.SuspendQueue pid hp0 hns
  simp only [os_resume_process, if_neg h', if_neg h1, hcur, if_neg hne, htab, hflag, ht, hfs,
    add_to_ready_queue, list_contains_match_pcb]
  by_cases hr : target ∈ k.ReadyQueue
  · simp [hr, hcur]
  · simp [hr, hcur]

/-- A second suspend of a suspended process, and a resume of a process that is not
suspended, return AlreadySuspended (15) and ResumeUnsuspended (17) with the state they were
given. -/
theorem suspend_resume_repeated (k : Kernel) (pid : Int) (cur target : Nat)
    (hcur : k.CurrentPCB = some cur) (hne : pid ≠ (deref k.heap cur).pid)
    (h0 : 0 ≤ pid) (h15 : pid < MAX_NUMBER_OF_USER_PROCESSES)
    (htab : k.ProcessTable pid.toNat = some target) :
    ((deref k.heap target).suspend = true →
      os_suspend_process k pid = .ok (k, ERR_ALREADY_SUSPENDED)) ∧
    ((deref k.heap target).suspend = false →
      os_resume_process k pid = .ok (k, ERR_RESUME_UNSUSPENDED_PROCESS)) := by
  have h' : ¬ (pid < -1 ∨ pid ≥ (MAX_NUMBER_OF_USER_PROCESSES : Int)) := by
    intro h; rcases h with h | h <;> omega
  have h1 : pid ≠ -1 := by omega
  constructor
  · intro hflag
    simp only [os_suspend_process, if_neg h', if_neg h1, hcur, if_neg hne, htab, hflag, if_true]
  · intro hflag
    simp [os_resume_process, h', h1, hcur, hne, htab, hflag]

/-- The results of `add_to_suspend_queue` for a descriptor: the result is 1 and only the
Suspend Queue can differ. -/
theorem add_to_suspend_queue_some (k : Kernel) (p : Nat) :
    ∃ sq, add_to_suspend_queue k (some p) = ({ k with SuspendQueue := sq }, 1) := by
  unfold add_to_suspend_queue
  by_cases h : list_contains k.SuspendQueue match_pcb p = true
  · exact ⟨k.SuspendQueue, by simp [h]⟩
  · exact ⟨queue_enqueue k.SuspendQueue p, by simp [h]⟩

/-- The results of `add_to_ready_queue` for a descriptor: the result is 1 and only the Ready
Queue can differ. -/
theorem add_to_ready_queue_some (k : Kernel) (p : Nat) :
    ∃ rq, add_to_ready_queue k (some p) = ({ k with ReadyQueue := rq }, 1) := by
  unfold add_to_ready_queue
  by_cases h : list_contains k.ReadyQueue match_pcb p = true
  · exact ⟨k.ReadyQueue, by simp [h]⟩
  · exact ⟨list_insert_orderly k.ReadyQueue (compare_priority k.heap) Order.ASCENDING p,
      by simp [h]⟩

/-- The suspend of a live process with a pid from 1 on that is neither the caller nor
suspended returns Success and sets the suspended flag of its descriptor; the process table,
the current process and the Timer Queue stay as they were. -/
theorem os_suspend_process_success (k : Kernel) (pid : Int) (cur target : Nat)
    (hcur : k.CurrentPCB = some cur) (hne : pid ≠ (deref k.heap cur).pid)
    (h0 : 0 < pid) (h15 : pid < MAX_NUMBER_OF_USER_PROCESSES)
    (htab : k.ProcessTable pid.toNat = some target)
    (hflag : (deref k.heap target).suspend = false) :
    ∃ k1, os_suspend_process k pid = .ok (k1, ERR_SUCCESS) ∧
      k1.heap = store k.heap target (fun d => { d with suspend := true }) ∧
      k1.ProcessTable = k.ProcessTable ∧ k1.CurrentPCB = k.CurrentPCB ∧
      k1.TimerQueue = k.TimerQueue := by
  have h' : ¬ (pid < -1 ∨ pid ≥ (MAX_NUMBER_OF_USER_PROCESSES : Int)) := by
    intro h; rcases h with h | h <;> omega
  have h1 : pid ≠ -1 := by omega
  have hp0 : pid ≠ 0 := by omega
  simp only [os_suspend_process, if_neg h', if_neg h1, hcur, if_neg hne, htab, hflag,
    find_from_queue_by_condition, if_neg hp0]
  cases ht : list_find_element k.TimerQueue (match_pid k.heap) pid with
  | some i => exact ⟨_, rfl, rfl, rfl, rfl, rfl⟩
  | none =>
    cases hr : list_find_element k.ReadyQueue (match_pid k.heap) pid with
    | some i =>
      obtain ⟨x, hx, -, -⟩ := list_find_remove _ _ _ _ hr
      obtain ⟨sq, hsq⟩ := add_to_suspend_queue_some
        { k with ReadyQueue := k.ReadyQueue.eraseIdx i, CurrentPCB := some cur } x
      simp only [hx, hsq]
      exact ⟨_, rfl, rfl, rfl, rfl, rfl⟩
    | none =>
      obtain ⟨sq, hsq⟩ := add_to_suspend_queue_some k target
      simp only [hsq]
      exact ⟨_, rfl, rfl, rfl, hcur, rfl⟩

/-- The resume of a suspended live process with a pid from 1 on that is not the caller
returns Success and clears the suspended flag of its descriptor; the process table, the
current process and the Timer Queue stay as they were. -/
theorem os_resume_process_success (k : Kernel) (pid : Int) (cur target : Nat)
    (hcur : k.CurrentPCB = some cur) (hne : pid ≠ (deref k.heap cur).pid)
    (h0 : 0 < pid) (h15 : pid < MAX_NUMBER_OF_USER_PROCESSES)
    (htab : k.ProcessTable pid.toNat = some target)
    (hflag : (deref k.heap target).suspend = true) :
    ∃ k1, os_resume_process k pid = .ok (k1, ERR_SUCCESS) ∧
      k1.heap = store k.heap target (fun d => { d with suspend := false }) ∧
      k1.ProcessTable = k.ProcessTable ∧ k1.CurrentPCB = k.CurrentPCB ∧
      k1.TimerQueue = k.TimerQueue := by
  have h' : ¬ (pid < -1 ∨ pid ≥ (MAX_NUMBER_OF_USER_PROCESSES : Int)) := by
    intro h; rcases h with h | h <;> omega
  have h1 : pid ≠ -1 := by omega
  have hp0 : pid ≠ 0 := by omega
  simp only [os_resume_process, if_neg h', if_neg h1, hcur, if_neg hne, htab, hflag,
    find_from_queue_by_condition, if_neg hp0]
  cases ht : list_find_element k.TimerQueue (match_pid k.heap) pid with
  | some i => exact ⟨_, rfl, rfl, rfl, rfl, rfl⟩
  | none =>
    cases hr : list_find_element k.SuspendQueue (match_pid k.heap) pid with
    | some i =>
      obtain ⟨x, hx, -, -⟩ := list_find_remove _ _ _ _ hr
      obtain ⟨rq, hrq⟩ := add_to_ready_queue_some
        { k with SuspendQueue := k.SuspendQueue.eraseIdx i, CurrentPCB := some cur } x
      simp only [hx, hrq]
      exact ⟨_, rfl, rfl, rfl, rfl, rfl⟩
    | none =>
      obtain ⟨rq, hrq⟩ := add_to_ready_queue_some k target
      simp only [hrq]
      exact ⟨_, rfl, rfl, rfl, hcur, rfl⟩

/-- Setting the suspended flag of a descriptor leaves the pid of every descriptor as it
was. -/
theorem pid_store_suspend (h : List PCB) (p q : Nat) (flag : Bool) :
    (deref (store h p (fun d => { d with suspend := flag })) q).pid = (deref h q).pid := by
  rw [deref_store]
  split
  · rename_i hpq
    rw [hpq.1]
  · rfl

/-- The suspended flag of an allocated descriptor after it was written. -/
theorem suspend_store_suspend (h : List PCB) (p : Nat) (flag : Bool) (hp : p < h.length) :
    (deref (store h p (fun d => { d with suspend := flag })) p).suspend = flag := by
  rw [deref_store, if_pos ⟨rfl, hp⟩]

/-- For a live process with a pid from 1 on that is neither the caller nor suspended, the
calls suspend, suspend, resume, resume return Success, AlreadySuspended (15), Success and
ResumeUnsuspended (17), and the second and the fourth call return the state they were
given. -/
theorem suspend_resume_sequence (k : Kernel) (pid : Int) (cur target : Nat)
    (hcur : k.CurrentPCB = some cur) (hne : pid ≠ (deref k.heap cur).pid)
    (h0 : 0 < pid) (h15 : pid < MAX_NUMBER_OF_USER_PROCESSES)
    (htab : k.ProcessTable pid.toNat = some target) (hal : target < k.heap.length)
    (hflag : (deref k.heap target).suspend = false) :
    ∃ k1 k2, os_suspend_process k pid = .ok (k1, ERR_SUCCESS) ∧
      os_suspend_process k1 pid = .ok (k1, ERR_ALREADY_SUSPENDED) ∧
      os_resume_process k1 pid = .ok (k2, ERR_SUCCESS) ∧
      os_resume_process k2 pid = .ok (k2, ERR_RESUME_UNSUSPENDED_PROCESS) := by
  obtain ⟨k1, hs1, hh1, ht1, hc1, -⟩ :=
    os_suspend_process_success k pid cur target hcur hne h0 h15 htab hflag
  have hcur1 : k1.CurrentPCB = some cur := hc1.trans hcur
  have hne1 : pid ≠ (deref k1.heap cur).pid := by rw [hh1, pid_store_suspend]; exact hne
  have htab1 : k1.ProcessTable pid.toNat = some target := by rw [ht1]; exact htab
  have hflag1 : (deref k1.heap target).suspend = true := by
    rw [hh1]; exact suspend_store_suspend _ _ _ hal
  obtain ⟨k2, hs2, hh2, ht2, hc2, -⟩ :=
    os_resume_process_success k1 pid cur target hcur1 hne1 h0 h15 htab1 hflag1
  have hcur2 : k2.CurrentPCB = some cur := hc2.trans hcur1
  have hne2 : pid ≠ (deref k2.heap cur).pid := by rw [hh2, pid_store_suspend]; exact hne1
  have htab2 : k2.ProcessTable pid.toNat = some target := by rw [ht2]; exact htab1
  have hflag2 : (deref k2.heap target).suspend = false := by
    rw [hh2]
    exact suspend_store_suspend _ _ _ (by rw [hh1, length_store]; exact hal)
  exact ⟨k1, k2, hs1,
    (suspend_resume_repeated k1 pid cur target hcur1 hne1 (le_of_lt h0) h15 htab1).1 hflag1,
    hs2,
    (suspend_resume_repeated k2 pid cur target hcur2 hne2 (le_of_lt h0) h15 htab2).2 hflag2⟩

/-! ### C12: the sequence suspend, suspend, resume, resume -/

/-- C12, the code at the failing input: after boot the initial process (pid 0) creates a
child (pid 1) and sleeps, and the child runs. The initial process is live, not the current
process and not suspended; the child calls suspend for pid 0. The search of the Timer Queue
with the pid cast to a pointer fails the assertion that the pointer is not NULL, so the call
does not return Success. For the child itself as target (pid 1, called by the initial
process) the four calls return Success, AlreadySuspended, Success, ResumeUnsuspended. -/
theorem suspend_of_pid_zero_fails_assertion :
    child_running_kernel.CurrentPCB = some 1 ∧
    (deref child_running_kernel.heap 1).pid = 1 ∧
    child_running_kernel.ProcessTable 0 = some 0 ∧
    (deref child_running_kernel.heap 0).pid = 0 ∧
    (deref child_running_kernel.heap 0).suspend = false ∧
    os_suspend_process child_running_kernel 0 = .error Stop.assert_failed ∧
    (os_suspend_process child_created_kernel 1).bind (fun a =>
      (os_suspend_process a.1 1).bind (fun b =>
        (os_resume_process b.1 1).bind (fun c =>
          (os_resume_process c.1 1).map (fun d => (a.2, b.2, c.2, d.2)))))
      = .ok (ERR_SUCCESS, ERR_ALREADY_SUSPENDED, ERR_SUCCESS, ERR_RESUME_UNSUSPENDED_PROCESS) :=
  ⟨rfl, rfl, rfl, rfl, rfl, rfl, rfl⟩

/-! ### The timer interrupt -/

/-- A descriptor after the delay time of the descriptor at `p` was reset. -/
theorem deref_store_delay (h : List PCB) (p q : Nat) :
    deref (store h p (fun d => { d with delay_time := 0 })) q =
      if q = p then { deref h q with delay_time := 0 } else deref h q := by
  rw [deref_store]
  by_cases hpq : p = q
  · subst hpq
    by_cases hp : p < h.length
    · simp [hp]
    · have hd : deref h p = default := by
        unfold deref
        exact List.getD_eq_default _ _ (by omega)
      simp only [hp, and_false, if_false, if_true, hd]
      rfl
  · have hqp : ¬ q = p := fun e => hpq e.symm
    simp [hpq, hqp]

/-- Resetting a delay time does not change how priorities compare. -/
theorem compare_priority_store_delay (h : List PCB) (p : Nat) :
    compare_priority (store h p (fun d => { d with delay_time := 0 })) = compare_priority h := by
  funext a b
  unfold compare_priority
  have ha : (deref (store h p (fun d => { d with delay_time := 0 })) a).priority
      = (deref h a).priority := by
    rw [deref_store_delay]; split <;> rfl
  have hb : (deref (store h p (fun d => { d with delay_time := 0 })) b).priority
      = (deref h b).priority := by
    rw [deref_store_delay]; split <;> rfl
  rw [ha, hb]

/-- Resetting a delay time does not change a priority. -/
theorem priority_store_delay (h : List PCB) (p a : Nat) :
    (deref (store h p (fun d => { d with delay_time := 0 })) a).priority
      = (deref h a).priority := by
  rw [deref_store_delay]; split <;> rfl

theorem WokenBy.nothing (k : Kernel) : WokenBy k [] k :=
  ⟨rfl, rfl, rfl, rfl, fun q => (by simp), fun p hp => (by cases hp), fun q hq => Or.inl hq,
    fun q hq => Or.inl hq, List.Sublist.refl _, List.prefix_refl _, fun h => h, fun h => h⟩

/-- Waking the head of a non-empty Timer Queue returns; the head is the one descriptor
woken. -/
theorem wake_timer_head_spec (k : Kernel) (p : Nat) (rest : List Nat)
    (h : k.TimerQueue = p :: rest) :
    ∃ k', wake_timer_head k = .ok k' ∧ k'.TimerQueue = rest ∧ k'.hw = k.hw ∧
      WokenBy k [p] k' := by
  have hdq : dequeue_from_timer_queue k = ({ k with TimerQueue := rest }, some p, 1) := by
    simp [dequeue_from_timer_queue, queue_dequeue, list_remove_next, h]
  have hflag : (deref (store k.heap p (fun d => { d with delay_time := 0 })) p).suspend
      = (deref k.heap p).suspend := by
    rw [deref_store_delay]; simp
  have hheap : ∀ q, deref (store k.heap p (fun d => { d with delay_time := 0 })) q =
      if q ∈ [p] then { deref k.heap q with delay_time := 0 } else deref k.heap q := by
    intro q
    rw [deref_store_delay]
    simp
  have hkey : ∀ (l : List Nat) (rq sq : List Nat),
      l.Pairwise (fun a b => priority_of k a ≤ priority_of k b) →
      l.Pairwise (fun a b =>
        priority_of { k with
            heap := store k.heap p (fun d => { d with delay_time := 0 }),
            TimerQueue := rest, ReadyQueue := rq, SuspendQueue := sq } a ≤
        priority_of { k with
            heap := store k.heap p (fun d => { d with delay_time := 0 }),
            TimerQueue := rest, ReadyQueue := rq, SuspendQueue := sq } b) := by
    intro l rq sq hl
    exact pairwise_key_congr _ _ _ (fun a _ => priority_store_delay k.heap p a) hl
  unfold wake_timer_head
  rw [hdq]
  simp only [hflag]
  by_cases hs : (deref k.heap p).suspend = false
  · simp only [hs, if_true]
    simp only [add_to_ready_queue, list_contains_match_pcb, compare_priority_store_delay]
    by_cases hr : p ∈ k.ReadyQueue
    · simp only [hr, decide_True, Bool.not_true, Bool.false_eq_true, if_false,
        one_ne_zero]
      refine ⟨_, rfl, rfl, rfl, h, rfl, rfl, rfl, hheap, ?_, ?_, ?_, ?_, ?_, ?_, ?_⟩
      · intro q hq
        have : q = p := by simpa using hq
        subst this
        simp [hs, hr]
      · exact fun q hq => Or.inl hq
      · exact fun q hq => Or.inl hq
      · exact List.Sublist.refl _
      · exact List.prefix_refl _
      · exact fun hso => hkey _ _ _ hso
      · exact fun hn => hn
    · simp only [hr, decide_False, Bool.not_false, if_true, one_ne_zero, if_false]
      have hperm := list_insert_orderly_perm k.ReadyQueue (compare_priority k.heap) p
      refine ⟨_, rfl, rfl, rfl, h, rfl, rfl, rfl, hheap, ?_, ?_, ?_, ?_, ?_, ?_, ?_⟩
      · intro q hq
        have : q = p := by simpa using hq
        subst this
        simp only [hs, Bool.false_eq_true, if_false]
        exact hperm.symm.subset (List.mem_cons_self _ _)
      · intro q hq
        rcases List.mem_cons.1 (hperm.subset hq) with e | e
        · exact Or.inr ⟨by simp [e], e ▸ hs⟩
        · exact Or.inl e
      · exact fun q hq => Or.inl hq
      · show k.ReadyQueue.Sublist
          (list_insert_orderly k.ReadyQueue (compare_priority k.heap) Order.ASCENDING p)
        rw [list_insert_orderly_ascending]
        conv_lhs => rw [← List.takeWhile_append_dropWhile
          (fun b => decide (0 ≤ compare_priority k.heap p b)) k.ReadyQueue]
        exact List.Sublist.append (List.Sublist.refl _) (List.sublist_cons_self _ _)
      · exact List.prefix_refl _
      · intro hso
        exact hkey _ _ _ (list_insert_orderly_sorted (fun a => priority_of k a)
          (compare_priority k.heap) (fun a b => compare_priority_neg k.heap a b) p
          k.ReadyQueue hso)
      · exact fun hn => hn
  · have hs' : (deref k.heap p).suspend = true := by simpa using hs
    simp only [hs', Bool.true_eq_false, if_false]
    simp only [add_to_suspend_queue, list_contains_match_pcb, queue_enqueue_eq]
    by_cases hr : p ∈ k.SuspendQueue
    · simp only [hr, decide_True, Bool.not_true, Bool.false_eq_true, if_false,
        one_ne_zero]
      refine ⟨_, rfl, rfl, rfl, h, rfl, rfl, rfl, hheap, ?_, ?_, ?_, ?_, ?_, ?_, ?_⟩
      · intro q hq
        have : q = p := by simpa using hq
        subst this
        simp [hs', hr]
      · exact fun q hq => Or.inl hq
      · exact fun q hq => Or.inl hq
      · exact List.Sublist.refl _
      · exact List.prefix_refl _
      · exact fun hso => hkey _ _ _ hso
      · exact fun hn => hn
    · simp only [hr, decide_False, Bool.not_false, if_true, one_ne_zero, if_false]
      refine ⟨_, rfl, rfl, rfl, h, rfl, rfl, rfl, hheap, ?_, ?_, ?_, ?_, ?_, ?_, ?_⟩
      · intro q hq
        have : q = p := by simpa using hq
        subst this
        simp [hs']
      · exact fun q hq => Or.inl hq
      · intro q hq
        rcases List.mem_append.1 hq with e | e
        · exact Or.inl e
        · have : q = p := by simpa using e
          exact Or.inr ⟨by simp [this], this ▸ hs'⟩
      · exact List.Sublist.refl _
      · exact List.prefix_append _ _
      · exact fun hso => hkey _ _ _ hso
      · intro hn
        exact List.nodup_append.2 ⟨hn, List.nodup_singleton p, by
          intro a ha hb
          have : a = p := by simpa using hb
          exact hr (this ▸ ha)⟩

/-- Waking does not change a suspended flag. -/
theorem WokenBy.flag {k k' : Kernel} {woken : List Nat} (h : WokenBy k woken k') (q : Nat) :
    (deref k'.heap q).suspend = (deref k.heap q).suspend := by
  rw [h.heap q]; split <;> rfl

theorem WokenBy.trans {k k1 k2 : Kernel} {w1 w2 : List Nat} (h1 : WokenBy k w1 k1)
    (h2 : WokenBy k1 w2 k2) : WokenBy k (w1 ++ w2) k2 := by
  refine ⟨?_, ?_, ?_, ?_, ?_, ?_, ?_, ?_, ?_, ?_, ?_, ?_⟩
  · rw [h1.timer, h2.timer, List.append_assoc]
  · rw [h2.table, h1.table]
  · rw [h2.current, h1.current]
  · rw [h2.root, h1.root]
  · intro q
    rw [h2.heap q, h1.heap q]
    by_cases a : q ∈ w1 <;> by_cases b : q ∈ w2 <;> simp [a, b]
  · intro p hp
    rcases List.mem_append.1 hp with a | a
    · have := h1.routed p a
      split
      · rename_i hf
        rw [if_pos hf] at this
        exact h2.suspend_kept.subset this
      · rename_i hf
        rw [if_neg hf] at this
        exact h2.ready_kept.subset this
    · have := h2.routed p a
      rw [h1.flag p] at this
      exact this
  · intro q hq
    rcases h2.ready_from q hq with a | ⟨a, b⟩
    · rcases h1.ready_from q a with c | ⟨c, d⟩
      · exact Or.inl c
      · exact Or.inr ⟨List.mem_append_left _ c, d⟩
    · exact Or.inr ⟨List.mem_append_right _ a, (h1.flag q).symm.trans b⟩
  · intro q hq
    rcases h2.suspend_from q hq with a | ⟨a, b⟩
    · rcases h1.suspend_from q a with c | ⟨c, d⟩
      · exact Or.inl c
      · exact Or.inr ⟨List.mem_append_left _ c, d⟩
    · exact Or.inr ⟨List.mem_append_right _ a, (h1.flag q).symm.trans b⟩
  · exact h1.ready_kept.trans h2.ready_kept
  · exact h1.suspend_kept.trans h2.suspend_kept
  · exact fun hs => h2.sorted (h1.sorted hs)
  · exact fun hn => h2.suspend_nodup (h1.suspend_nodup hn)

/-- Starting the timer only adds a hardware call. -/
theorem WokenBy.start_timer {k k' : Kernel} {woken : List Nat} (h : WokenBy k woken k')
    (time : Int) : WokenBy k woken (start_timer k' time) :=
  ⟨h.timer, h.table, h.current, h.root, h.heap, h.routed, h.ready_from, h.suspend_from,
    h.ready_kept, h.suspend_kept, h.sorted, h.suspend_nodup⟩

/-- The delay times of the descriptors left in the Timer Queue are the ones they had. -/
theorem WokenBy.delay_left {k k' : Kernel} {woken : List Nat} (h : WokenBy k woken k')
    (hnd : k.TimerQueue.Nodup) (q : Nat) (hq : q ∈ k'.TimerQueue) :
    delay_time_of k' q = delay_time_of k q := by
  have hnw : q ∉ woken := by
    intro hw
    rw [h.timer] at hnd
    exact (List.nodup_append.1 hnd).2.2 hw hq
  unfold delay_time_of
  rw [h.heap q, if_neg hnw]

/-- The Timer Queue left after waking is ordered and without repetition when the queue
was. -/
theorem WokenBy.timer_left {k k' : Kernel} {woken : List Nat} (h : WokenBy k woken k')
    (hnd : k.TimerQueue.Nodup) (hs : timer_sorted k) :
    k'.TimerQueue.Nodup ∧ timer_sorted k' := by
  have hnd' : k'.TimerQueue.Nodup := by
    rw [h.timer] at hnd
    exact (List.nodup_append.1 hnd).2.1
  refine ⟨hnd', ?_⟩
  unfold timer_sorted at hs ⊢
  rw [h.timer] at hs
  exact pairwise_key_congr _ _ _ (fun a ha => h.delay_left hnd a ha) (List.pairwise_append.1 hs).2.1

/-- The loop of `os_make_ready_to_run` returns. While descriptors are left in the Timer
Queue every wake is followed by one clock reading, and the delay time of each descriptor left
is after the last reading the loop compared with (`time_now` when it woke nothing). -/
theorem make_ready_loop_spec (clock : Nat → Int) :
    ∀ (fuel : Nat) (k : Kernel) (time_now : Int) (reads : Nat),
      k.TimerQueue.length ≤ fuel → k.TimerQueue.Nodup → timer_sorted k →
      ∃ k' woken reads', make_ready_loop clock fuel k time_now reads = .ok (k', reads') ∧
        WokenBy k woken k' ∧ k'.hw = k.hw ∧
        (k'.TimerQueue ≠ [] → reads' = reads + woken.length ∧
          ∀ p ∈ k'.TimerQueue,
            (if woken = [] then time_now else clock (reads' - 1)) < delay_time_of k' p) := by
  intro fuel
  induction fuel with
  | zero =>
    intro k time_now reads hlen _ _
    have hnil : k.TimerQueue = [] := List.length_eq_zero.1 (Nat.le_zero.1 hlen)
    exact ⟨k, [], reads, rfl, WokenBy.nothing k, rfl, fun hne => absurd hnil hne⟩
  | succ fuel ih =>
    intro k time_now reads hlen hnd hs
    cases hq : k.TimerQueue with
    | nil =>
      refine ⟨k, [], reads, ?_, WokenBy.nothing k, rfl, fun hne => absurd hq hne⟩
      simp [make_ready_loop, hq]
    | cons p rest =>
      by_cases hdue : (deref k.heap p).delay_time ≤ time_now
      · obtain ⟨k1, hw1, ht1, hhw1, hwk1⟩ := wake_timer_head_spec k p rest hq
        by_cases hempty : list_is_empty k1.TimerQueue = true
        · refine ⟨k1, [p], reads, ?_, hwk1, hhw1, ?_⟩
          · simp [make_ready_loop, hq, hdue, hw1, hempty]
          · intro hne
            exfalso
            apply hne
            simpa [list_is_empty] using hempty
        · obtain ⟨hnd1, hs1⟩ := hwk1.timer_left hnd hs
          have hlen1 : k1.TimerQueue.length ≤ fuel := by
            rw [ht1]
            rw [hq] at hlen
            simpa using hlen
          obtain ⟨k2, w2, reads2, hl2, hwk2, hhw2, hrest2⟩ :=
            ih k1 (clock reads) (reads + 1) hlen1 hnd1 hs1
          refine ⟨k2, [p] ++ w2, reads2, ?_, hwk1.trans hwk2, hhw2.trans hhw1, ?_⟩
          · simp [make_ready_loop, hq, hdue, hw1, hempty, hl2]
          · intro hne
            obtain ⟨hr, hall⟩ := hrest2 hne
            refine ⟨by simp [hr]; omega, ?_⟩
            intro q hq2
            have := hall q hq2
            by_cases hw2 : w2 = []
            · subst hw2
              have hr' : reads2 - 1 = reads := by simp at hr; omega
              simpa [hr'] using this
            · simpa [hw2] using this
      · refine ⟨k, [], reads, ?_, WokenBy.nothing k, rfl, ?_⟩
        · simp [make_ready_loop, hq, hdue]
        · intro _
          refine ⟨rfl, ?_⟩
          intro q hq2
          simp only [if_true]
          have hpq : delay_time_of k p ≤ delay_time_of k q := by
            unfold timer_sorted at hs
            rw [hq] at hs hq2
            rcases List.mem_cons.1 hq2 with e | e
            · rw [e]
            · exact (List.pairwise_cons.1 hs).1 q e
          have hp : time_now < delay_time_of k p := by
            unfold delay_time_of; omega
          omega

/-! ### C19: the timer interrupt drains the Timer Queue -/

/-- C19: for a Timer Queue that is ordered by wake time and holds no descriptor twice,
`os_make_ready_to_run` returns, having woken a front part `woken` of the queue. No
descriptor whose delay time is at or before the clock reading of the last comparison (reading
number `woken.length - 1`; for a clock that stands still: now) is left in the Timer Queue.
Every woken descriptor has the delay time 0 and is in the Suspend Queue when its suspended
flag is set and in the Ready Queue otherwise; the Ready Queue is still ordered by priority,
and (`WokenBy`) the queues gained no other entries and no other field changed. -/
theorem timer_interrupt_wakes_due (k : Kernel) (clock : Nat → Int)
    (hnd : k.TimerQueue.Nodup) (hs : timer_sorted k) (hrs : ready_sorted k) :
    ∃ k' woken, os_make_ready_to_run k clock = .ok k' ∧
      k.TimerQueue = woken ++ k'.TimerQueue ∧
      (∀ p ∈ k'.TimerQueue, clock (woken.length - 1) < delay_time_of k' p) ∧
      (∀ p ∈ woken, delay_time_of k' p = 0 ∧
        (if (deref k'.heap p).suspend = true then p ∈ k'.SuspendQueue
          else p ∈ k'.ReadyQueue)) ∧
      ready_sorted k' ∧ WokenBy k woken k' := by
  have hfinish : ∀ k' woken, WokenBy k woken k' →
      (∀ p ∈ woken, delay_time_of k' p = 0 ∧
        (if (deref k'.heap p).suspend = true then p ∈ k'.SuspendQueue
          else p ∈ k'.ReadyQueue)) := by
    intro k' woken hw p hp
    refine ⟨?_, ?_⟩
    · unfold delay_time_of
      rw [hw.heap p, if_pos hp]
    · rw [hw.flag p]
      exact hw.routed p hp
  unfold os_make_ready_to_run
  cases hq : k.TimerQueue with
  | nil =>
    have he : list_is_empty k.TimerQueue = true := by simp [list_is_empty, hq]
    rw [hq] at he
    rw [if_pos he]
    refine ⟨k, [], rfl, by simp [hq], ?_, hfinish k [] (WokenBy.nothing k), hrs,
      WokenBy.nothing k⟩
    intro p hp
    rw [hq] at hp
    cases hp
  | cons p rest =>
    have he : ¬ list_is_empty (p :: rest) = true := by simp [list_is_empty]
    rw [if_neg he]
    obtain ⟨k1, hw1, ht1, -, hwk1⟩ := wake_timer_head_spec k p rest hq
    obtain ⟨hnd1, hs1⟩ := hwk1.timer_left hnd hs
    obtain ⟨k2, w2, reads2, hl2, hwk2, -, hrest2⟩ :=
      make_ready_loop_spec clock k1.TimerQueue.length k1 (clock 0) 1 (le_refl _) hnd1 hs1
    have hwk := hwk1.trans hwk2
    have hw1' : wake_timer_head k = .ok k1 := hw1
    simp only [hw1', hl2]
    cases hq2 : k2.TimerQueue with
    | nil =>
      refine ⟨k2, [p] ++ w2, rfl, ?_, ?_, hfinish _ _ hwk, hwk.sorted hrs, hwk⟩
      · rw [← hq, hwk.timer]
      · intro q hq'
        rw [hq2] at hq'
        cases hq'
    | cons head tail =>
      have hne : k2.TimerQueue ≠ [] := by rw [hq2]; simp
      obtain ⟨hr, hall⟩ := hrest2 hne
      have hwk' := hwk.start_timer ((deref k2.heap head).delay_time - clock reads2)
      refine ⟨_, [p] ++ w2, rfl, ?_, ?_, hfinish _ _ hwk', hwk'.sorted hrs, hwk'⟩
      · rw [← hq, hwk.timer]
        rfl
      · intro q hq'
        have hq'' : q ∈ k2.TimerQueue := hq'
        have := hall q hq''
        have hlen : ([p] ++ w2).length - 1 = w2.length := by simp
        rw [hlen]
        by_cases hw2 : w2 = []
        · subst hw2
          simpa using this
        · have hr' : reads2 - 1 = w2.length := by omega
          rw [if_neg hw2, hr'] at this
          exact this

/-- C19, at an instance: the child (address 1, wake time 9) and the initial process
(address 0, wake time 15) are in the Timer Queue and the clock reads 10. The interrupt wakes
the child into the Ready Queue with delay time 0; the initial process stays, and no
descriptor left in the Timer Queue is due at 10. -/
theorem timer_interrupt_wakes_due_witness :
    two_sleepers_kernel.TimerQueue.Nodup ∧ timer_sorted two_sleepers_kernel ∧
    ready_sorted two_sleepers_kernel ∧
    two_sleepers_kernel.TimerQueue = [1, 0] ∧
    (os_make_ready_to_run two_sleepers_kernel (fun _ => 10)).map
      (fun r => (r.TimerQueue, r.ReadyQueue, r.SuspendQueue, r.heap.map (fun d => d.delay_time)))
      = .ok ([0], [1], [], [15, 0]) ∧
    (os_make_ready_to_run two_sleepers_kernel (fun _ => 10)).map
      (fun r => r.TimerQueue.all (fun p => decide (10 < delay_time_of r p))) = .ok true := by
  obtain ⟨k', woken, h, -, hleft, -⟩ :=
    timer_interrupt_wakes_due two_sleepers_kernel (fun _ => 10) (by decide)
      (by unfold timer_sorted; decide) (by unfold ready_sorted; decide)
  refine ⟨by decide, by unfold timer_sorted; decide, by unfold ready_sorted; decide, rfl, rfl,
    ?_⟩
  rw [h]
  simp only [Except.map, Except.ok.injEq, List.all_eq_true, decide_eq_true_eq]
  exact hleft

/-- The loop of `os_make_ready_to_run` returns for every Timer Queue, having woken a front
part of it. -/
theorem make_ready_loop_woken (clock : Nat → Int) :
    ∀ (fuel : Nat) (k : Kernel) (time_now : Int) (reads : Nat),
      ∃ k' woken reads', make_ready_loop clock fuel k time_now reads = .ok (k', reads') ∧
        WokenBy k woken k' := by
  intro fuel
  induction fuel with
  | zero => exact fun k _ reads => ⟨k, [], reads, rfl, WokenBy.nothing k⟩
  | succ fuel ih =>
    intro k time_now reads
    cases hq : k.TimerQueue with
    | nil => exact ⟨k, [], reads, by simp [make_ready_loop, hq], WokenBy.nothing k⟩
    | cons p rest =>
      by_cases hdue : (deref k.heap p).delay_time ≤ time_now
      · obtain ⟨k1, hw1, -, -, hwk1⟩ := wake_timer_head_spec k p rest hq
        by_cases hempty : list_is_empty k1.TimerQueue = true
        · exact ⟨k1, [p], reads, by simp [make_ready_loop, hq, hdue, hw1, hempty], hwk1⟩
        · obtain ⟨k2, w2, reads2, hl2, hwk2⟩ := ih k1 (clock reads) (reads + 1)
          exact ⟨k2, [p] ++ w2, reads2, by simp [make_ready_loop, hq, hdue, hw1, hempty, hl2],
            hwk1.trans hwk2⟩
      · exact ⟨k, [], reads, by simp [make_ready_loop, hq, hdue], WokenBy.nothing k⟩

/-- The timer interrupt returns for every state, having woken a front part of the Timer
Queue. -/
theorem os_make_ready_to_run_woken (k : Kernel) (clock : Nat → Int) :
    ∃ k' woken, os_make_ready_to_run k clock = .ok k' ∧ WokenBy k woken k' := by
  unfold os_make_ready_to_run
  cases hq : k.TimerQueue with
  | nil =>
    have he : list_is_empty ([] : List Nat) = true := by simp [list_is_empty]
    rw [if_pos he]
    exact ⟨k, [], rfl, WokenBy.nothing k⟩
  | cons p rest =>
    have he : ¬ list_is_empty (p :: rest) = true := by simp [list_is_empty]
    rw [if_neg he]
    obtain ⟨k1, hw1, -, -, hwk1⟩ := wake_timer_head_spec k p rest hq
    obtain ⟨k2, w2, reads2, hl2, hwk2⟩ :=
      make_ready_loop_woken clock k1.TimerQueue.length k1 (clock 0) 1
    have hw1' : wake_timer_head k = .ok k1 := hw1
    simp only [hw1', hl2]
    cases hq2 : k2.TimerQueue with
    | nil => exact ⟨k2, [p] ++ w2, rfl, hwk1.trans hwk2⟩
    | cons head tail => exact ⟨_, [p] ++ w2, rfl, (hwk1.trans hwk2).start_timer _⟩

/-! ### C13: what a successful suspend does -/

/-- C13: let `pid` (from 1 on) be the pid of a live process other than the caller that is not
suspended, with its descriptor `target` the only one of that pid in the Timer and the Ready
Queue. Then suspend returns Success and sets the suspended flag of `target` and nothing else
in a descriptor. When `target` is in the Timer Queue no queue changes. When it is in the
Ready Queue (and in no other queue) it is taken out of the Ready Queue and appended to the
Suspend Queue, the other entries keeping their queue and order. A timer interrupt that takes
a descriptor with the flag set out of the Timer Queue puts it into the Suspend Queue and not
into the Ready Queue. -/
theorem suspend_moves_target (k : Kernel) (pid : Int) (cur target : Nat)
    (hcur : k.CurrentPCB = some cur) (hne : pid ≠ (deref k.heap cur).pid)
    (h0 : 0 < pid) (h15 : pid < MAX_NUMBER_OF_USER_PROCESSES)
    (htab : k.ProcessTable pid.toNat = some target) (hal : target < k.heap.length)
    (hflag : (deref k.heap target).suspend = false)
    (htp : (deref k.heap target).pid = pid)
    (hut : ∀ q ∈ k.TimerQueue, (deref k.heap q).pid = pid → q = target)
    (hur : ∀ q ∈ k.ReadyQueue, (deref k.heap q).pid = pid → q = target) :
    (∃ k', os_suspend_process k pid = .ok (k', ERR_SUCCESS) ∧
      k'.heap = store k.heap target (fun d => { d with suspend := true }) ∧
      (deref k'.heap target).suspend = true ∧
      k'.ProcessTable = k.ProcessTable ∧ k'.TimerQueue = k.TimerQueue) ∧
    (target ∈ k.TimerQueue →
      os_suspend_process k pid =
        .ok ({ k with heap := store k.heap target (fun d => { d with suspend := true }) },
             ERR_SUCCESS)) ∧
    (target ∉ k.TimerQueue → target ∈ k.ReadyQueue → target ∉ k.SuspendQueue →
      os_suspend_process k pid =
        .ok ({ k with
                heap := store k.heap target (fun d => { d with suspend := true }),
                ReadyQueue := k.ReadyQueue.erase target,
                SuspendQueue := k.SuspendQueue ++ [target] },
             ERR_SUCCESS)) ∧
    (∀ (k1 : Kernel) (clock : Nat → Int),
      (deref k1.heap target).suspend = true → target ∈ k1.TimerQueue →
      target ∉ k1.ReadyQueue →
      ∃ k2, os_make_ready_to_run k1 clock = .ok k2 ∧
        (target ∉ k2.TimerQueue → target ∈ k2.SuspendQueue ∧ target ∉ k2.ReadyQueue)) := by
  refine ⟨?_, ?_, ?_, ?_⟩
  · obtain ⟨k', hs, hh, ht, -, htq⟩ :=
      os_suspend_process_success k pid cur target hcur hne h0 h15 htab hflag
    refine ⟨k', hs, hh, ?_, ht, htq⟩
    rw [hh]
    exact suspend_store_suspend _ _ _ hal
  · intro hin
    exact os_suspend_process_timer k pid cur target target hcur hne h0 h15 htab hflag hin htp
  · intro hnt hr hns
    have hnt' : ∀ q ∈ k.TimerQueue, (deref k.heap q).pid ≠ pid := by
      intro q hq hp
      exact hnt (hut q hq hp ▸ hq)
    rw [os_suspend_process_ready k pid cur target hcur hne h0 h15 htab hflag htp hnt' hr hur,
      if_neg hns]
  · intro k1 clock hf hin hnr
    obtain ⟨k2, woken, hrun, hw⟩ := os_make_ready_to_run_woken k1 clock
    refine ⟨k2, hrun, ?_⟩
    intro hout
    have hwoken : target ∈ woken := by
      have := hw.timer ▸ hin
      rcases List.mem_append.1 this with a | a
      · exact a
      · exact absurd a hout
    refine ⟨?_, ?_⟩
    · have := hw.routed target hwoken
      rwa [if_pos hf] at this
    · intro hr
      rcases hw.ready_from target hr with a | ⟨-, a⟩
      · exact hnr a
      · rw [hf] at a
        cases a

/-- C13, at an instance: the initial process (pid 0) suspends the child (pid 1, address 1).
With the child in the Ready Queue the child moves to the Suspend Queue; with the child in the
Timer Queue only the flag changes, and the timer interrupt that wakes it at time 40 puts it
into the Suspend Queue while the Ready Queue stays empty. -/
theorem suspend_moves_target_witness :
    child_created_kernel.ReadyQueue = [1, 0] ∧ child_created_kernel.SuspendQueue = [] ∧
    (os_suspend_process child_created_kernel 1).map
      (fun r => (r.2, r.1.ReadyQueue, r.1.SuspendQueue, r.1.TimerQueue,
        r.1.heap.map (fun d => d.suspend)))
      = .ok (ERR_SUCCESS, [0], [1], [], [false, true]) ∧
    child_sleeping_kernel.TimerQueue = [1] ∧
    (os_suspend_process child_sleeping_kernel 1).map
      (fun r => (r.2, r.1.ReadyQueue, r.1.SuspendQueue, r.1.TimerQueue,
        r.1.heap.map (fun d => d.suspend)))
      = .ok (ERR_SUCCESS, [], [], [1], [false, true]) ∧
    ((os_suspend_process child_sleeping_kernel 1).bind
      (fun r => os_make_ready_to_run r.1 (fun _ => 40))).map
      (fun r => (r.ReadyQueue, r.SuspendQueue, r.TimerQueue)) = .ok ([], [1], []) := by
  have h1 := (suspend_moves_target child_created_kernel 1 0 1 rfl (by decide) (by decide)
    (by decide) rfl (by decide) rfl rfl (by decide) (by decide)).2.2.1 (by decide) (by decide)
    (by decide)
  have h2 := (suspend_moves_target child_sleeping_kernel 1 0 1 rfl (by decide) (by decide)
    (by decide) rfl (by decide) rfl rfl (by decide) (by decide)).2.1 (by decide)
  refine ⟨rfl, rfl, ?_, rfl, ?_, ?_⟩
  · rw [h1]; rfl
  · rw [h2]; rfl
  · rw [h2]; rfl

/-- A suspend that returns Success was called for the pid, from 1 on, of a live process
other than the caller that was not suspended. -/
theorem os_suspend_process_success_inv (k k' : Kernel) (pid : Int)
    (h : os_suspend_process k pid = .ok (k', ERR_SUCCESS)) :
    ∃ cur target, k.CurrentPCB = some cur ∧ pid ≠ (deref k.heap cur).pid ∧ 0 < pid ∧
      pid < MAX_NUMBER_OF_USER_PROCESSES ∧ k.ProcessTable pid.toNat = some target ∧
      (deref k.heap target).suspend = false := by
  unfold os_suspend_process at h
  split at h
  · simp [ERR_PROCESS_DOESNT_EXIST, ERR_SUCCESS] at h
  · rename_i hr
    split at h
    · simp [ERR_SUSPEND_SELF, ERR_SUCCESS] at h
    · rename_i h1
      split at h
      · cases h
      · rename_i cur hcur
        split at h
        · simp [ERR_SUSPEND_SELF, ERR_SUCCESS] at h
        · rename_i hne
          split at h
          · simp [ERR_PROCESS_DOESNT_EXIST, ERR_SUCCESS] at h
          · rename_i target htab
            split at h
            · simp [ERR_ALREADY_SUSPENDED, ERR_SUCCESS] at h
            · rename_i hflag
              have hp0 : pid ≠ 0 := by
                intro hz
                simp [find_from_queue_by_condition, hz] at h
              refine ⟨cur, target, hcur, hne, ?_, ?_, htab, by simpa using hflag⟩
              · have : ¬ pid < -1 := fun hlt => hr (Or.inl hlt)
                omega
              · have : ¬ pid ≥ (MAX_NUMBER_OF_USER_PROCESSES : Int) := fun hge => hr (Or.inr hge)
                omega

/-! ### C14: suspend followed by resume -/

/-- Writing a suspended flag does not change how priorities compare. -/
theorem compare_priority_store_suspend (h : List PCB) (p : Nat) (flag : Bool) :
    compare_priority (store h p (fun d => { d with suspend := flag })) = compare_priority h := by
  funext a b
  unfold compare_priority
  have hpr : ∀ x, (deref (store h p (fun d => { d with suspend := flag })) x).priority
      = (deref h x).priority := by
    intro x
    rw [deref_store]; split
    · rename_i hpx
      rw [hpx.1]
    · rfl
  rw [hpr a, hpr b]

/-- Setting and then clearing the suspended flag of a descriptor that was not suspended
gives the heap back. -/
theorem store_suspend_roundtrip (h : List PCB) (p : Nat)
    (hflag : (deref h p).suspend = false) :
    store (store h p (fun d => { d with suspend := true })) p
      (fun d => { d with suspend := false }) = h := by
  by_cases hp : p < h.length
  · unfold store
    rw [List.set_set]
    have hd : deref (h.set p { deref h p with suspend := true }) p
        = { deref h p with suspend := true } := by
      unfold deref
      simp [List.getD_eq_getElem?_getD, hp]
    rw [hd]
    have hback : ({ ({ deref h p with suspend := true } : PCB) with suspend := false } : PCB)
        = deref h p := by
      cases hx : deref h p
      rw [hx] at hflag
      simp only at hflag
      simp [hflag]
    refine (congrArg (h.set p) hback).trans ?_
    have hget : deref h p = h[p] := by
      unfold deref
      simp [List.getD_eq_getElem?_getD, hp]
    rw [hget]
    apply List.ext_getElem?
    intro i
    rw [List.getElem?_set]
    split
    · rename_i hpi
      subst hpi
      simp [hp]
    · rfl
  · unfold store
    rw [List.set_eq_of_length_le (by omega : h.length ≤ p)]
    exact List.set_eq_of_length_le (by omega)

/-- Inserting by priority a descriptor that was erased from an ordered queue puts it back
where it was when every descriptor behind it has a greater priority value. -/
theorem insert_erase_same_place (heap : List PCB) (front back : List Nat) (t : Nat)
    (hnot : t ∉ front)
    (hfront : ∀ a ∈ front, (deref heap a).priority ≤ (deref heap t).priority)
    (hback : ∀ b ∈ back, (deref heap t).priority < (deref heap b).priority) :
    list_insert_orderly ((front ++ t :: back).erase t) (compare_priority heap)
      Order.ASCENDING t = front ++ t :: back := by
  have herase : (front ++ t :: back).erase t = front ++ back := by
    rw [List.erase_append_right _ hnot]
    simp
  rw [herase, list_insert_orderly_ascending]
  have htake : (front ++ back).takeWhile (fun b => decide (0 ≤ compare_priority heap t b))
      = front := by
    rw [List.takeWhile_append_of_pos]
    · have : back.takeWhile (fun b => decide (0 ≤ compare_priority heap t b)) = [] := by
        cases back with
        | nil => rfl
        | cons b rest =>
          have hb := hback b (List.mem_cons_self _ _)
          have : ¬ 0 ≤ compare_priority heap t b := by
            have := (compare_priority_neg heap t b).2 hb
            omega
          simp [List.takeWhile_cons, this]
      rw [this, List.append_nil]
    · intro a ha
      have := hfront a ha
      have h2 := compare_priority_nonneg heap t a
      simpa using h2.2 this
  have hdrop : (front ++ back).dropWhile (fun b => decide (0 ≤ compare_priority heap t b))
      = back := by
    have h1 := List.takeWhile_append_dropWhile
      (fun b => decide (0 ≤ compare_priority heap t b)) (front ++ back)
    rw [htake] at h1
    exact List.append_cancel_left h1
  rw [htake, hdrop]

/-- C14, refuted as stated: the initial process (pid 0) has created "a" (pid 1) and "b"
(pid 2) with the same priority 5, so that the Ready Queue holds the descriptors 1, 2, 0. The
process of pid 1 is live, not the caller, not suspended and in the Ready Queue. Suspend and
then resume of pid 1 both return Success, and the Ready Queue holds 2, 1, 0 afterwards: the
resumed descriptor went behind the descriptor of its priority. -/
theorem suspend_then_resume_counterexample :
    two_children_kernel.CurrentPCB = some 0 ∧ two_children_kernel.ProcessTable 1 = some 1 ∧
    (deref two_children_kernel.heap 1).pid = 1 ∧
    (deref two_children_kernel.heap 1).suspend = false ∧
    two_children_kernel.ReadyQueue = [1, 2, 0] ∧
    (os_suspend_process two_children_kernel 1).bind
      (fun r => (os_resume_process r.1 1).map (fun s => (r.2, s.2, s.1.ReadyQueue)))
      = .ok (ERR_SUCCESS, ERR_SUCCESS, [2, 1, 0]) := by
  refine ⟨rfl, rfl, rfl, rfl, rfl, rfl⟩

/-- C14, amended: let `pid` (from 1 on) be the pid of a live process other than the caller
that is not suspended, with its descriptor `target` the only one of that pid in the queues and
the Ready Queue without repetition. When `target` is in the Timer Queue, suspend followed by
resume both return Success and give back the state before the two calls. When `target` is in
the Ready Queue, both return Success and the state differs from the one before at most in the
Ready Queue: `target` is taken out and inserted again by priority, behind the queued
descriptors whose priority is not greater than its own; the Ready Queue too is the one before
when it was ordered and every descriptor behind `target` has a greater priority value. -/
theorem suspend_then_resume (k : Kernel) (pid : Int) (cur target : Nat)
    (hcur : k.CurrentPCB = some cur) (hne : pid ≠ (deref k.heap cur).pid)
    (h0 : 0 < pid) (h15 : pid < MAX_NUMBER_OF_USER_PROCESSES)
    (htab : k.ProcessTable pid.toNat = some target) (hal : target < k.heap.length)
    (hflag : (deref k.heap target).suspend = false)
    (htp : (deref k.heap target).pid = pid)
    (hut : ∀ q ∈ k.TimerQueue, (deref k.heap q).pid = pid → q = target)
    (hur : ∀ q ∈ k.ReadyQueue, (deref k.heap q).pid = pid → q = target)
    (hus : ∀ q ∈ k.SuspendQueue, (deref k.heap q).pid ≠ pid)
    (hnd : k.ReadyQueue.Nodup) :
    (target ∈ k.TimerQueue →
      ∃ k1, os_suspend_process k pid = .ok (k1, ERR_SUCCESS) ∧
        os_resume_process k1 pid = .ok (k, ERR_SUCCESS)) ∧
    (target ∉ k.TimerQueue → target ∈ k.ReadyQueue →
      ∃ k1, os_suspend_process k pid = .ok (k1, ERR_SUCCESS) ∧
        os_resume_process k1 pid =
          .ok ({ k with
                  ReadyQueue :=
                    list_insert_orderly (k.ReadyQueue.erase target) (compare_priority k.heap)
                      Order.ASCENDING target },
               ERR_SUCCESS) ∧
        (ready_sorted k → ∀ front back, k.ReadyQueue = front ++ target :: back →
          (∀ b ∈ back, priority_of k target < priority_of k b) →
          list_insert_orderly (k.ReadyQueue.erase target) (compare_priority k.heap)
            Order.ASCENDING target = k.ReadyQueue)) := by
  have hflag1 : (deref (store k.heap target (fun d => { d with suspend := true }))
      target).suspend = true := suspend_store_suspend _ _ _ hal
  have hne1 : pid ≠ (deref (store k.heap target (fun d => { d with suspend := true }))
      cur).pid := by
    rw [pid_store_suspend]; exact hne
  constructor
  · intro hin
    refine ⟨_, os_suspend_process_timer k pid cur target target hcur hne h0 h15 htab hflag hin
      htp, ?_⟩
    rw [os_resume_process_timer
      { k with heap := store k.heap target (fun d => { d with suspend := true }) }
      pid cur target target hcur hne1 h0 h15 htab hflag1 hin
      (by rw [pid_store_suspend]; exact htp)]
    show Except.ok ({ k with
        heap := store (store k.heap target (fun d => { d with suspend := true })) target
                  (fun d => { d with suspend := false }) },
      ERR_SUCCESS) = _
    rw [store_suspend_roundtrip _ _ hflag]
  · intro hnt hr
    have hnt' : ∀ q ∈ k.TimerQueue, (deref k.heap q).pid ≠ pid := by
      intro q hq hp
      exact hnt (hut q hq hp ▸ hq)
    have hns : target ∉ k.SuspendQueue := fun hs => hus target hs htp
    have hsus := os_suspend_process_ready k pid cur target hcur hne h0 h15 htab hflag htp hnt'
      hr hur
    rw [if_neg hns] at hsus
    refine ⟨_, hsus, ?_, ?_⟩
    · rw [os_resume_process_suspend
        { k with
          heap := store k.heap target (fun d => { d with suspend := true }),
          ReadyQueue := k.ReadyQueue.erase target,
          SuspendQueue := k.SuspendQueue ++ [target] }
        pid cur target hcur hne1 h0 h15 htab hflag1
        (by rw [pid_store_suspend]; exact htp)
        (by
          intro q hq
          rw [pid_store_suspend]
          exact hnt' q hq)
        (by simp)
        (by
          intro q hq hp
          rw [pid_store_suspend] at hp
          rcases List.mem_append.1 hq with a | a
          · exact absurd hp (hus q a)
          · simpa using a)]
      have hnot : target ∉ k.ReadyQueue.erase target := by
        rw [hnd.mem_erase_iff]
        exact fun h => h.1 rfl
      have herase : (k.SuspendQueue ++ [target]).erase target = k.SuspendQueue := by
        rw [List.erase_append_right _ hns]
        simp
      show Except.ok ({ k with
          heap := store (store k.heap target (fun d => { d with suspend := true })) target
                    (fun d => { d with suspend := false }),
          ReadyQueue :=
            if target ∈ k.ReadyQueue.erase target then k.ReadyQueue.erase target
            else list_insert_orderly (k.ReadyQueue.erase target)
              (compare_priority (store k.heap target (fun d => { d with suspend := true })))
              Order.ASCENDING target,
          SuspendQueue := (k.SuspendQueue ++ [target]).erase target },
        ERR_SUCCESS) = _
      rw [store_suspend_roundtrip _ _ hflag, if_neg hnot, herase,
        compare_priority_store_suspend]
    · intro hso front back hsplit hback
      rw [hsplit]
      have hnf : target ∉ front := by
        rw [hsplit] at hnd
        intro hm
        have := (List.nodup_append.1 hnd).2.2 hm (List.mem_cons_self _ _)
        exact this
      refine insert_erase_same_place k.heap front back target hnf ?_ hback
      intro a ha
      unfold ready_sorted at hso
      rw [hsplit] at hso
      exact (List.pairwise_append.1 hso).2.2 a ha target (List.mem_cons_self _ _)

/-- C14 as amended, at two instances: the initial process (pid 0) suspends and resumes the
child (pid 1, priority 5). With the child in the Timer Queue, and with the child in the Ready
Queue before the initial process (priority 8), both calls return Success and the state is the
one before the two calls. -/
theorem suspend_then_resume_witness :
    child_sleeping_kernel.TimerQueue = [1] ∧
    (os_suspend_process child_sleeping_kernel 1).bind (fun r => os_resume_process r.1 1)
      = .ok (child_sleeping_kernel, ERR_SUCCESS) ∧
    (os_suspend_process child_sleeping_kernel 1).map (fun r => r.2) = .ok ERR_SUCCESS ∧
    child_created_kernel.ReadyQueue = [1, 0] ∧
    (os_suspend_process child_created_kernel 1).bind (fun r => os_resume_process r.1 1)
      = .ok (child_created_kernel, ERR_SUCCESS) ∧
    (os_suspend_process child_created_kernel 1).map (fun r => r.2) = .ok ERR_SUCCESS := by
  obtain ⟨k1, h1, h2⟩ := (suspend_then_resume child_sleeping_kernel 1 0 1 rfl (by decide)
    (by decide) (by decide) rfl (by decide) rfl rfl (by decide) (by decide) (by decide)
    (by decide)).1 (by decide)
  obtain ⟨k2, h3, h4, h5⟩ := (suspend_then_resume child_created_kernel 1 0 1 rfl (by decide)
    (by decide) (by decide) rfl (by decide) rfl rfl (by decide) (by decide) (by decide)
    (by decide)).2 (by decide) (by decide)
  have h6 := h5 (by unfold ready_sorted; decide) [] [0] rfl (by decide)
  rw [h6] at h4
  refine ⟨rfl, ?_, ?_, rfl, ?_, ?_⟩
  · rw [h1]; exact h2
  · rw [h1]; rfl
  · rw [h3]; exact h4
  · rw [h3]; rfl

/-! ### C15: the results of change_priority -/

/-- C15: change_priority returns IllegalPriority (9) for a new priority below 0 or above 100,
whatever the pid; for a legal priority it returns DoesNotExist (13) for a pid below -1 or
from 15 on and for a pid in [0, 15) other than the caller's whose slot of the process table
is empty; these calls return the state they were given. For a legal priority and the
descriptor `target` of the process meant (the current one for pid -1, the one in the slot of
a live pid) it returns Success, the priority of `target` is the new priority, no other
descriptor and no other field changed, and the Ready Queue was sorted by `list_sort`. -/
theorem change_priority_result (k : Kernel) (pid priority : Int) :
    ((priority < 0 ∨ 100 < priority) →
      os_change_priority k pid priority = .ok (k, ERR_ILLEGAL_PRIORITY)) ∧
    (0 ≤ priority → priority ≤ 100 → (pid < -1 ∨ MAX_NUMBER_OF_USER_PROCESSES ≤ pid) →
      os_change_priority k pid priority = .ok (k, ERR_PROCESS_DOESNT_EXIST)) ∧
    (∀ cur, k.CurrentPCB = some cur → 0 ≤ priority → priority ≤ 100 →
      (0 ≤ pid → pid < MAX_NUMBER_OF_USER_PROCESSES → pid ≠ (deref k.heap cur).pid →
        k.ProcessTable pid.toNat = none →
        os_change_priority k pid priority = .ok (k, ERR_PROCESS_DOESNT_EXIST)) ∧
      (∀ target,
        ((pid = -1 ∧ target = cur) ∨
          (0 ≤ pid ∧ pid < MAX_NUMBER_OF_USER_PROCESSES ∧
            k.ProcessTable pid.toNat = some target ∧
            (pid = (deref k.heap cur).pid → target = cur))) →
        os_change_priority k pid priority =
          .ok ({ k with
                  heap := store k.heap target (fun d => { d with priority := priority }),
                  ReadyQueue :=
                    list_sort k.ReadyQueue
                      (compare_priority
                        (store k.heap target (fun d => { d with priority := priority })))
                      Order.ASCENDING },
               ERR_SUCCESS) ∧
        (target < k.heap.length →
          (deref (store k.heap target (fun d => { d with priority := priority }))
            target).priority = priority) ∧
        (∀ q, q ≠ target →
          deref (store k.heap target (fun d => { d with priority := priority })) q
            = deref k.heap q) ∧
        (∀ q, { deref (store k.heap target (fun d => { d with priority := priority })) q with
                priority := 0 } = { deref k.heap q with priority := 0 }))) := by
  refine ⟨?_, ?_, ?_⟩
  · intro hill
    have hv : validate_priority_range priority = 0 := by
      unfold validate_priority_range
      rw [if_pos (by omega)]
    simp only [os_change_priority, hv, if_true]
  · intro h0 h100 hout
    have hv : ¬ validate_priority_range priority = 0 := by
      unfold validate_priority_range
      rw [if_neg (by omega)]
      decide
    have hout' : pid < -1 ∨ pid ≥ (MAX_NUMBER_OF_USER_PROCESSES : Int) := hout
    simp only [os_change_priority, if_neg hv, if_pos hout']
  · intro cur hcur h0 h100
    have hv : ¬ validate_priority_range priority = 0 := by
      unfold validate_priority_range
      rw [if_neg (by omega)]
      decide
    refine ⟨?_, ?_⟩
    · intro hp0 hp15 hne hslot
      have hin : ¬ (pid < -1 ∨ pid ≥ (MAX_NUMBER_OF_USER_PROCESSES : Int)) := by
        intro h; rcases h with h | h <;> omega
      have hself : ¬ (pid = -1 ∨ pid = (deref k.heap cur).pid) := by
        intro h; rcases h with h | h
        · omega
        · exact hne h
      simp only [os_change_priority, if_neg hv, if_neg hin, hcur, if_neg hself, hslot]
    · intro target htarget
      refine ⟨?_, ?_, ?_, ?_⟩
      · rcases htarget with ⟨hp, ht⟩ | ⟨hp0, hp15, hslot, hsame⟩
        · subst hp
          subst ht
          have hin : ¬ ((-1 : Int) < -1 ∨ (-1 : Int) ≥ (MAX_NUMBER_OF_USER_PROCESSES : Int)) := by
            decide
          simp only [os_change_priority, if_neg hv, if_neg hin, hcur, true_or, if_true]
        · have hin : ¬ (pid < -1 ∨ pid ≥ (MAX_NUMBER_OF_USER_PROCESSES : Int)) := by
            intro h; rcases h with h | h <;> omega
          by_cases hself : pid = (deref k.heap cur).pid
          · have ht := hsame hself
            subst ht
            have hself' : pid = -1 ∨ pid = (deref k.heap target).pid := Or.inr hself
            simp only [os_change_priority, if_neg hv, if_neg hin, hcur, if_pos hself']
          · have hself' : ¬ (pid = -1 ∨ pid = (deref k.heap cur).pid) := by
              intro h; rcases h with h | h
              · omega
              · exact hself h
            simp only [os_change_priority, if_neg hv, if_neg hin, hcur, if_neg hself', hslot]
      · intro hal
        rw [deref_store, if_pos ⟨rfl, hal⟩]
      · intro q hq
        rw [deref_store, if_neg (fun h => hq h.1.symm)]
      · intro q
        rw [deref_store]
        split
        · rename_i hpq
          rw [hpq.1]
        · rfl

/-- C15, at an instance: the initial process (pid 0, priority 8) has created a child (pid 1,
priority 5). A change to priority 999 returns IllegalPriority, a change for pid 9999 or the
unused pid 7 returns DoesNotExist, all without a change of state; the change of pid 1 to
priority 10 and the change of pid -1 (the caller) to priority 3 return Success and set that
priority. -/
theorem change_priority_result_witness :
    os_change_priority child_created_kernel 1 999
      = .ok (child_created_kernel, ERR_ILLEGAL_PRIORITY) ∧
    os_change_priority child_created_kernel 9999 10
      = .ok (child_created_kernel, ERR_PROCESS_DOESNT_EXIST) ∧
    os_change_priority child_created_kernel 7 10
      = .ok (child_created_kernel, ERR_PROCESS_DOESNT_EXIST) ∧
    child_created_kernel.heap.map (fun d => d.priority) = [8, 5] ∧
    (os_change_priority child_created_kernel 1 10).map
      (fun r => (r.2, r.1.heap.map (fun d => d.priority), r.1.ReadyQueue))
      = .ok (ERR_SUCCESS, [8, 10], [0, 1]) ∧
    (os_change_priority child_created_kernel (-1) 3).map
      (fun r => (r.2, r.1.heap.map (fun d => d.priority), r.1.ReadyQueue))
      = .ok (ERR_SUCCESS, [3, 5], [0, 1]) := by
  have h := change_priority_result child_created_kernel
  have h1 := (((h 1 10).2.2 0 rfl (by decide) (by decide)).2 1
    (Or.inr ⟨by decide, by decide, rfl, by decide⟩)).1
  have h2 := (((h (-1) 3).2.2 0 rfl (by decide) (by decide)).2 0 (Or.inl ⟨rfl, rfl⟩)).1
  refine ⟨(h 1 999).1 (by decide), (h 9999 10).2.1 (by decide) (by decide) (by decide),
    ((h 7 10).2.2 0 rfl (by decide) (by decide)).1 (by decide) (by decide) (by decide) rfl,
    rfl, ?_, ?_⟩
  · rw [h1]; rfl
  · rw [h2]; rfl

/-! ### C16: change_priority sorts the Ready Queue -/

/-- A change_priority that returns Success wrote the priority of one descriptor and sorted
the Ready Queue with `list_sort`. -/
theorem os_change_priority_success_inv (k k' : Kernel) (pid priority : Int)
    (h : os_change_priority k pid priority = .ok (k', ERR_SUCCESS)) :
    ∃ target, k' = { k with
      heap := store k.heap target (fun d => { d with priority := priority }),
      ReadyQueue := list_sort k.ReadyQueue
        (compare_priority (store k.heap target (fun d => { d with priority := priority })))
        Order.ASCENDING } := by
  unfold os_change_priority at h
  split at h
  · simp [ERR_ILLEGAL_PRIORITY, ERR_SUCCESS] at h
  · split at h
    · simp [ERR_PROCESS_DOESNT_EXIST, ERR_SUCCESS] at h
    · split at h
      · cases h
      · rename_i cur hcur
        split at h
        · simp only [Except.ok.injEq, Prod.mk.injEq, and_true] at h
          exact ⟨cur, h.symm⟩
        · split at h
          · simp [ERR_PROCESS_DOESNT_EXIST, ERR_SUCCESS] at h
          · rename_i target htab
            simp only [Except.ok.injEq, Prod.mk.injEq, and_true] at h
            exact ⟨target, h.symm⟩

/-- C16, refuted as stated: the Ready Queue holds "a" (address 1, priority 5), "b" (address
2, priority 5), "c" (address 3, priority 7) and the initial process (address 0, priority 8).
The change of the priority of "c" (pid 3) to 3 returns Success and leaves the Ready Queue 3,
2, 1, 0: the descriptors 1 and 2 of equal priority have changed places, where the stable sort
of the queue before the call is 3, 1, 2, 0. -/
theorem change_priority_stable_counterexample :
    three_children_kernel.ReadyQueue = [1, 2, 3, 0] ∧
    three_children_kernel.heap.map (fun d => d.priority) = [8, 5, 5, 7] ∧
    os_change_priority three_children_kernel 3 3
      = .ok (priority_changed_kernel, ERR_SUCCESS) ∧
    priority_changed_kernel.heap.map (fun d => d.priority) = [8, 5, 5, 3] ∧
    priority_changed_kernel.ReadyQueue = [3, 2, 1, 0] ∧
    List.insertionSort
      (fun a b => priority_of priority_changed_kernel a ≤ priority_of priority_changed_kernel b)
      three_children_kernel.ReadyQueue = [3, 1, 2, 0] ∧
    priority_changed_kernel.ReadyQueue.filter
      (fun a => decide (priority_of priority_changed_kernel a = 5)) = [2, 1] ∧
    three_children_kernel.ReadyQueue.filter
      (fun a => decide (priority_of priority_changed_kernel a = 5)) = [1, 2] := by
  refine ⟨rfl, rfl, rfl, rfl, rfl, ?_, ?_, ?_⟩ <;> decide

/-- C16, amended: after every change_priority that returns Success the Ready Queue is a
permutation of the Ready Queue before the call, and its priorities (with the new priority of
the target) do not decrease from the head. -/
theorem change_priority_sorts_ready (k k' : Kernel) (pid priority : Int)
    (h : os_change_priority k pid priority = .ok (k', ERR_SUCCESS)) :
    k'.ReadyQueue.Perm k.ReadyQueue ∧ ready_sorted k' := by
  obtain ⟨target, hk⟩ := os_change_priority_success_inv k k' pid priority h
  obtain ⟨hperm, hsorted⟩ := list_sort_spec
    (fun a => (deref (store k.heap target (fun d => { d with priority := priority }))
      a).priority)
    (compare_priority (store k.heap target (fun d => { d with priority := priority })))
    (compare_priority_pos _) k.ReadyQueue
  subst hk
  exact ⟨hperm, hsorted⟩

/-- C16 as amended, at the instance of the counterexample: the call returns Success and the
Ready Queue 3, 2, 1, 0 with the priorities 3, 5, 5, 8 is an ordered permutation of the queue
1, 2, 3, 0 before the call. -/
theorem change_priority_sorts_ready_witness :
    os_change_priority three_children_kernel 3 3
      = .ok (priority_changed_kernel, ERR_SUCCESS) ∧
    priority_changed_kernel.ReadyQueue = [3, 2, 1, 0] ∧
    priority_changed_kernel.ReadyQueue.map (priority_of priority_changed_kernel)
      = [3, 5, 5, 8] ∧
    priority_changed_kernel.ReadyQueue.Perm three_children_kernel.ReadyQueue ∧
    ready_sorted priority_changed_kernel :=
  ⟨rfl, rfl, by decide,
    change_priority_sorts_ready three_children_kernel priority_changed_kernel 3 3 rfl⟩

/-! ### C17: sleep with a positive duration -/

/-- Removing a descriptor that is in the Ready Queue erases it there and returns 1. -/
theorem remove_from_ready_queue_mem (k : Kernel) (cur : Nat) (h : cur ∈ k.ReadyQueue) :
    remove_from_ready_queue k (some cur) =
      ({ k with ReadyQueue := k.ReadyQueue.erase cur }, 1) := by
  obtain ⟨i, hi, hrem⟩ := list_find_element_unique match_pcb cur cur
    (by simp [match_pcb]) k.ReadyQueue h
    (fun q _ hm => by simpa [match_pcb] using hm)
  simp only [remove_from_ready_queue, hi, hrem]

/-- Adding a descriptor that is not in the Timer Queue inserts it by delay time and returns
1. -/
theorem add_to_timer_queue_new (k : Kernel) (x : Nat) (hx : x ∉ k.TimerQueue) :
    add_to_timer_queue k (some x) =
      ({ k with TimerQueue :=
          list_insert_orderly k.TimerQueue (compare_time k.heap) Order.ASCENDING x }, 1) := by
  unfold add_to_timer_queue
  simp [list_contains_match_pcb, hx]

/-- The state that `os_process_sleep` returns for a positive duration, up to the hardware
calls: the delay time of the current descriptor is written, the descriptor is erased from the
Ready Queue and inserted into the Timer Queue by delay time. -/
theorem os_process_sleep_positive (k : Kernel) (sleep_time time_now : Int)
    (status : DeviceStatus) (result0 : Int) (cur : Nat)
    (hcur : k.CurrentPCB = some cur) (hms : 0 < sleep_time)
    (hnt : cur ∉ k.TimerQueue) (hres : cur ∈ k.ReadyQueue ∨ result0 ≠ 0) :
    ∃ hw, os_process_sleep k sleep_time time_now status result0 =
      .ok { k with
        heap := store k.heap cur
          (fun pcb => { pcb with delay_time := to_int32 (time_now + sleep_time) }),
        ReadyQueue := k.ReadyQueue.erase cur,
        TimerQueue := list_insert_orderly k.TimerQueue
          (compare_time (store k.heap cur
            (fun pcb => { pcb with delay_time := to_int32 (time_now + sleep_time) })))
          Order.ASCENDING cur,
        hw := hw } := by
  have h1 : ¬ sleep_time < 0 := by omega
  have h2 : ¬ sleep_time = 0 := by omega
  obtain ⟨heap, tbl, tq, rq, sq, c, root, hw⟩ := k
  simp only at hcur hnt hres
  subst hcur
  have hne : list_insert_orderly tq
      (compare_time (store heap cur
        (fun pcb => { pcb with delay_time := to_int32 (time_now + sleep_time) })))
      Order.ASCENDING cur ≠ [] := by
    intro hnil
    have := (list_insert_orderly_perm tq
      (compare_time (store heap cur
        (fun pcb => { pcb with delay_time := to_int32 (time_now + sleep_time) }))) cur).length_eq
    rw [hnil] at this
    simp at this
  unfold os_process_sleep
  rw [if_neg h1, if_neg h2]
  simp only [list_contains_match_pcb]
  by_cases hin : cur ∈ rq
  · simp only [hin, decide_True, if_true]
    rw [remove_from_ready_queue_mem ⟨_, _, _, _, _, _, _, _⟩ cur hin]
    simp only [one_ne_zero, if_false]
    rw [add_to_timer_queue_new ⟨_, _, _, _, _, _, _, _⟩ cur hnt]
    simp only [one_ne_zero, if_false]
    cases hq : list_insert_orderly tq
      (compare_time (store heap cur
        (fun pcb => { pcb with delay_time := to_int32 (time_now + sleep_time) })))
      Order.ASCENDING cur with
    | nil => exact absurd hq hne
    | cons head rest =>
      simp only
      split
      · exact ⟨_, rfl⟩
      · exact ⟨_, rfl⟩
  · have hr0 : result0 ≠ 0 := by
      rcases hres with h | h
      · exact absurd h hin
      · exact h
    simp only [hin, decide_False, Bool.false_eq_true, if_false, if_neg hr0]
    rw [add_to_timer_queue_new ⟨_, _, _, _, _, _, _, _⟩ cur hnt]
    simp only [one_ne_zero, if_false]
    rw [List.erase_of_not_mem hin]
    cases hq : list_insert_orderly tq
      (compare_time (store heap cur
        (fun pcb => { pcb with delay_time := to_int32 (time_now + sleep_time) })))
      Order.ASCENDING cur with
    | nil => exact absurd hq hne
    | cons head rest =>
      simp only
      split
      · exact ⟨_, rfl⟩
      · exact ⟨_, rfl⟩

/-- An integer in the range of `INT32` is its own conversion. -/
theorem to_int32_of_range (x : Int) (h : -2147483648 ≤ x ∧ x < 2147483648) : to_int32 x = x := by
  unfold to_int32
  rw [Int.emod_eq_of_lt (by omega) (by omega)]
  omega

/-- C17: let the current descriptor `cur` be allocated and not in the Timer Queue, the Ready
Queue without repetition, and `result0` (the value of the uninitialised `result` that the code
tests when `cur` is not in the Ready Queue) not 0. For every ms > 0 with now + ms in the
range of `INT32`, `os_process_sleep` returns; afterwards the delay time of `cur` is now + ms
and no other descriptor changed, `cur` is erased from the Ready Queue and no longer in it,
and the Timer Queue is the old one with `cur` inserted behind the entries whose delay time is
at most now + ms, which keeps an ordered queue ordered; the Suspend Queue, the process table
and the current process are as before. -/
theorem sleep_enters_timer_queue (k : Kernel) (ms now : Int) (status : DeviceStatus)
    (result0 : Int) (cur : Nat)
    (hcur : k.CurrentPCB = some cur) (hal : cur < k.heap.length) (hms : 0 < ms)
    (hrep : -2147483648 ≤ now + ms ∧ now + ms < 2147483648)
    (hnt : cur ∉ k.TimerQueue) (hnd : k.ReadyQueue.Nodup)
    (hres : cur ∈ k.ReadyQueue ∨ result0 ≠ 0) :
    ∃ k', os_process_sleep k ms now status result0 = .ok k' ∧
      delay_time_of k' cur = now + ms ∧
      (∀ q, q ≠ cur → deref k'.heap q = deref k.heap q) ∧
      k'.ReadyQueue = k.ReadyQueue.erase cur ∧ cur ∉ k'.ReadyQueue ∧
      k'.TimerQueue =
        k.TimerQueue.takeWhile (fun q => decide (delay_time_of k q ≤ now + ms)) ++
          cur :: k.TimerQueue.dropWhile (fun q => decide (delay_time_of k q ≤ now + ms)) ∧
      (timer_sorted k → timer_sorted k') ∧
      k'.SuspendQueue = k.SuspendQueue ∧ k'.ProcessTable = k.ProcessTable ∧
      k'.CurrentPCB = k.CurrentPCB := by
  obtain ⟨hw, h⟩ := os_process_sleep_positive k ms now status result0 cur hcur hms hnt hres
  have hdc : (deref (store k.heap cur
      (fun pcb => { pcb with delay_time := to_int32 (now + ms) })) cur).delay_time
      = now + ms := by
    rw [deref_store, if_pos ⟨rfl, hal⟩]
    exact to_int32_of_range _ hrep
  have hdq : ∀ q, q ≠ cur → deref (store k.heap cur
      (fun pcb => { pcb with delay_time := to_int32 (now + ms) })) q = deref k.heap q := by
    intro q hq
    rw [deref_store, if_neg (fun hh => hq hh.1.symm)]
  have hpred : ∀ q ∈ k.TimerQueue,
      decide (0 ≤ compare_time (store k.heap cur
        (fun pcb => { pcb with delay_time := to_int32 (now + ms) })) cur q)
      = decide (delay_time_of k q ≤ now + ms) := by
    intro q hq
    have hqc : q ≠ cur := fun e => hnt (e ▸ hq)
    have := compare_time_nonneg (store k.heap cur
      (fun pcb => { pcb with delay_time := to_int32 (now + ms) })) cur q
    rw [hdc, hdq q hqc] at this
    unfold delay_time_of
    exact decide_eq_decide.2 this
  refine ⟨_, h, hdc, hdq, rfl, ?_, ?_, ?_, rfl, rfl, rfl⟩
  · show cur ∉ k.ReadyQueue.erase cur
    rw [hnd.mem_erase_iff]
    exact fun hh => hh.1 rfl
  · show list_insert_orderly k.TimerQueue _ Order.ASCENDING cur = _
    rw [list_insert_orderly_ascending, takeWhile_congr_mem _ _ _ hpred,
      dropWhile_congr_mem _ _ _ hpred]
  · intro hs
    have hs1 : k.TimerQueue.Pairwise (fun a b =>
        (deref (store k.heap cur
          (fun pcb => { pcb with delay_time := to_int32 (now + ms) })) a).delay_time ≤
        (deref (store k.heap cur
          (fun pcb => { pcb with delay_time := to_int32 (now + ms) })) b).delay_time) := by
      refine pairwise_key_congr (fun a => delay_time_of k a) _ _ (fun a ha => ?_) hs
      rw [hdq a (fun e => hnt (e ▸ ha))]
      rfl
    exact list_insert_orderly_sorted
      (fun a => (deref (store k.heap cur
        (fun pcb => { pcb with delay_time := to_int32 (now + ms) })) a).delay_time)
      _ (fun a b => compare_time_neg _ a b) cur k.TimerQueue hs1

/-- C17, at an instance: the child (address 1) runs and is in no queue, the initial process
(address 0) is in the Timer Queue with wake time 15. The child sleeps 3 at time 6: its wake
time is 9 and it enters the Timer Queue before the initial process. -/
theorem sleep_enters_timer_queue_witness :
    child_running_kernel.CurrentPCB = some 1 ∧ child_running_kernel.TimerQueue = [0] ∧
    child_running_kernel.ReadyQueue = [] ∧ delay_time_of child_running_kernel 0 = 15 ∧
    (os_process_sleep child_running_kernel 3 6 DeviceStatus.DEVICE_IN_USE 1).map
      (fun r => (delay_time_of r 1, r.TimerQueue, r.ReadyQueue)) = .ok (9, [1, 0], []) := by
  obtain ⟨k', h, hd, -, hr, -, ht, -⟩ :=
    sleep_enters_timer_queue child_running_kernel 3 6 DeviceStatus.DEVICE_IN_USE 1 1 rfl
      (by decide) (by decide) (by decide) (by decide) (by decide) (Or.inr (by decide))
  refine ⟨rfl, rfl, rfl, rfl, ?_⟩
  rw [h]
  simp only [Except.map, hd, ht, hr]
  rfl

/-! ### C18: sleep with a negative duration -/

/-- For a negative duration `os_process_sleep` returns the state it was given, and the SLEEP
system call does what the dispatcher does in that state. -/
theorem svc_sleep_negative (k : Kernel) (sleep_time time_now : Int) (status : DeviceStatus)
    (result0 : Int) (h : sleep_time < 0) :
    os_process_sleep k sleep_time time_now status result0 = .ok k ∧
    svc_sleep k sleep_time time_now status result0 = os_dispatcher k := by
  have h1 : os_process_sleep k sleep_time time_now status result0 = .ok k := by
    unfold os_process_sleep
    rw [if_pos h]
  exact ⟨h1, by unfold svc_sleep; rw [h1]⟩

/-- C18, the code at the failing input: the initial process (address 0) has created a child
(address 1, priority 5) and is the current process, with the Ready Queue 1, 0. It calls
SLEEP(-1): `os_process_sleep` returns the state unchanged, and the dispatcher call that `svc`
makes next takes the child from the Ready Queue and makes it the current process. Called by
the child while the Ready Queue is empty, SLEEP(-1) ends in the dispatcher's wait for a
non-empty Ready Queue, the child being in no queue. -/
theorem negative_sleep_dispatches :
    child_created_kernel.CurrentPCB = some 0 ∧ child_created_kernel.ReadyQueue = [1, 0] ∧
    os_process_sleep child_created_kernel (-1) 5 DeviceStatus.DEVICE_FREE 1
      = .ok child_created_kernel ∧
    (svc_sleep child_created_kernel (-1) 5 DeviceStatus.DEVICE_FREE 1).map
      (fun r => (r.CurrentPCB, r.ReadyQueue)) = .ok (some 1, [0]) ∧
    child_running_kernel.CurrentPCB = some 1 ∧ child_running_kernel.ReadyQueue = [] ∧
    child_running_kernel.TimerQueue = [0] ∧
    svc_sleep child_running_kernel (-1) 7 DeviceStatus.DEVICE_IN_USE 1 = .error Stop.idle :=
  ⟨rfl, rfl, rfl, rfl, rfl, rfl, rfl, rfl⟩

/-! ### C20: create followed by terminate -/

/-- The state after a create that returned a descriptor, for a Ready Queue of allocated
descriptors: the new descriptor carries the lowest free slot as pid, is appended to the heap,
entered in that slot and inserted into the Ready Queue by priority. -/
theorem os_create_process_success_state (k k1 : Kernel) (name : String) (start_point : Nat)
    (priority : Int) (next_context : Nat) (raw : PCB) (new : Nat) (error : Int)
    (hq : ∀ a ∈ k.ReadyQueue, a < k.heap.length)
    (h : os_create_process k name start_point priority next_context raw
      = .ok (k1, some new, error)) :
    ∃ (p : Nat) (x : PCB), p < MAX_NUMBER_OF_USER_PROCESSES ∧ k.ProcessTable p = none ∧
      (∀ j, j < p → k.ProcessTable j ≠ none) ∧ x.pid = (p : Int) ∧ new = k.heap.length ∧
      k1 = { k with
        heap := k.heap ++ [x],
        ProcessTable := Function.update k.ProcessTable p (some k.heap.length),
        ReadyQueue := list_insert_orderly k.ReadyQueue (compare_priority (k.heap ++ [x]))
          Order.ASCENDING k.heap.length } := by
  obtain ⟨hs, hc, hlen, hdup, h0, h100, hfull⟩ :=
    os_create_process_some_inv k k1 name start_point priority next_context raw new error h
  obtain ⟨p, hp, hfree, hlow⟩ := exists_lowest_free k hfull
  have hnew : k.heap.length ∉ k.ReadyQueue := fun hmem => absurd (hq _ hmem) (lt_irrefl _)
  have hcreate := create_pcb_success k name start_point priority next_context raw hs hc hlen
    hdup h0 h100 p hp hfree hlow
  unfold os_create_process at h
  rw [hcreate] at h
  simp only [hs, hc, if_false, add_to_ready_queue, list_contains_match_pcb, hnew,
    decide_False, Bool.not_false, if_true, one_ne_zero, Except.ok.injEq, Prod.mk.injEq,
    Option.some.injEq] at h
  exact ⟨p, _, hp, hfree, hlow, rfl, h.2.1.symm, h.1.symm⟩

/-- Erasing a descriptor that was inserted in order into a list without it gives the list
back. -/
theorem erase_list_insert_orderly {α : Type} [DecidableEq α] (l : List α)
    (compare : α → α → Int) (x : α) (hx : x ∉ l) :
    (list_insert_orderly l compare Order.ASCENDING x).erase x = l := by
  rw [list_insert_orderly_ascending]
  have hnt : x ∉ l.takeWhile (fun b => decide (0 ≤ compare x b)) :=
    fun hm => hx ((List.takeWhile_sublist _).subset hm)
  rw [List.erase_append_right _ hnt]
  simp [List.takeWhile_append_dropWhile]

/-- `remove_by_pid` leaves a queue without a descriptor of the pid as it is. -/
theorem remove_by_pid_none (heap : List PCB) (queue : List Nat) (pid : Int)
    (pcb : Option Nat) (hpid : pid ≠ 0) (h : ∀ q ∈ queue, (deref heap q).pid ≠ pid) :
    remove_by_pid heap queue pid pcb = .ok (queue, pcb) := by
  unfold remove_by_pid
  rw [find_from_queue_by_condition_none heap queue pid hpid h]

/-- `remove_by_pid` erases the one descriptor of the pid from a queue and returns it. -/
theorem remove_by_pid_unique (heap : List PCB) (queue : List Nat) (pid : Int)
    (pcb : Option Nat) (t : Nat) (hpid : pid ≠ 0) (ht : (deref heap t).pid = pid)
    (hmem : t ∈ queue) (huniq : ∀ q ∈ queue, (deref heap q).pid = pid → q = t) :
    remove_by_pid heap queue pid pcb = .ok (queue.erase t, some t) := by
  obtain ⟨i, hi, hrem⟩ := list_find_element_unique (match_pid heap) pid t
    (by simp [match_pid, ht]) queue hmem
    (fun q hq hm => huniq q hq (by simpa [match_pid] using hm))
  unfold remove_by_pid
  simp only [find_from_queue_by_condition, if_neg hpid, hi, hrem]

/-- C20: in a state with a current process that is live, a well-formed process table whose
slot 0 is occupied (by the initial process) and queues of live descriptors, when a create
returns Success and a descriptor of pid `p`, the terminate of `p` that the creator calls next
returns Success, and the state it leaves is the state before the create but for the block of
the new descriptor in the heap: the process table, the Ready, Timer and Suspend queues (and
the current process and the hardware calls) are those before the create. -/
theorem create_then_terminate (k k1 : Kernel) (name : String) (start_point : Nat)
    (priority : Int) (next_context : Nat) (raw : PCB) (new cur : Nat) (time_now : Int)
    (hcur : k.CurrentPCB = some cur)
    (hlive : ∃ i, i < MAX_NUMBER_OF_USER_PROCESSES ∧ k.ProcessTable i = some cur)
    (hwf : table_wf k) (hroot : k.ProcessTable 0 ≠ none) (hq : queues_live k)
    (h : os_create_process k name start_point priority next_context raw
      = .ok (k1, some new, ERR_SUCCESS)) :
    os_terminate_process k1 (deref k1.heap new).pid time_now
      = .ok ({ k with heap := k1.heap }, ERR_SUCCESS) := by
  have hmem : ∀ a, a ∈ k.ReadyQueue ∨ a ∈ k.TimerQueue ∨ a ∈ k.SuspendQueue →
      a < k.heap.length ∧ ∃ i, i < MAX_NUMBER_OF_USER_PROCESSES ∧ k.ProcessTable i = some a ∧
        (deref k.heap a).pid = (i : Int) := by
    intro a ha
    obtain ⟨i, hi, hia⟩ := hq a ha
    obtain ⟨h1, h2⟩ := hwf i hi a hia
    exact ⟨h1, i, hi, hia, h2⟩
  obtain ⟨p, x, hp, hfree, -, hx, hnew, hk1⟩ :=
    os_create_process_success_state k k1 name start_point priority next_context raw new
      ERR_SUCCESS (fun a ha => (hmem a (Or.inl ha)).1) h
  subst hnew
  have hp0 : (p : Int) ≠ 0 := by
    intro hz
    have : p = 0 := by exact_mod_cast hz
    subst this
    exact hroot hfree
  have hother : ∀ a, a < k.heap.length →
      (∃ i, i < MAX_NUMBER_OF_USER_PROCESSES ∧ k.ProcessTable i = some a ∧
        (deref k.heap a).pid = (i : Int)) →
      (deref (k.heap ++ [x]) a).pid ≠ (p : Int) := by
    intro a ha ⟨i, _, hia, hpid⟩
    rw [deref_append_left _ _ a ha, hpid]
    intro hip
    have : i = p := by exact_mod_cast hip
    subst this
    rw [hfree] at hia
    cases hia
  obtain ⟨ic, hic, hcl⟩ := hlive
  obtain ⟨hcal, hcpid⟩ := hwf ic hic cur hcl
  have hcne : (deref (k.heap ++ [x]) cur).pid ≠ (p : Int) :=
    hother cur hcal ⟨ic, hic, hcl, hcpid⟩
  have hnewpid : (deref (k.heap ++ [x]) k.heap.length).pid = (p : Int) := by
    rw [deref_append_new]; exact hx
  have hnr : k.heap.length ∉ k.ReadyQueue :=
    fun hm => absurd (hmem _ (Or.inl hm)).1 (lt_irrefl _)
  have hp15 : (p : Int) < (MAX_NUMBER_OF_USER_PROCESSES : Nat) := by exact_mod_cast hp
  have hpn : (0 : Int) ≤ (p : Int) := Int.ofNat_nonneg p
  have c1 : ¬ ((p : Int) < -2 ∨ (p : Int) ≥ (MAX_NUMBER_OF_USER_PROCESSES : Nat)) := by
    intro hh; rcases hh with hh | hh <;> omega
  have c2 : ¬ ((p : Int) = -1 ∨ (deref (k.heap ++ [x]) cur).pid = (p : Int)) := by
    intro hh; rcases hh with hh | hh
    · omega
    · exact hcne hh
  have c3 : ¬ (p : Int) = -2 := by omega
  have hft : find_from_queue_by_condition k.TimerQueue (match_pid (k.heap ++ [x])) (p : Int)
      = .ok none :=
    find_from_queue_by_condition_none _ _ _ hp0
      (fun q hq' => hother q (hmem q (Or.inr (Or.inl hq'))).1 (hmem q (Or.inr (Or.inl hq'))).2)
  have hrr : remove_by_pid (k.heap ++ [x])
      (list_insert_orderly k.ReadyQueue (compare_priority (k.heap ++ [x])) Order.ASCENDING
        k.heap.length) (p : Int) none = .ok (k.ReadyQueue, some k.heap.length) := by
    have := remove_by_pid_unique (k.heap ++ [x])
      (list_insert_orderly k.ReadyQueue (compare_priority (k.heap ++ [x])) Order.ASCENDING
        k.heap.length) (p : Int) none k.heap.length hp0 hnewpid
      ((list_insert_orderly_perm _ _ _).symm.subset (List.mem_cons_self _ _))
      (by
        intro q hq' hqp
        rcases List.mem_cons.1 ((list_insert_orderly_perm _ _ _).subset hq') with e | e
        · exact e
        · exact absurd hqp (hother q (hmem q (Or.inl e)).1 (hmem q (Or.inl e)).2))
    rw [this, erase_list_insert_orderly _ _ _ hnr]
  have hrs : remove_by_pid (k.heap ++ [x]) k.SuspendQueue (p : Int) (some k.heap.length)
      = .ok (k.SuspendQueue, some k.heap.length) :=
    remove_by_pid_none _ _ _ _ hp0
      (fun q hq' => hother q (hmem q (Or.inr (Or.inr hq'))).1 (hmem q (Or.inr (Or.inr hq'))).2)
  have htbl : Function.update (Function.update k.ProcessTable p (some k.heap.length)) p none
      = k.ProcessTable := by
    rw [Function.update_idem, ← hfree, Function.update_eq_self]
  obtain ⟨heap, tbl, tq, rq, sq, c, root, hw⟩ := k
  simp only at hcur hft hrr hrs htbl hnewpid c2
  subst hcur
  subst hk1
  simp only [hnewpid]
  unfold os_terminate_process
  simp only [if_neg c1, if_neg c2, if_neg c3, hft, hrr, hrs, list_size]
  simp only [remove_from_process_table, hnewpid, slot_of_nat p hp]
  simp [htbl, ERR_SUCCESS]

theorem queues_live_boot_kernel : queues_live boot_kernel := by
  intro q hq
  have hq' : q ∈ [0] ∨ q ∈ ([] : List Nat) ∨ q ∈ ([] : List Nat) := hq
  simp only [List.mem_singleton, List.not_mem_nil, or_false] at hq'
  subst hq'
  exact ⟨0, by decide, rfl⟩

/-- C20, at an instance: after boot the initial process (pid 0) creates "child", which gets
pid 1, and terminates pid 1; the terminate returns Success and leaves the state after boot
but for the block of the child's descriptor in the heap. -/
theorem create_then_terminate_witness :
    boot_kernel.CurrentPCB = some 0 ∧ boot_kernel.ProcessTable 0 = some 0 ∧
    boot_kernel.ReadyQueue = [0] ∧
    os_create_process boot_kernel "child" 1 5 1 default
      = .ok (child_created_kernel, some 1, ERR_SUCCESS) ∧
    child_created_kernel.ReadyQueue = [1, 0] ∧
    os_terminate_process child_created_kernel (deref child_created_kernel.heap 1).pid 7
      = .ok ({ boot_kernel with heap := child_created_kernel.heap }, ERR_SUCCESS) :=
  ⟨rfl, rfl, rfl, rfl, rfl,
    create_then_terminate boot_kernel child_created_kernel "child" 1 5 1 default 1 0 7 rfl
      ⟨0, by decide, rfl⟩ table_wf_boot_kernel (by decide) queues_live_boot_kernel rfl⟩

/-! ### The invariant of the steps without disk requests, second part -/

theorem InvC_init : InvC false init_kernel :=
  ⟨fun q hq => (by rcases hq with h | h | h <;> cases h), List.nodup_nil,
    fun p hp => (by cases hp), fun p hp => (by cases hp), fun c hc => (by cases hc),
    fun _ c hc => (by cases hc), fun _ c hc => (by cases hc), fun r hr => (by cases hr),
    fun i p _ hp => (by cases hp)⟩

theorem InvC_waiting (w : Bool) (k : Kernel) (h : InvC w k) : InvC true k :=
  ⟨h.live, h.suspend_nodup, h.suspend_ready, h.suspend_timer, h.current_live,
    fun hw => (by cases hw), fun hw => (by cases hw), h.root_slot, h.slot0⟩

/-- The invariant does not read the descriptors or the hardware calls. -/
theorem InvC_heap_hw (w : Bool) (k : Kernel) (heap : List PCB) (hw : List HwCall)
    (h : InvC w k) : InvC w { k with heap := heap, hw := hw } :=
  ⟨h.live, h.suspend_nodup, h.suspend_ready, h.suspend_timer, h.current_live,
    h.current_not_suspend, h.current_ready_root, h.root_slot, h.slot0⟩

theorem InvC_start_timer (w : Bool) (k : Kernel) (t : Int) (h : InvC w k) :
    InvC w (start_timer k t) :=
  InvC_heap_hw w k k.heap _ h

theorem InvC_switch_context (w : Bool) (k : Kernel) (h : InvC w k) :
    InvC w (switch_context k) := by
  unfold switch_context
  split
  · exact InvC_heap_hw w k k.heap _ h
  · exact h

/-- The new descriptor of a create is live and in the Ready Queue only. -/
theorem InvC_create (w : Bool) (k : Kernel) (x : PCB) (p : Nat)
    (hp : p < MAX_NUMBER_OF_USER_PROCESSES) (hfree : k.ProcessTable p = none)
    (hlow : ∀ j, j < p → k.ProcessTable j ≠ none) (ha : InvA k) (h : InvC w k) :
    InvC w { k with
      heap := k.heap ++ [x],
      ProcessTable := Function.update k.ProcessTable p (some k.heap.length),
      ReadyQueue := list_insert_orderly k.ReadyQueue (compare_priority (k.heap ++ [x]))
        Order.ASCENDING k.heap.length } := by
  have hperm := list_insert_orderly_perm k.ReadyQueue (compare_priority (k.heap ++ [x]))
    k.heap.length
  have hkeep : ∀ i q, k.ProcessTable i = some q →
      Function.update k.ProcessTable p (some k.heap.length) i = some q := by
    intro i q hq
    have hip : i ≠ p := by
      intro e; rw [e, hfree] at hq; cases hq
    rw [Function.update_noteq hip]; exact hq
  refine ⟨?_, h.suspend_nodup, ?_, h.suspend_timer, ?_, h.current_not_suspend, ?_, ?_, ?_⟩
  · intro q hq
    have hq' : q ∈ list_insert_orderly k.ReadyQueue (compare_priority (k.heap ++ [x]))
        Order.ASCENDING k.heap.length ∨ q ∈ k.TimerQueue ∨ q ∈ k.SuspendQueue := hq
    have hold : q ∈ k.ReadyQueue ∨ q ∈ k.TimerQueue ∨ q ∈ k.SuspendQueue →
        ∃ i, i < MAX_NUMBER_OF_USER_PROCESSES ∧
          Function.update k.ProcessTable p (some k.heap.length) i = some q := by
      intro ho
      obtain ⟨i, hi, hiq⟩ := h.live q ho
      exact ⟨i, hi, hkeep i q hiq⟩
    rcases hq' with hr | hr | hr
    · rcases List.mem_cons.1 (hperm.subset hr) with e | e
      · exact ⟨p, hp, by rw [e]; simp⟩
      · exact hold (Or.inl e)
    · exact hold (Or.inr (Or.inl hr))
    · exact hold (Or.inr (Or.inr hr))
  · intro q hq hr
    rcases List.mem_cons.1 (hperm.subset hr) with e | e
    · exact absurd (ha.suspend_alloc q hq) (by rw [e]; exact lt_irrefl _)
    · exact h.suspend_ready q hq e
  · intro c hc
    obtain ⟨i, hi, hic⟩ := h.current_live c hc
    exact ⟨i, hi, hkeep i c hic⟩
  · intro hw c hc hr
    rcases List.mem_cons.1 (hperm.subset hr) with e | e
    · exact absurd (ha.current_alloc c hc) (by rw [e]; exact lt_irrefl _)
    · exact h.current_ready_root hw c hc e
  · intro r hr
    exact hkeep 0 r (h.root_slot r hr)
  · intro i q hi hq
    show Function.update k.ProcessTable p (some k.heap.length) 0 ≠ none
    by_cases hp0 : p = 0
    · rw [hp0]; simp
    · rw [Function.update_noteq (Ne.symm hp0)]
      exact hlow 0 (Nat.pos_of_ne_zero hp0)

theorem InvC_os_create_process (w : Bool) (k k' : Kernel) (name : String) (start_point : Nat)
    (priority : Int) (next_context : Nat) (raw : PCB) (pcb : Option Nat) (error : Int)
    (ha : InvA k) (hc : InvC w k)
    (h : os_create_process k name start_point priority next_context raw
      = .ok (k', pcb, error)) : InvC w k' := by
  cases pcb with
  | none =>
    rw [os_create_process_failure_frame k k' name start_point priority next_context raw error h]
    exact hc
  | some new =>
    obtain ⟨p, x, hp, hfree, hlow, -, -, hk⟩ :=
      os_create_process_success_state k k' name start_point priority next_context raw new
        error ha.ready_alloc h
    rw [hk]
    exact InvC_create w k x p hp hfree hlow ha hc

theorem InvC_osInit (entry_point next_context : Nat) (raw : PCB) (k : Kernel)
    (h : osInit entry_point next_context raw = .ok k) : InvC false k := by
  unfold osInit at h
  split at h
  · cases h
  · rename_i k1 pcb e hcr
    obtain ⟨p, x, hp, hfree, hlow, -, hnew, hk⟩ :=
      os_create_process_success_state init_kernel k1 _ _ _ _ _ pcb e
        (fun a ha => by cases ha) hcr
    have hp0 : p = 0 := by
      by_contra hne
      exact hlow 0 (Nat.pos_of_ne_zero hne) rfl
    subst hp0
    have h1 := InvC_create false init_kernel x 0 hp hfree hlow InvA_init InvC_init
    rw [← hk] at h1
    simp only [Except.ok.injEq] at h
    subst h
    have hslot : k1.ProcessTable 0 = some pcb := by
      rw [hk, hnew]
      simp [init_kernel]
    have hs : k1.SuspendQueue = [] := by rw [hk]; rfl
    refine ⟨h1.live, h1.suspend_nodup, h1.suspend_ready, h1.suspend_timer, ?_, ?_,
      fun _ c hc _ => hc, ?_, h1.slot0⟩
    · intro c hc
      have : c = pcb := by simpa using hc.symm
      rw [this]
      exact ⟨0, by decide, hslot⟩
    · intro _ c _ hcs
      have hcs' : c ∈ k1.SuspendQueue := hcs
      rw [hs] at hcs'
      cases hcs'
    · intro r hr
      have : r = pcb := by simpa using hr.symm
      rw [this]
      exact hslot
  · rename_i k1 e hcr
    simp only [Except.ok.injEq] at h
    subst h
    rw [os_create_process_failure_frame _ _ _ _ _ _ _ _ hcr]
    exact InvC_init

theorem InvC_os_dispatcher (w : Bool) (k k' : Kernel) (hb : InvB w k) (hc : InvC w k)
    (h : os_dispatcher k = .ok k') : InvC false k' := by
  unfold os_dispatcher at h
  split at h
  · cases h
  · split at h
    · cases h
    · rename_i k1 pcb r hd
      obtain ⟨t, hq, hk1⟩ := dequeue_from_ready_queue_some k k1 pcb r hd
      simp only [Except.ok.injEq] at h
      subst h
      subst hk1
      apply InvC_switch_context
      have hsub : ∀ q, q ∈ t → q ∈ k.ReadyQueue := by
        intro q hq'; rw [hq]; exact List.mem_cons_of_mem _ hq'
      have hhead : pcb ∈ k.ReadyQueue := by rw [hq]; exact List.mem_cons_self _ _
      refine ⟨?_, hc.suspend_nodup, ?_, hc.suspend_timer, ?_, ?_, ?_, hc.root_slot, hc.slot0⟩
      · intro q hq'
        rcases hq' with a | a | a
        · exact hc.live q (Or.inl (hsub q a))
        · exact hc.live q (Or.inr (Or.inl a))
        · exact hc.live q (Or.inr (Or.inr a))
      · exact fun p hp hpt => hc.suspend_ready p hp (hsub p hpt)
      · intro c hcc
        have : c = pcb := by simpa using hcc.symm
        rw [this]
        exact hc.live pcb (Or.inl hhead)
      · intro _ c hcc hcs
        have : c = pcb := by simpa using hcc.symm
        rw [this] at hcs
        exact hc.suspend_ready pcb hcs hhead
      · intro _ c hcc hcr
        have : c = pcb := by simpa using hcc.symm
        rw [this] at hcr
        have hnd := hb.ready_nodup
        rw [hq] at hnd
        exact absurd hcr (List.nodup_cons.1 hnd).1

/-- The Ready Queue after `add_to_ready_queue` holds the descriptor and entries of the old
queue only. -/
theorem add_to_ready_queue_mem (k : Kernel) (x : Nat) :
    ∃ rq, add_to_ready_queue k (some x) = ({ k with ReadyQueue := rq }, 1) ∧
      ∀ q ∈ rq, q = x ∨ q ∈ k.ReadyQueue := by
  unfold add_to_ready_queue
  by_cases h : list_contains k.ReadyQueue match_pcb x = true
  · exact ⟨k.ReadyQueue, by simp [h], fun q hq => Or.inr hq⟩
  · refine ⟨list_insert_orderly k.ReadyQueue (compare_priority k.heap) Order.ASCENDING x,
      by simp [h], fun q hq => ?_⟩
    rcases List.mem_cons.1 ((list_insert_orderly_perm _ _ _).subset hq) with e | e
    · exact Or.inl e
    · exact Or.inr e

theorem InvC_os_process_sleep (k k' : Kernel) (sleep_time time_now : Int)
    (status : DeviceStatus) (result0 : Int) (hb : InvB false k) (hc : InvC false k)
    (h : os_process_sleep k sleep_time time_now status result0 = .ok k') : InvC true k' := by
  by_cases h1 : sleep_time < 0
  · rw [(svc_sleep_negative k sleep_time time_now status result0 h1).1] at h
    simp only [Except.ok.injEq] at h
    rw [← h]
    exact InvC_waiting false k hc
  · by_cases h2 : sleep_time = 0
    · unfold os_process_sleep at h
      rw [if_neg h1, if_pos h2] at h
      cases hcur : k.CurrentPCB with
      | none =>
        rw [hcur] at h
        simp [add_to_ready_queue] at h
      | some c =>
        rw [hcur] at h
        obtain ⟨rq, hadd, hmem⟩ := add_to_ready_queue_mem k c
        rw [hadd] at h
        simp only [one_ne_zero, if_false, Except.ok.injEq] at h
        rw [← h]
        refine ⟨?_, hc.suspend_nodup, ?_, hc.suspend_timer, hc.current_live,
          fun hw => (by cases hw), fun hw => (by cases hw), hc.root_slot, hc.slot0⟩
        · intro q hq
          rcases hq with a | a | a
          · rcases hmem q a with e | e
            · rw [e]; exact hc.current_live c hcur
            · exact hc.live q (Or.inl e)
          · exact hc.live q (Or.inr (Or.inl a))
          · exact hc.live q (Or.inr (Or.inr a))
        · intro p hp hpr
          rcases hmem p hpr with e | e
          · rw [e] at hp
            exact hc.current_not_suspend rfl c hcur hp
          · exact hc.suspend_ready p hp e
    · have hms : 0 < sleep_time := by omega
      cases hcur : k.CurrentPCB with
      | none =>
        unfold os_process_sleep at h
        rw [if_neg h1, if_neg h2, hcur] at h
        cases h
      | some c =>
        have hnt : c ∉ k.TimerQueue := hb.current_not_timer rfl c hcur
        by_cases hres : c ∈ k.ReadyQueue ∨ result0 ≠ 0
        · obtain ⟨hw, he⟩ := os_process_sleep_positive k sleep_time time_now status result0 c
            hcur hms hnt hres
          rw [he] at h
          simp only [Except.ok.injEq] at h
          rw [← h]
          have hperm := list_insert_orderly_perm k.TimerQueue
            (compare_time (store k.heap c
              (fun pcb => { pcb with delay_time := to_int32 (time_now + sleep_time) }))) c
          refine ⟨?_, hc.suspend_nodup, ?_, ?_, hc.current_live,
            fun hw => (by cases hw), fun hw => (by cases hw), hc.root_slot, hc.slot0⟩
          · intro q hq
            rcases hq with a | a | a
            · exact hc.live q (Or.inl (List.mem_of_mem_erase a))
            · rcases List.mem_cons.1 (hperm.subset a) with e | e
              · rw [e]; exact hc.current_live c hcur
              · exact hc.live q (Or.inr (Or.inl e))
            · exact hc.live q (Or.inr (Or.inr a))
          · exact fun p hp hpr => hc.suspend_ready p hp (List.mem_of_mem_erase hpr)
          · intro p hp hpt
            rcases List.mem_cons.1 (hperm.subset hpt) with e | e
            · rw [e] at hp
              exact hc.current_not_suspend rfl c hcur hp
            · exact hc.suspend_timer p hp e
        · exfalso
          have hin : c ∉ k.ReadyQueue := fun hm => hres (Or.inl hm)
          have hr0 : result0 = 0 := by
            by_contra hne
            exact hres (Or.inr hne)
          unfold os_process_sleep at h
          rw [if_neg h1, if_neg h2, hcur] at h
          simp [list_contains_match_pcb, hin, hr0] at h

theorem InvC_os_make_ready_to_run (w : Bool) (k k' : Kernel) (clock : Nat → Int)
    (hb : InvB w k) (hc : InvC w k) (h : os_make_ready_to_run k clock = .ok k') :
    InvC w k' := by
  obtain ⟨k'', woken, hrun, hw⟩ := os_make_ready_to_run_woken k clock
  rw [hrun] at h
  simp only [Except.ok.injEq] at h
  subst h
  have hwt : ∀ p ∈ woken, p ∈ k.TimerQueue := by
    intro p hp; rw [hw.timer]; exact List.mem_append_left _ hp
  have htt : ∀ p ∈ k''.TimerQueue, p ∈ k.TimerQueue := by
    intro p hp; rw [hw.timer]; exact List.mem_append_right _ hp
  have hdis : ∀ p ∈ woken, p ∉ k''.TimerQueue := by
    intro p hp hpt
    have hnd := hb.timer_nodup
    rw [hw.timer] at hnd
    exact (List.nodup_append.1 hnd).2.2 hp hpt
  refine ⟨?_, hw.suspend_nodup hc.suspend_nodup, ?_, ?_, ?_, ?_, ?_, ?_, ?_⟩
  · intro q hq
    rw [hw.table]
    rcases hq with a | a | a
    · rcases hw.ready_from q a with e | ⟨e, -⟩
      · exact hc.live q (Or.inl e)
      · exact hc.live q (Or.inr (Or.inl (hwt q e)))
    · exact hc.live q (Or.inr (Or.inl (htt q a)))
    · rcases hw.suspend_from q a with e | ⟨e, -⟩
      · exact hc.live q (Or.inr (Or.inr e))
      · exact hc.live q (Or.inr (Or.inl (hwt q e)))
  · intro p hp hpr
    rcases hw.suspend_from p hp with a | ⟨a, fa⟩
    · rcases hw.ready_from p hpr with b | ⟨b, -⟩
      · exact hc.suspend_ready p a b
      · exact hc.suspend_timer p a (hwt p b)
    · rcases hw.ready_from p hpr with b | ⟨-, fb⟩
      · exact hb.disjoint p b (hwt p a)
      · rw [fa] at fb; cases fb
  · intro p hp hpt
    rcases hw.suspend_from p hp with a | ⟨a, -⟩
    · exact hc.suspend_timer p a (htt p hpt)
    · exact hdis p a hpt
  · intro c hcc
    rw [hw.table]
    exact hc.current_live c (hw.current ▸ hcc)
  · intro hwf c hcc hcs
    have hcc' : k.CurrentPCB = some c := hw.current ▸ hcc
    rcases hw.suspend_from c hcs with a | ⟨a, -⟩
    · exact hc.current_not_suspend hwf c hcc' a
    · exact hb.current_not_timer hwf c hcc' (hwt c a)
  · intro hwf c hcc hcr
    have hcc' : k.CurrentPCB = some c := hw.current ▸ hcc
    rw [hw.root]
    rcases hw.ready_from c hcr with a | ⟨a, -⟩
    · exact hc.current_ready_root hwf c hcc' a
    · exact absurd (hwt c a) (hb.current_not_timer hwf c hcc')
  · intro r hr
    rw [hw.table]
    exact hc.root_slot r (hw.root ▸ hr)
  · intro i p hi hp
    rw [hw.table] at hp ⊢
    exact hc.slot0 i p hi hp

/-- A suspend that returns leaves the state as it was unless it returns Success. -/
theorem os_suspend_process_frame (k k' : Kernel) (pid error : Int)
    (h : os_suspend_process k pid = .ok (k', error)) : k' = k ∨ error = ERR_SUCCESS := by
  unfold os_suspend_process at h
  split at h
  · simp only [Except.ok.injEq, Prod.mk.injEq] at h; exact Or.inl h.1.symm
  · split at h
    · simp only [Except.ok.injEq, Prod.mk.injEq] at h; exact Or.inl h.1.symm
    · split at h
      · cases h
      · split at h
        · simp only [Except.ok.injEq, Prod.mk.injEq] at h; exact Or.inl h.1.symm
        · split at h
          · simp only [Except.ok.injEq, Prod.mk.injEq] at h; exact Or.inl h.1.symm
          · split at h
            · simp only [Except.ok.injEq, Prod.mk.injEq] at h; exact Or.inl h.1.symm
            · split at h
              · cases h
              · simp only [Except.ok.injEq, Prod.mk.injEq] at h; exact Or.inr h.2.symm
              · split at h
                · cases h
                · split at h
                  · cases h
                  · dsimp only at h
                    split at h
                    · cases h
                    · simp only [Except.ok.injEq, Prod.mk.injEq] at h; exact Or.inr h.2.symm
                · dsimp only at h
                  split at h
                  · cases h
                  · simp only [Except.ok.injEq, Prod.mk.injEq] at h; exact Or.inr h.2.symm

/-- A resume that returns leaves the state as it was unless it returns Success. -/
theorem os_resume_process_frame (k k' : Kernel) (pid error : Int)
    (h : os_resume_process k pid = .ok (k', error)) : k' = k ∨ error = ERR_SUCCESS := by
  unfold os_resume_process at h
  split at h
  · simp only [Except.ok.injEq, Prod.mk.injEq] at h; exact Or.inl h.1.symm
  · split at h
    · simp only [Except.ok.injEq, Prod.mk.injEq] at h; exact Or.inl h.1.symm
    · split at h
      · cases h
      · split at h
        · simp only [Except.ok.injEq, Prod.mk.injEq] at h; exact Or.inl h.1.symm
        · split at h
          · simp only [Except.ok.injEq, Prod.mk.injEq] at h; exact Or.inl h.1.symm
          · split at h
            · split at h
              · cases h
              · simp only [Except.ok.injEq, Prod.mk.injEq] at h; exact Or.inr h.2.symm
              · split at h
                · cases h
                · split at h
                  · cases h
                  · dsimp only at h
                    split at h
                    · cases h
                    · simp only [Except.ok.injEq, Prod.mk.injEq] at h; exact Or.inr h.2.symm
                · dsimp only at h
                  split at h
                  · cases h
                  · simp only [Except.ok.injEq, Prod.mk.injEq] at h; exact Or.inr h.2.symm
            · simp only [Except.ok.injEq, Prod.mk.injEq] at h; exact Or.inl h.1.symm

/-- A resume that returns Success was called for the pid, from 1 on, of a suspended live
process other than the caller. -/
theorem os_resume_process_success_inv (k k' : Kernel) (pid : Int)
    (h : os_resume_process k pid = .ok (k', ERR_SUCCESS)) :
    ∃ cur target, k.CurrentPCB = some cur ∧ pid ≠ (deref k.heap cur).pid ∧ 0 < pid ∧
      pid < MAX_NUMBER_OF_USER_PROCESSES ∧ k.ProcessTable pid.toNat = some target ∧
      (deref k.heap target).suspend = true := by
  unfold os_resume_process at h
  split at h
  · simp [ERR_PROCESS_DOESNT_EXIST, ERR_SUCCESS] at h
  · rename_i hr
    split at h
    · simp [ERR_RESUME_SELF, ERR_SUCCESS] at h
    · rename_i h1
      split at h
      · cases h
      · rename_i cur hcur
        split at h
        · simp [ERR_RESUME_SELF, ERR_SUCCESS] at h
        · rename_i hne
          split at h
          · simp [ERR_PROCESS_DOESNT_EXIST, ERR_SUCCESS] at h
          · rename_i target htab
            split at h
            · rename_i hflag
              have hp0 : pid ≠ 0 := by
                intro hz
                simp [find_from_queue_by_condition, hz] at h
              refine ⟨cur, target, hcur, hne, ?_, ?_, htab, hflag⟩
              · have : ¬ pid < -1 := fun hlt => hr (Or.inl hlt)
                omega
              · have : ¬ pid ≥ (MAX_NUMBER_OF_USER_PROCESSES : Int) := fun hge => hr (Or.inr hge)
                omega
            · simp [ERR_RESUME_UNSUSPENDED_PROCESS, ERR_SUCCESS] at h

/-- In a state of the invariants the descriptor of a slot is the only descriptor of its pid in
the queues. -/
theorem pid_unique_of_live (w : Bool) (k : Kernel) (hb : InvB w k) (hc : InvC w k) (pid : Int)
    (target : Nat) (h0 : 0 ≤ pid) (h15 : pid < MAX_NUMBER_OF_USER_PROCESSES)
    (htab : k.ProcessTable pid.toNat = some target) :
    (deref k.heap target).pid = pid ∧
    ∀ q, q ∈ k.ReadyQueue ∨ q ∈ k.TimerQueue ∨ q ∈ k.SuspendQueue →
      (deref k.heap q).pid = pid → q = target := by
  have hlt : pid.toNat < MAX_NUMBER_OF_USER_PROCESSES := by
    have : ((pid.toNat : Nat) : Int) = pid := Int.toNat_of_nonneg h0
    omega
  constructor
  · rw [hb.table_pid pid.toNat target hlt htab]
    exact Int.toNat_of_nonneg h0
  · intro q hq hqp
    obtain ⟨i, hi, hiq⟩ := hc.live q hq
    have hpi := hb.table_pid i q hi hiq
    have : i = pid.toNat := by
      have : (i : Int) = pid := hpi.symm.trans hqp
      omega
    subst this
    rw [htab] at hiq
    exact (Option.some.inj hiq).symm

theorem InvC_os_suspend_process (k k' : Kernel) (pid error : Int)
    (hb : InvB false k) (hc : InvC false k)
    (h : os_suspend_process k pid = .ok (k', error)) : InvC false k' := by
  rcases os_suspend_process_frame k k' pid error h with hk | he
  · rw [hk]; exact hc
  · subst he
    obtain ⟨cur, target, hcur, hne, h0, h15, htab, hflag⟩ :=
      os_suspend_process_success_inv k k' pid h
    obtain ⟨htp, huniq⟩ := pid_unique_of_live false k hb hc pid target (le_of_lt h0) h15 htab
    have hlt : pid.toNat < MAX_NUMBER_OF_USER_PROCESSES := by
      have : ((pid.toNat : Nat) : Int) = pid := Int.toNat_of_nonneg (le_of_lt h0)
      omega
    have htc : target ≠ cur := by
      intro e; rw [e] at htp; exact hne htp.symm
    have hcc : ∀ c, k.CurrentPCB = some c → c = cur := by
      intro c hcc; rw [hcur] at hcc; exact (Option.some.inj hcc).symm
    by_cases hint : target ∈ k.TimerQueue
    · rw [os_suspend_process_timer k pid cur target target hcur hne h0 h15 htab hflag hint htp]
        at h
      simp only [Except.ok.injEq, Prod.mk.injEq, and_true] at h
      rw [← h]
      exact InvC_heap_hw false k _ k.hw hc
    · have hnt : ∀ q ∈ k.TimerQueue, (deref k.heap q).pid ≠ pid :=
        fun q hq hp => hint (huniq q (Or.inr (Or.inl hq)) hp ▸ hq)
      -- the Suspend Queue with the target appended
      have happ : ∀ rq : List Nat, (∀ q ∈ rq, q ∈ k.ReadyQueue) → target ∉ rq →
          target ∉ k.SuspendQueue →
          InvC false { k with
            heap := store k.heap target (fun d => { d with suspend := true }),
            ReadyQueue := rq, SuspendQueue := k.SuspendQueue ++ [target] } := by
        intro rq hrq htr hts
        refine ⟨?_, ?_, ?_, ?_, hc.current_live, ?_, ?_, hc.root_slot, hc.slot0⟩
        · intro q hq
          rcases hq with a | a | a
          · exact hc.live q (Or.inl (hrq q a))
          · exact hc.live q (Or.inr (Or.inl a))
          · rcases List.mem_append.1 a with b | b
            · exact hc.live q (Or.inr (Or.inr b))
            · have : q = target := by simpa using b
              rw [this]; exact ⟨pid.toNat, hlt, htab⟩
        · exact List.nodup_append.2 ⟨hc.suspend_nodup, List.nodup_singleton _, by
            intro a ha hb'
            have : a = target := by simpa using hb'
            exact hts (this ▸ ha)⟩
        · intro p hp hpr
          rcases List.mem_append.1 hp with b | b
          · exact hc.suspend_ready p b (hrq p hpr)
          · have : p = target := by simpa using b
            exact htr (this ▸ hpr)
        · intro p hp hpt
          rcases List.mem_append.1 hp with b | b
          · exact hc.suspend_timer p b hpt
          · have : p = target := by simpa using b
            exact hint (this ▸ hpt)
        · intro hw c hcc' hcs
          rcases List.mem_append.1 hcs with b | b
          · exact hc.current_not_suspend hw c hcc' b
          · have : c = target := by simpa using b
            exact htc (this ▸ hcc c hcc')
        · intro hw c hcc' hcr
          exact hc.current_ready_root hw c hcc' (hrq c hcr)
      by_cases hinr : target ∈ k.ReadyQueue
      · have hns : target ∉ k.SuspendQueue := fun hs => hc.suspend_ready target hs hinr
        rw [os_suspend_process_ready k pid cur target hcur hne h0 h15 htab hflag htp hnt hinr
          (fun q hq hp => huniq q (Or.inl hq) hp), if_neg hns] at h
        simp only [Except.ok.injEq, Prod.mk.injEq, and_true] at h
        rw [← h]
        exact happ _ (fun q hq => List.mem_of_mem_erase hq)
          (by rw [hb.ready_nodup.mem_erase_iff]; exact fun hh => hh.1 rfl) hns
      · have hnr : ∀ q ∈ k.ReadyQueue, (deref k.heap q).pid ≠ pid :=
          fun q hq hp => hinr (huniq q (Or.inl hq) hp ▸ hq)
        rw [os_suspend_process_other k pid cur target hcur hne h0 h15 htab hflag hnt hnr] at h
        simp only [Except.ok.injEq, Prod.mk.injEq, and_true] at h
        rw [← h]
        by_cases hs : target ∈ k.SuspendQueue
        · rw [if_pos hs]
          exact InvC_heap_hw false k _ k.hw hc
        · rw [if_neg hs]
          exact happ k.ReadyQueue (fun q hq => hq) hinr hs

theorem InvC_os_resume_process (k k' : Kernel) (pid error : Int)
    (hb : InvB false k) (hc : InvC false k)
    (h : os_resume_process k pid = .ok (k', error)) : InvC false k' := by
  rcases os_resume_process_frame k k' pid error h with hk | he
  · rw [hk]; exact hc
  · subst he
    obtain ⟨cur, target, hcur, hne, h0, h15, htab, hflag⟩ :=
      os_resume_process_success_inv k k' pid h
    obtain ⟨htp, huniq⟩ := pid_unique_of_live false k hb hc pid target (le_of_lt h0) h15 htab
    have hlt : pid.toNat < MAX_NUMBER_OF_USER_PROCESSES := by
      have : ((pid.toNat : Nat) : Int) = pid := Int.toNat_of_nonneg (le_of_lt h0)
      omega
    have htc : target ≠ cur := by
      intro e; rw [e] at htp; exact hne htp.symm
    have hcc : ∀ c, k.CurrentPCB = some c → c = cur := by
      intro c hcc; rw [hcur] at hcc; exact (Option.some.inj hcc).symm
    by_cases hint : target ∈ k.TimerQueue
    · rw [os_resume_process_timer k pid cur target target hcur hne h0 h15 htab hflag hint htp]
        at h
      simp only [Except.ok.injEq, Prod.mk.injEq, and_true] at h
      rw [← h]
      exact InvC_heap_hw false k _ k.hw hc
    · have hnt : ∀ q ∈ k.TimerQueue, (deref k.heap q).pid ≠ pid :=
        fun q hq hp => hint (huniq q (Or.inr (Or.inl hq)) hp ▸ hq)
      have hperm := list_insert_orderly_perm k.ReadyQueue (compare_priority k.heap) target
      -- the target inserted into the Ready Queue, the Suspend Queue a part of the old one
      have hins : ∀ sq : List Nat, sq.Sublist k.SuspendQueue → target ∉ sq →
          InvC false { k with
            heap := store k.heap target (fun d => { d with suspend := false }),
            ReadyQueue := list_insert_orderly k.ReadyQueue (compare_priority k.heap)
              Order.ASCENDING target,
            SuspendQueue := sq } := by
        intro sq hsq hts
        refine ⟨?_, hc.suspend_nodup.sublist hsq, ?_, ?_, hc.current_live, ?_, ?_,
          hc.root_slot, hc.slot0⟩
        · intro q hq
          rcases hq with a | a | a
          · rcases List.mem_cons.1 (hperm.subset a) with e | e
            · rw [e]; exact ⟨pid.toNat, hlt, htab⟩
            · exact hc.live q (Or.inl e)
          · exact hc.live q (Or.inr (Or.inl a))
          · exact hc.live q (Or.inr (Or.inr (hsq.subset a)))
        · intro p hp hpr
          rcases List.mem_cons.1 (hperm.subset hpr) with e | e
          · exact hts (e ▸ hp)
          · exact hc.suspend_ready p (hsq.subset hp) e
        · exact fun p hp hpt => hc.suspend_timer p (hsq.subset hp) hpt
        · exact fun hw c hcc' hcs => hc.current_not_suspend hw c hcc' (hsq.subset hcs)
        · intro hw c hcc' hcr
          rcases List.mem_cons.1 (hperm.subset hcr) with e | e
          · exact absurd (e ▸ hcc c hcc' : target = cur) htc
          · exact hc.current_ready_root hw c hcc' e
      by_cases hins' : target ∈ k.SuspendQueue
      · have hnr : target ∉ k.ReadyQueue := hc.suspend_ready target hins'
        rw [os_resume_process_suspend k pid cur target hcur hne h0 h15 htab hflag htp hnt hins'
          (fun q hq hp => huniq q (Or.inr (Or.inr hq)) hp), if_neg hnr] at h
        simp only [Except.ok.injEq, Prod.mk.injEq, and_true] at h
        rw [← h]
        exact hins _ (List.erase_sublist _ _)
          (by rw [hc.suspend_nodup.mem_erase_iff]; exact fun hh => hh.1 rfl)
      · have hns : ∀ q ∈ k.SuspendQueue, (deref k.heap q).pid ≠ pid :=
          fun q hq hp => hins' (huniq q (Or.inr (Or.inr hq)) hp ▸ hq)
        rw [os_resume_process_other k pid cur target hcur hne h0 h15 htab hflag hnt hns] at h
        simp only [Except.ok.injEq, Prod.mk.injEq, and_true] at h
        rw [← h]
        by_cases hr : target ∈ k.ReadyQueue
        · rw [if_pos hr]
          exact InvC_heap_hw false k _ k.hw hc
        · rw [if_neg hr]
          exact hins k.SuspendQueue (List.Sublist.refl _) hins'

theorem InvC_os_change_priority (w : Bool) (k k' : Kernel) (pid priority error : Int)
    (hc : InvC w k) (h : os_change_priority k pid priority = .ok (k', error)) :
    InvC w k' := by
  by_cases he : error = ERR_SUCCESS
  · subst he
    obtain ⟨target, hk⟩ := os_change_priority_success_inv k k' pid priority h
    have hperm := (list_sort_spec
      (fun a => (deref (store k.heap target (fun d => { d with priority := priority }))
        a).priority)
      (compare_priority (store k.heap target (fun d => { d with priority := priority })))
      (compare_priority_pos _) k.ReadyQueue).1
    rw [hk]
    refine ⟨?_, hc.suspend_nodup, ?_, hc.suspend_timer, hc.current_live,
      hc.current_not_suspend, ?_, hc.root_slot, hc.slot0⟩
    · intro q hq
      rcases hq with a | a | a
      · exact hc.live q (Or.inl (hperm.subset a))
      · exact hc.live q (Or.inr (Or.inl a))
      · exact hc.live q (Or.inr (Or.inr a))
    · exact fun p hp hpr => hc.suspend_ready p hp (hperm.subset hpr)
    · exact fun hw c hcc hcr => hc.current_ready_root hw c hcc (hperm.subset hcr)
  · have hk : k' = k := by
      unfold os_change_priority at h
      split at h
      · simp only [Except.ok.injEq, Prod.mk.injEq] at h; exact h.1.symm
      · split at h
        · simp only [Except.ok.injEq, Prod.mk.injEq] at h; exact h.1.symm
        · split at h
          · cases h
          · split at h
            · simp only [Except.ok.injEq, Prod.mk.injEq] at h; exact absurd h.2.symm he
            · split at h
              · simp only [Except.ok.injEq, Prod.mk.injEq] at h; exact h.1.symm
              · simp only [Except.ok.injEq, Prod.mk.injEq] at h; exact absurd h.2.symm he
    rw [hk]; exact hc

/-- Removing the descriptor of slot `j` from the process table clears the slot and
returns 1. -/
theorem remove_from_process_table_live (k : Kernel) (c j : Nat)
    (hj : j < MAX_NUMBER_OF_USER_PROCESSES) (hjc : k.ProcessTable j = some c)
    (hpid : (deref k.heap c).pid = (j : Int)) :
    remove_from_process_table k (some c) =
      .ok ({ k with ProcessTable := Function.update k.ProcessTable j none }, 1) := by
  unfold remove_from_process_table
  simp only [hpid, slot_of_nat j hj]
  rw [if_pos (by rw [hjc]; simp)]

/-- What `remove_by_pid` returns: either no descriptor of the queue carries the pid and
nothing changes, or the first one that does is removed and returned. -/
theorem remove_by_pid_spec (heap : List PCB) (queue : List Nat) (pid : Int)
    (pcb pcb' : Option Nat) (q : List Nat)
    (h : remove_by_pid heap queue pid pcb = .ok (q, pcb')) :
    pid ≠ 0 ∧
    ((q = queue ∧ pcb' = pcb ∧ ∀ x ∈ queue, (deref heap x).pid ≠ pid) ∨
      ∃ i x, queue[i]? = some x ∧ (deref heap x).pid = pid ∧ q = queue.eraseIdx i ∧
        pcb' = some x) := by
  unfold remove_by_pid at h
  split at h
  · cases h
  · rename_i hf
    obtain ⟨hp0, hnone⟩ := find_from_queue_by_condition_ok _ _ _ _ hf
    simp only [Except.ok.injEq, Prod.mk.injEq] at h
    refine ⟨hp0, Or.inl ⟨h.1.symm, h.2.symm, ?_⟩⟩
    intro x hx hxp
    have := (list_find_element_none _ _ _).1 hnone.symm x hx
    simp [match_pid, hxp] at this
  · rename_i element hf
    obtain ⟨hp0, hsome⟩ := find_from_queue_by_condition_ok _ _ _ _ hf
    obtain ⟨x, hx, -, hm⟩ := list_find_remove _ _ _ _ hsome.symm
    obtain ⟨y, hy, -, -⟩ := list_find_element_some _ _ _ _ hsome.symm
    rw [hx] at h
    simp only [Except.ok.injEq, Prod.mk.injEq] at h
    have hrem := list_remove_element_some _ _ _ _ hx
    obtain ⟨i, hi, -, hix⟩ := hrem
    have hie : element = i := Option.some.inj hi
    refine ⟨hp0, Or.inr ⟨element, x, by rw [hie]; exact hix, by simpa [match_pid] using hm,
      h.1.symm, h.2.symm⟩⟩

theorem InvC_os_terminate_process (k k' : Kernel) (pid time_now error : Int)
    (hb : InvB false k) (hc : InvC false k)
    (h : os_terminate_process k pid time_now = .ok (k', error)) : InvC false k' := by
  unfold os_terminate_process at h
  split at h
  · simp only [Except.ok.injEq, Prod.mk.injEq] at h
    rw [← h.1]; exact hc
  · rename_i hrange
    split at h
    · cases h
    · rename_i cur hcur
      obtain ⟨j, hj, hjc⟩ := hc.current_live cur hcur
      have hcpid := hb.table_pid j cur hj hjc
      split at h
      · -- the current process
        split at h
        · cases h
        · rename_i root hroot
          split at h
          · cases h
          · rename_i hnr
            split at h
            · cases h
            · split at h
              · cases h
              · rename_i k1 result hrem
                split at h
                · cases h
                · split at h
                  · cases h
                  · rename_i k2 pcb r hd
                    rw [remove_from_process_table_live k cur j hj hjc hcpid] at hrem
                    simp only [Except.ok.injEq, Prod.mk.injEq] at hrem
                    obtain ⟨t, hq, hk2⟩ := dequeue_from_ready_queue_some k1 k2 pcb r hd
                    simp only [Except.ok.injEq, Prod.mk.injEq] at h
                    rw [← h.1]
                    subst hk2
                    rw [← hrem.1] at hq ⊢
                    have hq' : k.ReadyQueue = pcb :: t := hq
                    have hroot0 := hc.root_slot root hroot
                    have hrpid := hb.table_pid 0 root (by decide) hroot0
                    have hj0 : j ≠ 0 := by
                      intro e
                      apply hnr
                      rw [hcpid, hrpid, e]
                    have hcr : cur ∉ k.ReadyQueue := by
                      intro hm
                      have := hc.current_ready_root rfl cur hcur hm
                      rw [hroot] at this
                      have e : root = cur := Option.some.inj this
                      exact hnr (by rw [e])
                    have hct : cur ∉ k.TimerQueue := hb.current_not_timer rfl cur hcur
                    have hcs : cur ∉ k.SuspendQueue := hc.current_not_suspend rfl cur hcur
                    have hkeep : ∀ q, q ≠ cur →
                        (∃ i, i < MAX_NUMBER_OF_USER_PROCESSES ∧ k.ProcessTable i = some q) →
                        ∃ i, i < MAX_NUMBER_OF_USER_PROCESSES ∧
                          Function.update k.ProcessTable j none i = some q := by
                      intro q hqc ⟨i, hi, hiq⟩
                      have hij : i ≠ j := by
                        intro e
                        rw [e, hjc] at hiq
                        exact hqc (Option.some.inj hiq).symm
                      exact ⟨i, hi, by rw [Function.update_noteq hij]; exact hiq⟩
                    have hsub : ∀ q, q ∈ t → q ∈ k.ReadyQueue := by
                      intro q hq''; rw [hq']; exact List.mem_cons_of_mem _ hq''
                    have hhead : pcb ∈ k.ReadyQueue := by
                      rw [hq']; exact List.mem_cons_self _ _
                    apply InvC_switch_context
                    refine ⟨?_, hc.suspend_nodup, ?_, hc.suspend_timer, ?_, ?_, ?_, ?_, ?_⟩
                    · intro q hqq
                      rcases hqq with a | a | a
                      · exact hkeep q (fun e => hcr (e ▸ hsub q a)) (hc.live q (Or.inl (hsub q a)))
                      · exact hkeep q (fun e => hct (e ▸ a)) (hc.live q (Or.inr (Or.inl a)))
                      · exact hkeep q (fun e => hcs (e ▸ a)) (hc.live q (Or.inr (Or.inr a)))
                    · exact fun p hp hpt => hc.suspend_ready p hp (hsub p hpt)
                    · intro c hcc
                      have : c = pcb := by simpa using hcc.symm
                      rw [this]
                      exact hkeep pcb (fun e => hcr (e ▸ hhead)) (hc.live pcb (Or.inl hhead))
                    · intro _ c hcc hcs'
                      have : c = pcb := by simpa using hcc.symm
                      rw [this] at hcs'
                      exact hc.suspend_ready pcb hcs' hhead
                    · intro _ c hcc hcr'
                      have : c = pcb := by simpa using hcc.symm
                      rw [this] at hcr'
                      have hnd := hb.ready_nodup
                      rw [hq'] at hnd
                      exact absurd hcr' (List.nodup_cons.1 hnd).1
                    · intro r' hr'
                      show Function.update k.ProcessTable j none 0 = some r'
                      rw [Function.update_noteq (Ne.symm hj0)]
                      exact hc.root_slot r' hr'
                    · intro i p _ _
                      show Function.update k.ProcessTable j none 0 ≠ none
                      rw [Function.update_noteq (Ne.symm hj0), hroot0]
                      exact Option.some_ne_none _
      · rename_i hself
        split at h
        · cases h
        · -- another process
          rename_i hm2
          split at h
          · cases h
          · rename_i found hfound
            dsimp only at h
            split at h
            · cases h
            · rename_i k1 pcb1 hr1
              obtain ⟨hp0, hfe⟩ := find_from_queue_by_condition_ok _ _ _ _ hfound
              have hts : k1.heap = k.heap ∧ k1.ProcessTable = k.ProcessTable ∧
                  k1.ReadyQueue = k.ReadyQueue ∧ k1.SuspendQueue = k.SuspendQueue ∧
                  k1.CurrentPCB = k.CurrentPCB ∧ k1.RootPCB = k.RootPCB ∧
                  ((k1.TimerQueue = k.TimerQueue ∧ pcb1 = none ∧
                      ∀ x ∈ k.TimerQueue, (deref k.heap x).pid ≠ pid) ∨
                    ∃ i x, k.TimerQueue[i]? = some x ∧ (deref k.heap x).pid = pid ∧
                      k1.TimerQueue = k.TimerQueue.eraseIdx i ∧ pcb1 = some x) := by
                revert hr1
                split
                · intro hr1
                  simp only [Except.ok.injEq, Prod.mk.injEq] at hr1
                  rw [← hr1.1, ← hr1.2]
                  refine ⟨rfl, rfl, rfl, rfl, rfl, rfl, Or.inl ⟨rfl, rfl, ?_⟩⟩
                  intro x hx hxp
                  have := (list_find_element_none _ _ _).1 hfe.symm x hx
                  simp [match_pid, hxp] at this
                · rename_i element
                  split
                  · intro hr1; cases hr1
                  · rename_i q data hrem
                    intro hr1
                    simp only [Except.ok.injEq, Prod.mk.injEq] at hr1
                    rw [← hr1.1, ← hr1.2]
                    have hk0 : ∀ k0 : Kernel, (∃ hw, k0 = { k with hw := hw }) →
                        list_remove_element k0.TimerQueue (some element) = some (q, data) →
                        ({ k0 with TimerQueue := q } : Kernel).heap = k.heap ∧
                        ({ k0 with TimerQueue := q } : Kernel).ProcessTable
                          = k.ProcessTable ∧
                        ({ k0 with TimerQueue := q } : Kernel).ReadyQueue = k.ReadyQueue ∧
                        ({ k0 with TimerQueue := q } : Kernel).SuspendQueue
                          = k.SuspendQueue ∧
                        ({ k0 with TimerQueue := q } : Kernel).CurrentPCB = k.CurrentPCB ∧
                        ({ k0 with TimerQueue := q } : Kernel).RootPCB = k.RootPCB ∧
                        ∃ i x, k.TimerQueue[i]? = some x ∧ (deref k.heap x).pid = pid ∧
                          q = k.TimerQueue.eraseIdx i ∧ some data = some x := by
                      intro k0 ⟨hw, hk0⟩ hrem0
                      subst hk0
                      obtain ⟨x, hx, -, hm⟩ := list_find_remove _ _ _ _ hfe.symm
                      have hrem0' : list_remove_element k.TimerQueue (some element)
                          = some (q, data) := hrem0
                      rw [hx] at hrem0'
                      simp only [Option.some.injEq, Prod.mk.injEq] at hrem0'
                      obtain ⟨i, hi, -, hix⟩ := list_remove_element_some _ _ _ _ hx
                      have hie : element = i := Option.some.inj hi
                      refine ⟨rfl, rfl, rfl, rfl, rfl, rfl, element, x, by rw [hie]; exact hix,
                        by simpa [match_pid] using hm, hrem0'.1.symm, by rw [hrem0'.2]⟩
                    have hmain := hk0 _ (by
                      split_ifs
                      · exact ⟨_, rfl⟩
                      · split
                        · exact ⟨_, rfl⟩
                        · exact ⟨_, rfl⟩
                      · exact ⟨_, rfl⟩) hrem
                    obtain ⟨a1, a2, a3, a4, a5, a6, i, x, b1, b2, b3, b4⟩ := hmain
                    exact ⟨a1, a2, a3, a4, a5, a6, Or.inr ⟨i, x, b1, b2, b3, b4⟩⟩
              obtain ⟨hheap, htbl, hrdy, hsus, hcurr, hrt, htimer⟩ := hts
              split at h
              · cases h
              · rename_i rq pcb2 hrq
                split at h
                · cases h
                · rename_i sq pcb3 hsq
                  split at h
                  · cases h
                  · rename_i pcb
                    split at h
                    · cases h
                    · rename_i k2 result hrem
                      split at h
                      · cases h
                      · simp only [Except.ok.injEq, Prod.mk.injEq] at h
                        rw [← h.1]
                        rw [hheap, hrdy] at hrq
                        rw [hheap, hsus] at hsq
                        obtain ⟨-, hrs⟩ := remove_by_pid_spec _ _ _ _ _ _ hrq
                        obtain ⟨-, hss⟩ := remove_by_pid_spec _ _ _ _ _ _ hsq
                        -- the descriptor found last is in a queue and carries the pid
                        have hpcb : (pcb ∈ k.ReadyQueue ∨ pcb ∈ k.TimerQueue ∨
                            pcb ∈ k.SuspendQueue) ∧ (deref k.heap pcb).pid = pid := by
                          rcases hss with ⟨-, e3, -⟩ | ⟨i, x, hx, hxp, -, e3⟩
                          · rcases hrs with ⟨-, e2, -⟩ | ⟨i, x, hx, hxp, -, e2⟩
                            · rcases htimer with ⟨-, e1, -⟩ | ⟨i, x, hx, hxp, -, e1⟩
                              · rw [e2, e1] at e3
                                cases e3
                              · rw [e2, e1] at e3
                                have : x = pcb := (Option.some.inj e3).symm
                                subst this
                                exact ⟨Or.inr (Or.inl (List.getElem?_mem hx)), hxp⟩
                            · rw [e2] at e3
                              have : x = pcb := (Option.some.inj e3).symm
                              subst this
                              exact ⟨Or.inl (List.getElem?_mem hx), hxp⟩
                          · have : x = pcb := (Option.some.inj e3).symm
                            subst this
                            exact ⟨Or.inr (Or.inr (List.getElem?_mem hx)), hxp⟩
                        obtain ⟨hin, hpp⟩ := hpcb
                        obtain ⟨i0, hi0, hi0p⟩ := hc.live pcb hin
                        have hi0pid := hb.table_pid i0 pcb hi0 hi0p
                        have hi0e : (i0 : Int) = pid := hi0pid.symm.trans hpp
                        have hi00 : i0 ≠ 0 := by
                          intro e
                          rw [e] at hi0e
                          exact hp0 hi0e.symm
                        have hpid0 : 0 ≤ pid := by omega
                        have hpid15 : pid < MAX_NUMBER_OF_USER_PROCESSES := by omega
                        have htn : pid.toNat = i0 := by omega
                        obtain ⟨-, huniq⟩ := pid_unique_of_live false k hb hc pid pcb hpid0
                          hpid15 (by rw [htn]; exact hi0p)
                        rw [remove_from_process_table_live
                          { k1 with ReadyQueue := rq, SuspendQueue := sq } pcb i0 hi0
                          (by show k1.ProcessTable i0 = some pcb; rw [htbl]; exact hi0p)
                          (by show (deref k1.heap pcb).pid = (i0 : Int); rw [hheap]
                              exact hi0pid)] at hrem
                        simp only [Except.ok.injEq, Prod.mk.injEq] at hrem
                        rw [← hrem.1]
                        -- the queues after the removal hold old entries other than `pcb`
                        have hT : k1.TimerQueue.Sublist k.TimerQueue ∧ pcb ∉ k1.TimerQueue := by
                          rcases htimer with ⟨e, -, hno⟩ | ⟨i, x, hx, hxp, e, -⟩
                          · rw [e]
                            exact ⟨List.Sublist.refl _, fun hm => hno pcb hm hpp⟩
                          · rw [e]
                            have hxe : x = pcb :=
                              huniq x (Or.inr (Or.inl (List.getElem?_mem hx))) hxp
                            rw [hxe] at hx
                            exact ⟨List.eraseIdx_sublist _ _,
                              nodup_eraseIdx_not_mem _ hb.timer_nodup i pcb hx⟩
                        have hR : rq.Sublist k.ReadyQueue ∧ pcb ∉ rq := by
                          rcases hrs with ⟨e, -, hno⟩ | ⟨i, x, hx, hxp, e, -⟩
                          · rw [e]
                            exact ⟨List.Sublist.refl _, fun hm => hno pcb hm hpp⟩
                          · rw [e]
                            have hxe : x = pcb := huniq x (Or.inl (List.getElem?_mem hx)) hxp
                            rw [hxe] at hx
                            exact ⟨List.eraseIdx_sublist _ _,
                              nodup_eraseIdx_not_mem _ hb.ready_nodup i pcb hx⟩
                        have hS : sq.Sublist k.SuspendQueue ∧ pcb ∉ sq := by
                          rcases hss with ⟨e, -, hno⟩ | ⟨i, x, hx, hxp, e, -⟩
                          · rw [e]
                            exact ⟨List.Sublist.refl _, fun hm => hno pcb hm hpp⟩
                          · rw [e]
                            have hxe : x = pcb :=
                              huniq x (Or.inr (Or.inr (List.getElem?_mem hx))) hxp
                            rw [hxe] at hx
                            exact ⟨List.eraseIdx_sublist _ _,
                              nodup_eraseIdx_not_mem _ hc.suspend_nodup i pcb hx⟩
                        have hkeep : ∀ q, q ≠ pcb →
                            (∃ i, i < MAX_NUMBER_OF_USER_PROCESSES ∧
                              k.ProcessTable i = some q) →
                            ∃ i, i < MAX_NUMBER_OF_USER_PROCESSES ∧
                              Function.update k1.ProcessTable i0 none i = some q := by
                          intro q hqc ⟨i, hi, hiq⟩
                          have hij : i ≠ i0 := by
                            intro e
                            rw [e, hi0p] at hiq
                            exact hqc (Option.some.inj hiq).symm
                          exact ⟨i, hi, by rw [Function.update_noteq hij, htbl]; exact hiq⟩
                        have hcp : cur ≠ pcb := by
                          intro e
                          apply hself
                          right
                          rw [e]; exact hpp
                        refine ⟨?_, hc.suspend_nodup.sublist hS.1, ?_, ?_, ?_, ?_, ?_, ?_, ?_⟩
                        · intro q hqq
                          rcases hqq with a | a | a
                          · exact hkeep q (fun e => hR.2 (e ▸ a))
                              (hc.live q (Or.inl (hR.1.subset a)))
                          · exact hkeep q (fun e => hT.2 (e ▸ a))
                              (hc.live q (Or.inr (Or.inl (hT.1.subset a))))
                          · exact hkeep q (fun e => hS.2 (e ▸ a))
                              (hc.live q (Or.inr (Or.inr (hS.1.subset a))))
                        · exact fun p hp hpr =>
                            hc.suspend_ready p (hS.1.subset hp) (hR.1.subset hpr)
                        · exact fun p hp hpt =>
                            hc.suspend_timer p (hS.1.subset hp) (hT.1.subset hpt)
                        · intro c hcc
                          have hcc' : k.CurrentPCB = some c := hcurr ▸ hcc
                          have : c = cur := by
                            rw [hcur] at hcc'; exact (Option.some.inj hcc').symm
                          rw [this]
                          exact hkeep cur hcp ⟨j, hj, hjc⟩
                        · intro hw c hcc hcs
                          exact hc.current_not_suspend hw c (hcurr ▸ hcc) (hS.1.subset hcs)
                        · intro hw c hcc hcr
                          show k1.RootPCB = some c
                          rw [hrt]
                          exact hc.current_ready_root hw c (hcurr ▸ hcc) (hR.1.subset hcr)
                        · intro r hr
                          show Function.update k1.ProcessTable i0 none 0 = some r
                          rw [Function.update_noteq (Ne.symm hi00), htbl]
                          exact hc.root_slot r (hrt ▸ hr)
                        · intro i p _ _
                          show Function.update k1.ProcessTable i0 none 0 ≠ none
                          rw [Function.update_noteq (Ne.symm hi00), htbl]
                          exact hc.slot0 i0 pcb hi0 hi0p

/-- Every state reached without disk requests satisfies the second part of the invariant. -/
theorem reachable_InvC (waiting : Bool) (k : Kernel) (h : Reachable false waiting k) :
    InvC waiting k := by
  induction h with
  | init => exact InvC_init
  | boot entry_point next_context raw k h => exact InvC_osInit _ _ _ _ h
  | create k k' name start_point priority next_context raw pcb error hr h ih =>
    exact InvC_os_create_process false _ _ _ _ _ _ _ _ _ (reachable_InvA false false k hr) ih h
  | get_pid k k' name pid error _ h ih =>
    rw [os_get_process_id_state k k' name pid error h]; exact ih
  | sleep k k' sleep_time time_now status result0 hr h ih =>
    exact InvC_os_process_sleep _ _ _ _ _ _ (reachable_InvB false k hr) ih h
  | dispatch k k' hr h ih => exact InvC_os_dispatcher true _ _ (reachable_InvB true k hr) ih h
  | terminate k k' pid time_now error hr h ih =>
    exact InvC_os_terminate_process _ _ _ _ _ (reachable_InvB false k hr) ih h
  | suspend k k' pid error hr h ih =>
    exact InvC_os_suspend_process _ _ _ _ (reachable_InvB false k hr) ih h
  | resume k k' pid error hr h ih =>
    exact InvC_os_resume_process _ _ _ _ (reachable_InvB false k hr) ih h
  | change_priority k k' pid priority error _ h ih =>
    exact InvC_os_change_priority false _ _ _ _ _ ih h
  | timer_interrupt waiting k k' clock hr h ih =>
    exact InvC_os_make_ready_to_run _ _ _ _ (reachable_InvB _ k hr) ih h
  | disk_write k k' disk_id sector buffer copy status dispatch hd _ _ _ => cases hd
  | disk_read k k' disk_id sector buffer status dispatch hd _ _ _ => cases hd
  | disk_interrupt waiting k k' device_id status hd _ _ _ => cases hd

/-- In a state reached without disk requests in which a process runs user code, the
conditions hold under which the results on suspend, resume, sleep and terminate are stated:
the current process is live, allocated, in no queue but (for the root process before its
first sleep) the Ready Queue; the table is well-formed with slot 0 occupied; the queues hold
live descriptors, none twice, and the descriptor of a slot is the only one of its pid in
them. -/
theorem reachable_well_formed (k : Kernel) (cur : Nat) (h : Reachable false false k)
    (hcur : k.CurrentPCB = some cur) :
    (∃ i, i < MAX_NUMBER_OF_USER_PROCESSES ∧ k.ProcessTable i = some cur) ∧
    cur < k.heap.length ∧ cur ∉ k.TimerQueue ∧ cur ∉ k.SuspendQueue ∧
    table_wf k ∧ k.ProcessTable 0 ≠ none ∧ queues_live k ∧
    k.ReadyQueue.Nodup ∧ k.TimerQueue.Nodup ∧ k.SuspendQueue.Nodup ∧
    (∀ (pid : Int) (target : Nat), 0 ≤ pid → pid < MAX_NUMBER_OF_USER_PROCESSES →
      k.ProcessTable pid.toNat = some target →
      target < k.heap.length ∧ (deref k.heap target).pid = pid ∧
      ∀ q, q ∈ k.ReadyQueue ∨ q ∈ k.TimerQueue ∨ q ∈ k.SuspendQueue →
        (deref k.heap q).pid = pid → q = target) := by
  have ha := reachable_InvA false false k h
  have hb := reachable_InvB false k h
  have hc := reachable_InvC false k h
  obtain ⟨i, hi, hic⟩ := hc.current_live cur hcur
  refine ⟨⟨i, hi, hic⟩, ha.current_alloc cur hcur, hb.current_not_timer rfl cur hcur,
    hc.current_not_suspend rfl cur hcur, ?_, hc.slot0 i cur hi hic, hc.live, hb.ready_nodup,
    hb.timer_nodup, hc.suspend_nodup, ?_⟩
  · intro j hj p hp
    exact ⟨ha.table_alloc j p hp, hb.table_pid j p hj hp⟩
  · intro pid target h0 h15 htab
    obtain ⟨h1, h2⟩ := pid_unique_of_live false k hb hc pid target h0 h15 htab
    exact ⟨ha.table_alloc _ _ htab, h1, h2⟩

/-! ### C25: list_sort sorts -/

theorem in_order_of_not {α : Type} (compare : α → α → Int) (h : total_preorder compare)
    (order : Order) (a b : α) (hn : ¬ in_order compare order a b) : in_order compare order b a := by
  cases order with
  | ASCENDING =>
    simp only [in_order] at hn ⊢
    have := (h.flip a b).mp (by omega)
    omega
  | DESCENDING =>
    simp only [in_order] at hn ⊢
    have := (h.flip b a).mpr (by omega)
    omega

theorem in_order_trans {α : Type} (compare : α → α → Int) (h : total_preorder compare)
    (order : Order) (a b c : α) (hab : in_order compare order a b)
    (hbc : in_order compare order b c) : in_order compare order a c := by
  cases order with
  | ASCENDING => exact h.trans a b c hab hbc
  | DESCENDING =>
    simp only [in_order] at hab hbc ⊢
    have h1 : compare c b ≤ 0 := by
      by_contra hc
      have := (h.flip c b).mp (by omega)
      omega
    have h2 : compare b a ≤ 0 := by
      by_contra hc
      have := (h.flip b a).mp (by omega)
      omega
    have h3 := h.trans c b a h1 h2
    by_contra hc
    have := (h.flip c a).mpr (by omega)
    omega

theorem list_sort_inner_cons {α : Type} (compare : α → α → Int) (order : Order) (o y : α)
    (ys : List α) :
    list_sort_inner compare order o (y :: ys) =
      if in_order compare order o y then
        ((list_sort_inner compare order o ys).1, y :: (list_sort_inner compare order o ys).2)
      else
        ((list_sort_inner compare order y ys).1, o :: (list_sort_inner compare order y ys).2) := by
  cases order with
  | ASCENDING =>
    by_cases hc : compare o y > 0
    · have : ¬ compare o y ≤ 0 := by omega
      simp [list_sort_inner, in_order, hc, this]
    · have : compare o y ≤ 0 := by omega
      simp [list_sort_inner, in_order, hc, this]
  | DESCENDING =>
    by_cases hc : compare o y < 0
    · have : ¬ compare o y ≥ 0 := by omega
      simp [list_sort_inner, in_order, hc, this]
    · have : compare o y ≥ 0 := by omega
      simp [list_sort_inner, in_order, hc, this]

/-- One inner pass of the sort, for any callback that follows a total preorder: the element
left at the outer position is in order before the outer element it started with and before
every later element, and the elements are the same. -/
theorem list_sort_inner_order {α : Type} (compare : α → α → Int) (h : total_preorder compare)
    (order : Order) (l : List α) :
    ∀ o : α,
      ((list_sort_inner compare order o l).1 = o ∨
        in_order compare order (list_sort_inner compare order o l).1 o) ∧
      (∀ z ∈ (list_sort_inner compare order o l).2,
        in_order compare order (list_sort_inner compare order o l).1 z) ∧
      ((list_sort_inner compare order o l).1 ::
        (list_sort_inner compare order o l).2).Perm (o :: l) := by
  induction l with
  | nil => intro o; simp [list_sort_inner]
  | cons y ys ih =>
    intro o
    rw [list_sort_inner_cons]
    by_cases hin : in_order compare order o y
    · obtain ⟨h1, h2, h3⟩ := ih o
      simp only [hin, if_true]
      refine ⟨h1, ?_, ?_⟩
      · intro z hz
        rcases List.mem_cons.mp hz with hz | hz
        · subst hz
          rcases h1 with h1 | h1
          · rw [h1]; exact hin
          · exact in_order_trans compare h order _ _ _ h1 hin
        · exact h2 z hz
      · exact ((List.Perm.swap y _ _).trans (List.Perm.cons y h3)).trans (List.Perm.swap o y ys)
    · have hyo := in_order_of_not compare h order o y hin
      obtain ⟨h1, h2, h3⟩ := ih y
      simp only [hin, if_false]
      have hmo : in_order compare order (list_sort_inner compare order y ys).1 o := by
        rcases h1 with h1 | h1
        · rw [h1]; exact hyo
        · exact in_order_trans compare h order _ _ _ h1 hyo
      refine ⟨Or.inr hmo, ?_, ?_⟩
      · intro z hz
        rcases List.mem_cons.mp hz with hz | hz
        · subst hz; exact hmo
        · exact h2 z hz
      · exact (List.Perm.swap o _ _).trans (List.Perm.cons o h3)

theorem list_sort_outer_order {α : Type} (compare : α → α → Int) (h : total_preorder compare)
    (order : Order) :
    ∀ (n : Nat) (l : List α), l.length ≤ n →
      (list_sort_outer compare order n l).Perm l ∧
      (list_sort_outer compare order n l).Pairwise (in_order compare order) := by
  intro n
  induction n with
  | zero =>
    intro l hl
    have : l = [] := List.length_eq_zero.mp (by omega)
    subst this
    simp [list_sort_outer]
  | succ n ih =>
    intro l hl
    match l, hl with
    | [], _ => simp [list_sort_outer]
    | [x], _ => simp [list_sort_outer]
    | x :: y :: rest, hl =>
      obtain ⟨_, h2, h3⟩ := list_sort_inner_order compare h order (y :: rest) x
      have hlen : (list_sort_inner compare order x (y :: rest)).2.length ≤ n := by
        have := h3.length_eq
        simp only [List.length_cons] at this hl
        omega
      obtain ⟨hp, hs⟩ := ih _ hlen
      simp only [list_sort_outer]
      refine ⟨(List.Perm.cons _ hp).trans h3, ?_⟩
      rw [List.pairwise_cons]
      exact ⟨fun z hz => h2 z (hp.mem_iff.mp hz), hs⟩

theorem compare_priority_total_preorder (heap : List PCB) :
    total_preorder (compare_priority heap) := by
  constructor
  · intro a b
    unfold compare_priority
    split_ifs <;> omega
  · intro a b c
    unfold compare_priority
    split_ifs <;> omega

/-- C25: for a comparison callback that follows a total preorder, list_sort leaves a
permutation of the elements of the list in the order asked for (ASCENDING: the callback is
not greater than zero on every pair of an earlier and a later element; DESCENDING: not less
than zero), keeps the size, and leaves a list with fewer than two elements unchanged. -/
theorem list_sort_sorts {α : Type} (compare : α → α → Int) (h : total_preorder compare)
    (order : Order) (list : List α) :
    (list_sort list compare order).Perm list ∧
    (list_sort list compare order).Pairwise (in_order compare order) ∧
    list_size (list_sort list compare order) = list_size list ∧
    (list_size list < 2 → list_sort list compare order = list) := by
  have hps : (list_sort list compare order).Perm list ∧
      (list_sort list compare order).Pairwise (in_order compare order) := by
    unfold list_sort
    split_ifs with hlt
    · refine ⟨List.Perm.refl _, ?_⟩
      match list, hlt with
      | [], _ => exact List.Pairwise.nil
      | [x], _ => exact List.pairwise_singleton _ _
      | x :: y :: rest, hlt => simp only [List.length_cons] at hlt; omega
    · exact list_sort_outer_order compare h order list.length list (le_refl _)
  refine ⟨hps.1, hps.2, hps.1.length_eq, ?_⟩
  intro hlt
  unfold list_size at hlt
  unfold list_sort
  rw [if_pos hlt]

theorem list_sort_sorts_witness :
    total_preorder (compare_priority three_children_kernel.heap) ∧
    (list_sort [3, 0, 1, 2] (compare_priority three_children_kernel.heap)
        Order.DESCENDING).Perm [3, 0, 1, 2] ∧
    (list_sort [3, 0, 1, 2] (compare_priority three_children_kernel.heap)
        Order.DESCENDING).Pairwise
      (in_order (compare_priority three_children_kernel.heap) Order.DESCENDING) ∧
    list_size (list_sort [3, 0, 1, 2] (compare_priority three_children_kernel.heap)
        Order.DESCENDING) = list_size [3, 0, 1, 2] ∧
    (list_size [3, 0, 1, 2] < 2 →
      list_sort [3, 0, 1, 2] (compare_priority three_children_kernel.heap)
        Order.DESCENDING = [3, 0, 1, 2]) :=
  ⟨compare_priority_total_preorder _,
    list_sort_sorts _ (compare_priority_total_preorder _) Order.DESCENDING [3, 0, 1, 2]⟩

/-! ### C26: the configuration table -/

theorem get_config_arg_loop_some (name : String) (table : List ConfigArgEntry)
    (entry : ConfigArgEntry) (h : get_config_arg_loop name table = some entry) :
    entry ∈ table ∧ entry.argument_name = name := by
  induction table with
  | nil => simp [get_config_arg_loop] at h
  | cons e rest ih =>
    unfold get_config_arg_loop at h
    split_ifs at h with he
    · cases h
      exact ⟨List.mem_cons_self _ _, he⟩
    · exact ⟨List.mem_cons_of_mem _ (ih h).1, (ih h).2⟩

theorem get_config_arg_loop_ne_none (name : String) (table : List ConfigArgEntry) :
    get_config_arg_loop name table ≠ none ↔ name ∈ table.map (fun e => e.argument_name) := by
  induction table with
  | nil => simp [get_config_arg_loop]
  | cons e rest ih =>
    unfold get_config_arg_loop
    split_ifs with he
    · simp [he]
    · rw [ih, List.map_cons, List.mem_cons]
      constructor
      · exact fun h => Or.inr h
      · rintro (h | h)
        · exact absurd h.symm he
        · exact h

/-- C26, as the claim states it, fails for "test2g": the name is among the names the claim
enumerates, and get_config_arg returns NULL for it. -/
theorem get_config_arg_test2g_counterexample :
    "test2g" ∈ enumerated_test_names ∧ get_config_arg "test2g" = none ∧
    ¬ (get_config_arg "test2g" ≠ none ↔ "test2g" ∈ enumerated_test_names) := by
  refine ⟨by decide, by decide, ?_⟩
  intro h
  exact (h.mpr (by decide)) (by decide)

/-- C26, amended: get_config_arg returns a non-NULL entry exactly for the names test0, test1a
to test1h and test2a to test2f; a non-NULL result is an entry of the table whose
argument_name is the given name; for every other name (test2g among them) the result is NULL
and osInit starts nothing: no descriptor, no context. -/
theorem get_config_arg_entry (name : String) :
    (get_config_arg name ≠ none ↔
      name ∈ ["test0", "test1a", "test1b", "test1c", "test1d", "test1e", "test1f", "test1g",
        "test1h", "test2a", "test2b", "test2c", "test2d", "test2e", "test2f"]) ∧
    (∀ entry, get_config_arg name = some entry →
      entry ∈ config_arg_table ∧ entry.argument_name = name) ∧
    (get_config_arg name = none →
      ∀ (program : String) (rest : List String) (address : EntryPoint → Nat)
        (next_context : Nat) (raw : PCB),
        osInit_argv (program :: name :: rest) address next_context raw = Started.nothing) := by
  refine ⟨?_, ?_, ?_⟩
  · unfold get_config_arg
    rw [get_config_arg_loop_ne_none]
    rfl
  · intro entry h
    exact get_config_arg_loop_some name _ entry h
  · intro h program rest address next_context raw
    simp only [osInit_argv, h]

/-- C26, at instances: "test2g" is not in the table, so osInit called with it starts nothing;
"test1a" is in the table, and the entry returned for it carries that name. -/
theorem get_config_arg_entry_witness :
    get_config_arg "test2g" = none ∧
    osInit_argv ["z502", "test2g"] (fun _ => 1) 1 default = Started.nothing ∧
    get_config_arg "test1a" ≠ none ∧
    (get_config_arg "test1a").map (fun entry => entry.argument_name) = some "test1a" :=
  ⟨by decide,
    (get_config_arg_entry "test2g").2.2 (by decide) "z502" [] (fun _ => 1) 1 default,
    (get_config_arg_entry "test1a").1.mpr (by decide),
    by decide⟩

/-! ### C27: sleep while the timer is in use -/

/-- The hardware calls of `os_process_sleep` for a positive duration: with the timer status
InUse and an ordered Timer Queue no call is made, whatever the wake times are, because the
caller is compared with the head of the queue it has just been inserted into; with the
status Free the timer is started with the duration. -/
theorem os_process_sleep_hw (k : Kernel) (sleep_time time_now : Int)
    (status : DeviceStatus) (result0 : Int) (cur : Nat)
    (hcur : k.CurrentPCB = some cur) (hms : 0 < sleep_time)
    (hnt : cur ∉ k.TimerQueue) (hs : timer_sorted k)
    (hres : cur ∈ k.ReadyQueue ∨ result0 ≠ 0) :
    ∃ k', os_process_sleep k sleep_time time_now status result0 = .ok k' ∧
      (status = DeviceStatus.DEVICE_IN_USE → k'.hw = k.hw) ∧
      (status = DeviceStatus.DEVICE_FREE →
        k'.hw = HwCall.start_timer (to_int32 sleep_time) :: k.hw) ∧
      (status = DeviceStatus.Other → k'.hw = k.hw) := by
  have h1 : ¬ sleep_time < 0 := by omega
  have h2 : ¬ sleep_time = 0 := by omega
  obtain ⟨heap, tbl, tq, rq, sq, c, root, hw⟩ := k
  simp only at hcur hnt hres
  subst hcur
  have hdq : ∀ q, q ≠ cur → deref (store heap cur
      (fun pcb => { pcb with delay_time := to_int32 (time_now + sleep_time) })) q
      = deref heap q := by
    intro q hq
    rw [deref_store, if_neg (fun hh => hq hh.1.symm)]
  have hs1 : tq.Pairwise (fun a b =>
      (deref (store heap cur
        (fun pcb => { pcb with delay_time := to_int32 (time_now + sleep_time) })) a).delay_time ≤
      (deref (store heap cur
        (fun pcb => { pcb with delay_time := to_int32 (time_now + sleep_time) })) b).delay_time) := by
    refine pairwise_key_congr
      (fun a => delay_time_of ⟨heap, tbl, tq, rq, sq, some cur, root, hw⟩ a) _ _
      (fun a ha => ?_) hs
    rw [hdq a (fun e => hnt (e ▸ ha))]
    rfl
  have hsorted := list_insert_orderly_sorted
    (fun a => (deref (store heap cur
      (fun pcb => { pcb with delay_time := to_int32 (time_now + sleep_time) })) a).delay_time)
    _ (fun a b => compare_time_neg _ a b) cur tq hs1
  have hperm := list_insert_orderly_perm tq
    (compare_time (store heap cur
      (fun pcb => { pcb with delay_time := to_int32 (time_now + sleep_time) }))) cur
  have key : ∀ head rest, list_insert_orderly tq
      (compare_time (store heap cur
        (fun pcb => { pcb with delay_time := to_int32 (time_now + sleep_time) })))
      Order.ASCENDING cur = head :: rest →
      ¬ (deref (store heap cur
        (fun pcb => { pcb with delay_time := to_int32 (time_now + sleep_time) })) cur).delay_time <
        (deref (store heap cur
        (fun pcb => { pcb with delay_time := to_int32 (time_now + sleep_time) })) head).delay_time := by
    intro head rest hq
    rw [hq] at hsorted hperm
    have hmem : cur ∈ head :: rest := hperm.mem_iff.mpr (List.mem_cons_self _ _)
    rcases List.mem_cons.mp hmem with h | h
    · rw [h]; omega
    · have := (List.pairwise_cons.mp hsorted).1 cur h
      simp only at this
      omega
  have hne : list_insert_orderly tq
      (compare_time (store heap cur
        (fun pcb => { pcb with delay_time := to_int32 (time_now + sleep_time) })))
      Order.ASCENDING cur ≠ [] := by
    intro hnil
    have := hperm.length_eq
    rw [hnil] at this
    simp at this
  have fin : ∀ k2 : Kernel, k2.hw = hw → k2.CurrentPCB = some cur →
      k2.heap = store heap cur
        (fun pcb => { pcb with delay_time := to_int32 (time_now + sleep_time) }) →
      k2.TimerQueue = list_insert_orderly tq
        (compare_time (store heap cur
          (fun pcb => { pcb with delay_time := to_int32 (time_now + sleep_time) })))
        Order.ASCENDING cur →
      ∃ k', (match k2.TimerQueue with
          | [] => (.error Stop.undefined : Except Stop Kernel)
          | head :: _ =>
            let time := (deref k2.heap head).delay_time
            if status = DeviceStatus.DEVICE_FREE ∨
                (status = DeviceStatus.DEVICE_IN_USE ∧ (deref k2.heap cur).delay_time < time) then
              .ok (start_timer k2 sleep_time)
            else .ok k2) = .ok k' ∧
        (status = DeviceStatus.DEVICE_IN_USE → k'.hw = hw) ∧
        (status = DeviceStatus.DEVICE_FREE →
          k'.hw = HwCall.start_timer (to_int32 sleep_time) :: hw) ∧
        (status = DeviceStatus.Other → k'.hw = hw) := by
    intro k2 hhw _ hheap htq
    cases hq : k2.TimerQueue with
    | nil => rw [htq] at hq; exact absurd hq hne
    | cons head rest =>
      simp only
      rw [htq] at hq
      have hk := key head rest hq
      rw [hheap]
      cases status with
      | DEVICE_FREE =>
        simp only [true_or, if_true]
        exact ⟨_, rfl, by simp, fun _ => by simp [start_timer, hhw], by simp⟩
      | DEVICE_IN_USE =>
        simp only [false_or, true_and, if_neg hk, reduceCtorEq]
        exact ⟨_, rfl, fun _ => hhw, by simp, by simp⟩
      | Other =>
        simp only [false_or, false_and, if_false, reduceCtorEq]
        exact ⟨_, rfl, by simp, by simp, fun _ => hhw⟩
  unfold os_process_sleep
  rw [if_neg h1, if_neg h2]
  simp only [list_contains_match_pcb]
  by_cases hin : cur ∈ rq
  · simp only [hin, decide_True, if_true]
    rw [remove_from_ready_queue_mem ⟨_, _, _, _, _, _, _, _⟩ cur hin]
    simp only [one_ne_zero, if_false]
    rw [add_to_timer_queue_new ⟨_, _, _, _, _, _, _, _⟩ cur hnt]
    simp only [one_ne_zero, if_false]
    exact fin ⟨_, _, _, _, _, _, _, _⟩ rfl rfl rfl rfl
  · have hr0 : result0 ≠ 0 := by
      rcases hres with h | h
      · exact absurd h hin
      · exact h
    simp only [hin, decide_False, Bool.false_eq_true, if_false, if_neg hr0]
    rw [add_to_timer_queue_new ⟨_, _, _, _, _, _, _, _⟩ cur hnt]
    simp only [one_ne_zero, if_false]
    exact fin ⟨_, _, _, _, _, _, _, _⟩ rfl rfl rfl rfl

/-- C27, the code at the failing input: the child (address 1) runs, the initial process
(address 0) is the only entry of the Timer Queue with wake time 15, and the timer is in use.
The child calls SLEEP(3) at time 6: its wake time 9 is earlier than 15 and it becomes the
head of the Timer Queue, but `os_process_sleep` makes no hardware call, so the timer is not
started with 3. With the timer status Free the same call starts the timer with 3. -/
theorem sleep_in_use_does_not_rearm :
    child_running_kernel.CurrentPCB = some 1 ∧ child_running_kernel.TimerQueue = [0] ∧
    delay_time_of child_running_kernel 0 = 15 ∧
    (os_process_sleep child_running_kernel 3 6 DeviceStatus.DEVICE_IN_USE 1).map
      (fun r => (delay_time_of r 1, r.TimerQueue, r.hw)) =
        .ok (9, [1, 0], child_running_kernel.hw) ∧
    (os_process_sleep child_running_kernel 3 6 DeviceStatus.DEVICE_FREE 1).map
      (fun r => (delay_time_of r 1, r.TimerQueue, r.hw)) =
        .ok (9, [1, 0], HwCall.start_timer 3 :: child_running_kernel.hw) :=
  ⟨rfl, rfl, rfl, rfl, rfl⟩

/-! ### C28: the timer interrupt arms the timer for the next head -/

/-- The loop of `os_make_ready_to_run` returns for every state; it takes a front part of the
Timer Queue, makes no hardware call, and when it leaves entries in the queue it has read the
clock once for each descriptor it woke. -/
theorem make_ready_loop_reads (clock : Nat → Int) :
    ∀ (fuel : Nat) (k : Kernel) (time_now : Int) (reads : Nat),
      ∃ k' woken reads', make_ready_loop clock fuel k time_now reads = .ok (k', reads') ∧
        k.TimerQueue = woken ++ k'.TimerQueue ∧ k'.hw = k.hw ∧
        (k'.TimerQueue ≠ [] → reads' = reads + woken.length) := by
  intro fuel
  induction fuel with
  | zero => exact fun k _ reads => ⟨k, [], reads, rfl, rfl, rfl, fun _ => rfl⟩
  | succ fuel ih =>
    intro k time_now reads
    cases hq : k.TimerQueue with
    | nil => exact ⟨k, [], reads, by simp [make_ready_loop, hq], by simp [hq], rfl, fun _ => rfl⟩
    | cons p rest =>
      by_cases hdue : (deref k.heap p).delay_time ≤ time_now
      · obtain ⟨k1, hw1, ht1, hhw1, -⟩ := wake_timer_head_spec k p rest hq
        by_cases hempty : list_is_empty k1.TimerQueue = true
        · refine ⟨k1, [p], reads, by simp [make_ready_loop, hq, hdue, hw1, hempty],
            by simp [ht1], hhw1, ?_⟩
          intro hne
          exfalso
          apply hne
          simpa [list_is_empty] using hempty
        · obtain ⟨k2, w2, reads2, hl2, ht2, hhw2, hr2⟩ := ih k1 (clock reads) (reads + 1)
          refine ⟨k2, p :: w2, reads2, by simp [make_ready_loop, hq, hdue, hw1, hempty, hl2],
            ?_, hhw2.trans hhw1, ?_⟩
          · rw [List.cons_append, ← ht2, ht1]
          · intro hne
            rw [hr2 hne, List.length_cons]
            omega
      · exact ⟨k, [], reads, by simp [make_ready_loop, hq, hdue], by simp [hq], rfl,
          fun _ => rfl⟩

/-- C28: a timer interrupt that finds the Timer Queue non-empty returns, having taken the
descriptors `woken` from the front of the queue. When the queue has become empty it has made
no hardware call. When entries remain it has made exactly one hardware call, at its end:
the timer is started with the wake time of the head of the remaining queue minus now, as an
INT32, where now is the clock reading made for it (reading number `woken.length`, the
readings being counted from 0); that is the difference itself when it is in the range of
INT32. -/
theorem timer_interrupt_arms_timer (k : Kernel) (clock : Nat → Int)
    (hne : k.TimerQueue ≠ []) :
    ∃ k' woken, os_make_ready_to_run k clock = .ok k' ∧ woken ≠ [] ∧
      k.TimerQueue = woken ++ k'.TimerQueue ∧
      (k'.TimerQueue = [] → k'.hw = k.hw) ∧
      (∀ head rest, k'.TimerQueue = head :: rest →
        k'.hw = HwCall.start_timer
          (to_int32 (delay_time_of k' head - clock woken.length)) :: k.hw ∧
        (-2147483648 ≤ delay_time_of k' head - clock woken.length ∧
          delay_time_of k' head - clock woken.length < 2147483648 →
          k'.hw = HwCall.start_timer (delay_time_of k' head - clock woken.length) :: k.hw)) := by
  unfold os_make_ready_to_run
  cases hq : k.TimerQueue with
  | nil => exact absurd hq hne
  | cons p rest =>
    have he : ¬ list_is_empty (p :: rest) = true := by simp [list_is_empty]
    rw [if_neg he]
    obtain ⟨k1, hw1, ht1, hhw1, -⟩ := wake_timer_head_spec k p rest hq
    obtain ⟨k2, w2, reads2, hl2, ht2, hhw2, hr2⟩ :=
      make_ready_loop_reads clock k1.TimerQueue.length k1 (clock 0) 1
    have hw1' : wake_timer_head k = .ok k1 := hw1
    simp only [hw1', hl2]
    cases hq2 : k2.TimerQueue with
    | nil =>
      refine ⟨k2, p :: w2, rfl, by simp, ?_, fun _ => hhw2.trans hhw1, ?_⟩
      · rw [List.cons_append, ← ht1, hq2, ← hq2, ← ht2]
      · intro head tail hht
        rw [hq2] at hht
        cases hht
    | cons head tail =>
      have hreads : reads2 = (p :: w2).length := by
        rw [hr2 (by rw [hq2]; simp), List.length_cons]
        omega
      refine ⟨_, p :: w2, rfl, by simp, ?_, ?_, ?_⟩
      · show p :: rest = p :: w2 ++ k2.TimerQueue
        rw [List.cons_append, ← ht2, ht1]
      · intro hnil
        have : k2.TimerQueue = [] := hnil
        rw [hq2] at this
        cases this
      · intro head' tail' hht
        have hht' : k2.TimerQueue = head' :: tail' := hht
        rw [hq2] at hht'
        cases hht'
        have hcall : (start_timer k2 ((deref k2.heap head).delay_time - clock reads2)).hw =
            HwCall.start_timer
              (to_int32 (delay_time_of k2 head - clock (p :: w2).length)) :: k.hw := by
          rw [← hreads]
          simp only [start_timer, delay_time_of, hhw2, hhw1]
        refine ⟨hcall, fun hr => ?_⟩
        rw [← to_int32_of_range _ hr]
        exact hcall

/-- C28, at an instance: the child (address 1, wake time 9) and the initial process (address
0, wake time 15) are in the Timer Queue. The timer interrupt with the clock at 10 wakes the
child and starts the timer once, with 15 - 10 = 5; the interrupt with the clock at 20 wakes
both and makes no hardware call. -/
theorem timer_interrupt_arms_timer_witness :
    two_sleepers_kernel.TimerQueue = [1, 0] ∧
    (os_make_ready_to_run two_sleepers_kernel (fun _ => 10)).map
      (fun r => (r.TimerQueue, r.hw)) =
        .ok ([0], HwCall.start_timer 5 :: two_sleepers_kernel.hw) ∧
    (os_make_ready_to_run two_sleepers_kernel (fun _ => 20)).map
      (fun r => (r.TimerQueue, r.hw)) = .ok ([], two_sleepers_kernel.hw) := by
  obtain ⟨k', woken, h, -, ht, -, harm⟩ :=
    timer_interrupt_arms_timer two_sleepers_kernel (fun _ => 10) (by decide)
  refine ⟨rfl, ?_, rfl⟩
  have h2 : (os_make_ready_to_run two_sleepers_kernel (fun _ => 10)).map
      (fun r => r.TimerQueue) = .ok [0] := rfl
  have h3 : (os_make_ready_to_run two_sleepers_kernel (fun _ => 10)).map
      (fun r => delay_time_of r 0) = .ok 15 := rfl
  rw [h] at h2 h3 ⊢
  simp only [Except.map, Except.ok.injEq] at h2 h3
  obtain ⟨hhw, -⟩ := harm 0 [] h2
  simp only [Except.map, h2, hhw, h3]
  rfl

/-! ### C29: terminating a process that waits in the Timer Queue -/

/-- The search by pid, for a pid other than 0 that one descriptor of the queue carries: the
element found is at position 0 exactly when that descriptor is the head. -/
theorem find_by_pid_unique (heap : List PCB) (queue : List Nat) (pid : Int) (t : Nat)
    (hpid : pid ≠ 0) (ht : (deref heap t).pid = pid) (hmem : t ∈ queue)
    (huniq : ∀ q ∈ queue, (deref heap q).pid = pid → q = t) :
    ∃ i, find_from_queue_by_condition queue (match_pid heap) pid = .ok (some i) ∧
      list_remove_element queue (some i) = some (queue.erase t, t) ∧
      (i = 0 ↔ queue.head? = some t) := by
  obtain ⟨i, hi, hrem⟩ := list_find_element_unique (match_pid heap) pid t
    (by simp [match_pid, ht]) queue hmem
    (fun q hq hm => huniq q hq (by simpa [match_pid] using hm))
  refine ⟨i, by simp [find_from_queue_by_condition, hpid, hi], hrem, ?_⟩
  obtain ⟨x, hx, hxm, hfirst⟩ := list_find_element_some queue (match_pid heap) pid i hi
  have hxt : x = t := huniq x (List.mem_iff_getElem?.mpr ⟨i, hx⟩) (by simpa [match_pid] using hxm)
  subst hxt
  cases queue with
  | nil => cases hmem
  | cons a rest =>
    constructor
    · intro h0
      subst h0
      simpa using hx
    · intro hh
      have hax : a = x := by simpa using hh
      subst hax
      by_contra hne
      have := hfirst 0 (Nat.pos_of_ne_zero hne) a (by simp)
      simp [match_pid, ht] at this

/-- Terminate of a live process other than the caller (pid from 1 on) whose descriptor
`target` waits in the Timer Queue and is the only descriptor of that pid in the queues: the
call returns Success, `target` is erased from the Timer Queue and its slot of the process
table is cleared, nothing else of the kernel data changes. The timer is started with 0 when
`target` was the only entry, with the wake time of the next entry minus now (as an INT32)
when it was the head of a longer queue, and no hardware call is made otherwise. -/
theorem os_terminate_process_timer (k : Kernel) (pid time_now : Int) (cur target : Nat)
    (hcur : k.CurrentPCB = some cur) (hne : (deref k.heap cur).pid ≠ pid)
    (h0 : 0 < pid) (h15 : pid < MAX_NUMBER_OF_USER_PROCESSES)
    (htab : k.ProcessTable pid.toNat = some target)
    (hpid : (deref k.heap target).pid = pid) (hmem : target ∈ k.TimerQueue)
    (hut : ∀ q ∈ k.TimerQueue, (deref k.heap q).pid = pid → q = target)
    (hur : ∀ q ∈ k.ReadyQueue, (deref k.heap q).pid ≠ pid)
    (hus : ∀ q ∈ k.SuspendQueue, (deref k.heap q).pid ≠ pid) :
    ∃ hw, os_terminate_process k pid time_now =
        .ok ({ k with
                TimerQueue := k.TimerQueue.erase target,
                ProcessTable := Function.update k.ProcessTable pid.toNat none,
                hw := hw }, ERR_SUCCESS) ∧
      (k.TimerQueue = [target] → hw = HwCall.start_timer 0 :: k.hw) ∧
      (∀ next rest, k.TimerQueue = target :: next :: rest →
        hw = HwCall.start_timer (to_int32 (delay_time_of k next - time_now)) :: k.hw) ∧
      (k.TimerQueue.head? ≠ some target → hw = k.hw) := by
  have hp0 : pid ≠ 0 := by omega
  have hr1 : ¬ (pid < -2 ∨ pid ≥ MAX_NUMBER_OF_USER_PROCESSES) := by omega
  have hr2 : ¬ (pid = -1 ∨ (deref k.heap cur).pid = pid) := by
    rintro (h | h)
    · omega
    · exact hne h
  have hr3 : ¬ pid = -2 := by omega
  obtain ⟨i, hfind, hrem, hi0⟩ := find_by_pid_unique k.heap k.TimerQueue pid target hp0 hpid
    hmem hut
  have hslot : slot_of pid = some pid.toNat := by
    have := slot_of_nat pid.toNat (by
      have : ((pid.toNat : Nat) : Int) = pid := Int.toNat_of_nonneg (by omega)
      unfold MAX_NUMBER_OF_USER_PROCESSES at h15 ⊢
      omega)
    rwa [Int.toNat_of_nonneg (by omega)] at this
  obtain ⟨heap, tbl, tq, rq, sq, c, root, hw⟩ := k
  simp only at hcur hne htab hpid hmem hut hur hus hfind hrem hi0
  subst hcur
  have tail : ∀ hw' : List HwCall,
      (match (match remove_by_pid heap rq pid (some target) with
          | .error e => (.error e : Except Stop (Kernel × Int))
          | .ok (rq', pcb2) =>
            match remove_by_pid heap sq pid pcb2 with
            | .error e => .error e
            | .ok (sq', pcb3) =>
              match pcb3 with
              | none => .error Stop.undefined
              | some pcb =>
                match remove_from_process_table
                    { (⟨heap, tbl, tq.erase target, rq, sq, some cur, root, hw'⟩ : Kernel) with
                      ReadyQueue := rq', SuspendQueue := sq' } (some pcb) with
                | .error e => .error e
                | .ok (k2, result) =>
                  if result = 0 then .error Stop.halted else .ok (k2, ERR_SUCCESS)) with
        | r => r) =
      .ok (⟨heap, Function.update tbl pid.toNat none, tq.erase target, rq, sq, some cur, root,
        hw'⟩, ERR_SUCCESS) := by
    intro hw'
    rw [remove_by_pid_none heap rq pid _ hp0 hur]
    simp only
    rw [remove_by_pid_none heap sq pid _ hp0 hus]
    simp only [remove_from_process_table, hpid, hslot, htab]
    simp
  unfold os_terminate_process
  rw [if_neg hr1]
  simp only [if_neg hr2, if_neg hr3, hfind, hrem, list_size]
  cases tq with
  | nil => cases hmem
  | cons a rest =>
    cases rest with
    | nil =>
      have hat : target = a := by simpa using hmem
      subst hat
      refine ⟨HwCall.start_timer 0 :: hw, ?_, fun _ => rfl, ?_, ?_⟩
      · have := tail (HwCall.start_timer 0 :: hw)
        simpa [start_timer, to_int32, hrem] using this
      · intro next rest' hh; cases hh
      · intro hh; simp at hh
    | cons b rest' =>
      by_cases hat : a = target
      · subst hat
        have hi : i = 0 := hi0.mpr (by simp)
        subst hi
        refine ⟨HwCall.start_timer (to_int32 ((deref heap b).delay_time - time_now)) :: hw,
          ?_, ?_, ?_, ?_⟩
        · have := tail (HwCall.start_timer (to_int32 ((deref heap b).delay_time - time_now)) :: hw)
          simpa [start_timer, hrem] using this
        · intro hh; simp at hh
        · intro next rest'' hh
          simp only [List.cons.injEq, true_and] at hh
          rw [← hh.1]
          rfl
        · intro hh; simp at hh
      · have hi : i ≠ 0 := by
          intro h
          have := hi0.mp h
          simp at this
          exact hat this
        refine ⟨hw, ?_, ?_, ?_, fun _ => rfl⟩
        · have := tail hw
          simpa [hi, hrem] using this
        · intro hh
          simp at hh
        · intro next rest'' hh
          simp only [List.cons.injEq] at hh
          exact absurd hh.1 hat

/-- C29, the code at the failing input: the child (pid 1) runs and the initial process (pid
0, live, not the current process) is the only entry of the Timer Queue, with wake time 15.
The child calls TERMINATE_PROCESS(0): the search of the Timer Queue is handed the pid 0 cast
to a pointer and fails the assertion of `list_find_element`; the timer is not started with 0
and the initial process is not removed. For a target of pid 1 the code does what the claim says: the
child, the only entry of the Timer Queue of `child_sleeping_kernel`, is removed by
TERMINATE_PROCESS(1) of the initial process and the timer is started with 0. -/
theorem terminate_of_pid_zero_fails_assertion :
    child_running_kernel.CurrentPCB = some 1 ∧ child_running_kernel.TimerQueue = [0] ∧
    (deref child_running_kernel.heap 0).pid = 0 ∧
    child_running_kernel.ProcessTable 0 = some 0 ∧
    os_terminate_process child_running_kernel 0 7 = .error Stop.assert_failed ∧
    child_sleeping_kernel.CurrentPCB = some 0 ∧ child_sleeping_kernel.TimerQueue = [1] ∧
    (os_terminate_process child_sleeping_kernel 1 20).map
      (fun r => (r.1.TimerQueue, r.1.ProcessTable 1, r.1.hw, r.2)) =
      .ok ([], none, HwCall.start_timer 0 :: child_sleeping_kernel.hw, ERR_SUCCESS) :=
  ⟨rfl, rfl, rfl, rfl, rfl, rfl, rfl, rfl⟩

/-! ### C30: disk requests -/

/-- An integer in the range of `INT16` is its own conversion. -/
theorem to_int16_of_range (x : Int) (h : -32768 ≤ x ∧ x < 32768) : to_int16 x = x := by
  unfold to_int16
  rw [Int.emod_eq_of_lt (by omega) (by omega)]
  omega

/-- Adding a descriptor to the Suspend Queue appends it unless it is in the queue already;
the result is 1. -/
theorem add_to_suspend_queue_result (k : Kernel) (p : Nat) :
    add_to_suspend_queue k (some p) =
      ({ k with
          SuspendQueue := if p ∈ k.SuspendQueue then k.SuspendQueue else k.SuspendQueue ++ [p] },
        1) := by
  unfold add_to_suspend_queue
  by_cases hp : p ∈ k.SuspendQueue
  · simp [list_contains_match_pcb, hp]
  · simp [list_contains_match_pcb, hp, queue_enqueue_eq]

/-- The part of a disk request before the dispatcher call, for a disk id in the range of
INT16. Disk free: the transfer (disk, sector, buffer, action) is started, the descriptor gets
the disk id and the operation -1 (no deferred request). Disk in use: no hardware call is
made, the descriptor gets the disk id, the pending operation, the disk, the sector and the
buffer kept for the deferred request. In both cases the descriptor is flagged suspended, it
is appended to the Suspend Queue unless it is in that queue already, nothing else changes,
and the dispatcher is called next. -/
theorem disk_request_effects (k : Kernel) (action pending disk_id sector : Int)
    (buffer disk_data cur : Nat) (hcur : k.CurrentPCB = some cur) (hal : cur < k.heap.length)
    (hd : -32768 ≤ disk_id ∧ disk_id < 32768) :
    disk_request k action pending disk_id sector buffer disk_data DeviceStatus.DEVICE_FREE =
      .ok ({ k with
              hw := HwCall.disk_start disk_id sector buffer action :: k.hw,
              heap := k.heap.set cur
                { deref k.heap cur with disk_id := disk_id, operation := -1, suspend := true },
              SuspendQueue :=
                if cur ∈ k.SuspendQueue then k.SuspendQueue else k.SuspendQueue ++ [cur] },
           true) ∧
    disk_request k action pending disk_id sector buffer disk_data DeviceStatus.DEVICE_IN_USE =
      .ok ({ k with
              heap := k.heap.set cur
                { deref k.heap cur with
                  disk_id := disk_id, operation := pending, disk := disk_id, sector := sector,
                  disk_data := disk_data, suspend := true },
              SuspendQueue :=
                if cur ∈ k.SuspendQueue then k.SuspendQueue else k.SuspendQueue ++ [cur] },
           true) := by
  obtain ⟨heap, tbl, tq, rq, sq, c, root, hw⟩ := k
  simp only at hcur hal
  subst hcur
  have hset : ∀ (x : PCB), deref (heap.set cur x) cur = x := by
    intro x
    unfold deref
    simp [List.getD_eq_getElem?_getD, hal]
  constructor
  · simp only [disk_request, add_to_suspend_queue_result, one_ne_zero, if_false, store, hset,
      to_int16_of_range _ hd, List.set_set]
  · simp only [disk_request, add_to_suspend_queue_result, one_ne_zero, if_false, store, hset,
      to_int16_of_range _ hd, List.set_set]

/-- C30, as the claim states it, fails for a caller that is in the Suspend Queue already.
After boot the initial process (address 0) asks for a write to the free disk 1; it is
flagged and appended to the Suspend Queue, and the dispatcher takes the initial process
itself from the Ready Queue, where boot left it, so that it runs on. Each further request
of the initial process (write or read, disk free or in use) leaves the Suspend Queue as the
one entry 0: the descriptor is not appended. In `root_before_child_kernel` the initial
process runs while the Suspend Queue holds it and, behind it, the child it has suspended: its
next request leaves the queue as it is, with the child as the last entry. -/
theorem disk_request_not_appended_counterexample :
    boot_kernel.CurrentPCB = some 0 ∧ boot_kernel.ReadyQueue = [0] ∧
    boot_kernel.SuspendQueue = [] ∧
    root_disk_written_kernel.CurrentPCB = some 0 ∧
    root_disk_written_kernel.SuspendQueue = [0] ∧
    (os_disk_write_request root_disk_written_kernel 1 1 7 9 DeviceStatus.DEVICE_IN_USE).map
      (fun r => (r.1.SuspendQueue, r.2)) = .ok ([0], true) ∧
    (os_disk_read_request root_disk_written_kernel 1 1 7 DeviceStatus.DEVICE_IN_USE).map
      (fun r => (r.1.SuspendQueue, r.2)) = .ok ([0], true) ∧
    (os_disk_write_request root_disk_written_kernel 2 0 7 9 DeviceStatus.DEVICE_FREE).map
      (fun r => (r.1.SuspendQueue, r.2)) = .ok ([0], true) ∧
    (os_disk_read_request root_disk_written_kernel 2 0 7 DeviceStatus.DEVICE_FREE).map
      (fun r => (r.1.SuspendQueue, r.2)) = .ok ([0], true) ∧
    root_before_child_kernel.CurrentPCB = some 0 ∧
    root_before_child_kernel.SuspendQueue = [0, 1] ∧
    (os_disk_write_request root_before_child_kernel 1 1 7 9 DeviceStatus.DEVICE_IN_USE).map
      (fun r => (r.1.SuspendQueue, r.1.SuspendQueue.getLast?, r.2)) =
      .ok ([0, 1], some 1, true) ∧
    (os_disk_read_request root_before_child_kernel 2 0 7 DeviceStatus.DEVICE_FREE).map
      (fun r => (r.1.SuspendQueue, r.1.SuspendQueue.getLast?, r.2)) =
      .ok ([0, 1], some 1, true) ∧
    (os_disk_write_request root_disk_written_kernel 1 1 7 9 DeviceStatus.DEVICE_IN_USE).map
      (fun r => r.1.SuspendQueue) ≠ .ok (root_disk_written_kernel.SuspendQueue ++ [0]) := by
  refine ⟨rfl, rfl, rfl, rfl, rfl, rfl, rfl, rfl, rfl, rfl, rfl, rfl, rfl, ?_⟩
  have h : (os_disk_write_request root_disk_written_kernel 1 1 7 9
      DeviceStatus.DEVICE_IN_USE).map (fun r => r.1.SuspendQueue) = .ok [0] := rfl
  rw [h]
  intro hh
  have h2 : root_disk_written_kernel.SuspendQueue = [0] := rfl
  rw [h2] at hh
  simp at hh

/-- C30, amended: a disk write or read request of the running process `cur` on the disk
`disk_id` (in the range of INT16). Disk status Free: the hardware is started with the disk,
the sector, the buffer and the action (1 write, 0 read), and the descriptor is stamped with
the disk id and the operation -1, no deferred operation. Disk status InUse: no hardware call
is made and the descriptor is stamped with the disk id, the sector, the buffer (for a write
the block the buffer was copied to) and the pending operation WRITE_ONE or READ_ONE. In both
cases the descriptor is flagged suspended, it is appended to the Suspend Queue unless it is in
the queue already, nothing else of the kernel data changes, and the dispatcher is called with
the state so reached. -/
theorem disk_request_suspends_caller (k : Kernel) (disk_id sector : Int)
    (buffer copy cur : Nat) (hcur : k.CurrentPCB = some cur) (hal : cur < k.heap.length)
    (hd : -32768 ≤ disk_id ∧ disk_id < 32768) :
    os_disk_write_request k disk_id sector buffer copy DeviceStatus.DEVICE_FREE =
      .ok ({ k with
              hw := HwCall.disk_start disk_id sector buffer 1 :: k.hw,
              heap := k.heap.set cur
                { deref k.heap cur with disk_id := disk_id, operation := -1, suspend := true },
              SuspendQueue :=
                if cur ∈ k.SuspendQueue then k.SuspendQueue else k.SuspendQueue ++ [cur] },
           true) ∧
    os_disk_read_request k disk_id sector buffer DeviceStatus.DEVICE_FREE =
      .ok ({ k with
              hw := HwCall.disk_start disk_id sector buffer 0 :: k.hw,
              heap := k.heap.set cur
                { deref k.heap cur with disk_id := disk_id, operation := -1, suspend := true },
              SuspendQueue :=
                if cur ∈ k.SuspendQueue then k.SuspendQueue else k.SuspendQueue ++ [cur] },
           true) ∧
    os_disk_write_request k disk_id sector buffer copy DeviceStatus.DEVICE_IN_USE =
      .ok ({ k with
              heap := k.heap.set cur
                { deref k.heap cur with
                  disk_id := disk_id, operation := WRITE_ONE, disk := disk_id,
                  sector := sector, disk_data := copy, suspend := true },
              SuspendQueue :=
                if cur ∈ k.SuspendQueue then k.SuspendQueue else k.SuspendQueue ++ [cur] },
           true) ∧
    os_disk_read_request k disk_id sector buffer DeviceStatus.DEVICE_IN_USE =
      .ok ({ k with
              heap := k.heap.set cur
                { deref k.heap cur with
                  disk_id := disk_id, operation := READ_ONE, disk := disk_id,
                  sector := sector, disk_data := buffer, suspend := true },
              SuspendQueue :=
                if cur ∈ k.SuspendQueue then k.SuspendQueue else k.SuspendQueue ++ [cur] },
           true) ∧
    (∀ status, status ≠ DeviceStatus.Other →
      os_disk_write k disk_id sector buffer copy status =
        (os_disk_write_request k disk_id sector buffer copy status).bind
          (fun r => os_dispatcher r.1) ∧
      os_disk_read k disk_id sector buffer status =
        (os_disk_read_request k disk_id sector buffer status).bind
          (fun r => os_dispatcher r.1)) := by
  obtain ⟨hw1, hw2⟩ := disk_request_effects k 1 WRITE_ONE disk_id sector buffer copy cur hcur
    hal hd
  obtain ⟨hr1, hr2⟩ := disk_request_effects k 0 READ_ONE disk_id sector buffer buffer cur hcur
    hal hd
  refine ⟨hw1, hr1, hw2, hr2, ?_⟩
  intro status hs
  have hw1' : os_disk_write_request k disk_id sector buffer copy DeviceStatus.DEVICE_FREE = _ :=
    hw1
  have hw2' : os_disk_write_request k disk_id sector buffer copy DeviceStatus.DEVICE_IN_USE
    = _ := hw2
  have hr1' : os_disk_read_request k disk_id sector buffer DeviceStatus.DEVICE_FREE = _ := hr1
  have hr2' : os_disk_read_request k disk_id sector buffer DeviceStatus.DEVICE_IN_USE = _ := hr2
  cases status with
  | DEVICE_FREE =>
    simp only [os_disk_write, os_disk_read, hw1', hr1', if_true, Except.bind]
    exact ⟨trivial, trivial⟩
  | DEVICE_IN_USE =>
    simp only [os_disk_write, os_disk_read, hw2', hr2', if_true, Except.bind]
    exact ⟨trivial, trivial⟩
  | Other => exact absurd rfl hs

/-- C30, at instances: the first write request of the initial process after boot (disk 1
free) starts the transfer, stamps the descriptor and appends it to the empty Suspend Queue;
a read request on the busy disk 2 stamps the descriptor with the pending operation READ_ONE
and appends it. -/
theorem disk_request_suspends_caller_witness :
    boot_kernel.CurrentPCB = some 0 ∧ 0 < boot_kernel.heap.length ∧
    (os_disk_write_request boot_kernel 1 0 7 9 DeviceStatus.DEVICE_FREE).map
      (fun r => (r.1.SuspendQueue, r.1.ReadyQueue, (deref r.1.heap 0).suspend,
        (deref r.1.heap 0).disk_id, (deref r.1.heap 0).operation, r.1.hw, r.2)) =
      .ok ([0], [0], true, 1, -1, HwCall.disk_start 1 0 7 1 :: boot_kernel.hw, true) ∧
    (os_disk_read_request boot_kernel 2 5 7 DeviceStatus.DEVICE_IN_USE).map
      (fun r => (r.1.SuspendQueue, (deref r.1.heap 0).suspend, (deref r.1.heap 0).disk_id,
        (deref r.1.heap 0).operation, (deref r.1.heap 0).sector,
        (deref r.1.heap 0).disk_data, r.1.hw, r.2)) =
      .ok ([0], true, 2, READ_ONE, 5, 7, boot_kernel.hw, true) := by
  obtain ⟨h1, -, -, h4, -⟩ := disk_request_suspends_caller boot_kernel 1 0 7 9 0 rfl
    (by decide) (by decide)
  obtain ⟨-, -, -, h4', -⟩ := disk_request_suspends_caller boot_kernel 2 5 7 9 0 rfl
    (by decide) (by decide)
  refine ⟨rfl, by decide, ?_, ?_⟩
  · rw [h1]; rfl
  · rw [h4']; rfl

/-! ### C21, C22: the invariants of the frame storage -/

/-! ### Page table entries -/

theorem to_uint16_nat (x : Nat) (h : x < 65536) : to_uint16 (x : Int) = x := by
  unfold to_uint16
  rw [Int.emod_eq_of_lt (by omega) (by omega)]
  simp

/-- The entry `frame | PTBL_VALID_BIT` is valid and carries the frame number. -/
theorem entry_of_frame (f : Nat) (hf : f < 4096) :
    (f ||| PTBL_VALID_BIT) &&& PTBL_VALID_BIT ≠ 0 ∧
    (f ||| PTBL_VALID_BIT) &&& PTBL_FRAME_BITS = f ∧ f ||| PTBL_VALID_BIT < 65536 := by
  refine ⟨?_, ?_, ?_⟩
  · intro h
    have h1 : ((f ||| PTBL_VALID_BIT) &&& PTBL_VALID_BIT).testBit 15 = true := by
      rw [Nat.testBit_and, Nat.testBit_or]
      have : PTBL_VALID_BIT.testBit 15 = true := by decide
      simp [this]
    rw [h] at h1
    simp at h1
  · rw [Nat.and_distrib_right]
    have h1 : PTBL_VALID_BIT &&& PTBL_FRAME_BITS = 0 := by decide
    have h2 : f &&& PTBL_FRAME_BITS = f := by
      have : PTBL_FRAME_BITS = 2 ^ 12 - 1 := by decide
      rw [this, Nat.and_pow_two_sub_one_eq_mod]
      exact Nat.mod_eq_of_lt (by omega)
    rw [h1, h2, Nat.or_zero]
  · have h1 : f < 2 ^ 16 := by omega
    have h2 : PTBL_VALID_BIT < 2 ^ 16 := by decide
    exact Nat.or_lt_two_pow h1 h2

/-- Clearing the REFERENCED bit leaves the VALID bit and the frame number. -/
theorem entry_clear_referenced (e : Nat) :
    (e &&& (65535 - PTBL_REFERENCED_BIT)) &&& PTBL_VALID_BIT = e &&& PTBL_VALID_BIT ∧
    (e &&& (65535 - PTBL_REFERENCED_BIT)) &&& PTBL_FRAME_BITS = e &&& PTBL_FRAME_BITS ∧
    (e &&& (65535 - PTBL_REFERENCED_BIT)) &&& PTBL_REFERENCED_BIT = 0 := by
  refine ⟨?_, ?_, ?_⟩
  · rw [Nat.and_assoc]
    have : (65535 - PTBL_REFERENCED_BIT) &&& PTBL_VALID_BIT = PTBL_VALID_BIT := by decide
    rw [this]
  · rw [Nat.and_assoc]
    have : (65535 - PTBL_REFERENCED_BIT) &&& PTBL_FRAME_BITS = PTBL_FRAME_BITS := by decide
    rw [this]
  · rw [Nat.and_assoc]
    have : (65535 - PTBL_REFERENCED_BIT) &&& PTBL_REFERENCED_BIT = 0 := by decide
    rw [this, Nat.and_zero]

/-- The entry of a victim, RESERVED set and VALID cleared, is not valid. -/
theorem entry_victim_marked (e : Nat) :
    ((e ||| PTBL_RESERVED_BIT) &&& (65535 - PTBL_VALID_BIT)) &&& PTBL_VALID_BIT = 0 := by
  rw [Nat.and_assoc]
  have : (65535 - PTBL_VALID_BIT) &&& PTBL_VALID_BIT = 0 := by decide
  rw [this, Nat.and_zero]

/-- Setting the REFERENCED and the MODIFIED bit leaves the VALID bit and the frame number. -/
theorem entry_set_accessed (e : Nat) (modified : Bool) :
    (e ||| PTBL_REFERENCED_BIT ||| (if modified then PTBL_MODIFIED_BIT else 0)) &&&
      PTBL_VALID_BIT = e &&& PTBL_VALID_BIT ∧
    (e ||| PTBL_REFERENCED_BIT ||| (if modified then PTBL_MODIFIED_BIT else 0)) &&&
      PTBL_FRAME_BITS = e &&& PTBL_FRAME_BITS := by
  have h1 : PTBL_REFERENCED_BIT &&& PTBL_VALID_BIT = 0 := by decide
  have h2 : PTBL_MODIFIED_BIT &&& PTBL_VALID_BIT = 0 := by decide
  have h3 : PTBL_REFERENCED_BIT &&& PTBL_FRAME_BITS = 0 := by decide
  have h4 : PTBL_MODIFIED_BIT &&& PTBL_FRAME_BITS = 0 := by decide
  cases modified <;>
    simp [Nat.and_distrib_right, h1, h2, h3, h4]

theorem pte_read_some (s : Storage) (p : PtePtr) (e : Nat) (h : pte_read s p = some e) :
    p.index < 1024 ∧ p.table < s.page_tables.length := by
  unfold pte_read at h
  split_ifs at h with hi
  refine ⟨hi, ?_⟩
  by_contra hlt
  rw [List.get?_eq_none.mpr (by omega)] at h
  simp at h

/-- Reading after a write through a pointer into an allocated page table. -/
theorem pte_read_write (s : Storage) (p q : PtePtr) (e v : Nat) (h : pte_read s p = some e) :
    pte_read (pte_write s p v) q = if q = p then some v else pte_read s q := by
  obtain ⟨hi, ht⟩ := pte_read_some s p e h
  unfold pte_read pte_write
  simp only [List.get?_eq_getElem?, List.getElem?_set, List.getD_eq_getElem?_getD]
  by_cases hqp : q = p
  · subst hqp
    simp [hi, ht]
  · simp only [hqp, if_false]
    by_cases hqi : q.index < 1024
    · simp only [hqi, if_true]
      by_cases htab : p.table = q.table
      · have hidx : q.index ≠ p.index := by
          intro hh
          apply hqp
          cases q; cases p
          simp only [PtePtr.mk.injEq]
          exact ⟨htab.symm, hh⟩
        simp only [htab, if_true]
        have hq : q.table < s.page_tables.length := by omega
        simp [hq, Function.update_noteq hidx, List.getElem?_eq_getElem hq]
      · simp [htab]
    · simp [hqi]

/-! ### The invariant of the frame storage -/

/-- The invariant looks at the frame queue, the page tables, the page table register, the
shadow slots, the two holder arrays and `shadow_pg_idx` only. -/
theorem FrameInv_congr (n : Nat) (s s' : Storage) (h : FrameInv n s)
    (h1 : s'.FrameQueue = s.FrameQueue) (h2 : s'.page_tables = s.page_tables)
    (h3 : s'.Z502_PAGE_TBL_ADDR = s.Z502_PAGE_TBL_ADDR)
    (h4 : s'.shadow_pg_tbl = s.shadow_pg_tbl) (h5 : s'.process_holder = s.process_holder)
    (h6 : s'.address_holder = s.address_holder) (h7 : s'.shadow_pg_idx = s.shadow_pg_idx) :
    FrameInv n s' := by
  have hr : ∀ p, pte_read s' p = pte_read s p := by
    intro p; unfold pte_read; rw [h2]
  have hm : ∀ p f, maps_frame s' p f ↔ maps_frame s p f := by
    intro p f; unfold maps_frame; simp only [hr]
  refine ⟨h.count, by rw [h7]; exact h.idx, by rw [h1]; exact h.pool, ?_, ?_, ?_⟩
  · intro f hf
    obtain ⟨p, a, b, c, d, e⟩ := h.slot f hf
    exact ⟨p, by rw [h4]; exact a, (hm p f).mpr b, by rw [h5]; exact c,
      by rw [h6, h5]; exact d, by rw [h3, h5]; exact e⟩
  · intro p f hpf
    have := h.valid p f ((hm p f).mp hpf)
    exact ⟨this.1, by rw [h4]; exact this.2⟩
  · intro pid t ht
    rw [h3] at ht
    have := h.tables pid t ht
    exact ⟨by rw [h2]; exact this.1, this.2.1, this.2.2.1, by rw [h6]; exact this.2.2.2⟩

/-- Writing an entry that keeps the VALID bit and the frame number keeps what the entries
map. -/
theorem maps_frame_write_same (s : Storage) (p : PtePtr) (e v : Nat)
    (hp : pte_read s p = some e)
    (hv : v &&& PTBL_VALID_BIT = e &&& PTBL_VALID_BIT)
    (hf : v &&& PTBL_FRAME_BITS = e &&& PTBL_FRAME_BITS) (q : PtePtr) (f : Nat) :
    maps_frame (pte_write s p v) q f ↔ maps_frame s q f := by
  unfold maps_frame
  simp only [pte_read_write s p q e v hp]
  by_cases hqp : q = p
  · subst hqp
    simp only [if_true, hp, Option.some.injEq]
    constructor
    · rintro ⟨x, hx, h1, h2⟩
      subst hx
      exact ⟨e, rfl, by rw [← hv]; exact h1, by rw [← hf]; exact h2⟩
    · rintro ⟨x, hx, h1, h2⟩
      subst hx
      exact ⟨v, rfl, by rw [hv]; exact h1, by rw [hf]; exact h2⟩
  · simp only [hqp, if_false]

theorem FrameInv_write_same (n : Nat) (s : Storage) (p : PtePtr) (e v : Nat)
    (h : FrameInv n s) (hp : pte_read s p = some e)
    (hv : v &&& PTBL_VALID_BIT = e &&& PTBL_VALID_BIT)
    (hf : v &&& PTBL_FRAME_BITS = e &&& PTBL_FRAME_BITS) :
    FrameInv n (pte_write s p v) := by
  have hm := maps_frame_write_same s p e v hp hv hf
  refine ⟨h.count, h.idx, h.pool, ?_, ?_, ?_⟩
  · intro f hf'
    obtain ⟨q, a, b, c, d, e'⟩ := h.slot f hf'
    exact ⟨q, a, (hm q f).mpr b, c, d, e'⟩
  · intro q f hqf
    exact h.valid q f ((hm q f).mp hqf)
  · intro pid t ht
    have := h.tables pid t ht
    refine ⟨?_, this.2⟩
    show t < (s.page_tables.set _ _).length
    rw [List.length_set]
    exact this.1

/-- The scan for a victim keeps the invariant; it changes `ref_idx` and REFERENCED bits
only, and the victim it returns is what the shadow slot `ref_idx` points to. -/
theorem victim_scan_spec (n : Nat) :
    ∀ (fuel : Nat) (s s' : Storage) (victim : PtePtr) (victim_entry : Nat),
      FrameInv n s → victim_scan fuel s = .ok (s', victim, victim_entry) →
      FrameInv n s' ∧ 0 ≤ s'.ref_idx ∧ s'.ref_idx < 64 ∧
      s'.shadow_pg_tbl s'.ref_idx.toNat = some victim ∧
      pte_read s' victim = some victim_entry ∧
      (∀ q f, maps_frame s' q f ↔ maps_frame s q f) ∧
      (∀ q, (pte_read s' q).isSome = (pte_read s q).isSome) ∧
      s'.FrameQueue = s.FrameQueue ∧ s'.disk = s.disk ∧
      s'.shadow_pg_tbl = s.shadow_pg_tbl ∧ s'.process_holder = s.process_holder ∧
      s'.address_holder = s.address_holder ∧
      s'.Z502_PAGE_TBL_ADDR = s.Z502_PAGE_TBL_ADDR ∧ s'.shadow_pg_idx = s.shadow_pg_idx := by
  intro fuel
  induction fuel with
  | zero =>
    intro s s' victim ve _ h
    simp [victim_scan] at h
  | succ fuel ih =>
    intro s s' victim ve hinv h
    have hinv1 : FrameInv n { s with ref_idx := Int.tmod (s.ref_idx + 1) (PHYS_MEM_PGS : Nat) + 1 } :=
      FrameInv_congr n s _ hinv rfl rfl rfl rfl rfl rfl rfl
    unfold victim_scan at h
    dsimp only at h
    split at h
    · cases h
    · rename_i hrange
      split at h
      · cases h
      · rename_i p hp
        split at h
        · cases h
        · rename_i entry hentry
          split at h
          · rename_i href
            obtain ⟨c1, c2, c3⟩ := entry_clear_referenced entry
            have hinv2 := FrameInv_write_same n _ p entry _ hinv1 hentry c1 c2
            obtain ⟨a1, a2, a3, a4, a5, a6, a7, a8, a9, a10, a11, a12, a13, a14⟩ :=
              ih _ s' victim ve hinv2 h
            refine ⟨a1, a2, a3, a4, a5, ?_, ?_, a8, a9, a10, a11, a12, a13, a14⟩
            · intro q f
              rw [a6 q f, maps_frame_write_same _ p entry _ hentry c1 c2 q f]
              unfold maps_frame pte_read
              rfl
            · intro q
              rw [a7 q, pte_read_write _ p q entry _ hentry]
              by_cases hqp : q = p
              · subst hqp
                simp only [if_true, Option.isSome_some]
                have : pte_read s q = some entry := hentry
                rw [this]; rfl
              · simp only [hqp, if_false]
                unfold pte_read
                rfl
          · simp only [Except.ok.injEq, Prod.mk.injEq] at h
            obtain ⟨h1, h2, h3⟩ := h
            subst h1 h2 h3
            have hr : ¬ (Int.tmod (s.ref_idx + 1) (PHYS_MEM_PGS : Nat) + 1 < 0 ∨
                Int.tmod (s.ref_idx + 1) (PHYS_MEM_PGS : Nat) + 1 ≥ ((PHYS_MEM_PGS : Nat) : Int)) :=
              hrange
            have h64 : ((PHYS_MEM_PGS : Nat) : Int) = 64 := rfl
            rw [h64] at hr
            refine ⟨hinv1, by simp only; omega, by simp only; omega, hp, hentry,
              fun q f => Iff.rfl, fun q => rfl, rfl, rfl, rfl, rfl, rfl, rfl, rfl⟩

/-- The invariant after a page got the next frame of the frame queue. -/
theorem FrameInv_take_frame (n : Nat) (s s' : Storage) (target : PtePtr) (pid : Nat)
    (h : FrameInv n s) (hn : n < PHYS_MEM_PGS)
    (hinvalid : ∀ e, pte_read s target = some e → e &&& PTBL_VALID_BIT = 0)
    (hpid : pid < 10) (hreg : s.Z502_PAGE_TBL_ADDR (pid : Int) = some target.table)
    (h1 : s'.FrameQueue = (List.range' (n + 1) (PHYS_MEM_PGS - (n + 1))).map (fun i : Nat => (i : Int)))
    (h2 : s'.shadow_pg_idx = (n : Int))
    (h3 : ∀ q, pte_read s' q = if q = target then some (n ||| PTBL_VALID_BIT) else pte_read s q)
    (h4 : s'.page_tables.length = s.page_tables.length)
    (h5 : s'.shadow_pg_tbl = Function.update s.shadow_pg_tbl n (some target))
    (h6 : s'.process_holder = Function.update s.process_holder n pid)
    (h7 : s'.address_holder = s.address_holder)
    (h8 : s'.Z502_PAGE_TBL_ADDR = s.Z502_PAGE_TBL_ADDR) :
    FrameInv (n + 1) s' := by
  have h64 : PHYS_MEM_PGS = 64 := rfl
  obtain ⟨e1, e2, _⟩ := entry_of_frame n (by omega)
  have hnew : maps_frame s' target n := ⟨_, by rw [h3, if_pos rfl], e1, e2⟩
  have hold : ∀ q f, q ≠ target → (maps_frame s' q f ↔ maps_frame s q f) := by
    intro q f hq
    unfold maps_frame
    rw [h3, if_neg hq]
  have hne : ∀ q f, maps_frame s q f → q ≠ target := by
    rintro q f ⟨e, he, hv, _⟩ hqt
    subst hqt
    exact hv (hinvalid e he)
  refine ⟨by omega, by rw [h2]; push_cast; omega, h1, ?_, ?_, ?_⟩
  · intro f hf
    by_cases hfn : f = n
    · subst hfn
      refine ⟨target, by rw [h5]; simp, hnew, by rw [h6]; simpa using hpid, ?_, ?_⟩
      · rw [h7, h6, Function.update_same]
        have := (h.tables (pid : Int) target.table hreg).2.2.2
        simpa using this
      · rw [h8, h6, Function.update_same]
        exact hreg
    · obtain ⟨p, a, b, c, d, e⟩ := h.slot f (by omega)
      refine ⟨p, by rw [h5, Function.update_noteq hfn]; exact a,
        (hold p f (hne p f b)).mpr b, ?_, ?_, ?_⟩
      · rw [h6, Function.update_noteq hfn]; exact c
      · rw [h7, h6, Function.update_noteq hfn]; exact d
      · rw [h8, h6, Function.update_noteq hfn]; exact e
  · intro q f hqf
    by_cases hqt : q = target
    · subst hqt
      obtain ⟨e, he, hv, hfr⟩ := hqf
      rw [h3, if_pos rfl] at he
      cases he
      rw [e2] at hfr
      subst hfr
      exact ⟨by omega, by rw [h5]; simp⟩
    · have := h.valid q f ((hold q f hqt).mp hqf)
      refine ⟨by omega, ?_⟩
      rw [h5, Function.update_noteq (by omega)]
      exact this.2
  · intro pid' t ht
    rw [h8] at ht
    have := h.tables pid' t ht
    exact ⟨by rw [h4]; exact this.1, this.2.1, this.2.2.1, by rw [h7]; exact this.2.2.2⟩

/-- The invariant after a page got the frame of a victim: the frame queue is empty, the
victim is what the shadow slot `r` points to, its entry is no longer valid, and the page
has the frame `r`. -/
theorem FrameInv_replace (s s' : Storage) (target victim : PtePtr) (r pid marked : Nat)
    (h : FrameInv PHYS_MEM_PGS s) (hr : r < PHYS_MEM_PGS)
    (hvictim : s.shadow_pg_tbl r = some victim)
    (hinvalid : ∀ e, pte_read s target = some e → e &&& PTBL_VALID_BIT = 0)
    (hmarked : marked &&& PTBL_VALID_BIT = 0)
    (hpid : pid < 10) (hreg : s.Z502_PAGE_TBL_ADDR (pid : Int) = some target.table)
    (h1 : s'.FrameQueue = s.FrameQueue) (h2 : s'.shadow_pg_idx = s.shadow_pg_idx)
    (h3 : ∀ q, pte_read s' q =
      if q = target then some (r ||| PTBL_VALID_BIT)
      else if q = victim then some marked else pte_read s q)
    (h4 : s'.page_tables.length = s.page_tables.length)
    (h5 : s'.shadow_pg_tbl = Function.update s.shadow_pg_tbl r (some target))
    (h6 : s'.process_holder = Function.update s.process_holder r pid)
    (h7 : s'.address_holder = s.address_holder)
    (h8 : s'.Z502_PAGE_TBL_ADDR = s.Z502_PAGE_TBL_ADDR) :
    FrameInv PHYS_MEM_PGS s' := by
  have h64 : PHYS_MEM_PGS = 64 := rfl
  obtain ⟨e1, e2, _⟩ := entry_of_frame r (by omega)
  have hnew : maps_frame s' target r := ⟨_, by rw [h3, if_pos rfl], e1, e2⟩
  have hold : ∀ q f, q ≠ target → q ≠ victim → (maps_frame s' q f ↔ maps_frame s q f) := by
    intro q f hq hqv
    unfold maps_frame
    rw [h3, if_neg hq, if_neg hqv]
  have hne : ∀ q f, maps_frame s q f → q ≠ target := by
    rintro q f ⟨e, he, hv, _⟩ hqt
    subst hqt
    exact hv (hinvalid e he)
  have hvr : ∀ f, maps_frame s victim f → f = r := by
    intro f hf
    obtain ⟨p, a, b, -⟩ := h.slot r hr
    rw [hvictim] at a
    cases a
    obtain ⟨e, he, _, hfr⟩ := hf
    obtain ⟨e', he', _, hfr'⟩ := b
    rw [he] at he'
    cases he'
    omega
  refine ⟨h.count, by rw [h2]; exact h.idx, by rw [h1]; exact h.pool, ?_, ?_, ?_⟩
  · intro f hf
    by_cases hfr : f = r
    · subst hfr
      refine ⟨target, by rw [h5]; simp, hnew, by rw [h6]; simpa using hpid, ?_, ?_⟩
      · rw [h7, h6, Function.update_same]
        have := (h.tables (pid : Int) target.table hreg).2.2.2
        simpa using this
      · rw [h8, h6, Function.update_same]
        exact hreg
    · obtain ⟨p, a, b, c, d, e⟩ := h.slot f hf
      have hpv : p ≠ victim := by
        intro hh
        subst hh
        exact hfr (hvr f b)
      refine ⟨p, by rw [h5, Function.update_noteq hfr]; exact a,
        (hold p f (hne p f b) hpv).mpr b, ?_, ?_, ?_⟩
      · rw [h6, Function.update_noteq hfr]; exact c
      · rw [h7, h6, Function.update_noteq hfr]; exact d
      · rw [h8, h6, Function.update_noteq hfr]; exact e
  · intro q f hqf
    by_cases hqt : q = target
    · subst hqt
      obtain ⟨e, he, hv, hfr⟩ := hqf
      rw [h3, if_pos rfl] at he
      cases he
      rw [e2] at hfr
      subst hfr
      exact ⟨hr, by rw [h5]; simp⟩
    · by_cases hqv : q = victim
      · subst hqv
        obtain ⟨e, he, hv, _⟩ := hqf
        rw [h3, if_neg hqt, if_pos rfl] at he
        cases he
        exact absurd hmarked hv
      · have hq := (hold q f hqt hqv).mp hqf
        have := h.valid q f hq
        refine ⟨this.1, ?_⟩
        have hfr : f ≠ r := by
          intro hh
          subst hh
          rw [hvictim] at this
          exact hqv (Option.some.inj this.2).symm
        rw [h5, Function.update_noteq hfr]
        exact this.2
  · intro pid' t ht
    rw [h8] at ht
    have := h.tables pid' t ht
    exact ⟨by rw [h4]; exact this.1, this.2.1, this.2.2.1, by rw [h7]; exact this.2.2.2⟩

theorem pte_read_of_tables (s s' : Storage) (h : s'.page_tables = s.page_tables) (q : PtePtr) :
    pte_read s' q = pte_read s q := by
  unfold pte_read; rw [h]

/-- With frames left in the frame queue the next one is taken from its head. -/
theorem get_frame_number_next (n : Nat) (s : Storage) (h : FrameInv n s)
    (hn : n < PHYS_MEM_PGS) :
    get_frame_number_of_removed_frame s =
      ({ s with
          FrameQueue := (List.range' (n + 1) (PHYS_MEM_PGS - (n + 1))).map (fun i : Nat => (i : Int)) },
        (n : Int)) := by
  have hq : s.FrameQueue =
      (n : Int) :: (List.range' (n + 1) (PHYS_MEM_PGS - (n + 1))).map (fun i : Nat => (i : Int)) := by
    rw [h.pool]
    have : PHYS_MEM_PGS - n = (PHYS_MEM_PGS - (n + 1)) + 1 := by omega
    rw [this, List.range'_succ]
    rfl
  unfold get_frame_number_of_removed_frame removed_from_frame_queue
  simp [hq, list_size, queue_dequeue, list_remove_next]

/-- With an empty frame queue there is no frame to take. -/
theorem get_frame_number_none (s : Storage) (h : FrameInv PHYS_MEM_PGS s) :
    get_frame_number_of_removed_frame s = (s, -1) := by
  have hq : s.FrameQueue = [] := by
    rw [h.pool]; simp
  unfold get_frame_number_of_removed_frame removed_from_frame_queue
  simp [hq, list_size]

/-- The state `map_page` leaves when it takes a frame of the frame queue: `s1` is the state
after the frame `n` was removed (and a disk read was recorded). -/
theorem map_page_take (n : Nat) (s s1 : Storage) (table : Nat) (disk_id page : Int)
    (entry : Nat) (h : FrameInv n s) (hn : n < PHYS_MEM_PGS)
    (hp0 : 0 ≤ disk_id - 1) (hp10 : disk_id - 1 < 10)
    (hreg : s.Z502_PAGE_TBL_ADDR (disk_id - 1) = some table)
    (hentry : pte_read s ⟨table, page.toNat⟩ = some entry)
    (hinvalid : entry &&& PTBL_VALID_BIT = 0)
    (h1 : s1.FrameQueue = (List.range' (n + 1) (PHYS_MEM_PGS - (n + 1))).map (fun i : Nat => (i : Int)))
    (h2 : s1.page_tables = s.page_tables)
    (h3 : s1.Z502_PAGE_TBL_ADDR = s.Z502_PAGE_TBL_ADDR)
    (h4 : s1.shadow_pg_tbl = s.shadow_pg_tbl) (h5 : s1.process_holder = s.process_holder)
    (h6 : s1.address_holder = s.address_holder) (h7 : s1.shadow_pg_idx = s.shadow_pg_idx) :
    FrameInv (n + 1)
      { pte_write s1 ⟨table, page.toNat⟩
          (to_uint16 (((n : Int).toNat ||| PTBL_VALID_BIT : Nat) : Int)) with
        shadow_pg_idx := s1.shadow_pg_idx + 1,
        shadow_pg_tbl := Function.update s1.shadow_pg_tbl (s1.shadow_pg_idx + 1).toNat
          (some ⟨table, page.toNat⟩),
        process_holder := Function.update s1.process_holder (s1.shadow_pg_idx + 1).toNat
          (to_uint16 (disk_id - 1)) } := by
  have h64 : PHYS_MEM_PGS = 64 := rfl
  have hpid : to_uint16 (disk_id - 1) = (disk_id - 1).toNat := by
    unfold to_uint16
    rw [Int.emod_eq_of_lt (by omega) (by omega)]
  have hreg' : s.Z502_PAGE_TBL_ADDR (((disk_id - 1).toNat : Nat) : Int) = some table := by
    rw [Int.toNat_of_nonneg hp0]; exact hreg
  have hv : to_uint16 (((n : Int).toNat ||| PTBL_VALID_BIT : Nat) : Int) =
      n ||| PTBL_VALID_BIT := by
    rw [Int.toNat_ofNat]
    exact to_uint16_nat _ (entry_of_frame n (by omega)).2.2
  have hix : (s1.shadow_pg_idx + 1).toNat = n := by
    rw [h7, h.idx]; omega
  have hentry1 : pte_read s1 ⟨table, page.toNat⟩ = some entry := by
    rw [pte_read_of_tables s s1 h2]; exact hentry
  refine FrameInv_take_frame n s _ ⟨table, page.toNat⟩ (disk_id - 1).toNat h hn
    (fun e he => by rw [hentry] at he; cases he; exact hinvalid) (by omega) hreg'
    h1 ?_ ?_ ?_ ?_ ?_ h6 h3
  · show s1.shadow_pg_idx + 1 = _
    rw [h7, h.idx]; omega
  · intro q
    rw [← hv]
    show pte_read (pte_write s1 _ _) q = _
    rw [pte_read_write s1 _ q entry _ hentry1, pte_read_of_tables s s1 h2]
  · show (List.set _ _ _).length = _
    rw [List.length_set, h2]
  · show Function.update _ _ _ = _
    rw [hix, h4]
  · show Function.update _ _ _ = _
    rw [hix, h5, hpid]

/-- The state `map_page` leaves when it takes the frame of a victim: `s1` is the state after
the scan, `s4` the state after the entry of the victim was marked (and the disk calls were
recorded). -/
theorem map_page_replace (s1 s4 : Storage) (table : Nat) (disk_id page : Int)
    (entry : Nat) (victim : PtePtr) (victim_entry : Nat)
    (h : FrameInv PHYS_MEM_PGS s1) (hr0 : 0 ≤ s1.ref_idx) (hr64 : s1.ref_idx < 64)
    (hvictim : s1.shadow_pg_tbl s1.ref_idx.toNat = some victim)
    (hve : pte_read s1 victim = some victim_entry)
    (hp0 : 0 ≤ disk_id - 1) (hp10 : disk_id - 1 < 10)
    (hreg : s1.Z502_PAGE_TBL_ADDR (disk_id - 1) = some table)
    (hentry : pte_read s1 ⟨table, page.toNat⟩ = some entry)
    (hinvalid : entry &&& PTBL_VALID_BIT = 0)
    (h1 : s4.FrameQueue = s1.FrameQueue)
    (h2 : s4.page_tables = (pte_write s1 victim
      ((victim_entry ||| PTBL_RESERVED_BIT) &&& (65535 - PTBL_VALID_BIT))).page_tables)
    (h3 : s4.Z502_PAGE_TBL_ADDR = s1.Z502_PAGE_TBL_ADDR)
    (h4 : s4.shadow_pg_tbl = s1.shadow_pg_tbl) (h5 : s4.process_holder = s1.process_holder)
    (h6 : s4.address_holder = s1.address_holder) (h7 : s4.shadow_pg_idx = s1.shadow_pg_idx)
    (h8 : s4.ref_idx = s1.ref_idx) :
    FrameInv PHYS_MEM_PGS
      { pte_write s4 ⟨table, page.toNat⟩
          ((victim_entry &&& PTBL_FRAME_BITS) ||| PTBL_VALID_BIT) with
        shadow_pg_tbl := Function.update s4.shadow_pg_tbl s4.ref_idx.toNat
          (some ⟨table, page.toNat⟩),
        process_holder := Function.update s4.process_holder s4.ref_idx.toNat
          (to_uint16 (disk_id - 1)) } := by
  have h64 : PHYS_MEM_PGS = 64 := rfl
  have hpid : to_uint16 (disk_id - 1) = (disk_id - 1).toNat := by
    unfold to_uint16
    rw [Int.emod_eq_of_lt (by omega) (by omega)]
  have hreg' : s1.Z502_PAGE_TBL_ADDR (((disk_id - 1).toNat : Nat) : Int) = some table := by
    rw [Int.toNat_of_nonneg hp0]; exact hreg
  have hr : s1.ref_idx.toNat < PHYS_MEM_PGS := by omega
  obtain ⟨p, a, b, -⟩ := h.slot s1.ref_idx.toNat hr
  rw [hvictim] at a
  cases a
  obtain ⟨e, he, hev, hef⟩ := b
  rw [hve] at he
  cases he
  have hne : (⟨table, page.toNat⟩ : PtePtr) ≠ victim := by
    intro hh
    rw [← hh, hentry] at hve
    cases hve
    exact hev hinvalid
  have hread4 : ∀ q, pte_read s4 q =
      if q = victim then
        some ((victim_entry ||| PTBL_RESERVED_BIT) &&& (65535 - PTBL_VALID_BIT))
      else pte_read s1 q := by
    intro q
    rw [pte_read_of_tables _ s4 h2, pte_read_write s1 victim q victim_entry _ hve]
  have hentry4 : pte_read s4 ⟨table, page.toNat⟩ = some entry := by
    rw [hread4, if_neg hne, hentry]
  refine FrameInv_replace s1 _ ⟨table, page.toNat⟩ victim s1.ref_idx.toNat
    (disk_id - 1).toNat
    ((victim_entry ||| PTBL_RESERVED_BIT) &&& (65535 - PTBL_VALID_BIT)) h hr hvictim
    (fun x hx => by rw [hentry] at hx; cases hx; exact hinvalid)
    (entry_victim_marked victim_entry) (by omega) hreg' h1 h7 ?_ ?_ ?_ ?_ h6 h3
  · intro q
    show pte_read (pte_write s4 _ _) q = _
    rw [pte_read_write s4 _ q entry _ hentry4, hread4, hef]
  · show (List.set _ _ _).length = _
    rw [List.length_set, h2]
    show (List.set _ _ _).length = _
    rw [List.length_set]
  · show Function.update _ _ _ = _
    rw [h8, h4]
  · show Function.update _ _ _ = _
    rw [h8, h5, hpid]

/-- Mapping a page whose entry is not valid keeps the invariant. -/
theorem map_page_inv (n : Nat) (s s' : Storage) (table : Nat) (disk_id page : Int)
    (h : FrameInv n s) (hp0 : 0 ≤ disk_id - 1) (hp10 : disk_id - 1 < 10)
    (hreg : s.Z502_PAGE_TBL_ADDR (disk_id - 1) = some table)
    (hinvalid : ∀ e, pte_read s ⟨table, page.toNat⟩ = some e → e &&& PTBL_VALID_BIT = 0)
    (hres : map_page s table disk_id page = .ok s') :
    (∃ n', FrameInv n' s') ∧ s'.Z502_PAGE_TBL_ADDR = s.Z502_PAGE_TBL_ADDR := by
  have h64 : PHYS_MEM_PGS = 64 := rfl
  unfold map_page at hres
  split at hres
  · cases hres
  · dsimp only at hres
    split at hres
    · cases hres
    · rename_i entry hentry
      by_cases hn : n < PHYS_MEM_PGS
      · -- a frame of the frame queue
        rw [get_frame_number_next n s h hn] at hres
        dsimp only at hres
        rw [if_pos (by omega)] at hres
        have hidx : ¬ (s.shadow_pg_idx + 1 < 0 ∨
            s.shadow_pg_idx + 1 ≥ ((PHYS_MEM_PGS : Nat) : Int)) := by
          rw [h.idx, h64]; push_cast; omega
        by_cases hr : entry &&& PTBL_RESERVED_BIT ≠ 0
        · rw [if_pos hr] at hres
          split at hres
          · rename_i hbad
            exact absurd hbad hidx
          · simp only [Except.ok.injEq] at hres
            subst hres
            exact ⟨⟨n + 1, map_page_take n s _ table disk_id page entry h hn hp0 hp10 hreg
              hentry (hinvalid entry hentry) rfl rfl rfl rfl rfl rfl rfl⟩, rfl⟩
        · rw [if_neg hr] at hres
          split at hres
          · rename_i hbad
            exact absurd hbad hidx
          · simp only [Except.ok.injEq] at hres
            subst hres
            exact ⟨⟨n + 1, map_page_take n s _ table disk_id page entry h hn hp0 hp10 hreg
              hentry (hinvalid entry hentry) rfl rfl rfl rfl rfl rfl rfl⟩, rfl⟩
      · -- the frame of a victim
        have hn64 : n = PHYS_MEM_PGS := by
          have := h.count
          omega
        subst hn64
        rw [get_frame_number_none s h] at hres
        dsimp only at hres
        rw [if_neg (by omega)] at hres
        split at hres
        · cases hres
        · rename_i s1 victim victim_entry hscan
          obtain ⟨a1, a2, a3, a4, a5, a6, a7, a8, a9, a10, a11, a12, a13, a14⟩ :=
            victim_scan_spec PHYS_MEM_PGS 33 s s1 victim victim_entry h hscan
          have hentry1 : ∃ entry1, pte_read s1 ⟨table, page.toNat⟩ = some entry1 ∧
              entry1 &&& PTBL_VALID_BIT = 0 := by
            have hsome := a7 ⟨table, page.toNat⟩
            rw [hentry] at hsome
            cases hx : pte_read s1 ⟨table, page.toNat⟩ with
            | none => rw [hx] at hsome; cases hsome
            | some entry1 =>
              refine ⟨entry1, rfl, ?_⟩
              by_contra hv
              have hm : maps_frame s1 ⟨table, page.toNat⟩ (entry1 &&& PTBL_FRAME_BITS) :=
                ⟨entry1, hx, hv, rfl⟩
              obtain ⟨e0, he0, hv0, -⟩ := (a6 _ _).mp hm
              exact hv0 (hinvalid e0 he0)
          obtain ⟨entry1, hentry1, hinv1⟩ := hentry1
          have hreg1 : s1.Z502_PAGE_TBL_ADDR (disk_id - 1) = some table := by
            rw [a13]; exact hreg
          split at hres
          · cases hres
          · split at hres
            · cases hres
            · split at hres
              · cases hres
              · by_cases hr : entry &&& PTBL_RESERVED_BIT ≠ 0
                · rw [if_pos hr] at hres
                  simp only [Except.ok.injEq] at hres
                  subst hres
                  exact ⟨⟨PHYS_MEM_PGS, map_page_replace s1 _ table disk_id page entry1 victim
                    victim_entry a1 a2 a3 a4 a5 hp0 hp10 hreg1 hentry1 hinv1
                    rfl rfl rfl rfl rfl rfl rfl rfl⟩, a13⟩
                · rw [if_neg hr] at hres
                  simp only [Except.ok.injEq] at hres
                  subst hres
                  exact ⟨⟨PHYS_MEM_PGS, map_page_replace s1 _ table disk_id page entry1 victim
                    victim_entry a1 a2 a3 a4 a5 hp0 hp10 hreg1 hentry1 hinv1
                    rfl rfl rfl rfl rfl rfl rfl rfl⟩, a13⟩

/-- The allocation of the page table of a process at its first fault keeps the invariant,
and the page table it returns is the one of the process. -/
theorem allocate_page_table_inv (n : Nat) (s s1 : Storage) (pid : Int) (table : Nat)
    (h : FrameInv n s) (hres : allocate_page_table s pid (pid + 1) = .ok (s1, table)) :
    FrameInv n s1 ∧ s1.Z502_PAGE_TBL_ADDR pid = some table ∧ 0 ≤ pid ∧ pid < 10 := by
  unfold allocate_page_table at hres
  split at hres
  · rename_i t ht
    simp only [Except.ok.injEq, Prod.mk.injEq] at hres
    obtain ⟨h1, h2⟩ := hres
    subst h1 h2
    have := h.tables pid t ht
    exact ⟨h, ht, this.2.1, this.2.2.1⟩
  · rename_i hnone
    dsimp only at hres
    split at hres
    · cases hres
    · rename_i hrange
      simp only [Except.ok.injEq, Prod.mk.injEq] at hres
      obtain ⟨h1, h2⟩ := hres
      subst h1 h2
      have hp0 : 0 ≤ pid := by omega
      have hp10 : pid < 10 := by omega
      have hidx : (pid + 1 - 1).toNat = pid.toNat := by
        congr 1; omega
      have hread : ∀ q : PtePtr, q.table < s.page_tables.length →
          pte_read { s with
            page_tables := s.page_tables ++ [fun _ => 0],
            Z502_PAGE_TBL_ADDR :=
              Function.update s.Z502_PAGE_TBL_ADDR pid (some s.page_tables.length),
            address_holder := Function.update s.address_holder (pid + 1 - 1).toNat
              (some s.page_tables.length) } q = pte_read s q := by
        intro q hq
        unfold pte_read
        simp only [List.get?_eq_getElem?]
        rw [List.getElem?_append_left hq]
      have hm : ∀ q f, maps_frame { s with
            page_tables := s.page_tables ++ [fun _ => 0],
            Z502_PAGE_TBL_ADDR :=
              Function.update s.Z502_PAGE_TBL_ADDR pid (some s.page_tables.length),
            address_holder := Function.update s.address_holder (pid + 1 - 1).toNat
              (some s.page_tables.length) } q f ↔ maps_frame s q f := by
        intro q f
        by_cases hq : q.table < s.page_tables.length
        · unfold maps_frame
          rw [hread q hq]
        · constructor
          · rintro ⟨e, he, hv, _⟩
            exfalso
            unfold pte_read at he
            simp only [List.get?_eq_getElem?] at he
            split_ifs at he with hi
            by_cases hq2 : q.table = s.page_tables.length
            · rw [hq2, List.getElem?_append_right (le_refl _)] at he
              simp at he
              subst he
              exact hv (by simp)
            · rw [List.getElem?_eq_none (by simp; omega)] at he
              simp at he
          · rintro ⟨e, he, _, _⟩
            exact absurd (pte_read_some s q e he).2 hq
      refine ⟨⟨h.count, h.idx, h.pool, ?_, ?_, ?_⟩, by simp, hp0, hp10⟩
      · intro f hf
        obtain ⟨p, a, b, c, d, e⟩ := h.slot f hf
        have hne : ((s.process_holder f : Nat) : Int) ≠ pid := by
          intro hh
          rw [hh, hnone] at e
          cases e
        have hne' : s.process_holder f ≠ (pid + 1 - 1).toNat := by
          rw [hidx]
          intro hh
          apply hne
          rw [hh]
          exact Int.toNat_of_nonneg hp0
        refine ⟨p, a, (hm p f).mpr b, c, ?_, ?_⟩
        · show Function.update s.address_holder _ _ _ = _
          rw [Function.update_noteq hne']
          exact d
        · show Function.update s.Z502_PAGE_TBL_ADDR _ _ _ = _
          rw [Function.update_noteq hne]
          exact e
      · intro q f hqf
        exact h.valid q f ((hm q f).mp hqf)
      · intro pid' t ht
        have ht' : Function.update s.Z502_PAGE_TBL_ADDR pid (some s.page_tables.length) pid'
            = some t := ht
        by_cases hpp : pid' = pid
        · subst hpp
          rw [Function.update_same] at ht'
          cases ht'
          refine ⟨by simp, hp0, hp10, ?_⟩
          show Function.update s.address_holder _ _ _ = _
          rw [hidx, Function.update_same]
        · rw [Function.update_noteq hpp] at ht'
          have := h.tables pid' t ht'
          refine ⟨by simp; omega, this.2.1, this.2.2.1, ?_⟩
          show Function.update s.address_holder _ _ _ = _
          rw [hidx, Function.update_noteq]
          · exact this.2.2.2
          · intro hh
            apply hpp
            have h1 := Int.toNat_of_nonneg this.2.1
            have h2 := Int.toNat_of_nonneg hp0
            omega

/-- A page fault that `frame_scheduler` handles keeps the invariant. -/
theorem frame_scheduler_inv (n : Nat) (k : Kernel) (s s' : Storage) (status reg3 : Int)
    (h : FrameInv n s) (hres : frame_scheduler k s status reg3 = .ok s') :
    ∃ n', FrameInv n' s' := by
  unfold frame_scheduler at hres
  split at hres
  · cases hres
  · rename_i cur hcur
    dsimp only at hres
    split at hres
    · cases hres
    · rename_i s1 table halloc
      obtain ⟨hinv1, hreg1, hp0, hp10⟩ :=
        allocate_page_table_inv n s s1 _ table h halloc
      have hreg1' : s1.Z502_PAGE_TBL_ADDR ((deref k.heap cur).pid + 1 - 1) = some table := by
        rw [Int.add_sub_cancel]; exact hreg1
      split at hres
      · cases hres
      · split at hres
        · cases hres
        · rename_i entry hentry
          split at hres
          · cases hres
          · rename_i s2 hfirst
            have hinv2 : (∃ n2, FrameInv n2 s2) ∧
                s2.Z502_PAGE_TBL_ADDR = s1.Z502_PAGE_TBL_ADDR := by
              split at hfirst
              · rename_i hinvalid
                exact map_page_inv n s1 s2 table _ status hinv1 (by omega) (by omega) hreg1'
                  (fun e he => by rw [hentry] at he; cases he; exact hinvalid) hfirst
              · simp only [Except.ok.injEq] at hfirst
                subst hfirst
                exact ⟨⟨n, hinv1⟩, rfl⟩
            obtain ⟨⟨n2, hinv2⟩, hz2⟩ := hinv2
            split at hres
            · cases hres
            · split at hres
              · cases hres
              · rename_i next hnext
                split at hres
                · rename_i hcond
                  exact (map_page_inv n2 s2 s' table _ (status + 1) hinv2 (by omega) (by omega)
                    (by rw [hz2]; exact hreg1')
                    (fun e he => by rw [hnext] at he; cases he; exact hcond.1) hres).1
                · simp only [Except.ok.injEq] at hres
                  subst hres
                  exact ⟨n2, hinv2⟩

/-- After `init_storage` the invariant holds with no frame taken. -/
theorem FrameInv_init : FrameInv 0 (init_storage zero_storage) := by
  have hq : (init_storage zero_storage).FrameQueue =
      (List.range' 0 (PHYS_MEM_PGS - 0)).map (fun i : Nat => (i : Int)) := by decide
  have hi : (init_storage zero_storage).shadow_pg_idx = -1 := rfl
  have ht : (init_storage zero_storage).page_tables = [] := rfl
  have hz : (init_storage zero_storage).Z502_PAGE_TBL_ADDR = fun _ => none := rfl
  refine ⟨by decide, hi, hq, ?_, ?_, ?_⟩
  · intro f hf
    omega
  · rintro p f ⟨e, he, _, _⟩
    have := (pte_read_some _ p e he).2
    rw [ht] at this
    simp at this
  · intro pid t h
    rw [hz] at h
    cases h

/-- Every state of the frame storage that is reached satisfies the invariant. -/
theorem reachable_FrameInv (s : Storage) (h : FaultReachable s) : ∃ n, FrameInv n s := by
  induction h with
  | init => exact ⟨0, FrameInv_init⟩
  | fault k s s' status reg3 _ hstep ih =>
    obtain ⟨n, hn⟩ := ih
    exact frame_scheduler_inv n k s s' status reg3 hn hstep
  | access s p entry modified _ hread _ ih =>
    obtain ⟨n, hn⟩ := ih
    obtain ⟨c1, c2⟩ := entry_set_accessed entry modified
    exact ⟨n, FrameInv_write_same n s p entry _ hn hread c1 c2⟩

/-- C21: in every state reached from `init_storage` by page faults that `frame_scheduler`
handles (and by memory accesses between them), each of the 64 frames is either in the frame
queue and not the frame number of any valid page table entry, or not in the frame queue and
the frame number of exactly one valid page table entry. -/
theorem frame_in_pool_xor_mapped_once (s : Storage) (h : FaultReachable s) (f : Nat)
    (hf : f < PHYS_MEM_PGS) :
    ((f : Int) ∈ s.FrameQueue ∧ ¬ ∃ p, maps_frame s p f) ∨
    ((f : Int) ∉ s.FrameQueue ∧ ∃ p, maps_frame s p f ∧ ∀ q, maps_frame s q f → q = p) := by
  obtain ⟨n, hinv⟩ := reachable_FrameInv s h
  have hmem : (f : Int) ∈ s.FrameQueue ↔ n ≤ f := by
    rw [hinv.pool]
    simp only [List.mem_map, List.mem_range'_1]
    constructor
    · rintro ⟨a, ⟨ha, _⟩, hfa⟩
      have : a = f := by exact_mod_cast hfa
      omega
    · intro hnf
      exact ⟨f, ⟨hnf, by omega⟩, rfl⟩
  by_cases hfn : f < n
  · right
    refine ⟨by rw [hmem]; omega, ?_⟩
    obtain ⟨p, hp, hm, -⟩ := hinv.slot f hfn
    refine ⟨p, hm, ?_⟩
    intro q hq
    have := (hinv.valid q f hq).2
    rw [hp] at this
    exact (Option.some.inj this).symm
  · left
    refine ⟨by rw [hmem]; omega, ?_⟩
    rintro ⟨p, hp⟩
    exact hfn (hinv.valid p f hp).1

/-- C22: in every state reached from `init_storage` by page faults that `frame_scheduler`
handles (and by memory accesses between them), for every valid page table entry the shadow
slot of its frame number points to that entry, and `process_holder` of the frame number
names the process in whose page table the entry lies: the page table register of that
process and its slot of `address_holder` hold the entry's page table. -/
theorem shadow_points_back (s : Storage) (h : FaultReachable s) (p : PtePtr) (entry : Nat)
    (hread : pte_read s p = some entry) (hvalid : entry &&& PTBL_VALID_BIT ≠ 0) :
    entry &&& PTBL_FRAME_BITS < PHYS_MEM_PGS ∧
    s.shadow_pg_tbl (entry &&& PTBL_FRAME_BITS) = some p ∧
    s.Z502_PAGE_TBL_ADDR ((s.process_holder (entry &&& PTBL_FRAME_BITS) : Nat) : Int)
      = some p.table ∧
    s.address_holder (s.process_holder (entry &&& PTBL_FRAME_BITS)) = some p.table := by
  obtain ⟨n, hinv⟩ := reachable_FrameInv s h
  obtain ⟨hlt, hsh⟩ := hinv.valid p _ ⟨entry, hread, hvalid, rfl⟩
  obtain ⟨q, hq, -, -, ha, hz⟩ := hinv.slot _ hlt
  rw [hsh] at hq
  cases hq
  exact ⟨by have := hinv.count; omega, hsh, hz, ha⟩

theorem run_faults_reachable (k : Kernel) (faults : List (Int × Int)) :
    ∀ s s', FaultReachable s → run_faults k faults s = .ok s' → FaultReachable s' := by
  induction faults with
  | nil =>
    intro s s' hs h
    simp only [run_faults, Except.ok.injEq] at h
    rw [← h]; exact hs
  | cons x rest ih =>
    intro s s' hs h
    obtain ⟨status, reg3⟩ := x
    unfold run_faults at h
    split at h
    · cases h
    · rename_i s1 h1
      exact ih s1 s' (FaultReachable.fault k s s1 status reg3 hs h1) h

set_option maxRecDepth 1000000 in
theorem replaced_storage_reachable : FaultReachable replaced_storage :=
  run_faults_reachable boot_kernel _ _ _ FaultReachable.init (by rfl :
    run_faults boot_kernel ((List.range 65).map (fun i : Nat => ((i : Int), (0 : Int))))
      (init_storage zero_storage) = .ok replaced_storage)

set_option maxRecDepth 1000000 in
/-- C21, at an instance: after the faults on the pages 0 to 64 the frame queue is empty, and
the frame 1 is the frame number of the entry of page 64 of the page table 0 and of no other
valid entry (the entry of page 1, the victim, is no longer valid). -/
theorem frame_in_pool_xor_mapped_once_witness :
    FaultReachable replaced_storage ∧ 1 < PHYS_MEM_PGS ∧
    replaced_storage.FrameQueue = [] ∧
    maps_frame replaced_storage ⟨0, 64⟩ 1 ∧
    (∀ q, maps_frame replaced_storage q 1 → q = ⟨0, 64⟩) := by
  have hm : maps_frame replaced_storage ⟨0, 64⟩ 1 := ⟨32769, by rfl, by decide, by decide⟩
  have hq : replaced_storage.FrameQueue = [] := by rfl
  rcases frame_in_pool_xor_mapped_once replaced_storage replaced_storage_reachable 1
    (by decide) with h | h
  · exact absurd ⟨_, hm⟩ h.2
  · obtain ⟨-, p, hp, huniq⟩ := h
    have hp64 : (⟨0, 64⟩ : PtePtr) = p := huniq _ hm
    exact ⟨replaced_storage_reachable, by decide, hq, hm, fun q hq' => by
      rw [hp64]; exact huniq q hq'⟩

set_option maxRecDepth 1000000 in
/-- C22, at an instance: after the faults on the pages 0 to 64 the entry of page 64 is valid
with frame number 1; the shadow slot 1 points to it, and `process_holder` of the slot names
the initial process (pid 0), whose page table is the table 0. -/
theorem shadow_points_back_witness :
    FaultReachable replaced_storage ∧ pte_read replaced_storage ⟨0, 64⟩ = some 32769 ∧
    32769 &&& PTBL_VALID_BIT ≠ 0 ∧ 32769 &&& PTBL_FRAME_BITS = 1 ∧
    replaced_storage.shadow_pg_tbl 1 = some ⟨0, 64⟩ ∧
    replaced_storage.process_holder 1 = 0 ∧
    replaced_storage.Z502_PAGE_TBL_ADDR 0 = some 0 ∧
    replaced_storage.address_holder 0 = some 0 := by
  have h := shadow_points_back replaced_storage replaced_storage_reachable ⟨0, 64⟩ 32769
    (by rfl) (by decide)
  have hf : 32769 &&& PTBL_FRAME_BITS = 1 := by decide
  rw [hf] at h
  have hh : replaced_storage.process_holder 1 = 0 := by rfl
  rw [hh] at h
  exact ⟨replaced_storage_reachable, by rfl, by decide, hf, h.2.1, hh, h.2.2.1, h.2.2.2⟩

/-! ### C23: the bounds check of the fault handler -/

theorem victim_scan_not_halted :
    ∀ (fuel : Nat) (s s' : Storage), victim_scan fuel s ≠ .error (Stop.halted, s') := by
  intro fuel
  induction fuel with
  | zero => intro s s' h; simp [victim_scan] at h
  | succ fuel ih =>
    intro s s' h
    unfold victim_scan at h
    dsimp only at h
    split at h
    · simp at h
    · split at h
      · simp at h
      · split at h
        · simp at h
        · split at h
          · exact ih _ _ h
          · cases h

theorem map_page_not_halted (s s' : Storage) (table : Nat) (disk_id page : Int) :
    map_page s table disk_id page ≠ .error (Stop.halted, s') := by
  intro h
  unfold map_page at h
  dsimp only at h
  repeat' split at h
  all_goals first
    | (cases h; done)
    | (cases h; exact victim_scan_not_halted _ _ _ (by assumption))

theorem allocate_page_table_not_halted (s s' : Storage) (pid disk_id : Int) :
    allocate_page_table s pid disk_id ≠ .error (Stop.halted, s') := by
  intro h
  unfold allocate_page_table at h
  dsimp only at h
  repeat' split at h
  all_goals cases h

theorem frame_scheduler_not_halted (k : Kernel) (s s' : Storage) (status reg3 : Int) :
    frame_scheduler k s status reg3 ≠ .error (Stop.halted, s') := by
  intro h
  unfold frame_scheduler at h
  dsimp only at h
  repeat' split at h
  all_goals first
    | (cases h; done)
    | exact map_page_not_halted _ _ _ _ _ h
    | (cases h; exact allocate_page_table_not_halted _ _ _ _ (by assumption))
    | (cases h
       rename_i hfirst
       split at hfirst
       · exact map_page_not_halted _ _ _ _ _ hfirst
       · cases hfirst)

/-- C23: for every faulting page number from 1024 on the fault handler halts the simulation
with the frame storage as it found it: no page table entry, the frame queue and no shadow
slot has changed. For every page number from 0 to 1023 the handler does not take the
halting branch: it does what `frame_scheduler` does, which does not halt. -/
theorem fault_handler_bounds (k : Kernel) (s : Storage) (status reg3 : Int) :
    (1024 ≤ status → fault_handler k s status reg3 = .error (Stop.halted, s)) ∧
    (0 ≤ status ∧ status < 1024 →
      fault_handler k s status reg3 = frame_scheduler k s status reg3 ∧
      ∀ s', fault_handler k s status reg3 ≠ .error (Stop.halted, s')) := by
  constructor
  · intro h
    unfold fault_handler
    rw [if_pos h]
  · intro h
    have h1 : fault_handler k s status reg3 = frame_scheduler k s status reg3 := by
      unfold fault_handler
      rw [if_neg (by omega)]
    exact ⟨h1, fun s' => by rw [h1]; exact frame_scheduler_not_halted k s s' status reg3⟩

/-- C23, at instances: a fault on page 1024 halts with the storage unchanged, a fault on
page 1023 goes to `frame_scheduler`. -/
theorem fault_handler_bounds_witness :
    fault_handler boot_kernel replaced_storage 1024 0 =
      .error (Stop.halted, replaced_storage) ∧
    fault_handler boot_kernel replaced_storage 1023 0 =
      frame_scheduler boot_kernel replaced_storage 1023 0 ∧
    fault_handler boot_kernel replaced_storage 5 15 =
      frame_scheduler boot_kernel replaced_storage 5 15 :=
  ⟨(fault_handler_bounds boot_kernel replaced_storage 1024 0).1 (by decide),
    ((fault_handler_bounds boot_kernel replaced_storage 1023 0).2 (by decide)).1,
    ((fault_handler_bounds boot_kernel replaced_storage 5 15).2 (by decide)).1⟩

/-! ### C24: queues are first in, first out -/

namespace Linked

variable {α : Type}

theorem chain_nil_iff (cells : List (ListElement α)) (h : Option Nat) :
    chain cells h [] ↔ h = none := by
  constructor
  · intro hc; cases hc; rfl
  · intro hh; subst hh; exact chain.nil

theorem chain_cons_iff (cells : List (ListElement α)) (h : Option Nat) (p : Nat)
    (rest : List Nat) :
    chain cells h (p :: rest) ↔
      h = some p ∧ ∃ c, cells.get? p = some c ∧ chain cells c.next rest := by
  constructor
  · intro hc
    cases hc with
    | cons _ cell _ h1 h2 => exact ⟨rfl, cell, h1, h2⟩
  · rintro ⟨hh, c, h1, h2⟩
    subst hh
    exact chain.cons p c rest h1 h2

/-- A chain is kept when blocks are allocated. -/
theorem chain_append (cells extra : List (ListElement α)) :
    ∀ (path : List Nat) (h : Option Nat), chain cells h path → chain (cells ++ extra) h path := by
  intro path
  induction path with
  | nil => intro h hc; rw [chain_nil_iff] at hc ⊢; exact hc
  | cons p rest ih =>
    intro h hc
    rw [chain_cons_iff] at hc ⊢
    obtain ⟨hh, c, h1, h2⟩ := hc
    refine ⟨hh, c, ?_, ih _ h2⟩
    rw [List.get?_eq_getElem?] at h1 ⊢
    have hlt : p < cells.length := by
      by_contra hn
      rw [List.getElem?_eq_none (by omega)] at h1
      cases h1
    rw [List.getElem?_append_left hlt]
    exact h1

/-- The last element of a chain has no next element. -/
theorem chain_last (cells : List (ListElement α)) :
    ∀ (path : List Nat) (h : Option Nat) (e : Nat), chain cells h path →
      path.getLast? = some e → ∃ c, cells.get? e = some c ∧ c.next = none := by
  intro path
  induction path with
  | nil => intro h e _ hl; simp at hl
  | cons p rest ih =>
    intro h e hc hl
    rw [chain_cons_iff] at hc
    obtain ⟨_, c, h1, h2⟩ := hc
    cases rest with
    | nil =>
      simp at hl
      subst hl
      rw [chain_nil_iff] at h2
      exact ⟨c, h1, h2⟩
    | cons q rest' =>
      rw [List.getLast?_cons_cons] at hl
      exact ih _ e h2 hl

/-- A chain whose last element gets `new` as its next element, `new` being a block outside
the chain that has no next element, is the chain with `new` appended; the other blocks of
the chain are as before. -/
theorem chain_snoc (cells cells' : List (ListElement α)) (e new : Nat) (last c : ListElement α)
    (hlast : cells.get? e = some last) (hnew : cells'.get? new = some c) (hc : c.next = none) :
    ∀ (path : List Nat) (h : Option Nat), chain cells h path → path.Nodup →
      path.getLast? = some e → new ∉ path →
      (∀ p ∈ path, cells'.get? p =
        if p = e then some { last with next := some new } else cells.get? p) →
      chain cells' h (path ++ [new]) := by
  intro path
  induction path with
  | nil => intro h _ _ hl; simp at hl
  | cons p rest ih =>
    intro h hch hnd hl hnotin hcells
    rw [chain_cons_iff] at hch
    obtain ⟨hh, cp, h1, h2⟩ := hch
    rw [List.cons_append, chain_cons_iff]
    have hp := hcells p (List.mem_cons_self _ _)
    cases rest with
    | nil =>
      simp at hl
      subst hl
      rw [chain_nil_iff] at h2
      rw [if_pos rfl] at hp
      refine ⟨hh, _, hp, ?_⟩
      show chain cells' (some new) ([] ++ [new])
      rw [List.nil_append, chain_cons_iff]
      exact ⟨rfl, c, hnew, by rw [hc]; exact chain.nil⟩
    | cons q rest' =>
      rw [List.getLast?_cons_cons] at hl
      have hpe : p ≠ e := by
        intro hpe
        subst hpe
        have : p ∈ q :: rest' := List.mem_of_getLast?_eq_some hl
        exact (List.nodup_cons.mp hnd).1 this
      rw [if_neg hpe, h1] at hp
      refine ⟨hh, cp, hp, ?_⟩
      exact ih _ h2 (List.nodup_cons.mp hnd).2 hl
        (fun hm => hnotin (List.mem_cons_of_mem _ hm))
        (fun p' hp' => hcells p' (List.mem_cons_of_mem _ hp'))

theorem chain_lt (cells : List (ListElement α)) :
    ∀ (path : List Nat) (h : Option Nat), chain cells h path →
      ∀ p ∈ path, p < cells.length := by
  intro path
  induction path with
  | nil => intro h _ p hp; cases hp
  | cons q rest ih =>
    intro h hc p hp
    rw [chain_cons_iff] at hc
    obtain ⟨_, c, h1, h2⟩ := hc
    rcases List.mem_cons.mp hp with hpq | hpr
    · subst hpq
      by_contra hn
      rw [List.get?_eq_getElem?, List.getElem?_eq_none (by omega)] at h1
      cases h1
    · exact ih _ h2 p hpr

/-- The list that `list_create` returns is well formed and empty. -/
theorem holds_create : holds (list_create : LinkedList α) [] :=
  ⟨[], chain.nil, List.nodup_nil, rfl, rfl, rfl⟩

/-- Enqueue on a well-formed queue: the data is appended behind the data held, the size
grows by one and the result is 1. -/
theorem queue_enqueue_holds (queue : LinkedList α) (xs : List α) (x : α)
    (h : holds queue xs) :
    ∃ q, queue_enqueue queue (some x) = .ok (q, 1) ∧ holds q (xs ++ [x]) ∧
      list_size q = list_size queue + 1 := by
  obtain ⟨path, hch, hnd, htail, hsize, hdata⟩ := h
  obtain ⟨cells, size, head, tail⟩ := queue
  simp only at hch htail hsize hdata
  cases hpath : path.getLast? with
  | none =>
    have hnil : path = [] := by
      cases path with
      | nil => rfl
      | cons a t => simp [List.getLast?_cons] at hpath
    subst hnil
    rw [chain_nil_iff] at hch
    subst hch
    simp only [List.getLast?_nil] at htail
    simp only [List.length_nil] at hsize
    subst htail hsize
    have hx : xs = [] := by
      cases xs with
      | nil => rfl
      | cons a t => simp at hdata
    subst hx
    refine ⟨_, rfl, ?_, rfl⟩
    refine ⟨[cells.length], ?_, by simp, rfl, rfl, ?_⟩
    · rw [chain_cons_iff]
      exact ⟨rfl, ({ data := x, next := none } : ListElement α),
        by simp [List.get?_eq_getElem?], chain.nil⟩
    · simp [List.get?_eq_getElem?]
  | some e =>
    rw [hpath] at htail
    subst htail
    obtain ⟨last, hlast, hnext⟩ := chain_last cells path head e hch hpath
    have hlt := chain_lt cells path head hch
    have helt : e < cells.length := hlt e (List.mem_of_getLast?_eq_some hpath)
    have hq : queue_enqueue (⟨cells, size, head, some e⟩ : LinkedList α) (some x) =
        .ok (⟨(cells ++ [({ data := x, next := last.next } : ListElement α)]).set e
                { last with next := some cells.length },
              size + 1, head, some cells.length⟩, 1) := by
      simp only [queue_enqueue, list_tail, list_insert_next, hlast, hnext, if_true]
    refine ⟨_, hq, ?_, rfl⟩
    have hcells : ∀ p ∈ path,
        ((cells ++ [({ data := x, next := last.next } : ListElement α)]).set e
          { last with next := some cells.length }).get? p =
        if p = e then some { last with next := some cells.length } else cells.get? p := by
      intro p hp
      have hplt := hlt p hp
      simp only [List.get?_eq_getElem?, List.getElem?_set, List.length_append,
        List.length_singleton]
      by_cases hpe : p = e
      · subst hpe
        simp; omega
      · rw [if_neg (fun hh => hpe hh.symm), if_neg hpe, List.getElem?_append_left hplt]
    have hnewcell : ((cells ++ [({ data := x, next := last.next } : ListElement α)]).set e
          { last with next := some cells.length }).get? cells.length =
        some { data := x, next := last.next } := by
      simp only [List.get?_eq_getElem?, List.getElem?_set]
      rw [if_neg (by omega)]
      simp
    have hnotin : cells.length ∉ path := fun hm => by
      have := hlt _ hm
      omega
    refine ⟨path ++ [cells.length], ?_, ?_, ?_, ?_, ?_⟩
    · exact chain_snoc cells _ e cells.length last _ hlast hnewcell hnext path head hch hnd
        hpath hnotin hcells
    · rw [List.nodup_append]
      refine ⟨hnd, by simp, ?_⟩
      intro a ha hb
      simp only [List.mem_singleton] at hb
      subst hb
      exact hnotin ha
    · simp
    · simp [hsize]
    · rw [List.map_append, List.map_append, ← hdata]
      congr 1
      · apply List.map_congr_left
        intro p hp
        rw [hcells p hp]
        by_cases hpe : p = e
        · subst hpe
          rw [if_pos rfl, hlast]
          rfl
        · rw [if_neg hpe]
      · simp only [List.map_cons, List.map_nil, hnewcell, Option.map_some']

/-- Dequeue on a well-formed queue that holds data: the first of the data is returned and
the rest is held, the size shrinks by one and the result is 1. -/
theorem queue_dequeue_holds (queue : LinkedList α) (x : α) (xs : List α)
    (h : holds queue (x :: xs)) :
    ∃ q, queue_dequeue queue = .ok (q, some x, 1) ∧ holds q xs ∧
      list_size q + 1 = list_size queue := by
  obtain ⟨path, hch, hnd, htail, hsize, hdata⟩ := h
  obtain ⟨cells, size, head, tail⟩ := queue
  simp only at hch htail hsize hdata
  cases path with
  | nil => simp at hdata
  | cons p rest =>
    rw [chain_cons_iff] at hch
    obtain ⟨hh, c, h1, h2⟩ := hch
    subst hh
    simp only [List.map_cons, List.cons.injEq, h1, Option.map_some', Option.some.injEq] at hdata
    obtain ⟨hx, hrest⟩ := hdata
    subst hx
    simp only [List.length_cons] at hsize
    have hq : queue_dequeue (⟨cells, size, some p, tail⟩ : LinkedList α) =
        .ok (⟨cells, size - 1, c.next, if size = 1 then none else tail⟩, some c.data, 1) := by
      have hne : ¬ (size == 0) = true := by simp [hsize]
      simp only [queue_dequeue, list_remove_next, list_is_empty, hne, h1, list_size]
      rfl
    refine ⟨_, hq, ⟨rest, h2, (List.nodup_cons.mp hnd).2, ?_, by simp [hsize], hrest⟩,
      by simp [list_size, hsize]⟩
    show (if size = 1 then none else tail) = rest.getLast?
    cases rest with
    | nil => simp [hsize]
    | cons q rest' =>
      rw [htail, List.getLast?_cons_cons]
      simp [hsize]

/-- Dequeue on a well-formed empty queue returns 0, stores nothing and leaves the queue. -/
theorem queue_dequeue_empty (queue : LinkedList α) (h : holds queue []) :
    queue_dequeue queue = .ok (queue, none, 0) := by
  obtain ⟨path, -, -, -, hsize, hdata⟩ := h
  have : path = [] := by simpa using hdata
  subst this
  simp only [List.length_nil] at hsize
  simp [queue_dequeue, list_remove_next, list_is_empty, hsize]

theorem enqueue_all_holds (ys : List α) :
    ∀ (queue : LinkedList α) (xs : List α), holds queue xs →
      ∃ q, enqueue_all queue ys = .ok q ∧ holds q (xs ++ ys) ∧
        list_size q = list_size queue + ys.length := by
  induction ys with
  | nil => intro queue xs h; exact ⟨queue, rfl, by simpa using h, rfl⟩
  | cons y rest ih =>
    intro queue xs h
    obtain ⟨q1, h1, hh1, hs1⟩ := queue_enqueue_holds queue xs y h
    obtain ⟨q2, h2, hh2, hs2⟩ := ih q1 (xs ++ [y]) hh1
    refine ⟨q2, by simp only [enqueue_all, h1, h2], by simpa using hh2, ?_⟩
    rw [hs2, hs1, List.length_cons]
    omega

theorem dequeue_n_holds :
    ∀ (n : Nat) (queue : LinkedList α) (xs : List α), holds queue xs →
      ∃ q, dequeue_n n queue = .ok (q, xs.take n) ∧ holds q (xs.drop n) := by
  intro n
  induction n with
  | zero => intro queue xs h; exact ⟨queue, rfl, h⟩
  | succ n ih =>
    intro queue xs h
    cases xs with
    | nil =>
      refine ⟨queue, ?_, h⟩
      simp only [dequeue_n, queue_dequeue_empty queue h, List.take_nil]
    | cons x rest =>
      obtain ⟨q1, h1, hh1, -⟩ := queue_dequeue_holds queue x rest h
      obtain ⟨q2, h2, hh2⟩ := ih q1 rest hh1
      exact ⟨q2, by simp only [dequeue_n, h1, h2, List.take_succ_cons], hh2⟩

/-- C24: let `queue` be a well-formed queue that holds the data `xs`, head first. Enqueue of
data `x` (a non-NULL pointer) returns 1, appends `x` behind `xs` and increases the size by
one. Dequeue of a queue that holds `y` followed by `ys` returns 1 and the data `y`, leaves
`ys` and decreases the size by one; dequeue of an empty queue returns 0, stores no data and
leaves the queue as it is. Data is dequeued in the order in which it was enqueued: after
the data `ys` was enqueued, the dequeues return `xs` and then `ys`, first to last, and leave
the queue empty. The lists of the kernel state follow the same functions. Enqueue of a NULL
data pointer returns 0 and leaves the queue as it is. -/
theorem queue_first_in_first_out (queue : LinkedList α) (xs : List α) (h : holds queue xs) :
    (∀ x, ∃ q, queue_enqueue queue (some x) = .ok (q, 1) ∧ holds q (xs ++ [x]) ∧
      list_size q = list_size queue + 1 ∧ OsPrototype.queue_enqueue xs x = xs ++ [x]) ∧
    (∀ y ys, xs = y :: ys →
      ∃ q, queue_dequeue queue = .ok (q, some y, 1) ∧ holds q ys ∧
        list_size q + 1 = list_size queue ∧ OsPrototype.queue_dequeue xs = some (ys, y)) ∧
    (xs = [] → queue_dequeue queue = .ok (queue, none, 0) ∧
      OsPrototype.queue_dequeue xs = none) ∧
    (∀ ys, ∃ q q', enqueue_all queue ys = .ok q ∧ list_size q = list_size queue + ys.length ∧
      dequeue_n (xs ++ ys).length q = .ok (q', xs ++ ys) ∧ holds q' [] ∧ list_size q' = 0) ∧
    queue_enqueue queue none = .ok (queue, 0) := by
  refine ⟨?_, ?_, ?_, ?_, rfl⟩
  · intro x
    obtain ⟨q, h1, h2, h3⟩ := queue_enqueue_holds queue xs x h
    exact ⟨q, h1, h2, h3, queue_enqueue_eq xs x⟩
  · intro y ys hxs
    subst hxs
    obtain ⟨q, h1, h2, h3⟩ := queue_dequeue_holds queue y ys h
    exact ⟨q, h1, h2, h3, rfl⟩
  · intro hxs
    subst hxs
    exact ⟨queue_dequeue_empty queue h, rfl⟩
  · intro ys
    obtain ⟨q, h1, h2, h3⟩ := enqueue_all_holds ys queue xs h
    obtain ⟨q', h4, h5⟩ := dequeue_n_holds (xs ++ ys).length q (xs ++ ys) h2
    rw [List.take_length] at h4
    rw [List.drop_length] at h5
    refine ⟨q, q', h1, h3, h4, h5, ?_⟩
    obtain ⟨path, -, -, -, hsize, hdata⟩ := h5
    have : path = [] := by simpa using hdata
    subst this
    exact hsize

/-- C24, at an instance: the data 7, 8, 9 enqueued in this order on the queue that
`list_create` returns are dequeued as 7, 8, 9, and a fourth dequeue returns 0. -/
theorem queue_first_in_first_out_witness :
    holds (list_create : LinkedList Nat) [] ∧
    ∃ q q', enqueue_all (list_create : LinkedList Nat) [7, 8, 9] = .ok q ∧
      list_size q = 3 ∧ dequeue_n 3 q = .ok (q', [7, 8, 9]) ∧
      queue_dequeue q' = .ok (q', none, 0) := by
  obtain ⟨q, q', h1, h2, h3, h4, -⟩ :=
    (queue_first_in_first_out (list_create : LinkedList Nat) [] holds_create).2.2.2.1 [7, 8, 9]
  exact ⟨holds_create, q, q', h1, h2, h3, queue_dequeue_empty q' h4⟩

end Linked

/-! ### C36: the timer interrupt wakes the head without looking at the clock -/

/-- C36: a timer interrupt that finds the descriptor `p` at the head of the Timer Queue,
whatever its delay time and whatever the clock shows, takes `p` out of the queue, sets its
delay time to 0 and puts it into the Suspend Queue when its suspended flag is set and into
the Ready Queue otherwise (`k1` is the state after that). Only then is the clock read: when
the next entry `q` has a delay time after that reading, nothing more is woken and the timer
is started for `q`; when its delay time is at or before the reading, `q` is woken as well. -/
theorem timer_interrupt_wakes_head (k : Kernel) (clock : Nat → Int) (p : Nat)
    (rest : List Nat) (h : k.TimerQueue = p :: rest) :
    ∃ k1, wake_timer_head k = .ok k1 ∧ k1.TimerQueue = rest ∧ delay_time_of k1 p = 0 ∧
      (if (deref k.heap p).suspend = true then p ∈ k1.SuspendQueue else p ∈ k1.ReadyQueue) ∧
      WokenBy k [p] k1 ∧
      (∃ k' woken, os_make_ready_to_run k clock = .ok k' ∧
        k.TimerQueue = p :: woken ++ k'.TimerQueue ∧ WokenBy k (p :: woken) k') ∧
      (rest = [] → os_make_ready_to_run k clock = .ok k1) ∧
      (∀ q tail, rest = q :: tail →
        (clock 0 < delay_time_of k1 q →
          os_make_ready_to_run k clock =
            .ok (start_timer k1 (delay_time_of k1 q - clock 1))) ∧
        (delay_time_of k1 q ≤ clock 0 →
          ∃ k' woken, os_make_ready_to_run k clock = .ok k' ∧
            k.TimerQueue = p :: q :: woken ++ k'.TimerQueue)) := by
  obtain ⟨k1, hw1, ht1, hhw1, hwk1⟩ := wake_timer_head_spec k p rest h
  have hw1' : wake_timer_head k = .ok k1 := hw1
  have he : ¬ list_is_empty k.TimerQueue = true := by simp [list_is_empty, h]
  refine ⟨k1, hw1, ht1, ?_, hwk1.routed p (by simp), hwk1, ?_, ?_, ?_⟩
  · unfold delay_time_of
    rw [hwk1.heap p]
    simp
  · obtain ⟨k2, w2, reads2, hl2, hwk2⟩ :=
      make_ready_loop_woken clock k1.TimerQueue.length k1 (clock 0) 1
    have htq : k.TimerQueue = p :: w2 ++ k2.TimerQueue := by
      rw [h, List.cons_append, ← hwk2.timer, ht1]
    unfold os_make_ready_to_run
    rw [if_neg he]
    simp only [hw1', hl2]
    cases hq2 : k2.TimerQueue with
    | nil =>
      refine ⟨k2, w2, rfl, ?_, hwk1.trans hwk2⟩
      rw [htq, hq2]
    | cons head tail =>
      exact ⟨_, w2, rfl, htq, (hwk1.trans hwk2).start_timer _⟩
  · intro hrest
    unfold os_make_ready_to_run
    rw [if_neg he]
    simp only [hw1']
    have hk1 : k1.TimerQueue = [] := by rw [ht1, hrest]
    simp [hk1, make_ready_loop]
  · intro q tail hrest
    have hk1 : k1.TimerQueue = q :: tail := by rw [ht1, hrest]
    constructor
    · intro hlate
      have hnd : ¬ (deref k1.heap q).delay_time ≤ clock 0 := by
        unfold delay_time_of at hlate
        omega
      unfold os_make_ready_to_run
      rw [if_neg he]
      simp only [hw1']
      simp [hk1, make_ready_loop, hnd, delay_time_of]
    · intro hdue
      have hd : (deref k1.heap q).delay_time ≤ clock 0 := hdue
      obtain ⟨k2, hw2, ht2, hhw2, hwk2⟩ := wake_timer_head_spec k1 q tail hk1
      have hw2' : wake_timer_head k1 = .ok k2 := hw2
      obtain ⟨k3, w3, reads3, hl3, ht3, -, -⟩ :=
        make_ready_loop_reads clock tail.length k2 (clock 1) 2
      unfold os_make_ready_to_run
      rw [if_neg he]
      simp only [hw1']
      by_cases hempty : list_is_empty k2.TimerQueue = true
      · have hk2 : k2.TimerQueue = [] := by simpa [list_is_empty] using hempty
        have htl : tail = [] := by rw [← ht2, hk2]
        refine ⟨k2, [], ?_, ?_⟩
        · simp [hk1, make_ready_loop, hd, hw2', hk2, list_is_empty]
        · rw [h, hrest, htl, hk2]
          rfl
      · have hloop : make_ready_loop clock k1.TimerQueue.length k1 (clock 0) 1 =
            .ok (k3, reads3) := by
          rw [hk1]
          simp only [List.length_cons, make_ready_loop, hk1, hd, if_true, hw2']
          rw [if_neg hempty]
          exact hl3
        simp only [hloop]
        have htq : k.TimerQueue = p :: q :: w3 ++ k3.TimerQueue := by
          rw [h, hrest, ← ht2, ht3]
          rfl
        cases hq3 : k3.TimerQueue with
        | nil => exact ⟨k3, w3, rfl, by rw [htq, hq3]⟩
        | cons head tl => exact ⟨_, w3, rfl, htq⟩

/-- C36, at an instance: the child (address 1, wake time 9) and the initial process (address
0, wake time 15) are in the Timer Queue, and the timer interrupt comes with the clock at 3,
before both wake times. The child, the head, is woken all the same: it leaves the Timer
Queue with delay time 0 and enters the Ready Queue. The initial process is compared with the
clock and stays; the timer is started with 15 - 3 = 12. -/
theorem timer_interrupt_wakes_head_witness :
    two_sleepers_kernel.TimerQueue = [1, 0] ∧ delay_time_of two_sleepers_kernel 1 = 9 ∧
    delay_time_of two_sleepers_kernel 0 = 15 ∧
    (os_make_ready_to_run two_sleepers_kernel (fun _ => 3)).map
      (fun r => (r.TimerQueue, r.ReadyQueue, delay_time_of r 1, delay_time_of r 0, r.hw)) =
      .ok ([0], [1], 0, 15, HwCall.start_timer 12 :: two_sleepers_kernel.hw) := by
  obtain ⟨k1, hw1, -, -, -, -, -, -, hnext⟩ :=
    timer_interrupt_wakes_head two_sleepers_kernel (fun _ => 3) 1 [0] rfl
  have hk1 : wake_timer_head two_sleepers_kernel = .ok k1 := hw1
  have hk1' : wake_timer_head two_sleepers_kernel =
      .ok (match wake_timer_head two_sleepers_kernel with
        | .ok r => r
        | .error _ => two_sleepers_kernel) := rfl
  rw [hk1'] at hk1
  cases hk1
  refine ⟨rfl, rfl, rfl, ?_⟩
  rw [(hnext 0 [] rfl).1 (by decide)]
  rfl

/-! ### C31: the disk interrupt -/

/-- The search finds the first element that matches, and removing the element found leaves
the elements before and after it in their order. -/
theorem list_find_element_first {α β : Type} (equal : α → β → Bool) (d : β) (x : α)
    (pre post : List α) (hpre : ∀ y ∈ pre, equal y d = false) (hx : equal x d = true) :
    list_find_element (pre ++ x :: post) equal d = some pre.length ∧
    list_remove_element (pre ++ x :: post) (some pre.length) = some (pre ++ post, x) := by
  constructor
  · induction pre with
    | nil => simp [list_find_element, hx]
    | cons a t ih =>
      have ha : equal a d = false := hpre a (List.mem_cons_self _ _)
      have := ih (fun y hy => hpre y (List.mem_cons_of_mem _ hy))
      simp [list_find_element, ha, this]
  · unfold list_remove_element
    have hget : (pre ++ x :: post).get? pre.length = some x := by
      rw [List.get?_eq_getElem?, List.getElem?_append_right (le_refl _)]
      simp
    simp only [hget]
    simp [List.eraseIdx_append_of_length_le]

/-- The removal by disk id, for a disk id other than 0: without a descriptor of that disk id
in the Suspend Queue nothing is removed; otherwise the first such descriptor is removed and
the entries before and after it keep their order. -/
theorem remove_from_suspend_queue_by_disk_id_first (k : Kernel) (disk_id : Int)
    (hd : disk_id ≠ 0) :
    ((∀ q ∈ k.SuspendQueue, (deref k.heap q).disk_id ≠ disk_id) →
      remove_from_suspend_queue_by_disk_id k disk_id = .ok (k, none)) ∧
    (∀ pre pcb post, k.SuspendQueue = pre ++ pcb :: post →
      (∀ q ∈ pre, (deref k.heap q).disk_id ≠ disk_id) →
      (deref k.heap pcb).disk_id = disk_id →
      remove_from_suspend_queue_by_disk_id k disk_id =
        .ok ({ k with SuspendQueue := pre ++ post }, some pcb)) := by
  constructor
  · intro hnone
    have h : list_find_element k.SuspendQueue (match_disk_id k.heap) disk_id = none := by
      rw [list_find_element_none]
      intro x hx
      simpa [match_disk_id] using hnone x hx
    simp [remove_from_suspend_queue_by_disk_id, find_from_queue_by_condition, hd, h]
  · intro pre pcb post hsq hpre hpcb
    obtain ⟨h1, h2⟩ := list_find_element_first (match_disk_id k.heap) disk_id pcb pre post
      (fun y hy => by simpa [match_disk_id] using hpre y hy) (by simp [match_disk_id, hpcb])
    simp [remove_from_suspend_queue_by_disk_id, find_from_queue_by_condition, hd, hsq, h1, h2]

/-- The disk interrupt for the device `device_id` (5, 6 or 7, the disk `device_id - 4`),
`status` being the status read of the disk of a deferred request. Without a descriptor of that
disk id in the Suspend Queue the state stays as it is. Otherwise the first such descriptor
`pcb` is taken out, the entries before and after it keeping their order, and: a pending write
or read on a free disk is started (disk, sector and buffer kept in the descriptor), the
operation becomes WRITE_TWO or READ_TWO, the descriptor is flagged suspended and made the head
of the Suspend Queue; a pending request on a disk that is not free makes no hardware call and
the descriptor, flagged suspended, is made the head of the Suspend Queue; any other
descriptor has its flag cleared and is inserted into the Ready Queue by priority, unless it
is in the Ready Queue already. -/
theorem read_write_scheduler_effects (k : Kernel) (device_id : Int) (status : DeviceStatus)
    (hdev : device_id = 5 ∨ device_id = 6 ∨ device_id = 7) :
    ((∀ q ∈ k.SuspendQueue, (deref k.heap q).disk_id ≠ device_id - 4) →
      read_write_scheduler k device_id status = .ok k) ∧
    (∀ pre pcb post, k.SuspendQueue = pre ++ pcb :: post →
      (∀ q ∈ pre, (deref k.heap q).disk_id ≠ device_id - 4) →
      (deref k.heap pcb).disk_id = device_id - 4 →
      ((deref k.heap pcb).operation = WRITE_ONE → status = DeviceStatus.DEVICE_FREE →
        read_write_scheduler k device_id status =
          .ok { k with
            hw := HwCall.disk_start (deref k.heap pcb).disk (deref k.heap pcb).sector
              (deref k.heap pcb).disk_data 1 :: k.hw,
            heap := store (store k.heap pcb (fun d => { d with operation := WRITE_TWO })) pcb
              (fun d => { d with suspend := true }),
            SuspendQueue := pcb :: (pre ++ post) }) ∧
      ((deref k.heap pcb).operation = READ_ONE → status = DeviceStatus.DEVICE_FREE →
        read_write_scheduler k device_id status =
          .ok { k with
            hw := HwCall.disk_start (deref k.heap pcb).disk (deref k.heap pcb).sector
              (deref k.heap pcb).disk_data 0 :: k.hw,
            heap := store (store k.heap pcb (fun d => { d with operation := READ_TWO })) pcb
              (fun d => { d with suspend := true }),
            SuspendQueue := pcb :: (pre ++ post) }) ∧
      ((deref k.heap pcb).operation = WRITE_ONE ∨ (deref k.heap pcb).operation = READ_ONE →
        status ≠ DeviceStatus.DEVICE_FREE →
        read_write_scheduler k device_id status =
          .ok { k with
            heap := store k.heap pcb (fun d => { d with suspend := true }),
            SuspendQueue := pcb :: (pre ++ post) }) ∧
      ((deref k.heap pcb).operation ≠ WRITE_ONE → (deref k.heap pcb).operation ≠ READ_ONE →
        read_write_scheduler k device_id status =
          .ok { k with
            heap := store k.heap pcb (fun d => { d with suspend := false }),
            ReadyQueue :=
              if pcb ∈ k.ReadyQueue then k.ReadyQueue
              else list_insert_orderly k.ReadyQueue (compare_priority k.heap)
                Order.ASCENDING pcb,
            SuspendQueue := pre ++ post })) := by
  have hid : (if device_id = 5 then some (1 : Int)
      else if device_id = 6 then some 2
      else if device_id = 7 then some 3
      else none) = some (device_id - 4) := by
    rcases hdev with h | h | h <;> subst h <;> rfl
  have hd0 : device_id - 4 ≠ 0 := by rcases hdev with h | h | h <;> omega
  obtain ⟨hnone, hfirst⟩ := remove_from_suspend_queue_by_disk_id_first k (device_id - 4) hd0
  constructor
  · intro hno
    unfold read_write_scheduler
    simp only [hid, hnone hno]
  · intro pre pcb post hsq hpre hpcb
    have hrem := hfirst pre pcb post hsq hpre hpcb
    have hw01 : WRITE_ONE ≠ READ_ONE := by decide
    refine ⟨?_, ?_, ?_, ?_⟩
    · intro hop hst
      unfold read_write_scheduler
      simp only [hid, hrem, hop, if_true, reissue, hst, enqueue_suspend_queue_reversly,
        list_insert_next]
    · intro hop hst
      have hne : ¬ READ_ONE = WRITE_ONE := by decide
      unfold read_write_scheduler
      simp only [hid, hrem, hop, hne, if_false, if_true, reissue, hst,
        enqueue_suspend_queue_reversly, list_insert_next]
    · intro hop hst
      have hne : ¬ READ_ONE = WRITE_ONE := by decide
      unfold read_write_scheduler
      rcases hop with hop | hop
      · simp only [hid, hrem, hop, if_true, reissue, hst, if_false,
          enqueue_suspend_queue_reversly, list_insert_next]
      · simp only [hid, hrem, hop, hne, if_true, reissue, hst, if_false,
          enqueue_suspend_queue_reversly, list_insert_next]
    · intro hw hr
      unfold read_write_scheduler
      simp only [hid, hrem, hw, hr, if_false]
      by_cases hmem : pcb ∈ k.ReadyQueue
      · simp [add_to_ready_queue, list_contains_match_pcb, hmem]
      · simp [add_to_ready_queue, list_contains_match_pcb, hmem]

/-- Setting the suspended flag of a descriptor that has it set changes nothing. -/
theorem store_suspend_same (heap : List PCB) (p : Nat) (flag : Bool)
    (h : (deref heap p).suspend = flag) :
    store heap p (fun d => { d with suspend := flag }) = heap := by
  unfold store
  by_cases hp : p < heap.length
  · have hd : deref heap p = heap[p] := by
      unfold deref
      simp [List.getD_eq_getElem?_getD, hp]
    have hrec : (fun d : PCB => { d with suspend := flag }) (deref heap p) = deref heap p := by
      cases hx : deref heap p
      rw [hx] at h
      simp only at h
      subst h
      rfl
    rw [hrec, hd]
    apply List.ext_getElem
    · simp
    · intro n h1 h2
      rw [List.getElem_set]
      split
      · rename_i hpn
        subst hpn
        rfl
      · rfl
  · exact List.set_eq_of_length_le (by omega)

/-- C31: the completion interrupt of the disk `device_id - 4` (device 5, 6 or 7), `status`
being the status read of the disk of a deferred request. When no entry of the Suspend Queue
has that disk id the state does not change. Otherwise the first entry `pcb` with that disk
id is removed and the entries before it (`pre`) and after it (`post`) keep their order. When
its operation is pending (WRITE_ONE, READ_ONE) and the disk is free, the request kept in the
descriptor is started, the operation becomes WRITE_TWO or READ_TWO, and the descriptor is
made the head of the Suspend Queue. When it is pending and the disk is not free, no hardware
call is made and the descriptor is made the head of the Suspend Queue; its suspended flag is
written as set, which leaves a descriptor that is flagged as it was. Otherwise the suspended
flag is cleared and the descriptor is in the Ready Queue afterwards: inserted by priority, or
left where it is when it was in the Ready Queue already. Nothing else of the kernel data
changes. -/
theorem disk_interrupt_serves_first_waiter (k : Kernel) (device_id : Int)
    (status : DeviceStatus) (hdev : device_id = 5 ∨ device_id = 6 ∨ device_id = 7) :
    ((∀ q ∈ k.SuspendQueue, (deref k.heap q).disk_id ≠ device_id - 4) →
      read_write_scheduler k device_id status = .ok k) ∧
    (∀ pre pcb post, k.SuspendQueue = pre ++ pcb :: post →
      (∀ q ∈ pre, (deref k.heap q).disk_id ≠ device_id - 4) →
      (deref k.heap pcb).disk_id = device_id - 4 →
      ((deref k.heap pcb).operation = WRITE_ONE → status = DeviceStatus.DEVICE_FREE →
        read_write_scheduler k device_id status =
          .ok { k with
            hw := HwCall.disk_start (deref k.heap pcb).disk (deref k.heap pcb).sector
              (deref k.heap pcb).disk_data 1 :: k.hw,
            heap := store (store k.heap pcb (fun d => { d with operation := WRITE_TWO })) pcb
              (fun d => { d with suspend := true }),
            SuspendQueue := pcb :: (pre ++ post) }) ∧
      ((deref k.heap pcb).operation = READ_ONE → status = DeviceStatus.DEVICE_FREE →
        read_write_scheduler k device_id status =
          .ok { k with
            hw := HwCall.disk_start (deref k.heap pcb).disk (deref k.heap pcb).sector
              (deref k.heap pcb).disk_data 0 :: k.hw,
            heap := store (store k.heap pcb (fun d => { d with operation := READ_TWO })) pcb
              (fun d => { d with suspend := true }),
            SuspendQueue := pcb :: (pre ++ post) }) ∧
      ((deref k.heap pcb).operation = WRITE_ONE ∨ (deref k.heap pcb).operation = READ_ONE →
        status ≠ DeviceStatus.DEVICE_FREE →
        read_write_scheduler k device_id status =
          .ok { k with
            heap := store k.heap pcb (fun d => { d with suspend := true }),
            SuspendQueue := pcb :: (pre ++ post) } ∧
        ((deref k.heap pcb).suspend = true →
          read_write_scheduler k device_id status =
            .ok { k with SuspendQueue := pcb :: (pre ++ post) })) ∧
      ((deref k.heap pcb).operation ≠ WRITE_ONE → (deref k.heap pcb).operation ≠ READ_ONE →
        read_write_scheduler k device_id status =
          .ok { k with
            heap := store k.heap pcb (fun d => { d with suspend := false }),
            ReadyQueue :=
              if pcb ∈ k.ReadyQueue then k.ReadyQueue
              else list_insert_orderly k.ReadyQueue (compare_priority k.heap)
                Order.ASCENDING pcb,
            SuspendQueue := pre ++ post } ∧
        pcb ∈ (if pcb ∈ k.ReadyQueue then k.ReadyQueue
          else list_insert_orderly k.ReadyQueue (compare_priority k.heap)
            Order.ASCENDING pcb))) := by
  obtain ⟨hnone, hsome⟩ := read_write_scheduler_effects k device_id status hdev
  refine ⟨hnone, ?_⟩
  intro pre pcb post hsq hpre hpcb
  obtain ⟨h1, h2, h3, h4⟩ := hsome pre pcb post hsq hpre hpcb
  refine ⟨h1, h2, ?_, ?_⟩
  · intro hop hst
    refine ⟨h3 hop hst, ?_⟩
    intro hflag
    rw [h3 hop hst, store_suspend_same k.heap pcb true hflag]
  · intro hw hr
    refine ⟨h4 hw hr, ?_⟩
    by_cases hmem : pcb ∈ k.ReadyQueue
    · rw [if_pos hmem]
      exact hmem
    · rw [if_neg hmem]
      exact (list_insert_orderly_perm _ _ _).symm.subset (List.mem_cons_self _ _)

/-- C31, at instances. In `root_write_pending_kernel` the initial process (address 0) waits
in the Suspend Queue with a pending write to disk 2. The interrupt of device 6 with the
disk free starts the write (disk 2, sector 3, the block 9), makes the operation WRITE_TWO and
puts the descriptor back at the head of the Suspend Queue; with the disk in use it makes no
hardware call and the state stays as it was; the interrupt of device 5 finds no entry of
disk 1 and changes nothing. -/
theorem disk_interrupt_serves_first_waiter_witness :
    root_write_pending_kernel.SuspendQueue = [0] ∧
    (deref root_write_pending_kernel.heap 0).disk_id = 2 ∧
    (deref root_write_pending_kernel.heap 0).operation = WRITE_ONE ∧
    (read_write_scheduler root_write_pending_kernel 6 DeviceStatus.DEVICE_FREE).map
      (fun r => (r.SuspendQueue, r.ReadyQueue, (deref r.heap 0).operation,
        (deref r.heap 0).suspend, r.hw)) =
      .ok ([0], [0], WRITE_TWO, true,
        HwCall.disk_start 2 3 9 1 :: root_write_pending_kernel.hw) ∧
    read_write_scheduler root_write_pending_kernel 6 DeviceStatus.DEVICE_IN_USE =
      .ok { root_write_pending_kernel with SuspendQueue := [0] } ∧
    read_write_scheduler root_write_pending_kernel 5 DeviceStatus.DEVICE_FREE =
      .ok root_write_pending_kernel := by
  have h6 := (disk_interrupt_serves_first_waiter root_write_pending_kernel 6
    DeviceStatus.DEVICE_FREE (Or.inr (Or.inl rfl))).2 [] 0 [] rfl (by simp) rfl
  have h6' := (disk_interrupt_serves_first_waiter root_write_pending_kernel 6
    DeviceStatus.DEVICE_IN_USE (Or.inr (Or.inl rfl))).2 [] 0 [] rfl (by simp) rfl
  have h5 := (disk_interrupt_serves_first_waiter root_write_pending_kernel 5
    DeviceStatus.DEVICE_FREE (Or.inl rfl)).1 (by decide)
  refine ⟨rfl, rfl, rfl, ?_, ?_, h5⟩
  · rw [h6.1 rfl rfl]
    rfl
  · exact (h6'.2.2.1 (Or.inl rfl) (by decide)).2 rfl

/-! ### C37: a suspended process and the disk interrupt -/

/-- A suspend that returns leaves the disk id and the operation of every descriptor. -/
theorem os_suspend_process_disk_fields (k k' : Kernel) (pid error : Int)
    (h : os_suspend_process k pid = .ok (k', error)) (q : Nat) :
    (deref k'.heap q).disk_id = (deref k.heap q).disk_id ∧
    (deref k'.heap q).operation = (deref k.heap q).operation := by
  rcases os_suspend_process_frame k k' pid error h with hk | he
  · rw [hk]
    exact ⟨rfl, rfl⟩
  · subst he
    obtain ⟨cur, target, hcur, hne, h0, h15, htab, hflag⟩ :=
      os_suspend_process_success_inv k k' pid h
    obtain ⟨k1, hs, hh, -⟩ :=
      os_suspend_process_success k pid cur target hcur hne h0 h15 htab hflag
    rw [hs] at h
    simp only [Except.ok.injEq, Prod.mk.injEq, and_true] at h
    subst h
    rw [hh, deref_store]
    split
    · rename_i hpq
      rw [hpq.1]
      exact ⟨rfl, rfl⟩
    · exact ⟨rfl, rfl⟩

/-- C37: `create_pcb` gives every descriptor the disk id pid / 2 + 1 and the operation -1, no
deferred request, and a suspend changes neither. The disk interrupt looks at the disk id
only: when the first entry of the Suspend Queue with the disk id of the interrupt (device
5, 6 or 7, disk `device_id - 4`) is a descriptor `pcb` that carries the disk id and the
operation it was created with, whatever put it into the queue, it is removed, its suspended
flag is cleared and it is in the Ready Queue afterwards (inserted by priority unless it was
there already); the entries before and after it keep their order, and no hardware call is
made. -/
theorem suspended_process_woken_by_disk_interrupt (k : Kernel) (device_id : Int)
    (status : DeviceStatus) (pre post : List Nat) (pcb : Nat)
    (hdev : device_id = 5 ∨ device_id = 6 ∨ device_id = 7)
    (hsq : k.SuspendQueue = pre ++ pcb :: post)
    (hdisk : (deref k.heap pcb).disk_id = (deref k.heap pcb).pid / 2 + 1)
    (hop : (deref k.heap pcb).operation = -1)
    (hint : (deref k.heap pcb).pid / 2 + 1 = device_id - 4)
    (hfirst : ∀ q ∈ pre, (deref k.heap q).disk_id ≠ (deref k.heap pcb).pid / 2 + 1) :
    (∀ (k0 k1 : Kernel) (name : String) (start_point : Nat) (priority : Int) (context : Nat)
      (raw : PCB) (new : Nat) (error : Int),
      create_pcb k0 name start_point priority context raw = .ok (k1, some new, error) →
      (deref k1.heap new).disk_id = (deref k1.heap new).pid / 2 + 1 ∧
      (deref k1.heap new).operation = -1) ∧
    (∀ (k0 k1 : Kernel) (pid error : Int) (q : Nat),
      os_suspend_process k0 pid = .ok (k1, error) →
      (deref k1.heap q).disk_id = (deref k0.heap q).disk_id ∧
      (deref k1.heap q).operation = (deref k0.heap q).operation) ∧
    read_write_scheduler k device_id status =
      .ok { k with
        heap := store k.heap pcb (fun d => { d with suspend := false }),
        ReadyQueue :=
          if pcb ∈ k.ReadyQueue then k.ReadyQueue
          else list_insert_orderly k.ReadyQueue (compare_priority k.heap) Order.ASCENDING pcb,
        SuspendQueue := pre ++ post } ∧
    pcb ∈ (if pcb ∈ k.ReadyQueue then k.ReadyQueue
      else list_insert_orderly k.ReadyQueue (compare_priority k.heap) Order.ASCENDING pcb) ∧
    (pcb < k.heap.length →
      (deref (store k.heap pcb (fun d => { d with suspend := false })) pcb).suspend = false) := by
  refine ⟨?_, ?_, ?_, ?_, ?_⟩
  · intro k0 k1 name start_point priority context raw new error hc
    obtain ⟨hs, hcx, hlen, hdup, h0, h100, hnf⟩ :=
      create_pcb_some_inv k0 k1 name start_point priority context raw new error hc
    obtain ⟨p, hp, hfree, hlow⟩ := exists_lowest_free k0 hnf
    rw [create_pcb_success k0 name start_point priority context raw hs hcx hlen hdup h0 h100
      p hp hfree hlow] at hc
    simp only [Except.ok.injEq, Prod.mk.injEq, Option.some.injEq] at hc
    obtain ⟨hk, hn, -⟩ := hc
    subst hk hn
    simp only [deref_append_new]
    trivial
  · intro k0 k1 pid error q hsus
    exact os_suspend_process_disk_fields k0 k1 pid error hsus q
  · have h := (read_write_scheduler_effects k device_id status hdev).2 pre pcb post hsq
      (by rw [← hint]; exact hfirst) (by rw [hdisk, hint])
    exact h.2.2.2 (by rw [hop]; decide) (by rw [hop]; decide)
  · by_cases hmem : pcb ∈ k.ReadyQueue
    · rw [if_pos hmem]
      exact hmem
    · rw [if_neg hmem]
      exact (list_insert_orderly_perm _ _ _).symm.subset (List.mem_cons_self _ _)
  · intro hal
    exact suspend_store_suspend k.heap pcb false hal

/-- C37, at an instance: the child (pid 1, address 1) was created, was suspended by the
initial process out of the Ready Queue and has made no disk request; it is the one entry of
the Suspend Queue, with the disk id 1 / 2 + 1 = 1 and the operation -1. The interrupt of
device 5 (disk 1) takes it out of the Suspend Queue, clears its flag and inserts it into the
Ready Queue, before the initial process. -/
theorem suspended_process_woken_by_disk_interrupt_witness :
    child_suspended_kernel.SuspendQueue = [1] ∧ child_suspended_kernel.ReadyQueue = [0] ∧
    (deref child_suspended_kernel.heap 1).pid = 1 ∧
    (deref child_suspended_kernel.heap 1).disk_id = 1 ∧
    (deref child_suspended_kernel.heap 1).operation = -1 ∧
    (deref child_suspended_kernel.heap 1).suspend = true ∧
    (read_write_scheduler child_suspended_kernel 5 DeviceStatus.DEVICE_FREE).map
      (fun r => (r.SuspendQueue, r.ReadyQueue, (deref r.heap 1).suspend, r.hw)) =
      .ok ([], [1, 0], false, child_suspended_kernel.hw) := by
  have h := (suspended_process_woken_by_disk_interrupt child_suspended_kernel 5
    DeviceStatus.DEVICE_FREE [] [] 1 (Or.inl rfl) rfl rfl rfl rfl (by simp)).2.2.1
  refine ⟨rfl, rfl, rfl, rfl, rfl, rfl, ?_⟩
  rw [h]
  rfl

/-! ### C35: the interlocks of the system calls -/

/-- The entry points sleep, get_pid, suspend and resume keep the lock discipline on every
path that returns, create does for a start point that is not NULL, and terminate for a pid
from -2 to 14. -/
theorem lock_discipline_kept (k : Kernel) (calls : List LockCall) :
    (∀ sleep_time time_now status result0,
      os_process_sleep_locks k sleep_time time_now status result0 = some calls →
      lock_discipline calls) ∧
    (∀ name, os_get_process_id_locks k name = some calls → lock_discipline calls) ∧
    (∀ pid, os_suspend_process_locks k pid = some calls → lock_discipline calls) ∧
    (∀ pid, os_resume_process_locks k pid = some calls → lock_discipline calls) ∧
    (∀ name start_point priority next_context raw, start_point ≠ 0 →
      os_create_process_locks k name start_point priority next_context raw = some calls →
      lock_discipline calls) ∧
    (∀ (pid time_now : Int), -2 ≤ pid → pid < MAX_NUMBER_OF_USER_PROCESSES →
      os_terminate_process_locks k pid time_now = some calls → lock_discipline calls) := by
  refine ⟨?_, ?_, ?_, ?_, ?_, ?_⟩
  · intro sleep_time time_now status result0 h
    unfold os_process_sleep_locks at h
    split at h
    · cases h
    · split at h <;> (cases h; decide)
  · intro name h
    unfold os_get_process_id_locks at h
    split at h
    · cases h
    · cases h; decide
  · intro pid h
    unfold os_suspend_process_locks at h
    repeat' split at h
    all_goals first | (cases h; done) | (cases h; decide)
  · intro pid h
    unfold os_resume_process_locks at h
    repeat' split at h
    all_goals first | (cases h; done) | (cases h; decide)
  · intro name start_point priority next_context raw hs h
    unfold os_create_process_locks at h
    split at h
    · cases h
    · rw [if_neg hs] at h
      cases h; decide
  · intro pid time_now h1 h2 h
    unfold os_terminate_process_locks at h
    split at h
    · cases h
    · rw [if_neg (by omega)] at h
      repeat' split at h
      all_goals first | (cases h; done) | (cases h; decide)

/-- On every path of `os_change_priority` that returns, COMMON_DATA_LOCK is released while
READY_QUEUE_LOCK, the lock taken last, is held. -/
theorem os_change_priority_locks_order (k : Kernel) (pid priority : Int)
    (calls : List LockCall) (h : os_change_priority_locks k pid priority = some calls) :
    ¬ lock_discipline calls ∧ locks_held [] (calls.take 3) =
      some [DataLock.READY_QUEUE_LOCK, DataLock.TIMER_QUEUE_LOCK, DataLock.COMMON_DATA_LOCK] ∧
    calls.get? 3 = some (LockCall.release_data_lock DataLock.COMMON_DATA_LOCK) := by
  unfold os_change_priority_locks at h
  split at h
  · cases h
  · cases h
    exact ⟨by decide, rfl, rfl⟩

/-- C35, the code at the failing inputs. After boot the initial process calls
TERMINATE_PROCESS(15): the call returns ERR_BAD_PARAM with the state unchanged, having taken
COMMON_DATA_LOCK and not released it. It calls CHANGE_PRIORITY(-1, 5): the call returns
Success, having released COMMON_DATA_LOCK first while READY_QUEUE_LOCK, taken last, is still
held. It calls CREATE_PROCESS without a start point: the call returns ERR_BAD_PARAM, having
released three locks it did not take. None of the three sequences keeps the discipline. A CHANGE_PRIORITY that is refused (priority
200) makes the same lock calls as the one that succeeds. -/
theorem lock_discipline_broken :
    os_terminate_process boot_kernel 15 0 = .ok (boot_kernel, ERR_BAD_PARAM) ∧
    os_terminate_process_locks boot_kernel 15 0 =
      some [LockCall.get_data_lock DataLock.COMMON_DATA_LOCK] ∧
    locks_held [] [LockCall.get_data_lock DataLock.COMMON_DATA_LOCK] =
      some [DataLock.COMMON_DATA_LOCK] ∧
    ¬ lock_discipline [LockCall.get_data_lock DataLock.COMMON_DATA_LOCK] ∧
    (os_change_priority boot_kernel (-1) 5).map (fun r => r.2) = .ok ERR_SUCCESS ∧
    os_change_priority_locks boot_kernel (-1) 5 =
      some [LockCall.get_data_lock DataLock.COMMON_DATA_LOCK,
            LockCall.get_data_lock DataLock.TIMER_QUEUE_LOCK,
            LockCall.get_data_lock DataLock.READY_QUEUE_LOCK,
            LockCall.release_data_lock DataLock.COMMON_DATA_LOCK,
            LockCall.release_data_lock DataLock.TIMER_QUEUE_LOCK,
            LockCall.release_data_lock DataLock.READY_QUEUE_LOCK] ∧
    lock_step [DataLock.READY_QUEUE_LOCK, DataLock.TIMER_QUEUE_LOCK,
        DataLock.COMMON_DATA_LOCK]
      (LockCall.release_data_lock DataLock.COMMON_DATA_LOCK) = none ∧
    ¬ lock_discipline
      [LockCall.get_data_lock DataLock.COMMON_DATA_LOCK,
       LockCall.get_data_lock DataLock.TIMER_QUEUE_LOCK,
       LockCall.get_data_lock DataLock.READY_QUEUE_LOCK,
       LockCall.release_data_lock DataLock.COMMON_DATA_LOCK,
       LockCall.release_data_lock DataLock.TIMER_QUEUE_LOCK,
       LockCall.release_data_lock DataLock.READY_QUEUE_LOCK] ∧
    os_create_process boot_kernel "child" 0 5 1 default = .ok (boot_kernel, none, ERR_BAD_PARAM) ∧
    os_create_process_locks boot_kernel "child" 0 5 1 default =
      some [LockCall.release_data_lock DataLock.READY_QUEUE_LOCK,
            LockCall.release_data_lock DataLock.TIMER_QUEUE_LOCK,
            LockCall.release_data_lock DataLock.COMMON_DATA_LOCK] ∧
    ¬ lock_discipline
      [LockCall.release_data_lock DataLock.READY_QUEUE_LOCK,
       LockCall.release_data_lock DataLock.TIMER_QUEUE_LOCK,
       LockCall.release_data_lock DataLock.COMMON_DATA_LOCK] ∧
    os_change_priority_locks boot_kernel 1 200 = os_change_priority_locks boot_kernel (-1) 5 :=
  ⟨rfl, rfl, rfl, by decide, rfl, rfl, rfl, by decide, rfl, rfl, by decide, rfl⟩

/-! ### The scan for a victim -/

/-- The double advance of `ref_idx` leads from -1 and from an odd number below 64 to an odd
number below 64. -/
theorem ref_idx_advance (r : Int) (h : r = -1 ∨ (0 ≤ r ∧ r < 64 ∧ r % 2 = 1)) :
    0 ≤ Int.tmod (r + 1) (PHYS_MEM_PGS : Nat) + 1 ∧
    Int.tmod (r + 1) (PHYS_MEM_PGS : Nat) + 1 < 64 ∧
    (Int.tmod (r + 1) (PHYS_MEM_PGS : Nat) + 1) % 2 = 1 ∧
    Int.tmod (r + 1) (PHYS_MEM_PGS : Nat) + 1 = (r + 1) % 64 + 1 := by
  have h64 : ((PHYS_MEM_PGS : Nat) : Int) = 64 := rfl
  rw [h64]
  have ht : Int.tmod (r + 1) 64 = (r + 1) % 64 := by
    apply Int.tmod_eq_emod
    · omega
    · omega
  rw [ht]
  omega

theorem countP_lt_of_imp {α : Type} (p q : α → Bool) (l : List α)
    (himp : ∀ x ∈ l, p x = true → q x = true) (a : α) (ha : a ∈ l) (hq : q a = true)
    (hp : p a = false) : l.countP p < l.countP q := by
  induction l with
  | nil => cases ha
  | cons x t ih =>
    rw [List.countP_cons, List.countP_cons]
    have hle : t.countP p ≤ t.countP q :=
      List.countP_mono_left (fun y hy => himp y (List.mem_cons_of_mem _ hy))
    rcases List.mem_cons.1 ha with e | e
    · subst e
      simp only [hq, hp, if_true]
      simp
      omega
    · have := ih (fun y hy => himp y (List.mem_cons_of_mem _ hy)) e
      by_cases hpx : p x = true
      · have hqx := himp x (List.mem_cons_self _ _) hpx
        simp only [hpx, hqx, if_true]
        omega
      · by_cases hqx : q x = true
        · simp [hpx, hqx]
          omega
        · simp [hpx, hqx]
          omega

theorem referenced_odd_slots_le (s : Storage) : referenced_odd_slots s ≤ 32 := by
  unfold referenced_odd_slots
  have := List.countP_le_length (fun j => slot_referenced s (2 * j + 1)) (l := List.range 32)
  simpa using this

/-- Clearing the REFERENCED bit of the entry that an odd slot points to leaves fewer odd
slots with the bit set, and leaves every odd slot filled. -/
theorem clear_referenced_count (s : Storage) (j : Nat) (hj : j < 32) (p : PtePtr)
    (entry : Nat) (hp : s.shadow_pg_tbl (2 * j + 1) = some p)
    (hentry : pte_read s p = some entry) (href : entry &&& PTBL_REFERENCED_BIT ≠ 0) :
    referenced_odd_slots (pte_write s p (entry &&& (65535 - PTBL_REFERENCED_BIT)))
      < referenced_odd_slots s ∧
    (odd_slots_filled s →
      odd_slots_filled (pte_write s p (entry &&& (65535 - PTBL_REFERENCED_BIT)))) := by
  obtain ⟨-, -, c3⟩ := entry_clear_referenced entry
  have hread : ∀ q, pte_read (pte_write s p (entry &&& (65535 - PTBL_REFERENCED_BIT))) q =
      if q = p then some (entry &&& (65535 - PTBL_REFERENCED_BIT)) else pte_read s q :=
    fun q => pte_read_write s p q entry _ hentry
  have hsh : (pte_write s p (entry &&& (65535 - PTBL_REFERENCED_BIT))).shadow_pg_tbl =
      s.shadow_pg_tbl := rfl
  constructor
  · unfold referenced_odd_slots
    apply countP_lt_of_imp _ _ _ _ j (List.mem_range.2 hj)
    · simp only [slot_referenced, hp, hentry]
      simpa using href
    · simp only [slot_referenced, hsh, hp, hread, if_true]
      simp [c3]
    · intro i _ hi
      simp only [slot_referenced, hsh] at hi ⊢
      cases hq : s.shadow_pg_tbl (2 * i + 1) with
      | none => rw [hq] at hi; simp at hi
      | some q =>
        rw [hq] at hi
        simp only [hread] at hi
        by_cases hqp : q = p
        · subst hqp
          simp [c3] at hi
        · simp only [hqp, if_false] at hi
          simpa using hi
  · intro hfill i hi
    obtain ⟨q, e, hq, he⟩ := hfill i hi
    by_cases hqp : q = p
    · exact ⟨q, _, hq, by rw [hread, if_pos hqp]⟩
    · exact ⟨q, e, hq, by rw [hread, if_neg hqp]; exact he⟩

/-- The scan ends within as many rounds as there are odd slots with the REFERENCED bit set,
plus one: it returns a victim, unless it comes to an odd slot that is NULL or does not point
into a page table. The fuel is not used up. -/
theorem victim_scan_ends :
    ∀ (fuel : Nat) (s : Storage), ref_idx_odd s → referenced_odd_slots s < fuel →
      (∃ s' victim victim_entry, victim_scan fuel s = .ok (s', victim, victim_entry)) ∨
      (¬ odd_slots_filled s ∧ ∃ s', victim_scan fuel s = .error (Stop.undefined, s')) := by
  intro fuel
  induction fuel with
  | zero => intro s _ h; omega
  | succ fuel ih =>
    intro s hodd hcount
    obtain ⟨r0, r64, rodd, -⟩ := ref_idx_advance s.ref_idx hodd
    have h64 : ((PHYS_MEM_PGS : Nat) : Int) = 64 := rfl
    obtain ⟨j, hj, hjr⟩ : ∃ j, j < 32 ∧
        (Int.tmod (s.ref_idx + 1) (PHYS_MEM_PGS : Nat) + 1).toNat = 2 * j + 1 := by
      generalize Int.tmod (s.ref_idx + 1) (PHYS_MEM_PGS : Nat) + 1 = r' at r0 r64 rodd
      refine ⟨(r'.toNat - 1) / 2, ?_, ?_⟩
      · omega
      · omega
    have hrange : ¬ (Int.tmod (s.ref_idx + 1) (PHYS_MEM_PGS : Nat) + 1 < 0 ∨
        Int.tmod (s.ref_idx + 1) (PHYS_MEM_PGS : Nat) + 1 ≥ ((PHYS_MEM_PGS : Nat) : Int)) := by
      generalize Int.tmod (s.ref_idx + 1) (PHYS_MEM_PGS : Nat) + 1 = r' at r0 r64 rodd
      rw [h64]; omega
    unfold victim_scan
    simp only [hrange, if_false, hjr]
    cases hp : s.shadow_pg_tbl (2 * j + 1) with
    | none =>
      right
      refine ⟨?_, _, rfl⟩
      intro hfill
      obtain ⟨p, e, hp', -⟩ := hfill j hj
      rw [hp] at hp'
      cases hp'
    | some p =>
      simp only
      have hrd : ∀ q, pte_read { s with
          ref_idx := Int.tmod (s.ref_idx + 1) (PHYS_MEM_PGS : Nat) + 1 } q = pte_read s q :=
        fun q => rfl
      cases he : pte_read s p with
      | none =>
        right
        rw [hrd, he]
        refine ⟨?_, _, rfl⟩
        intro hfill
        obtain ⟨p', e, hp', he'⟩ := hfill j hj
        rw [hp] at hp'
        cases hp'
        rw [he] at he'
        cases he'
      | some entry =>
        rw [hrd, he]
        simp only
        by_cases href : entry &&& PTBL_REFERENCED_BIT ≠ 0
        · rw [if_pos href]
          obtain ⟨hlt, hfill⟩ := clear_referenced_count s j hj p entry hp he href
          have hodd2 : ref_idx_odd (pte_write { s with
              ref_idx := Int.tmod (s.ref_idx + 1) (PHYS_MEM_PGS : Nat) + 1 } p
              (entry &&& (65535 - PTBL_REFERENCED_BIT))) := Or.inr ⟨r0, r64, rodd⟩
          have hc2 : referenced_odd_slots (pte_write { s with
              ref_idx := Int.tmod (s.ref_idx + 1) (PHYS_MEM_PGS : Nat) + 1 } p
              (entry &&& (65535 - PTBL_REFERENCED_BIT))) < fuel := by
            have : referenced_odd_slots (pte_write { s with
              ref_idx := Int.tmod (s.ref_idx + 1) (PHYS_MEM_PGS : Nat) + 1 } p
              (entry &&& (65535 - PTBL_REFERENCED_BIT))) =
              referenced_odd_slots (pte_write s p (entry &&& (65535 - PTBL_REFERENCED_BIT))) :=
              rfl
            omega
          rcases ih _ hodd2 hc2 with hok | ⟨hnf, herr⟩
          · exact Or.inl hok
          · right
            refine ⟨?_, herr⟩
            intro hf
            exact hnf (hfill hf)
        · rw [if_neg href]
          exact Or.inl ⟨_, _, _, rfl⟩

/-- What a scan that returns a victim has done: `ref_idx` is an odd number below 64, the
victim is what the shadow slot `ref_idx` points to, its entry has the REFERENCED bit clear,
every page table entry is as it was or has lost its REFERENCED bit, and nothing else has
changed. -/
theorem victim_scan_result :
    ∀ (fuel : Nat) (s s' : Storage) (victim : PtePtr) (victim_entry : Nat),
      ref_idx_odd s → victim_scan fuel s = .ok (s', victim, victim_entry) →
      0 ≤ s'.ref_idx ∧ s'.ref_idx < 64 ∧ s'.ref_idx % 2 = 1 ∧
      s'.shadow_pg_tbl s'.ref_idx.toNat = some victim ∧
      pte_read s' victim = some victim_entry ∧
      victim_entry &&& PTBL_REFERENCED_BIT = 0 ∧
      (∀ q, pte_read s' q = pte_read s q ∨
        ∃ e0, pte_read s q = some e0 ∧ e0 &&& PTBL_REFERENCED_BIT ≠ 0 ∧
          pte_read s' q = some (e0 &&& (65535 - PTBL_REFERENCED_BIT))) ∧
      s'.page_tables.length = s.page_tables.length ∧
      s'.FrameQueue = s.FrameQueue ∧ s'.disk = s.disk ∧
      s'.shadow_pg_tbl = s.shadow_pg_tbl ∧ s'.process_holder = s.process_holder ∧
      s'.address_holder = s.address_holder ∧
      s'.Z502_PAGE_TBL_ADDR = s.Z502_PAGE_TBL_ADDR ∧ s'.shadow_pg_idx = s.shadow_pg_idx := by
  intro fuel
  induction fuel with
  | zero =>
    intro s s' victim ve _ h
    simp [victim_scan] at h
  | succ fuel ih =>
    intro s s' victim ve hodd h
    obtain ⟨r0, r64, rodd, -⟩ := ref_idx_advance s.ref_idx hodd
    unfold victim_scan at h
    dsimp only at h
    split at h
    · cases h
    · split at h
      · cases h
      · rename_i p hp
        split at h
        · cases h
        · rename_i entry hentry
          have hentry' : pte_read s p = some entry := hentry
          split at h
          · rename_i href
            obtain ⟨-, -, c3⟩ := entry_clear_referenced entry
            obtain ⟨a1, a2, a3, a4, a5, a6, a7, a8, a9, a10, a11, a12, a13, a14, a15⟩ :=
              ih _ s' victim ve (Or.inr ⟨r0, r64, rodd⟩) h
            refine ⟨a1, a2, a3, a4, a5, a6, ?_, ?_, a9, a10, a11, a12, a13, a14, a15⟩
            · intro q
              have hw := pte_read_write { s with
                ref_idx := Int.tmod (s.ref_idx + 1) (PHYS_MEM_PGS : Nat) + 1 } p q entry
                (entry &&& (65535 - PTBL_REFERENCED_BIT)) hentry
              by_cases hqp : q = p
              · subst hqp
                rw [if_pos rfl] at hw
                right
                refine ⟨entry, hentry', href, ?_⟩
                rcases a7 q with e | ⟨e0, he0, hr0, -⟩
                · rw [e, hw]
                · rw [hw] at he0
                  cases he0
                  exact absurd c3 hr0
              · rw [if_neg hqp] at hw
                rcases a7 q with e | ⟨e0, he0, hr0, hs'⟩
                · left
                  rw [e, hw]
                  rfl
                · right
                  rw [hw] at he0
                  exact ⟨e0, he0, hr0, hs'⟩
            · rw [a8]
              show (List.set _ _ _).length = _
              rw [List.length_set]
          · rename_i href
            simp only [Except.ok.injEq, Prod.mk.injEq] at h
            obtain ⟨h1, h2, h3⟩ := h
            subst h1 h2 h3
            refine ⟨r0, r64, rodd, hp, hentry, by simpa using href, fun q => Or.inl rfl,
              rfl, rfl, rfl, rfl, rfl, rfl, rfl, rfl⟩

/-- With the frame queue empty every shadow slot is filled. -/
theorem odd_slots_filled_of_inv (s : Storage) (h : FrameInv PHYS_MEM_PGS s) :
    odd_slots_filled s := by
  intro j hj
  have h64 : PHYS_MEM_PGS = 64 := rfl
  obtain ⟨p, hp, ⟨e, he, -, -⟩, -⟩ := h.slot (2 * j + 1) (by omega)
  exact ⟨p, e, hp, he⟩

/-- With the frame queue empty the scan returns a victim within 33 rounds. -/
theorem victim_scan_finds (s : Storage) (h : FrameInv PHYS_MEM_PGS s) (hodd : ref_idx_odd s) :
    ∃ s' victim victim_entry, victim_scan 33 s = .ok (s', victim, victim_entry) := by
  have hc := referenced_odd_slots_le s
  rcases victim_scan_ends 33 s hodd (by omega) with hok | ⟨hnf, -⟩
  · exact hok
  · exact absurd (odd_slots_filled_of_inv s h) hnf

theorem get_frame_number_fields (s : Storage) :
    (get_frame_number_of_removed_frame s).1 =
      { s with FrameQueue := (get_frame_number_of_removed_frame s).1.FrameQueue } := by
  unfold get_frame_number_of_removed_frame removed_from_frame_queue
  split_ifs
  · rfl
  · cases hq : queue_dequeue s.FrameQueue with
    | none => rfl
    | some r => rfl

/-- The state `map_page` leaves when the frame queue holds a frame: the page gets the frame
`n` at the head of the queue, its entry becomes `n | PTBL_VALID_BIT`, the next shadow slot
records the entry and the process, and a page that is RESERVED is read from the disk of the
process into the frame. -/
theorem map_page_pool (n : Nat) (s : Storage) (table : Nat) (disk_id page : Int)
    (entry : Nat) (h : FrameInv n s) (hn : n < PHYS_MEM_PGS) (hp0 : 0 ≤ page)
    (hp : page < 1024) (hentry : pte_read s ⟨table, page.toNat⟩ = some entry) :
    ∃ s', map_page s table disk_id page = .ok s' ∧
      s'.FrameQueue =
        (List.range' (n + 1) (PHYS_MEM_PGS - (n + 1))).map (fun i : Nat => (i : Int)) ∧
      s'.page_tables =
        (pte_write s ⟨table, page.toNat⟩ (n ||| PTBL_VALID_BIT)).page_tables ∧
      s'.Z502_PAGE_TBL_ADDR = s.Z502_PAGE_TBL_ADDR ∧
      s'.shadow_pg_tbl = Function.update s.shadow_pg_tbl n (some ⟨table, page.toNat⟩) ∧
      s'.process_holder = Function.update s.process_holder n (to_uint16 (disk_id - 1)) ∧
      s'.address_holder = s.address_holder ∧ s'.shadow_pg_idx = (n : Int) ∧
      s'.ref_idx = s.ref_idx ∧
      s'.disk =
        if entry &&& PTBL_RESERVED_BIT ≠ 0 then
          DiskCall.os_disk_read disk_id page ((n : Int) * PGSIZE) :: s.disk
        else s.disk := by
  have h64 : PHYS_MEM_PGS = 64 := rfl
  have hrange : ¬ (page < 0 ∨ page ≥ 1024) := by omega
  have hv : to_uint16 (((n : Int).toNat ||| PTBL_VALID_BIT : Nat) : Int) =
      n ||| PTBL_VALID_BIT := by
    rw [Int.toNat_ofNat]
    exact to_uint16_nat _ (entry_of_frame n (by omega)).2.2
  have hidx : ¬ (s.shadow_pg_idx + 1 < 0 ∨
      s.shadow_pg_idx + 1 ≥ ((PHYS_MEM_PGS : Nat) : Int)) := by
    rw [h.idx, h64]; push_cast; omega
  have hix : (s.shadow_pg_idx + 1).toNat = n := by
    rw [h.idx]; omega
  have hix' : s.shadow_pg_idx + 1 = (n : Int) := by
    rw [h.idx]; omega
  unfold map_page
  rw [if_neg hrange]
  simp only [hentry]
  rw [get_frame_number_next n s h hn]
  dsimp only
  rw [if_pos (by omega)]
  by_cases hr : entry &&& PTBL_RESERVED_BIT ≠ 0
  · rw [if_pos hr]
    rw [if_neg (by exact hidx)]
    refine ⟨_, rfl, rfl, ?_, rfl, ?_, ?_, rfl, hix', rfl, ?_⟩
    · show (pte_write _ _ _).page_tables = _
      rw [hv]; rfl
    · show Function.update s.shadow_pg_tbl (s.shadow_pg_idx + 1).toNat _ = _
      rw [hix]
    · show Function.update s.process_holder (s.shadow_pg_idx + 1).toNat _ = _
      rw [hix]
    · rw [if_pos hr]; rfl
  · rw [if_neg hr]
    rw [if_neg (by exact hidx)]
    refine ⟨_, rfl, rfl, ?_, rfl, ?_, ?_, rfl, hix', rfl, ?_⟩
    · show (pte_write _ _ _).page_tables = _
      rw [hv]; rfl
    · show Function.update s.shadow_pg_tbl (s.shadow_pg_idx + 1).toNat _ = _
      rw [hix]
    · show Function.update s.process_holder (s.shadow_pg_idx + 1).toNat _ = _
      rw [hix]
    · rw [if_neg hr]; rfl

/-- The state `map_page` leaves when the frame queue is empty, in a state that the
invariant describes: the scan returns a victim (`s1` is the state after the scan), the
victim is written to the disk of its owner at the sector that is its index in the owner's
page table, its entry gets the RESERVED bit and loses the VALID bit, the entry of the page
becomes the victim's frame number with the VALID bit, and the shadow slot of the victim
records the entry of the page and the process. -/
theorem map_page_victim (s : Storage) (table : Nat) (disk_id page : Int) (entry : Nat)
    (h : FrameInv PHYS_MEM_PGS s) (hodd : ref_idx_odd s) (hp0 : 0 ≤ page) (hp : page < 1024)
    (hentry : pte_read s ⟨table, page.toNat⟩ = some entry) :
    ∃ s1 victim victim_entry s', victim_scan 33 s = .ok (s1, victim, victim_entry) ∧
      map_page s table disk_id page = .ok s' ∧
      s'.FrameQueue = s.FrameQueue ∧
      s'.page_tables =
        (pte_write
          (pte_write s1 victim
            ((victim_entry ||| PTBL_RESERVED_BIT) &&& (65535 - PTBL_VALID_BIT)))
          ⟨table, page.toNat⟩
          ((victim_entry &&& PTBL_FRAME_BITS) ||| PTBL_VALID_BIT)).page_tables ∧
      s'.Z502_PAGE_TBL_ADDR = s.Z502_PAGE_TBL_ADDR ∧
      s'.shadow_pg_tbl =
        Function.update s.shadow_pg_tbl s1.ref_idx.toNat (some ⟨table, page.toNat⟩) ∧
      s'.process_holder =
        Function.update s.process_holder s1.ref_idx.toNat (to_uint16 (disk_id - 1)) ∧
      s'.address_holder = s.address_holder ∧ s'.shadow_pg_idx = s.shadow_pg_idx ∧
      s'.ref_idx = s1.ref_idx ∧
      s'.disk =
        (if entry &&& PTBL_RESERVED_BIT ≠ 0 then
          [DiskCall.os_disk_read disk_id page
            (((victim_entry &&& PTBL_FRAME_BITS : Nat) : Int) * PGSIZE)]
        else []) ++
        DiskCall.os_disk_write ((s.process_holder s1.ref_idx.toNat : Int) + 1) victim.index
          (((victim_entry &&& PTBL_FRAME_BITS : Nat) : Int) * PGSIZE) :: s.disk := by
  have h64 : PHYS_MEM_PGS = 64 := rfl
  have hrange : ¬ (page < 0 ∨ page ≥ 1024) := by omega
  obtain ⟨s1, victim, ve, hscan⟩ := victim_scan_finds s h hodd
  obtain ⟨a1, a2, a3, a4, a5, a6, a7, a8, a9, a10, a11, a12, a13, a14, a15⟩ :=
    victim_scan_result 33 s s1 victim ve hodd hscan
  have hr : s1.ref_idx.toNat < PHYS_MEM_PGS := by omega
  obtain ⟨p, b1, b2, b3, b4, b5⟩ := h.slot s1.ref_idx.toNat hr
  rw [← a11, a4] at b1
  cases b1
  refine ⟨s1, victim, ve, ?_⟩
  unfold map_page
  rw [if_neg hrange]
  simp only [hentry]
  rw [get_frame_number_none s h]
  dsimp only
  rw [if_neg (by omega)]
  simp only [hscan]
  have hpid : ¬ (s1.process_holder s1.ref_idx.toNat ≥ 10) := by
    rw [a12]; omega
  have hah : s1.address_holder (s1.process_holder s1.ref_idx.toNat) = some victim.table := by
    rw [a12, a13]; exact b4
  rw [if_neg hpid]
  simp only [hah]
  rw [if_neg (by simp)]
  by_cases hres : entry &&& PTBL_RESERVED_BIT ≠ 0
  · rw [if_pos hres]
    refine ⟨_, trivial, rfl, a9, rfl, a14, ?_, ?_, a13, a15, rfl, ?_⟩
    · show Function.update s1.shadow_pg_tbl s1.ref_idx.toNat _ = _
      rw [a11]
    · show Function.update s1.process_holder s1.ref_idx.toNat _ = _
      rw [a12]
    · rw [if_pos hres]
      show _ :: DiskCall.os_disk_write ((s1.process_holder s1.ref_idx.toNat : Int) + 1) _ _
        :: s1.disk = _
      rw [a10, a12]; rfl
  · rw [if_neg hres]
    refine ⟨_, trivial, rfl, a9, rfl, a14, ?_, ?_, a13, a15, rfl, ?_⟩
    · show Function.update s1.shadow_pg_tbl s1.ref_idx.toNat _ = _
      rw [a11]
    · show Function.update s1.process_holder s1.ref_idx.toNat _ = _
      rw [a12]
    · rw [if_neg hres]
      show DiskCall.os_disk_write ((s1.process_holder s1.ref_idx.toNat : Int) + 1) _ _
        :: s1.disk = _
      rw [a10, a12]; rfl

/-- A page below 1024 of an allocated page table can be read. -/
theorem pte_read_of_lt (s : Storage) (table : Nat) (page : Int) (ht : table < s.page_tables.length)
    (hp0 : 0 ≤ page) (hp : page < 1024) :
    ∃ entry, pte_read s ⟨table, page.toNat⟩ = some entry := by
  unfold pte_read
  have : page.toNat < 1024 := by omega
  simp [this, List.get?_eq_getElem?, List.getElem?_eq_getElem ht]

/-- What `map_page` needs to return: the page lies in the page table. -/
theorem map_page_ok_inv (s s' : Storage) (table : Nat) (disk_id page : Int)
    (h : map_page s table disk_id page = .ok s') :
    0 ≤ page ∧ page < 1024 ∧ ∃ entry, pte_read s ⟨table, page.toNat⟩ = some entry := by
  unfold map_page at h
  split at h
  · cases h
  · rename_i hr
    dsimp only at h
    split at h
    · cases h
    · rename_i entry hentry
      exact ⟨by omega, by omega, entry, hentry⟩

/-- Mapping a page keeps `ref_idx` at -1 or at an odd number below 64. -/
theorem map_page_ref_idx (n : Nat) (s s' : Storage) (table : Nat) (disk_id page : Int)
    (h : FrameInv n s) (hodd : ref_idx_odd s)
    (hres : map_page s table disk_id page = .ok s') : ref_idx_odd s' := by
  obtain ⟨hp0, hp, entry, hentry⟩ := map_page_ok_inv s s' table disk_id page hres
  by_cases hn : n < PHYS_MEM_PGS
  · obtain ⟨s2, hm, -, -, -, -, -, -, -, href, -⟩ :=
      map_page_pool n s table disk_id page entry h hn hp0 hp hentry
    rw [hm] at hres
    cases hres
    unfold ref_idx_odd
    rw [href]
    exact hodd
  · have hn64 : n = PHYS_MEM_PGS := by
      have := h.count
      omega
    subst hn64
    obtain ⟨s1, victim, ve, s2, hscan, hm, -, -, -, -, -, -, -, href, -⟩ :=
      map_page_victim s table disk_id page entry h hodd hp0 hp hentry
    rw [hm] at hres
    cases hres
    obtain ⟨a1, a2, a3, -⟩ := victim_scan_result 33 s s1 victim ve hodd hscan
    exact Or.inr ⟨by rw [href]; exact a1, by rw [href]; exact a2, by rw [href]; exact a3⟩

theorem allocate_page_table_ref_idx (s s1 : Storage) (pid disk_id : Int) (table : Nat)
    (h : allocate_page_table s pid disk_id = .ok (s1, table)) : s1.ref_idx = s.ref_idx := by
  unfold allocate_page_table at h
  split at h
  · cases h; rfl
  · dsimp only at h
    split at h
    · cases h
    · cases h; rfl

/-- The first fault of a process with a pid below 10 allocates its page table; later faults
find it. -/
theorem allocate_page_table_ok (s : Storage) (pid : Int) (hp0 : 0 ≤ pid) (hp10 : pid < 10) :
    ∃ s1 table, allocate_page_table s pid (pid + 1) = .ok (s1, table) := by
  unfold allocate_page_table
  cases hz : s.Z502_PAGE_TBL_ADDR pid with
  | some t => exact ⟨_, _, rfl⟩
  | none =>
    dsimp only
    rw [if_neg (by omega)]
    exact ⟨_, _, rfl⟩

/-- A page fault that `frame_scheduler` handles keeps `ref_idx` at -1 or at an odd number
below 64. -/
theorem frame_scheduler_ref_idx (n : Nat) (k : Kernel) (s s' : Storage) (status reg3 : Int)
    (h : FrameInv n s) (hodd : ref_idx_odd s)
    (hres : frame_scheduler k s status reg3 = .ok s') : ref_idx_odd s' := by
  unfold frame_scheduler at hres
  split at hres
  · cases hres
  · rename_i cur hcur
    dsimp only at hres
    split at hres
    · cases hres
    · rename_i s1 table halloc
      obtain ⟨hinv1, hreg1, hp0, hp10⟩ :=
        allocate_page_table_inv n s s1 _ table h halloc
      have hodd1 : ref_idx_odd s1 := by
        unfold ref_idx_odd
        rw [allocate_page_table_ref_idx s s1 _ _ table halloc]
        exact hodd
      have hreg1' : s1.Z502_PAGE_TBL_ADDR ((deref k.heap cur).pid + 1 - 1) = some table := by
        rw [Int.add_sub_cancel]; exact hreg1
      split at hres
      · cases hres
      · split at hres
        · cases hres
        · rename_i entry hentry
          split at hres
          · cases hres
          · rename_i s2 hfirst
            have hinv2 : (∃ n2, FrameInv n2 s2) ∧ ref_idx_odd s2 ∧
                s2.Z502_PAGE_TBL_ADDR = s1.Z502_PAGE_TBL_ADDR := by
              split at hfirst
              · rename_i hinvalid
                have := map_page_inv n s1 s2 table _ status hinv1 (by omega) (by omega) hreg1'
                  (fun e he => by rw [hentry] at he; cases he; exact hinvalid) hfirst
                exact ⟨this.1, map_page_ref_idx n s1 s2 table _ status hinv1 hodd1 hfirst,
                  this.2⟩
              · simp only [Except.ok.injEq] at hfirst
                subst hfirst
                exact ⟨⟨n, hinv1⟩, hodd1, rfl⟩
            obtain ⟨⟨n2, hinv2⟩, hodd2, hz2⟩ := hinv2
            split at hres
            · cases hres
            · split at hres
              · cases hres
              · rename_i next hnext
                split at hres
                · exact map_page_ref_idx n2 s2 s' table _ (status + 1) hinv2 hodd2 hres
                · simp only [Except.ok.injEq] at hres
                  subst hres
                  exact hodd2

/-- In every state of the frame storage that is reached `ref_idx` is -1 or an odd number
below 64. -/
theorem reachable_ref_idx_odd (s : Storage) (h : FaultReachable s) : ref_idx_odd s := by
  induction h with
  | init => exact Or.inl rfl
  | fault k s s' status reg3 hs hres ih =>
    obtain ⟨n, hn⟩ := reachable_FrameInv s hs
    exact frame_scheduler_ref_idx n k s s' status reg3 hn ih hres
  | access s p entry modified hs hread hvalid ih => exact ih

/-- The page fault handling returns for every page from 0 to 1022 and every process with a
pid below 10, in a state that the invariant describes, and keeps the invariant. -/
theorem frame_scheduler_returns (n : Nat) (k : Kernel) (s : Storage) (status reg3 : Int)
    (cur : Nat) (h : FrameInv n s) (hodd : ref_idx_odd s) (hcur : k.CurrentPCB = some cur)
    (hp0 : 0 ≤ (deref k.heap cur).pid) (hp10 : (deref k.heap cur).pid < 10)
    (hs0 : 0 ≤ status) (hs : status < 1023) :
    ∃ s', frame_scheduler k s status reg3 = .ok s' := by
  obtain ⟨s1, table, halloc⟩ := allocate_page_table_ok s _ hp0 hp10
  obtain ⟨hinv1, hreg1, -, -⟩ := allocate_page_table_inv n s s1 _ table h halloc
  have hodd1 : ref_idx_odd s1 := by
    unfold ref_idx_odd
    rw [allocate_page_table_ref_idx s s1 _ _ table halloc]
    exact hodd
  have hreg1' : s1.Z502_PAGE_TBL_ADDR ((deref k.heap cur).pid + 1 - 1) = some table := by
    rw [Int.add_sub_cancel]; exact hreg1
  obtain ⟨entry, hentry⟩ := pte_read_of_lt s1 table status (hinv1.tables _ _ hreg1).1 hs0
    (by omega)
  have hmap : ∀ (m : Nat) (t : Storage) (page : Int), FrameInv m t → ref_idx_odd t →
      0 ≤ page → page < 1024 → t.Z502_PAGE_TBL_ADDR (deref k.heap cur).pid = some table →
      ∃ t', map_page t table ((deref k.heap cur).pid + 1) page = .ok t' := by
    intro m t page hm ho h0 h1 hz
    obtain ⟨e, he⟩ := pte_read_of_lt t table page (hm.tables _ _ hz).1 h0 h1
    by_cases hlt : m < PHYS_MEM_PGS
    · obtain ⟨t', ht', -⟩ := map_page_pool m t table _ page e hm hlt h0 h1 he
      exact ⟨t', ht'⟩
    · have hm64 : m = PHYS_MEM_PGS := by
        have := hm.count
        omega
      subst hm64
      obtain ⟨-, -, -, t', -, ht', -⟩ := map_page_victim t table _ page e hm ho h0 h1 he
      exact ⟨t', ht'⟩
  have hfirst : ∃ s2, (if entry &&& PTBL_VALID_BIT = 0 then
        map_page s1 table ((deref k.heap cur).pid + 1) status
      else .ok s1) = .ok s2 ∧ (∃ n2, FrameInv n2 s2) ∧ ref_idx_odd s2 ∧
      s2.Z502_PAGE_TBL_ADDR = s1.Z502_PAGE_TBL_ADDR := by
    by_cases hv : entry &&& PTBL_VALID_BIT = 0
    · rw [if_pos hv]
      obtain ⟨s2, hs2⟩ := hmap n s1 status hinv1 hodd1 hs0 (by omega) hreg1
      have := map_page_inv n s1 s2 table _ status hinv1 (by omega) (by omega) hreg1'
        (fun e he => by rw [hentry] at he; cases he; exact hv) hs2
      exact ⟨s2, hs2, this.1, map_page_ref_idx n s1 s2 table _ status hinv1 hodd1 hs2, this.2⟩
    · rw [if_neg hv]
      exact ⟨s1, rfl, ⟨n, hinv1⟩, hodd1, rfl⟩
  obtain ⟨s2, hs2, ⟨n2, hinv2⟩, hodd2, hz2⟩ := hfirst
  have hreg2 : s2.Z502_PAGE_TBL_ADDR (deref k.heap cur).pid = some table := by
    rw [hz2]; exact hreg1
  obtain ⟨next, hnext⟩ := pte_read_of_lt s2 table (status + 1) (hinv2.tables _ _ hreg2).1
    (by omega) (by omega)
  unfold frame_scheduler
  simp only [hcur, halloc]
  rw [if_neg (by omega)]
  simp only [hentry, hs2]
  rw [if_neg (by omega)]
  simp only [hnext]
  split
  · exact hmap n2 s2 (status + 1) hinv2 hodd2 (by omega) (by omega) hreg2
  · exact ⟨s2, rfl⟩

/-! ### C40, C39: the scan for a victim ends and stays inside the shadow table -/

/-- An empty frame queue means that all 64 frames are taken. -/
theorem FrameInv_pool_empty (n : Nat) (s : Storage) (h : FrameInv n s) :
    s.FrameQueue = [] ↔ n = PHYS_MEM_PGS := by
  have h64 : PHYS_MEM_PGS = 64 := rfl
  have hc := h.count
  rw [h.pool]
  constructor
  · intro hq
    have := congrArg List.length hq
    simp at this
    omega
  · intro hn
    subst hn
    simp

/-- C40: the victim selection ends within 33 rounds, from every state whose `ref_idx` is -1
or an odd number below 64 (every state that is reached, see `reachable_ref_idx_odd`). At
most 32 shadow slots, the odd ones, are inspected; each round clears the REFERENCED bit of
the entry it inspects or returns it as the victim, so that the scan with 33 rounds returns a
victim unless it came to a slot that is NULL (or does not point into a page table), and does
return one when all odd slots are filled. The victim's entry has the REFERENCED bit clear,
and the scan has changed REFERENCED bits only. -/
theorem victim_scan_terminates (s : Storage) (hodd : ref_idx_odd s) :
    referenced_odd_slots s ≤ 32 ∧
    ((∃ s' victim victim_entry, victim_scan 33 s = .ok (s', victim, victim_entry)) ∨
      (¬ odd_slots_filled s ∧ ∃ s', victim_scan 33 s = .error (Stop.undefined, s'))) ∧
    (∀ s', victim_scan 33 s ≠ .error (Stop.endless, s')) ∧
    (odd_slots_filled s →
      ∃ s' victim victim_entry, victim_scan 33 s = .ok (s', victim, victim_entry) ∧
        s'.shadow_pg_tbl s'.ref_idx.toNat = some victim ∧
        pte_read s' victim = some victim_entry ∧
        victim_entry &&& PTBL_REFERENCED_BIT = 0 ∧
        ∀ q, pte_read s' q = pte_read s q ∨
          ∃ e0, pte_read s q = some e0 ∧ e0 &&& PTBL_REFERENCED_BIT ≠ 0 ∧
            pte_read s' q = some (e0 &&& (65535 - PTBL_REFERENCED_BIT))) := by
  have hc := referenced_odd_slots_le s
  have hends := victim_scan_ends 33 s hodd (by omega)
  refine ⟨hc, hends, ?_, ?_⟩
  · intro s' he
    rcases hends with ⟨s1, v, e, hok⟩ | ⟨-, s1, herr⟩
    · rw [hok] at he
      cases he
    · rw [herr] at he
      cases he
  · intro hfill
    rcases hends with ⟨s1, v, e, hok⟩ | ⟨hnf, -⟩
    · obtain ⟨-, -, -, a4, a5, a6, a7, -⟩ := victim_scan_result 33 s s1 v e hodd hok
      exact ⟨s1, v, e, hok, a4, a5, a6, a7⟩
    · exact absurd hfill hnf

theorem run_faults_pool_empty :
    run_faults boot_kernel ((List.range 64).map (fun i : Nat => ((i : Int), (0 : Int))))
      (init_storage zero_storage) = .ok pool_empty_storage := by
  set_option maxRecDepth 1000000 in rfl

theorem pool_empty_storage_reachable : FaultReachable pool_empty_storage :=
  run_faults_reachable boot_kernel _ _ _ FaultReachable.init run_faults_pool_empty

theorem access_page_reachable (s : Storage) (page : Nat) (h : FaultReachable s)
    (hv : ∀ e, pte_read s ⟨0, page⟩ = some e → e &&& PTBL_VALID_BIT ≠ 0) :
    FaultReachable (access_page s page) := by
  unfold access_page
  cases he : pte_read s ⟨0, page⟩ with
  | none => exact h
  | some e => exact FaultReachable.access s ⟨0, page⟩ e false h he (hv e he)

set_option maxRecDepth 1000000 in
/-- C40, at an instance: the pages 0 to 63 hold the 64 frames and every entry has the
REFERENCED bit set. The scan started with `ref_idx` -1 inspects the slots 1, 3, .., 63,
clears the 32 bits, and returns the entry of slot 1 (page 1, frame 1) in round 33; with 32
rounds it has not ended. -/
theorem victim_scan_terminates_witness :
    ref_idx_odd all_referenced_storage ∧ referenced_odd_slots all_referenced_storage = 32 ∧
    referenced_odd_slots all_referenced_storage ≤ 32 ∧
    (victim_scan 33 all_referenced_storage).toOption.map
      (fun r => (r.1.ref_idx, r.2.1, r.2.2, referenced_odd_slots r.1)) =
      some (1, ⟨0, 1⟩, 32769, 0) ∧
    (victim_scan 32 all_referenced_storage).toOption.map (fun r => r.2) = none :=
  ⟨Or.inl (by rfl), by rfl,
    (victim_scan_terminates all_referenced_storage (Or.inl (by rfl))).1, by rfl, by rfl⟩

/-- C39: in every state reached from `init_storage` by page faults, `ref_idx` is -1 or an odd
number below 64. While the frame queue holds a frame, `map_page` does not scan: `ref_idx` and
every entry but the one of the page stay as they are. When the frame queue is empty all 64
shadow slots are filled, and the scan returns a victim: no round has come to an index
outside the shadow table or to a slot that is NULL; the index it ends at is an odd number
below 64. -/
theorem scan_stays_in_shadow_table (s : Storage) (h : FaultReachable s) :
    ref_idx_odd s ∧
    (s.FrameQueue ≠ [] → ∀ table disk_id page s', map_page s table disk_id page = .ok s' →
      s'.ref_idx = s.ref_idx ∧
      ∀ q, q ≠ ⟨table, page.toNat⟩ → pte_read s' q = pte_read s q) ∧
    (s.FrameQueue = [] →
      (∀ i, i < 64 → ∃ p entry, s.shadow_pg_tbl i = some p ∧ pte_read s p = some entry) ∧
      ∃ s' victim victim_entry, victim_scan 33 s = .ok (s', victim, victim_entry) ∧
        0 ≤ s'.ref_idx ∧ s'.ref_idx < 64 ∧ s'.ref_idx % 2 = 1 ∧
        s'.shadow_pg_tbl s'.ref_idx.toNat = some victim ∧
        pte_read s' victim = some victim_entry) := by
  obtain ⟨n, hinv⟩ := reachable_FrameInv s h
  have hodd := reachable_ref_idx_odd s h
  have h64 : PHYS_MEM_PGS = 64 := rfl
  refine ⟨hodd, ?_, ?_⟩
  · intro hne table disk_id page s' hres
    have hn : n < PHYS_MEM_PGS := by
      have hc := hinv.count
      have := (FrameInv_pool_empty n s hinv).not.mp hne
      omega
    obtain ⟨hp0, hp, entry, hentry⟩ := map_page_ok_inv s s' table disk_id page hres
    obtain ⟨s2, hm, -, hpt, -, -, -, -, -, href, -⟩ :=
      map_page_pool n s table disk_id page entry hinv hn hp0 hp hentry
    rw [hm] at hres
    have heq : s2 = s' := by
      simp only [Except.ok.injEq] at hres
      exact hres
    rw [← heq]
    refine ⟨href, ?_⟩
    intro q hq
    rw [pte_read_of_tables _ s2 hpt, pte_read_write s _ q entry _ hentry, if_neg hq]
  · intro hq
    have hn : n = PHYS_MEM_PGS := (FrameInv_pool_empty n s hinv).mp hq
    subst hn
    constructor
    · intro i hi
      obtain ⟨p, hp, ⟨e, he, -, -⟩, -⟩ := hinv.slot i (by omega)
      exact ⟨p, e, hp, he⟩
    · obtain ⟨s1, v, e, hok⟩ := victim_scan_finds s hinv hodd
      obtain ⟨a1, a2, a3, a4, a5, -⟩ := victim_scan_result 33 s s1 v e hodd hok
      exact ⟨s1, v, e, hok, a1, a2, a3, a4, a5⟩

set_option maxRecDepth 1000000 in
/-- C39, at an instance: after the faults on the pages 0 to 64 the frame queue is empty and
`ref_idx` is 1, the slot of the first victim. The next scan ends at the slot 3, which points
to the entry of page 3 (frame 3, valid). -/
theorem scan_stays_in_shadow_table_witness :
    FaultReachable replaced_storage ∧ replaced_storage.FrameQueue = [] ∧
    replaced_storage.ref_idx = 1 ∧ ref_idx_odd replaced_storage ∧
    (victim_scan 33 replaced_storage).toOption.map (fun r => (r.1.ref_idx, r.2.1, r.2.2)) =
      some (3, ⟨0, 3⟩, 32771) :=
  ⟨replaced_storage_reachable, by rfl, by rfl,
    (scan_stays_in_shadow_table replaced_storage replaced_storage_reachable).1, by rfl⟩

/-! ### C38: the look-ahead at the page after the faulting page -/

/-- No fault on the page 1023 is handled to its end: the look-ahead reads the entry 1024,
past the page table. -/
theorem frame_scheduler_last_page (k : Kernel) (s s' : Storage) (reg3 : Int) :
    frame_scheduler k s 1023 reg3 ≠ .ok s' := by
  intro h
  unfold frame_scheduler at h
  split at h
  · cases h
  · dsimp only at h
    split at h
    · cases h
    · split at h
      · cases h
      · split at h
        · cases h
        · split at h
          · cases h
          · split at h
            · cases h
            · rename_i hlast
              omega

set_option maxRecDepth 1000000 in
/-- C38, the code at the failing input: the initial process faults on the page 1023, its
first fault, with offset 0. The fault handler does not halt (1023 is below 1024) and
`frame_scheduler` gives the page the frame 0; then it reads the entry of the page 1024 of
the page table of 1024 entries, whatever the offset is. The same happens when the page 1023
is resident already (fault with the storage the first fault left). -/
theorem lookahead_reads_past_page_table :
    fault_handler boot_kernel (init_storage zero_storage) 1023 0 =
      frame_scheduler boot_kernel (init_storage zero_storage) 1023 0 ∧
    (match frame_scheduler boot_kernel (init_storage zero_storage) 1023 0 with
      | .ok _ => none
      | .error e => some (e.1, pte_read e.2 ⟨0, 1023⟩, e.2.FrameQueue.length)) =
      some (Stop.undefined, some 32768, 63) ∧
    (match frame_scheduler boot_kernel (init_storage zero_storage) 1023 0 with
      | .ok _ => none
      | .error e =>
        match frame_scheduler boot_kernel e.2 1023 0 with
        | .ok _ => none
        | .error e2 => some (e2.1, pte_read e2.2 ⟨0, 1023⟩, e2.2.FrameQueue.length)) =
      some (Stop.undefined, some 32768, 63) ∧
    (frame_scheduler boot_kernel (init_storage zero_storage) 1022 15).toOption.map
      (fun r => (pte_read r ⟨0, 1022⟩, pte_read r ⟨0, 1023⟩)) =
      some (some 32768, some 32769) :=
  ⟨by rfl, by rfl, by rfl, by rfl⟩

/-! ### C32: the order in which the scan visits the shadow slots -/

set_option maxRecDepth 1000000 in
/-- C32, the code at the failing input. In `pool_empty_storage` the frame queue is empty,
no victim has been chosen (`ref_idx` is -1) and no entry has the REFERENCED bit set: the
first slot in the order 0, 1, 2, .. is the slot 0 (page 0). The scan returns the slot 1,
the entry of page 1. After that replacement (`replaced_storage`, `ref_idx` 1) the slot 2
(page 2) has the REFERENCED bit clear, and the scan returns the slot 3. With all REFERENCED
bits set (`all_referenced_storage`) the scan clears the bits of the 32 odd slots and leaves
the bits of the slots 0 and 2 set. -/
theorem victim_scan_skips_even_slots :
    pool_empty_storage.FrameQueue = [] ∧ pool_empty_storage.ref_idx = -1 ∧
    pool_empty_storage.shadow_pg_tbl 0 = some ⟨0, 0⟩ ∧
    pte_read pool_empty_storage ⟨0, 0⟩ = some 32768 ∧
    32768 &&& PTBL_REFERENCED_BIT = 0 ∧
    (victim_scan 33 pool_empty_storage).toOption.map (fun r => (r.1.ref_idx, r.2.1, r.2.2)) =
      some (1, ⟨0, 1⟩, 32769) ∧
    replaced_storage.ref_idx = 1 ∧ replaced_storage.shadow_pg_tbl 2 = some ⟨0, 2⟩ ∧
    pte_read replaced_storage ⟨0, 2⟩ = some 32770 ∧ 32770 &&& PTBL_REFERENCED_BIT = 0 ∧
    (victim_scan 33 replaced_storage).toOption.map (fun r => (r.1.ref_idx, r.2.1, r.2.2)) =
      some (3, ⟨0, 3⟩, 32771) ∧
    (victim_scan 33 all_referenced_storage).toOption.map
      (fun r => (r.1.ref_idx, slot_referenced r.1 0, slot_referenced r.1 1,
        slot_referenced r.1 2, slot_referenced r.1 3, slot_referenced r.1 63)) =
      some (1, true, false, true, false, false) :=
  ⟨by rfl, by rfl, by rfl, by rfl, by decide, by rfl, by rfl, by rfl, by rfl, by decide,
    by rfl, by rfl⟩

/-! ### C33: what a replacement does -/

/-- The entry of a victim has the RESERVED bit set. -/
theorem entry_victim_reserved (e : Nat) :
    ((e ||| PTBL_RESERVED_BIT) &&& (65535 - PTBL_VALID_BIT)) &&& PTBL_RESERVED_BIT ≠ 0 := by
  intro h
  have h1 : (((e ||| PTBL_RESERVED_BIT) &&& (65535 - PTBL_VALID_BIT)) &&&
      PTBL_RESERVED_BIT).testBit 12 = true := by
    rw [Nat.testBit_and, Nat.testBit_and, Nat.testBit_or]
    have a : PTBL_RESERVED_BIT.testBit 12 = true := by decide
    have b : (65535 - PTBL_VALID_BIT).testBit 12 = true := by decide
    simp [a, b]
  rw [h] at h1
  simp at h1

/-- A fault on a page that is not resident, of a process that has its page table, with an
offset that does not reach into the last three words of the page, maps that page and no
other. -/
theorem frame_scheduler_single (k : Kernel) (s s2 : Storage) (status reg3 : Int)
    (cur table entry : Nat) (hcur : k.CurrentPCB = some cur)
    (hreg : s.Z502_PAGE_TBL_ADDR (deref k.heap cur).pid = some table)
    (hs0 : 0 ≤ status) (hs : status < 1023)
    (hentry : pte_read s ⟨table, status.toNat⟩ = some entry)
    (hinvalid : entry &&& PTBL_VALID_BIT = 0)
    (hoff : to_int16 (Int.tmod reg3 PGSIZE) ≤ PGSIZE - 4)
    (hmap : map_page s table ((deref k.heap cur).pid + 1) status = .ok s2)
    (hnext : ∃ next, pte_read s2 ⟨table, (status + 1).toNat⟩ = some next) :
    frame_scheduler k s status reg3 = .ok s2 := by
  obtain ⟨next, hnext⟩ := hnext
  have halloc : allocate_page_table s (deref k.heap cur).pid ((deref k.heap cur).pid + 1) =
      .ok (s, table) := by
    unfold allocate_page_table
    simp only [hreg]
  unfold frame_scheduler
  simp only [hcur, halloc]
  rw [if_neg (by omega)]
  simp only [hentry, hinvalid, if_true, hmap]
  rw [if_neg (by omega)]
  simp only [hnext]
  rw [if_neg]
  intro hc
  have := hc.2
  omega

/-- C33: a page fault in a state that is reached from `init_storage`, with the frame queue
empty, on the page `page` of the page table `table` of the process with the pid
`disk_id - 1`, whose entry is not valid. The scan returns a victim (`s1` is the state
after the scan, the victim's shadow slot is `ref_idx` of that state), and afterwards the
victim's entry has the RESERVED bit set and the VALID bit clear, the entry of the page is
the victim's frame number with the VALID bit, the victim's shadow slot points to the entry
of the page and `process_holder` of the slot names the faulting process. A write of the
victim's frame was requested, to the disk owner + 1, at the sector that is the index of the
victim's entry in the page table of its owner; for a RESERVED page the read of the page
follows. A fault with an offset up to PGSIZE - 4 does this and no more. -/
theorem replacement_effects (s : Storage) (h : FaultReachable s) (hq : s.FrameQueue = [])
    (table : Nat) (disk_id page : Int) (entry : Nat) (hp0 : 0 ≤ page) (hp : page < 1024)
    (hd0 : 0 ≤ disk_id - 1) (hd10 : disk_id - 1 < 10)
    (hreg : s.Z502_PAGE_TBL_ADDR (disk_id - 1) = some table)
    (hentry : pte_read s ⟨table, page.toNat⟩ = some entry)
    (hinvalid : entry &&& PTBL_VALID_BIT = 0) :
    ∃ s1 victim victim_entry s', victim_scan 33 s = .ok (s1, victim, victim_entry) ∧
      map_page s table disk_id page = .ok s' ∧
      s.shadow_pg_tbl s1.ref_idx.toNat = some victim ∧
      victim_entry &&& PTBL_VALID_BIT ≠ 0 ∧
      victim_entry &&& PTBL_FRAME_BITS = s1.ref_idx.toNat ∧
      s.Z502_PAGE_TBL_ADDR ((s.process_holder s1.ref_idx.toNat : Nat) : Int) =
        some victim.table ∧
      pte_read s' victim =
        some ((victim_entry ||| PTBL_RESERVED_BIT) &&& (65535 - PTBL_VALID_BIT)) ∧
      ((victim_entry ||| PTBL_RESERVED_BIT) &&& (65535 - PTBL_VALID_BIT)) &&&
        PTBL_RESERVED_BIT ≠ 0 ∧
      ((victim_entry ||| PTBL_RESERVED_BIT) &&& (65535 - PTBL_VALID_BIT)) &&&
        PTBL_VALID_BIT = 0 ∧
      pte_read s' ⟨table, page.toNat⟩ =
        some ((victim_entry &&& PTBL_FRAME_BITS) ||| PTBL_VALID_BIT) ∧
      s'.shadow_pg_tbl s1.ref_idx.toNat = some ⟨table, page.toNat⟩ ∧
      ((s'.process_holder s1.ref_idx.toNat : Nat) : Int) = disk_id - 1 ∧
      s'.disk =
        (if entry &&& PTBL_RESERVED_BIT ≠ 0 then
          [DiskCall.os_disk_read disk_id page
            (((victim_entry &&& PTBL_FRAME_BITS : Nat) : Int) * PGSIZE)]
        else []) ++
        DiskCall.os_disk_write ((s.process_holder s1.ref_idx.toNat : Int) + 1) victim.index
          (((victim_entry &&& PTBL_FRAME_BITS : Nat) : Int) * PGSIZE) :: s.disk ∧
      (∀ (k : Kernel) (cur : Nat) (reg3 : Int), k.CurrentPCB = some cur →
        (deref k.heap cur).pid + 1 = disk_id → page < 1023 →
        to_int16 (Int.tmod reg3 PGSIZE) ≤ PGSIZE - 4 →
        frame_scheduler k s page reg3 = .ok s') := by
  have h64 : PHYS_MEM_PGS = 64 := rfl
  obtain ⟨n, hinv⟩ := reachable_FrameInv s h
  have hn : n = PHYS_MEM_PGS := (FrameInv_pool_empty n s hinv).mp hq
  subst hn
  have hodd := reachable_ref_idx_odd s h
  obtain ⟨s1, victim, ve, s', hscan, hm, f1, f2, f3, f4, f5, f6, f7, f8, f9⟩ :=
    map_page_victim s table disk_id page entry hinv hodd hp0 hp hentry
  obtain ⟨a1, a2, a3, a4, a5, a6, a7, a8, a9, a10, a11, a12, a13, a14, a15⟩ :=
    victim_scan_result 33 s s1 victim ve hodd hscan
  obtain ⟨b1, b2, b3, b4, b5, b6, b7, b8, b9, b10, b11, b12, b13, b14⟩ :=
    victim_scan_spec PHYS_MEM_PGS 33 s s1 victim ve hinv hscan
  have hr : s1.ref_idx.toNat < PHYS_MEM_PGS := by omega
  obtain ⟨p, c1, c2, c3, c4, c5⟩ := b1.slot s1.ref_idx.toNat hr
  rw [a4] at c1
  cases c1
  obtain ⟨e, he, hev, hef⟩ := c2
  rw [a5] at he
  cases he
  have hentry1 : ∃ entry1, pte_read s1 ⟨table, page.toNat⟩ = some entry1 ∧
      entry1 &&& PTBL_VALID_BIT = 0 := by
    rcases a7 ⟨table, page.toNat⟩ with e | ⟨e0, he0, -, hs1⟩
    · exact ⟨entry, by rw [e, hentry], hinvalid⟩
    · rw [hentry] at he0
      cases he0
      refine ⟨_, hs1, ?_⟩
      rw [(entry_clear_referenced entry).1]
      exact hinvalid
  obtain ⟨entry1, hentry1, hinv1⟩ := hentry1
  have hne : (⟨table, page.toNat⟩ : PtePtr) ≠ victim := by
    intro hh
    rw [← hh, hentry1] at a5
    cases a5
    exact hev hinv1
  have hread1 : ∀ q, pte_read (pte_write s1 victim
      ((ve ||| PTBL_RESERVED_BIT) &&& (65535 - PTBL_VALID_BIT))) q =
      if q = victim then some ((ve ||| PTBL_RESERVED_BIT) &&& (65535 - PTBL_VALID_BIT))
      else pte_read s1 q := fun q => pte_read_write s1 victim q ve _ a5
  have hread' : ∀ q, pte_read s' q =
      if q = ⟨table, page.toNat⟩ then some ((ve &&& PTBL_FRAME_BITS) ||| PTBL_VALID_BIT)
      else if q = victim then
        some ((ve ||| PTBL_RESERVED_BIT) &&& (65535 - PTBL_VALID_BIT))
      else pte_read s1 q := by
    intro q
    rw [pte_read_of_tables _ s' f2, pte_read_write _ ⟨table, page.toNat⟩ q entry1 _
      (by rw [hread1, if_neg hne]; exact hentry1), hread1]
  have hpidn : to_uint16 (disk_id - 1) = (disk_id - 1).toNat := by
    unfold to_uint16
    rw [Int.emod_eq_of_lt (by omega) (by omega)]
  refine ⟨s1, victim, ve, s', hscan, hm, by rw [← a11]; exact a4, hev, hef,
    by rw [← a12, ← a14]; exact c5, ?_, entry_victim_reserved ve, entry_victim_marked ve, ?_,
    ?_, ?_, f9, ?_⟩
  · rw [hread', if_neg (Ne.symm hne), if_pos rfl]
  · rw [hread', if_pos rfl]
  · rw [f4, Function.update_same]
  · rw [f5, Function.update_same, hpidn]
    exact Int.toNat_of_nonneg hd0
  · intro k cur reg3 hcur hpid hlt hoff
    have hpid' : (deref k.heap cur).pid = disk_id - 1 := by omega
    have hinv' : ∃ n', FrameInv n' s' := (map_page_inv PHYS_MEM_PGS s s' table disk_id page
      hinv hd0 hd10 hreg (fun e he => by rw [hentry] at he; cases he; exact hinvalid) hm).1
    obtain ⟨n', hinv'⟩ := hinv'
    have hreg' : s'.Z502_PAGE_TBL_ADDR (disk_id - 1) = some table := by rw [f3]; exact hreg
    refine frame_scheduler_single k s s' page reg3 cur table entry hcur
      (by rw [hpid']; exact hreg) hp0 hlt hentry hinvalid hoff (by rw [hpid]; exact hm) ?_
    exact pte_read_of_lt s' table (page + 1) (hinv'.tables _ _ hreg').1 (by omega) (by omega)

set_option maxRecDepth 1000000 in
/-- C33, at an instance: with the pages 0 to 63 in the 64 frames the initial process faults
on the page 64. The victim is the page 1 in the frame 1: its entry becomes 4097 (RESERVED
set, VALID clear, frame 1), the entry of the page 64 becomes 32769 (frame 1, VALID), the
shadow slot 1 points to the entry of the page 64 of the process 0, and the one disk call is
the write to disk 1, sector 1, from the address 16 of the memory, the frame 1. -/
theorem replacement_effects_witness :
    FaultReachable pool_empty_storage ∧ pool_empty_storage.FrameQueue = [] ∧
    pool_empty_storage.Z502_PAGE_TBL_ADDR 0 = some 0 ∧
    pte_read pool_empty_storage ⟨0, 64⟩ = some 0 ∧
    (map_page pool_empty_storage 0 1 64).toOption.isSome = true ∧
    (map_page pool_empty_storage 0 1 64).toOption.map
      (fun r => (pte_read r ⟨0, 1⟩, pte_read r ⟨0, 64⟩, r.shadow_pg_tbl 1, r.process_holder 1,
        r.disk)) =
      some (some 4097, some 32769, some ⟨0, 64⟩, 0, [DiskCall.os_disk_write 1 1 16]) ∧
    frame_scheduler boot_kernel pool_empty_storage 64 1024 =
      map_page pool_empty_storage 0 1 64 := by
  obtain ⟨s1, victim, ve, s', -, hm, -, -, -, -, -, -, -, -, -, -, -, hfs⟩ :=
    replacement_effects pool_empty_storage pool_empty_storage_reachable (by rfl) 0 1 64 0
      (by decide) (by decide) (by decide) (by decide) (by rfl) (by rfl) (by decide)
  refine ⟨pool_empty_storage_reachable, by rfl, by rfl, by rfl, ?_, by rfl, ?_⟩
  · rw [hm]
    rfl
  · rw [hm]
    exact hfs boot_kernel 0 1024 rfl (by decide) (by decide) (by decide)

/-! ### C34: the frames of the frame queue are handed out in order -/

theorem get_frame_number_cons (s : Storage) (x : Int) (rest : List Int)
    (h : s.FrameQueue = x :: rest) :
    get_frame_number_of_removed_frame s = ({ s with FrameQueue := rest }, x) := by
  unfold get_frame_number_of_removed_frame removed_from_frame_queue
  simp [h, list_size, queue_dequeue, list_remove_next]

theorem get_frame_number_nil (s : Storage) (h : s.FrameQueue = []) :
    get_frame_number_of_removed_frame s = (s, -1) := by
  unfold get_frame_number_of_removed_frame removed_from_frame_queue
  simp [h, list_size]

/-- Successive calls of `get_frame_number_of_removed_frame` return the frame numbers of the
frame queue from its head on, and -1 once the queue is empty. -/
theorem frame_numbers_removed_eq :
    ∀ (n : Nat) (s : Storage),
      (frame_numbers_removed n s).1 =
        s.FrameQueue.take n ++ List.replicate (n - s.FrameQueue.length) (-1) := by
  intro n
  induction n with
  | zero => intro s; simp [frame_numbers_removed]
  | succ n ih =>
    intro s
    cases hq : s.FrameQueue with
    | nil =>
      simp only [frame_numbers_removed, get_frame_number_nil s hq, ih, hq, List.take_nil,
        List.length_nil, Nat.sub_zero, List.nil_append]
      rfl
    | cons x rest =>
      simp only [frame_numbers_removed, get_frame_number_cons s x rest hq, ih,
        List.take_succ_cons, List.length_cons, Nat.add_sub_add_right, List.cons_append]

/-- The number of frames taken is determined by the frame queue. -/
theorem FrameInv_unique (a b : Nat) (s : Storage) (ha : FrameInv a s) (hb : FrameInv b s) :
    a = b := by
  have h64 : PHYS_MEM_PGS = 64 := rfl
  have h1 := ha.pool
  rw [hb.pool] at h1
  have := congrArg List.length h1
  simp at this
  have := ha.count
  have := hb.count
  omega

/-- The allocation of a page table: either the process has one, or a new page table of
zeroes is appended and entered for the process. -/
theorem allocate_page_table_cases (s s1 : Storage) (pid : Int) (table : Nat)
    (h : allocate_page_table s pid (pid + 1) = .ok (s1, table)) :
    (s1 = s ∧ s.Z502_PAGE_TBL_ADDR pid = some table) ∨
    (s.Z502_PAGE_TBL_ADDR pid = none ∧ table = s.page_tables.length ∧
      s1.Z502_PAGE_TBL_ADDR = Function.update s.Z502_PAGE_TBL_ADDR pid (some table) ∧
      (∀ q : PtePtr, q.table < s.page_tables.length → pte_read s1 q = pte_read s q) ∧
      (∀ i, i < 1024 → pte_read s1 ⟨table, i⟩ = some 0)) := by
  unfold allocate_page_table at h
  split at h
  · rename_i t ht
    simp only [Except.ok.injEq, Prod.mk.injEq] at h
    obtain ⟨h1, h2⟩ := h
    subst h1 h2
    exact Or.inl ⟨rfl, ht⟩
  · rename_i hnone
    dsimp only at h
    split at h
    · cases h
    · simp only [Except.ok.injEq, Prod.mk.injEq] at h
      obtain ⟨h1, h2⟩ := h
      subst h1 h2
      refine Or.inr ⟨hnone, rfl, rfl, ?_, ?_⟩
      · intro q hq
        unfold pte_read
        simp only [List.get?_eq_getElem?]
        rw [List.getElem?_append_left hq]
      · intro i hi
        unfold pte_read
        simp only [List.get?_eq_getElem?, hi, if_true]
        rw [List.getElem?_append_right (le_refl _)]
        simp

/-- The allocation of a page table keeps the description of the pages served. -/
theorem PoolServed_allocate (done : List (Int × Int)) (s s1 : Storage) (pid : Int)
    (table : Nat) (h : PoolServed done s)
    (halloc : allocate_page_table s pid (pid + 1) = .ok (s1, table)) :
    PoolServed done s1 ∧ s1.Z502_PAGE_TBL_ADDR pid = some table := by
  obtain ⟨hinv1, hreg1, -, -⟩ := allocate_page_table_inv done.length s s1 pid table h.inv halloc
  rcases allocate_page_table_cases s s1 pid table halloc with ⟨he, -⟩ | ⟨hnone, ht, hz, hold, hnew⟩
  · subst he
    exact ⟨h, hreg1⟩
  · refine ⟨⟨hinv1, h.pages, ?_, ?_, ?_⟩, hreg1⟩
    · intro i x hx
      obtain ⟨t, hzt, hr⟩ := h.served i x hx
      have hne : x.1 ≠ pid := by
        intro hh
        rw [hh, hnone] at hzt
        cases hzt
      refine ⟨t, by rw [hz, Function.update_noteq hne]; exact hzt, ?_⟩
      rw [hold _ (h.inv.tables _ _ hzt).1]
      exact hr
    · intro pid' t page hzt hp0 hp hnot
      rw [hz] at hzt
      by_cases hpp : pid' = pid
      · subst hpp
        rw [Function.update_same] at hzt
        cases hzt
        exact hnew _ (by omega)
      · rw [Function.update_noteq hpp] at hzt
        rw [hold _ (h.inv.tables _ _ hzt).1]
        exact h.fresh pid' t page hzt hp0 hp hnot
    · intro pid1 pid2 t h1 h2
      rw [hz] at h1 h2
      by_cases hp1 : pid1 = pid
      · by_cases hp2 : pid2 = pid
        · rw [hp1, hp2]
        · subst hp1
          rw [Function.update_same] at h1
          rw [Function.update_noteq hp2] at h2
          cases h1
          have := (h.inv.tables _ _ h2).1
          omega
      · by_cases hp2 : pid2 = pid
        · subst hp2
          rw [Function.update_same] at h2
          rw [Function.update_noteq hp1] at h1
          cases h2
          have := (h.inv.tables _ _ h1).1
          omega
        · rw [Function.update_noteq hp1] at h1
          rw [Function.update_noteq hp2] at h2
          exact h.inj pid1 pid2 t h1 h2

/-- A fault on a page that is not resident, with an offset that does not reach into the last
three words of the page, maps that page and no other; `s1` is the state after the page
table of the process was looked up or allocated. -/
theorem frame_scheduler_one_page (k : Kernel) (s s1 s2 : Storage) (status reg3 : Int)
    (cur table entry : Nat) (hcur : k.CurrentPCB = some cur)
    (halloc : allocate_page_table s (deref k.heap cur).pid ((deref k.heap cur).pid + 1) =
      .ok (s1, table))
    (hs0 : 0 ≤ status) (hs : status < 1023)
    (hentry : pte_read s1 ⟨table, status.toNat⟩ = some entry)
    (hinvalid : entry &&& PTBL_VALID_BIT = 0)
    (hoff : to_int16 (Int.tmod reg3 PGSIZE) ≤ PGSIZE - 4)
    (hmap : map_page s1 table ((deref k.heap cur).pid + 1) status = .ok s2)
    (hnext : ∃ next, pte_read s2 ⟨table, (status + 1).toNat⟩ = some next) :
    frame_scheduler k s status reg3 = .ok s2 := by
  obtain ⟨next, hnext⟩ := hnext
  unfold frame_scheduler
  simp only [hcur, halloc]
  rw [if_neg (by omega)]
  simp only [hentry, hinvalid, if_true, hmap]
  rw [if_neg (by omega)]
  simp only [hnext]
  rw [if_neg]
  intro hc
  have := hc.2
  omega

theorem getElem?_append_singleton {α : Type} (l : List α) (y x : α) (i : Nat)
    (h : (l ++ [y])[i]? = some x) :
    (i < l.length ∧ l[i]? = some x) ∨ (i = l.length ∧ x = y) := by
  by_cases hi : i < l.length
  · rw [List.getElem?_append_left hi] at h
    exact Or.inl ⟨hi, h⟩
  · rw [List.getElem?_append_right (by omega)] at h
    have hi0 : i - l.length = 0 := by
      by_contra hne
      have : (i - l.length) = (i - l.length - 1) + 1 := by omega
      rw [this] at h
      simp at h
    rw [hi0] at h
    simp at h
    exact Or.inr ⟨by omega, h.symm⟩

/-- One fault on a page that no fault has touched, while the frame queue holds a frame and
with an offset up to PGSIZE - 4: the page gets the frame at the head of the queue. -/
theorem frame_scheduler_pool_step (done : List (Int × Int)) (k : Kernel) (s : Storage)
    (status reg3 : Int) (cur : Nat) (h : PoolServed done s) (hlen : done.length < 64)
    (hcur : k.CurrentPCB = some cur)
    (hp0 : 0 ≤ (deref k.heap cur).pid) (hp10 : (deref k.heap cur).pid < 10)
    (hs0 : 0 ≤ status) (hs : status < 1023)
    (hoff : to_int16 (Int.tmod reg3 PGSIZE) ≤ PGSIZE - 4)
    (hnew : ((deref k.heap cur).pid, status) ∉ done) :
    ∃ s', frame_scheduler k s status reg3 = .ok s' ∧
      PoolServed (done ++ [((deref k.heap cur).pid, status)]) s' := by
  have h64 : PHYS_MEM_PGS = 64 := rfl
  obtain ⟨s1, table, halloc⟩ := allocate_page_table_ok s _ hp0 hp10
  obtain ⟨h1, hreg1⟩ := PoolServed_allocate done s s1 _ table h halloc
  have hentry : pte_read s1 ⟨table, status.toNat⟩ = some 0 :=
    h1.fresh _ table status hreg1 hs0 (by omega) hnew
  obtain ⟨s2, hm, f1, f2, f3, f4, f5, f6, f7, f8, f9⟩ :=
    map_page_pool done.length s1 table ((deref k.heap cur).pid + 1) status 0 h1.inv
      (by omega) hs0 (by omega) hentry
  have hreg1' : s1.Z502_PAGE_TBL_ADDR ((deref k.heap cur).pid + 1 - 1) = some table := by
    rw [Int.add_sub_cancel]; exact hreg1
  obtain ⟨⟨n2, hinv2⟩, hz2⟩ := map_page_inv done.length s1 s2 table _ status h1.inv
    (by omega) (by omega) hreg1'
    (fun e he => by rw [hentry] at he; cases he; decide) hm
  have hreg2 : s2.Z502_PAGE_TBL_ADDR (deref k.heap cur).pid = some table := by
    rw [hz2]; exact hreg1
  have hn2 : n2 = done.length + 1 := by
    have hp := hinv2.pool
    rw [f1] at hp
    have := congrArg List.length hp
    simp at this
    have := hinv2.count
    omega
  subst hn2
  have hread : ∀ q, pte_read s2 q =
      if q = ⟨table, status.toNat⟩ then some (done.length ||| PTBL_VALID_BIT)
      else pte_read s1 q := by
    intro q
    rw [pte_read_of_tables _ s2 f2, pte_read_write s1 _ q 0 _ hentry]
  have hother : ∀ pid' t page', s1.Z502_PAGE_TBL_ADDR pid' = some t → 0 ≤ page' →
      (pid', page') ≠ ((deref k.heap cur).pid, status) →
      (⟨t, page'.toNat⟩ : PtePtr) ≠ ⟨table, status.toNat⟩ := by
    intro pid' t page' hz hp' hne hh
    simp only [PtePtr.mk.injEq] at hh
    obtain ⟨ht, hpg⟩ := hh
    subst ht
    have hpid := h1.inj pid' _ t hz hreg1
    apply hne
    have : page' = status := by omega
    rw [hpid, this]
  refine ⟨s2, frame_scheduler_one_page k s s1 s2 status reg3 cur table 0 hcur halloc hs0 hs
    hentry (by decide) hoff hm
    (pte_read_of_lt s2 table (status + 1) (hinv2.tables _ _ hreg2).1 (by omega) (by omega)),
    ⟨by rw [List.length_append]; exact hinv2, ?_, ?_, ?_, ?_⟩⟩
  · intro x hx
    rcases List.mem_append.1 hx with hx | hx
    · exact h1.pages x hx
    · simp only [List.mem_singleton] at hx
      subst hx
      exact ⟨hs0, by omega⟩
  · intro i x hx
    rcases getElem?_append_singleton done _ x i hx with ⟨hi, hx'⟩ | ⟨hi, hx'⟩
    · obtain ⟨t, hzt, hr⟩ := h1.served i x hx'
      have hmem : x ∈ done := List.mem_iff_getElem?.mpr ⟨i, hx'⟩
      have hne : (x.1, x.2) ≠ ((deref k.heap cur).pid, status) := by
        intro hh
        apply hnew
        rw [← hh]
        exact hmem
      refine ⟨t, by rw [hz2]; exact hzt, ?_⟩
      rw [hread, if_neg (hother x.1 t x.2 hzt (h1.pages x hmem).1 hne)]
      exact hr
    · subst hx' hi
      exact ⟨table, hreg2, by rw [hread, if_pos rfl]⟩
  · intro pid' t page' hzt hp0' hp' hnot
    rw [hz2] at hzt
    have hne : (pid', page') ≠ ((deref k.heap cur).pid, status) := by
      intro hh
      apply hnot
      rw [hh]
      simp
    have hnd : (pid', page') ∉ done := fun hm' => hnot (List.mem_append_left _ hm')
    rw [hread, if_neg (hother pid' t page' hzt hp0' hne)]
    exact h1.fresh pid' t page' hzt hp0' hp' hnd
  · intro pid1 pid2 t ha hb
    rw [hz2] at ha hb
    exact h1.inj pid1 pid2 t ha hb

theorem PoolServed_init : PoolServed [] (init_storage zero_storage) := by
  have hz : (init_storage zero_storage).Z502_PAGE_TBL_ADDR = fun _ => none := rfl
  refine ⟨FrameInv_init, fun x hx => (by cases hx), fun i x hx => (by simp at hx), ?_, ?_⟩
  · intro pid table page h
    rw [hz] at h
    cases h
  · intro pid1 pid2 t h
    rw [hz] at h
    cases h

/-- Faults on pages that no fault has touched, each with an offset up to PGSIZE - 4, are
served from the frame queue in their order while it holds frames. -/
theorem handle_faults_pool :
    ∀ (faults : List (Kernel × Int × Int)) (done : List (Int × Int)) (s : Storage),
      PoolServed done s → done.length + faults.length ≤ 64 →
      (∀ f ∈ faults, (∃ cur, f.1.CurrentPCB = some cur) ∧ 0 ≤ faulting_pid f.1 ∧
        faulting_pid f.1 < 10 ∧ 0 ≤ f.2.1 ∧ f.2.1 < 1023 ∧
        to_int16 (Int.tmod f.2.2 PGSIZE) ≤ PGSIZE - 4) →
      (done ++ faults.map (fun f => (faulting_pid f.1, f.2.1))).Nodup →
      ∃ s', handle_faults faults s = .ok s' ∧
        PoolServed (done ++ faults.map (fun f => (faulting_pid f.1, f.2.1))) s' := by
  intro faults
  induction faults with
  | nil =>
    intro done s h _ _ _
    exact ⟨s, rfl, by simpa using h⟩
  | cons f rest ih =>
    intro done s h hlen hok hnd
    obtain ⟨k, status, reg3⟩ := f
    obtain ⟨⟨cur, hcur⟩, hp0, hp10, hs0, hs, hoff⟩ := hok (k, status, reg3)
      (List.mem_cons_self _ _)
    have hpid : faulting_pid k = (deref k.heap cur).pid := by
      unfold faulting_pid
      rw [hcur]
    simp only [List.map_cons] at hnd ⊢
    rw [hpid] at hp0 hp10 hnd ⊢
    have hnew : ((deref k.heap cur).pid, status) ∉ done := by
      intro hm
      have := (List.nodup_append.1 hnd).2.2
      exact this hm (List.mem_cons_self _ _)
    simp only [List.length_cons] at hlen
    obtain ⟨s1, hs1, h1⟩ := frame_scheduler_pool_step done k s status reg3 cur h (by omega)
      hcur hp0 hp10 hs0 hs hoff hnew
    have hnd' : ((done ++ [((deref k.heap cur).pid, status)]) ++
        rest.map (fun f => (faulting_pid f.1, f.2.1))).Nodup := by
      rw [List.append_assoc]
      exact hnd
    obtain ⟨s', hs', h'⟩ := ih (done ++ [((deref k.heap cur).pid, status)]) s1 h1
      (by rw [List.length_append]; simp; omega)
      (fun g hg => hok g (List.mem_cons_of_mem _ hg)) hnd'
    refine ⟨s', ?_, ?_⟩
    · simp only [handle_faults, hs1]
      exact hs'
    · rw [List.append_assoc] at h'
      exact h'

set_option maxRecDepth 1000000 in
/-- C34, as the claim states it, fails when a fault maps the page after the faulting page as
well. The initial process faults on the page 0 with the address 15, in the last three words
of the page: the page 0 gets the frame 0 and the page 1 the frame 1. Its second fault is on
the page 2, which no fault has touched (its entry is 0): it is served with the frame 2, not
with the frame 1. -/
theorem pool_order_lookahead_counterexample :
    (handle_faults [(boot_kernel, 0, 15)] (init_storage zero_storage)).toOption.map
      (fun r => (pte_read r ⟨0, 0⟩, pte_read r ⟨0, 1⟩, pte_read r ⟨0, 2⟩, r.FrameQueue.head?)) =
      some (some 32768, some 32769, some 0, some 2) ∧
    (handle_faults [(boot_kernel, 0, 15), (boot_kernel, 2, 32)]
        (init_storage zero_storage)).toOption.map
      (fun r => (pte_read r ⟨0, 0⟩, pte_read r ⟨0, 1⟩, pte_read r ⟨0, 2⟩, r.FrameQueue.head?)) =
      some (some 32768, some 32769, some 32770, some 3) ∧
    (1 ||| PTBL_VALID_BIT) = 32769 ∧ (2 ||| PTBL_VALID_BIT) = 32770 ∧
    ¬ ((handle_faults [(boot_kernel, 0, 15), (boot_kernel, 2, 32)]
        (init_storage zero_storage)).toOption.map (fun r => pte_read r ⟨0, 2⟩) =
      some (some (1 ||| PTBL_VALID_BIT))) :=
  ⟨by rfl, by rfl, by decide, by decide, by
    have h : (handle_faults [(boot_kernel, 0, 15), (boot_kernel, 2, 32)]
        (init_storage zero_storage)).toOption.map (fun r => pte_read r ⟨0, 2⟩) =
        some (some 32770) := by rfl
    rw [h]
    decide⟩

/-- C34, amended: after `init_storage` the frame queue holds the frame numbers 0 to 63 in
ascending order; `n` successive calls of `get_frame_number_of_removed_frame` return 0, 1, ..
up to 63 and then -1 for every later call. Let at most 64 faults be handled after
`init_storage`, each of a process with a pid below 10, on a page from 0 to 1022, with an
offset up to PGSIZE - 4 (so that the page after it is not mapped with it), no two on the same
page of the same process. Then all are handled, the page of the fault number `i` (counted
from 0) has the entry `i | PTBL_VALID_BIT`, and the frame queue holds the frames that are
left, in ascending order. -/
theorem pool_serves_first_faults (faults : List (Kernel × Int × Int))
    (hlen : faults.length ≤ 64)
    (hok : ∀ f ∈ faults, f.1.CurrentPCB ≠ none ∧ 0 ≤ faulting_pid f.1 ∧
      faulting_pid f.1 < 10 ∧ 0 ≤ f.2.1 ∧ f.2.1 < 1023 ∧
      to_int16 (Int.tmod f.2.2 PGSIZE) ≤ PGSIZE - 4)
    (hdistinct : (faults.map (fun f => (faulting_pid f.1, f.2.1))).Nodup) :
    (init_storage zero_storage).FrameQueue = (List.range 64).map (fun i : Nat => (i : Int)) ∧
    (∀ n, (frame_numbers_removed n (init_storage zero_storage)).1 =
      ((List.range 64).map (fun i : Nat => (i : Int))).take n ++
        List.replicate (n - 64) (-1)) ∧
    ∃ s', handle_faults faults (init_storage zero_storage) = .ok s' ∧
      s'.FrameQueue =
        (List.range' faults.length (64 - faults.length)).map (fun i : Nat => (i : Int)) ∧
      ∀ i f, faults[i]? = some f →
        ∃ table, s'.Z502_PAGE_TBL_ADDR (faulting_pid f.1) = some table ∧
          pte_read s' ⟨table, f.2.1.toNat⟩ = some (i ||| PTBL_VALID_BIT) := by
  have hq : (init_storage zero_storage).FrameQueue =
      (List.range 64).map (fun i : Nat => (i : Int)) := by decide
  refine ⟨hq, ?_, ?_⟩
  · intro n
    rw [frame_numbers_removed_eq, hq]
    simp
  · obtain ⟨s', hs', h'⟩ := handle_faults_pool faults [] (init_storage zero_storage)
      PoolServed_init (by simpa using hlen)
      (fun f hf => by
        obtain ⟨a, b⟩ := hok f hf
        refine ⟨?_, b⟩
        cases hc : f.1.CurrentPCB with
        | none => exact absurd hc a
        | some cur => exact ⟨cur, rfl⟩)
      (by simpa using hdistinct)
    simp only [List.nil_append] at h'
    refine ⟨s', hs', ?_, ?_⟩
    · have := h'.inv.pool
      rw [List.length_map] at this
      exact this
    · intro i f hf
      have := h'.served i (faulting_pid f.1, f.2.1) (by rw [List.getElem?_map, hf]; rfl)
      exact this

set_option maxRecDepth 1000000 in
/-- C34, at an instance: the initial process (pid 0) faults on its page 5, the child (pid 1)
on its page 5, and the initial process on its page 7 with the offset 12. The three pages get
the frames 0, 1, 2 in this order, and the frame queue goes on with the frame 3. -/
theorem pool_serves_first_faults_witness :
    faulting_pid boot_kernel = 0 ∧ faulting_pid child_running_kernel = 1 ∧
    (handle_faults [(boot_kernel, 5, 80), (child_running_kernel, 5, 80), (boot_kernel, 7, 124)]
        (init_storage zero_storage)).toOption.map
      (fun r => (pte_read r ⟨0, 5⟩, pte_read r ⟨1, 5⟩, pte_read r ⟨0, 7⟩,
        r.FrameQueue.take 2, r.FrameQueue.length)) =
      some (some 32768, some 32769, some 32770, [3, 4], 61) ∧
    (frame_numbers_removed 66 (init_storage zero_storage)).1.drop 62 = [62, 63, -1, -1] := by
  have h := pool_serves_first_faults
    [(boot_kernel, 5, 80), (child_running_kernel, 5, 80), (boot_kernel, 7, 124)]
    (by decide) (by decide) (by decide)
  refine ⟨by rfl, by rfl, by rfl, ?_⟩
  rw [h.2.1 66]
  decide

end OsPrototype
